import Mathlib

/-!
Potfit: force, energy and stress residuals.

A shallow embedding of the evaluation routines of potfit
(`src/src/force_pair.c`, `src/src/force_adp.c`) and of its table loaders
(`src/src/potential_input_f4.c`, `src/src/potential_input_f0.c`).

Conventions of the embedding.

* A C `double` that takes part in the accumulation is an exact rational
  number: rounding, overflow and signed zeros are not modelled.  The exit
  test `isnan(sum)` is modelled on the separate type `Dbl`, which has the
  non-finite values a reduced sum can take.  The numbers `read_pot_table4`
  reads from a file are in `Dbl` as well.  The rounding of every operation
  to a double is modelled for the configuration loop of `calc_forces_pair`
  in a section of its own (`pair_conf_loop_fl`).
* The residual buffer `forces` is a `Buf`, a map from offsets to values, and
  `forces[i] = v` is `setf`; the read-only arrays are functions of the index.
* Array indices (`int` in C) are natural numbers.
* The preprocessor switches `STRESS`, `FWEIGHT`, `CONTRIB`, `RESCALE` and
  `NOPUNISH` are fields of `Build`, as are the constants `FORCE_EPS` and
  `DUMMY_WEIGHT`.  The `APOT` switch is off in the force routines (its
  helpers are not part of the sources at hand); `read_pot_table0` and
  `init_calc_table0`, which exist only with `APOT`, have a section of their own.
* Division is the division of `ℚ`, which gives 0 for a zero divisor, where C
  gives an infinity or NaN; statements about quotients are about nonzero
  divisors.
* The scratch fields that `calc_forces_adp` keeps in `atom_t` and `neigh_t`
  (`rho`, `gradF`, `mu`, `lambda`, `nu`; `u_val`, `u_grad`, `w_val`, `w_grad`)
  are held in tables of their own (`AccTab`, `CacheTab`), indexed as
  `conf_atoms` and its neighbor lists are.
* The spline evaluators live in `splines.c`, which is not part of the sources
  at hand; inside one call the potential table is fixed, so they are taken as
  functions of their remaining arguments (`Splines`).
-/

namespace Potfit

/-! ## Data model -/

/-- A C double as the exit test of the force routines sees it: a finite
value, one of the two infinities, or NaN. -/
inductive Dbl where
  | fin (q : ℚ)
  | posInf
  | negInf
  | nan
  deriving DecidableEq

/-- The C library test `isnan`. -/
def Dbl.isnan : Dbl → Bool
  | Dbl.nan => true
  | _ => false

/-- The C library test `isinf`. -/
def Dbl.isinf : Dbl → Bool
  | Dbl.posInf => true
  | Dbl.negInf => true
  | _ => false

/-- The C library test `isfinite`: neither infinite nor NaN. -/
def Dbl.isfinite : Dbl → Bool
  | Dbl.fin _ => true
  | _ => false

/-- The type `vector` of potfit: three doubles. -/
structure vector where
  x : ℚ
  y : ℚ
  z : ℚ

/-- The type `sym_tens` of potfit: a symmetric 3x3 tensor. -/
structure sym_tens where
  xx : ℚ
  yy : ℚ
  zz : ℚ
  xy : ℚ
  yz : ℚ
  zx : ℚ

/-- The static part of `neigh_t`: one entry of a neighbor list.  `col`,
`slot`, `shift`, `step` are the arrays indexed by the interaction kind
(0 pair, 1 density, 2 dipole, 3 quadrupole). -/
structure neigh_t where
  type : Nat
  nr : Nat
  r : ℚ
  dist : vector
  dist_r : vector
  sqrdist : sym_tens
  col : Nat → Nat
  slot : Nat → Nat
  shift : Nat → ℚ
  step : Nat → ℚ

/-- The static part of `atom_t`; `num_neigh` is the length of `neigh`. -/
structure atom_t where
  type : Nat
  absforce : ℚ
  contrib : Bool
  neigh : List neigh_t

/-- The preprocessor switches and compile-time constants the routines
depend on. -/
structure Build where
  STRESS : Bool
  FWEIGHT : Bool
  CONTRIB : Bool
  RESCALE : Bool
  NOPUNISH : Bool
  FORCE_EPS : ℚ
  DUMMY_WEIGHT : ℚ

/-- The spline evaluators of `splines.c` with the potential table fixed.
The `comb` variants return the pair (value, gradient). -/
structure Splines where
  splint_dir : Nat → ℚ → ℚ → ℚ
  splint_comb_dir : Nat → ℚ → ℚ → ℚ × ℚ
  splint_grad_dir : Nat → ℚ → ℚ → ℚ
  g_splint : Nat → ℚ → ℚ
  g_splint_comb : Nat → ℚ → ℚ × ℚ
  g_splint_grad : Nat → ℚ → ℚ

/-- The global variables read by the routines: `g_config`, `g_calc`,
`g_param`, `g_pot.calc_pot` and `g_mpi` of one process. -/
structure Globals where
  nconf : Nat
  natoms : Nat
  inconf : Nat → Nat
  cnfstart : Nat → Nat
  conf_uf : Nat → Bool
  conf_us : Nat → Bool
  conf_weight : Nat → ℚ
  conf_vol : Nat → ℚ
  force_0 : Nat → ℚ
  conf_atoms : Nat → atom_t
  energy_p : Nat
  stress_p : Nat
  limit_p : Nat
  dummy_p : Nat
  paircol : Nat
  fcalls : Nat
  ntypes : Nat
  eweight : ℚ
  sweight : ℚ
  pot_begin : Nat → ℚ
  pot_end : Nat → ℚ
  pot_step : Nat → ℚ
  myid : Nat
  firstconf : Nat
  myconf : Nat
  firstatom : Nat

/-- The residual buffer `forces`: the double stored at each offset. -/
structure Buf where
  get : Nat → ℚ

/-- The residual buffer together with the local sum `tmpsum`. -/
structure St where
  forces : Buf
  tmpsum : ℚ

/-- What a call leaves behind on the root process: the returned double,
the residual buffer and the call counter. -/
structure Result where
  ret : Dbl
  forces : Buf
  fcalls : Nat

/-! ## Elementary statements -/

/-- The assignment `forces[i] = v`. -/
def setf (f : Buf) (i : Nat) (v : ℚ) : Buf :=
  ⟨fun k => if k = i then v else f.get k⟩

/-- The compound assignment `forces[i] += v`. -/
def addf (f : Buf) (i : Nat) (v : ℚ) : Buf :=
  setf f i (f.get i + v)

/-- The compound assignment `forces[i] -= v`. -/
def subf (f : Buf) (i : Nat) (v : ℚ) : Buf :=
  setf f i (f.get i - v)

/-- The compound assignment `forces[i] /= v`. -/
def divf (f : Buf) (i : Nat) (v : ℚ) : Buf :=
  setf f i (f.get i / v)

/-- The loop `for (i = 0; i < n; i++) body`. -/
def forLoop {σ : Type} (body : Nat → σ → σ) : Nat → σ → σ
  | 0, s => s
  | k + 1, s => body k (forLoop body k s)

/-- Modelled from the spec: `dsquare` (declared in `utils.h`, which is not
among the sources) is the square of its argument. -/
def dsquare (x : ℚ) : ℚ := x * x

/-! ## `calc_forces_pair` -/

/-- The pair value and gradient of one neighbor before the self-interaction
halving: `splint_comb_dir` when forces are used, `splint_dir` otherwise (the
gradient is then never read; it is 0 here). -/
def pair_phi (S : Splines) (uf : Bool) (neigh : neigh_t) : ℚ × ℚ :=
  if uf then S.splint_comb_dir (neigh.slot 0) (neigh.shift 0) (neigh.step 0)
  else (S.splint_dir (neigh.slot 0) (neigh.shift 0) (neigh.step 0), 0)

/-- The six statements `forces[stresses + k] -= dist.a * tmp_force.b`. -/
def stress_update (f : Buf) (stresses : Nat) (dist t : vector) : Buf :=
  let f := subf f (stresses + 0) (dist.x * t.x)
  let f := subf f (stresses + 1) (dist.y * t.y)
  let f := subf f (stresses + 2) (dist.z * t.z)
  let f := subf f (stresses + 3) (dist.x * t.y)
  let f := subf f (stresses + 4) (dist.y * t.z)
  subf f (stresses + 5) (dist.z * t.x)

/-- The body of the neighbor loop of `calc_forces_pair` (lines 222-269) for
atom `i` of configuration `h`; `uf` and `us` are the flags read at the top
of the configuration loop. -/
def pair_neigh (B : Build) (G : Globals) (S : Splines) (h : Nat) (uf us : Bool) (i : Nat)
    (f : Buf) (neigh : neigh_t) : Buf :=
  let stresses := G.stress_p + 6 * h
  let n_i := 3 * (G.cnfstart h + i)
  let self := decide (neigh.nr = i + G.cnfstart h)
  if neigh.r < G.pot_end (neigh.col 0) then
    let pv := pair_phi S uf neigh
    let phi_val := if self then pv.1 * (1 / 2) else pv.1
    let phi_grad := if self then pv.2 * (1 / 2) else pv.2
    let f := addf f (G.energy_p + h) phi_val
    if uf then
      let tmp_force : vector :=
        ⟨neigh.dist_r.x * phi_grad, neigh.dist_r.y * phi_grad, neigh.dist_r.z * phi_grad⟩
      let f := addf f (n_i + 0) tmp_force.x
      let f := addf f (n_i + 1) tmp_force.y
      let f := addf f (n_i + 2) tmp_force.z
      let n_j := 3 * neigh.nr
      let f := subf f (n_j + 0) tmp_force.x
      let f := subf f (n_j + 1) tmp_force.y
      let f := subf f (n_j + 2) tmp_force.z
      if B.STRESS && us then stress_update f stresses neigh.dist tmp_force else f
    else f
  else f

/-- The body of the second loop over atoms of `calc_forces_pair`
(lines 218-287): the neighbor loop of atom `i`, then its force term. -/
def pair_atom (B : Build) (G : Globals) (S : Splines) (h : Nat) (uf us : Bool) (i : Nat)
    (st : St) : St :=
  let atom := G.conf_atoms (i + G.cnfstart h - G.firstatom)
  let n_i := 3 * (G.cnfstart h + i)
  let f := atom.neigh.foldl (pair_neigh B G S h uf us i) st.forces
  if uf then
    let f :=
      if B.FWEIGHT then
        let f := divf f (n_i + 0) (B.FORCE_EPS + atom.absforce)
        let f := divf f (n_i + 1) (B.FORCE_EPS + atom.absforce)
        divf f (n_i + 2) (B.FORCE_EPS + atom.absforce)
      else f
    if B.CONTRIB && !atom.contrib then ⟨f, st.tmpsum⟩
    else
      ⟨f, st.tmpsum + G.conf_weight h *
        (dsquare (f.get (n_i + 0)) + dsquare (f.get (n_i + 1)) + dsquare (f.get (n_i + 2)))⟩
  else ⟨f, st.tmpsum⟩

/-- The body of the first loop over atoms (lines 201-213): seed the three
force slots of atom `i`. -/
def pair_reset (G : Globals) (h : Nat) (uf : Bool) (i : Nat) (f : Buf) : Buf :=
  let n_i := 3 * (G.cnfstart h + i)
  if uf then
    let f := setf f (n_i + 0) (-G.force_0 (n_i + 0))
    let f := setf f (n_i + 1) (-G.force_0 (n_i + 1))
    setf f (n_i + 2) (-G.force_0 (n_i + 2))
  else
    let f := setf f (n_i + 0) 0
    let f := setf f (n_i + 1) 0
    setf f (n_i + 2) 0

/-- The body of the stress loop (lines 298-302) for component `i`. -/
def pair_stress_term (G : Globals) (h i : Nat) (st : St) : St :=
  let stresses := G.stress_p + 6 * h
  let f := divf st.forces (stresses + i) (G.conf_vol (h - G.firstconf))
  let f := subf f (stresses + i) (G.force_0 (stresses + i))
  ⟨f, st.tmpsum + G.conf_weight h * G.sweight * dsquare (f.get (stresses + i))⟩

/-- The start of the body of the configuration loop (lines 187-213): the
energy slot and, with `STRESS`, the six stress slots are zeroed, then the
first loop over atoms seeds the force slots. -/
def pair_conf_reset (B : Build) (G : Globals) (h : Nat) (uf : Bool) (f : Buf) : Buf :=
  let stresses := G.stress_p + 6 * h
  let f := setf f (G.energy_p + h) 0
  let f := if B.STRESS then forLoop (fun i f => setf f (stresses + i) 0) 6 f else f
  forLoop (pair_reset G h uf) (G.inconf h) f

/-- The energy contribution of configuration `h` (lines 290-293). -/
def pair_conf_energy (G : Globals) (h : Nat) (st : St) : St :=
  let f := divf st.forces (G.energy_p + h) (G.inconf h : ℚ)
  let f := subf f (G.energy_p + h) (G.force_0 (G.energy_p + h))
  ⟨f, st.tmpsum + G.conf_weight h * G.eweight * dsquare (f.get (G.energy_p + h))⟩

/-- The stress contribution of configuration `h` (lines 295-304). -/
def pair_conf_stress (B : Build) (G : Globals) (h : Nat) (uf us : Bool) (st : St) : St :=
  if B.STRESS && (uf && us) then forLoop (pair_stress_term G h) 6 st else st

/-- The body of the loop over configurations of `calc_forces_pair`
(lines 183-304). -/
def pair_conf (B : Build) (G : Globals) (S : Splines) (h : Nat) (st : St) : St :=
  let uf := G.conf_uf (h - G.firstconf)
  let us := G.conf_us (h - G.firstconf)
  let f := pair_conf_reset B G h uf st.forces
  let st := forLoop (pair_atom B G S h uf us) (G.inconf h) ⟨f, st.tmpsum⟩
  let st := pair_conf_energy G h st
  pair_conf_stress B G h uf us st

/-- The loop over the configurations of the partition,
`for (h = firstconf; h < firstconf + myconf; h++)`. -/
def pair_conf_loop (B : Build) (G : Globals) (S : Splines) (st : St) : St :=
  forLoop (fun k => pair_conf B G S (G.firstconf + k)) G.myconf st

/-- The exit of the root process (lines 352-361): the sentinel `10e10` when
the reduced sum is NaN, the reduced sum otherwise. -/
def pair_return (sum : Dbl) : Dbl :=
  if sum.isnan then Dbl.fin 100000000000 else sum

/-- One pass through the body of `while (1)` in the build without MPI
(lines 130-361): `myconf` is set to `nconf`, the configurations are
evaluated from `tmpsum = 0`, and `sum = tmpsum`. -/
def pair_pass (B : Build) (G : Globals) (S : Splines) (forces : Buf) : St :=
  pair_conf_loop B { G with myconf := G.nconf } S ⟨forces, 0⟩

/-- The function `calc_forces_pair` in the build without MPI.  The loop
`while (1)` is left only by the root process; `fuel` bounds the number of
passes and `none` stands for a call that has not returned. -/
def calc_forces_pair (B : Build) (G : Globals) (S : Splines) :
    Nat → Buf → Option Result
  | 0, _ => none
  | fuel + 1, forces =>
    let st := pair_pass B G S forces
    if G.myid = 0 then
      some ⟨pair_return (Dbl.fin st.tmpsum), st.forces, G.fcalls + 1⟩
    else calc_forces_pair B G S fuel st.forces

/-! ## `calc_forces_adp` -/

/-- The exit of the root process of `calc_forces_adp` (lines 847-856): the
sentinel `10e10` when the reduced sum is NaN, the reduced sum otherwise. -/
def adp_return (sum : Dbl) : Dbl :=
  if sum.isnan then Dbl.fin 100000000000 else sum

/-- The per-atom scratch fields of `atom_t` used by `calc_forces_adp`. -/
structure adp_acc where
  rho : ℚ
  gradF : ℚ
  mu : vector
  lambda : sym_tens
  nu : ℚ

/-- The per-neighbor scratch fields of `neigh_t` used by `calc_forces_adp`. -/
structure adp_cache where
  u_val : ℚ
  u_grad : ℚ
  w_val : ℚ
  w_grad : ℚ

/-- The scratch fields of the atoms of `conf_atoms`, by index. -/
structure AccTab where
  get : Nat → adp_acc

/-- The scratch fields of the neighbor entries, by index of the atom in
`conf_atoms` and position in its neighbor list. -/
structure CacheTab where
  get : Nat → Nat → adp_cache

/-- An assignment to fields of `conf_atoms[a]`: `g` maps the old record to
the new one. -/
def AccTab.modify (t : AccTab) (a : Nat) (g : adp_acc → adp_acc) : AccTab :=
  let v := g (t.get a)
  ⟨fun b => if b = a then v else t.get b⟩

/-- An assignment to scratch fields of entry `j` of the neighbor list of
`conf_atoms[a]`. -/
def CacheTab.modify (t : CacheTab) (a j : Nat) (g : adp_cache → adp_cache) : CacheTab :=
  let v := g (t.get a j)
  ⟨fun b k => if b = a ∧ k = j then v else t.get b k⟩

/-- The state of `calc_forces_adp`: the residual buffer, the local sums
`tmpsum` and `rho_sum_loc`, and the scratch fields of atoms and neighbors. -/
structure AdpSt where
  forces : Buf
  tmpsum : ℚ
  rho_sum_loc : ℚ
  acc : AccTab
  cache : CacheTab

/-- The macro `SPROD` of `potfit.h`: the scalar product. -/
def SPROD (a b : vector) : ℚ := a.x * b.x + a.y * b.y + a.z * b.z

/-- The body of the first loop over atoms of `calc_forces_adp`
(lines 229-261): seed the force slots and zero `rho`, `mu`, `lambda`. -/
def adp_reset (G : Globals) (h : Nat) (uf : Bool) (i : Nat) (st : AdpSt) : AdpSt :=
  let n_i := 3 * (G.cnfstart h + i)
  let f :=
    if uf then
      let f := setf st.forces (n_i + 0) (-G.force_0 (n_i + 0))
      let f := setf f (n_i + 1) (-G.force_0 (n_i + 1))
      setf f (n_i + 2) (-G.force_0 (n_i + 2))
    else
      let f := setf st.forces (n_i + 0) 0
      let f := setf f (n_i + 1) 0
      setf f (n_i + 2) 0
  let acc := st.acc.modify (G.cnfstart h - G.firstatom + i)
    (fun p => { p with rho := 0, mu := ⟨0, 0, 0⟩, lambda := ⟨0, 0, 0, 0, 0, 0⟩ })
  { st with forces := f, acc := acc }

/-- The dipole distortion part of the neighbor loop (lines 323-351). -/
def adp_dipole (G : Globals) (S : Splines) (h : Nat) (uf : Bool) (i j : Nat)
    (neigh : neigh_t) (st : AdpSt) : AdpSt :=
  let ai := i + G.cnfstart h - G.firstatom
  let aj := neigh.nr - G.firstatom
  let self := decide (neigh.nr = i + G.cnfstart h)
  if neigh.r < G.pot_end (neigh.col 2) then
    let old := st.cache.get ai j
    let uv : ℚ × ℚ :=
      if uf then S.splint_comb_dir (neigh.slot 2) (neigh.shift 2) (neigh.step 2)
      else (S.splint_dir (neigh.slot 2) (neigh.shift 2) (neigh.step 2), old.u_grad)
    let u_val := if self then uv.1 * (1 / 2) else uv.1
    let u_grad := if self then uv.2 * (1 / 2) else uv.2
    let cache := st.cache.modify ai j (fun c => { c with u_val := u_val, u_grad := u_grad })
    let tmp := u_val * neigh.dist.x
    let acc := st.acc.modify ai (fun p => { p with mu := { p.mu with x := p.mu.x + tmp } })
    let acc := acc.modify aj (fun p => { p with mu := { p.mu with x := p.mu.x - tmp } })
    let tmp := u_val * neigh.dist.y
    let acc := acc.modify ai (fun p => { p with mu := { p.mu with y := p.mu.y + tmp } })
    let acc := acc.modify aj (fun p => { p with mu := { p.mu with y := p.mu.y - tmp } })
    let tmp := u_val * neigh.dist.z
    let acc := acc.modify ai (fun p => { p with mu := { p.mu with z := p.mu.z + tmp } })
    let acc := acc.modify aj (fun p => { p with mu := { p.mu with z := p.mu.z - tmp } })
    { st with acc := acc, cache := cache }
  else st

/-- The quadrupole distortion part of the neighbor loop (lines 353-392). -/
def adp_quadrupole (G : Globals) (S : Splines) (h : Nat) (uf : Bool) (i j : Nat)
    (neigh : neigh_t) (st : AdpSt) : AdpSt :=
  let ai := i + G.cnfstart h - G.firstatom
  let aj := neigh.nr - G.firstatom
  let self := decide (neigh.nr = i + G.cnfstart h)
  if neigh.r < G.pot_end (neigh.col 3) then
    let old := st.cache.get ai j
    let wv : ℚ × ℚ :=
      if uf then S.splint_comb_dir (neigh.slot 3) (neigh.shift 3) (neigh.step 3)
      else (S.splint_dir (neigh.slot 3) (neigh.shift 3) (neigh.step 3), old.w_grad)
    let w_val := if self then wv.1 * (1 / 2) else wv.1
    let w_grad := if self then wv.2 * (1 / 2) else wv.2
    let cache := st.cache.modify ai j (fun c => { c with w_val := w_val, w_grad := w_grad })
    let tmp := w_val * neigh.sqrdist.xx
    let acc := st.acc.modify ai
      (fun p => { p with lambda := { p.lambda with xx := p.lambda.xx + tmp } })
    let acc := acc.modify aj
      (fun p => { p with lambda := { p.lambda with xx := p.lambda.xx + tmp } })
    let tmp := w_val * neigh.sqrdist.yy
    let acc := acc.modify ai
      (fun p => { p with lambda := { p.lambda with yy := p.lambda.yy + tmp } })
    let acc := acc.modify aj
      (fun p => { p with lambda := { p.lambda with yy := p.lambda.yy + tmp } })
    let tmp := w_val * neigh.sqrdist.zz
    let acc := acc.modify ai
      (fun p => { p with lambda := { p.lambda with zz := p.lambda.zz + tmp } })
    let acc := acc.modify aj
      (fun p => { p with lambda := { p.lambda with zz := p.lambda.zz + tmp } })
    let tmp := w_val * neigh.sqrdist.yz
    let acc := acc.modify ai
      (fun p => { p with lambda := { p.lambda with yz := p.lambda.yz + tmp } })
    let acc := acc.modify aj
      (fun p => { p with lambda := { p.lambda with yz := p.lambda.yz + tmp } })
    let tmp := w_val * neigh.sqrdist.zx
    let acc := acc.modify ai
      (fun p => { p with lambda := { p.lambda with zx := p.lambda.zx + tmp } })
    let acc := acc.modify aj
      (fun p => { p with lambda := { p.lambda with zx := p.lambda.zx + tmp } })
    let tmp := w_val * neigh.sqrdist.xy
    let acc := acc.modify ai
      (fun p => { p with lambda := { p.lambda with xy := p.lambda.xy + tmp } })
    let acc := acc.modify aj
      (fun p => { p with lambda := { p.lambda with xy := p.lambda.xy + tmp } })
    { st with acc := acc, cache := cache }
  else st

/-- The density part of the neighbor loop (lines 394-419). -/
def adp_density (G : Globals) (S : Splines) (h i : Nat) (neigh : neigh_t)
    (st : AdpSt) : AdpSt :=
  let ai := i + G.cnfstart h - G.firstatom
  let aj := neigh.nr - G.firstatom
  let atom := G.conf_atoms ai
  let self := decide (neigh.nr = i + G.cnfstart h)
  if atom.type = neigh.type then
    if neigh.r < G.pot_end (neigh.col 1) then
      let rho_val := S.splint_dir (neigh.slot 1) (neigh.shift 1) (neigh.step 1)
      let acc := st.acc.modify ai (fun p => { p with rho := p.rho + rho_val })
      let acc :=
        if !self then acc.modify aj (fun p => { p with rho := p.rho + rho_val }) else acc
      { st with acc := acc }
    else st
  else
    let acc :=
      if neigh.r < G.pot_end (neigh.col 1) then
        st.acc.modify ai (fun p =>
          { p with rho := p.rho + S.splint_dir (neigh.slot 1) (neigh.shift 1) (neigh.step 1) })
      else st.acc
    let acc :=
      if neigh.r < G.pot_end (G.paircol + atom.type) then
        acc.modify aj (fun p =>
          { p with rho := p.rho + S.g_splint (G.paircol + atom.type) neigh.r })
      else acc
    { st with acc := acc }

/-- The body of the neighbor loop in the second loop over atoms
(lines 271-419) for entry `j` of the neighbor list of atom `i`: the pair part
(lines 276-321, the statements of the neighbor loop of `calc_forces_pair`),
then the dipole, the quadrupole and the density part. -/
def adp_neigh (B : Build) (G : Globals) (S : Splines) (h : Nat) (uf us : Bool) (i : Nat)
    (st : AdpSt) (jn : Nat × neigh_t) : AdpSt :=
  let st := { st with forces := pair_neigh B G S h uf us i st.forces jn.2 }
  let st := adp_dipole G S h uf i jn.1 jn.2 st
  let st := adp_quadrupole G S h uf i jn.1 jn.2 st
  adp_density G S h i jn.2 st

/-- The embedding step of atom `i` (lines 422-502): the `RESCALE` penalty
and clamp, or the embedding energy with linear extrapolation outside the
table; `gradF` is stored for the force loop. -/
def adp_embed (B : Build) (G : Globals) (S : Splines) (h i : Nat) (st : AdpSt) : AdpSt :=
  let ai := i + G.cnfstart h - G.firstatom
  let atom := G.conf_atoms ai
  let col_F := G.paircol + G.ntypes + atom.type
  if B.RESCALE then
    let st :=
      if G.pot_end col_F < (st.acc.get ai).rho then
        { st with
          forces := addf st.forces (G.limit_p + h)
            (B.DUMMY_WEIGHT * 10 * dsquare ((st.acc.get ai).rho - G.pot_end col_F))
          acc := st.acc.modify ai (fun p => { p with rho := G.pot_end col_F }) }
      else st
    let st :=
      if (st.acc.get ai).rho < G.pot_begin col_F then
        { st with
          forces := addf st.forces (G.limit_p + h)
            (B.DUMMY_WEIGHT * 10 * dsquare (G.pot_begin col_F - (st.acc.get ai).rho)) }
      else st
    let vg := S.g_splint_comb col_F (st.acc.get ai).rho
    { st with
      forces := addf st.forces (G.energy_p + h) vg.1
      acc := st.acc.modify ai (fun p => { p with gradF := vg.2 }) }
  else
    let rho := (st.acc.get ai).rho
    if rho < G.pot_begin col_F then
      let vg := S.g_splint_comb col_F (G.pot_begin col_F)
      { st with
        forces := addf st.forces (G.energy_p + h) (vg.1 + (rho - G.pot_begin col_F) * vg.2)
        acc := st.acc.modify ai (fun p => { p with gradF := vg.2 }) }
    else if G.pot_end col_F < rho then
      let vg := S.g_splint_comb col_F (G.pot_end col_F - (1 / 2) * G.pot_step col_F)
      { st with
        forces := addf st.forces (G.energy_p + h) (vg.1 + (rho - G.pot_end col_F) * vg.2)
        acc := st.acc.modify ai (fun p => { p with gradF := vg.2 }) }
    else
      let vg := S.g_splint_comb col_F rho
      { st with
        forces := addf st.forces (G.energy_p + h) vg.1
        acc := st.acc.modify ai (fun p => { p with gradF := vg.2 }) }

/-- The ADP energy of atom `i` (lines 503-520): `rho` is added to
`rho_sum_loc`, `nu` is set to the trace of `lambda`, and the angular energy is
added to the energy slot. -/
def adp_self_energy (G : Globals) (h i : Nat) (st : AdpSt) : AdpSt :=
  let ai := i + G.cnfstart h - G.firstatom
  let p := st.acc.get ai
  let rho_sum_loc := st.rho_sum_loc + p.rho
  let eng_store : ℚ := 0
  let eng_store := eng_store + dsquare p.mu.x
  let eng_store := eng_store + dsquare p.mu.y
  let eng_store := eng_store + dsquare p.mu.z
  let nu := p.lambda.xx + p.lambda.yy + p.lambda.zz
  let trace := nu / 3
  let eng_store := eng_store + dsquare (p.lambda.xx - trace)
  let eng_store := eng_store + dsquare (p.lambda.yy - trace)
  let eng_store := eng_store + dsquare (p.lambda.zz - trace)
  let eng_store := eng_store + dsquare p.lambda.xy * 2
  let eng_store := eng_store + dsquare p.lambda.yz * 2
  let eng_store := eng_store + dsquare p.lambda.zx * 2
  let eng_store := eng_store * (1 / 2)
  { st with
    rho_sum_loc := rho_sum_loc
    acc := st.acc.modify ai (fun q => { q with nu := nu })
    forces := addf st.forces (G.energy_p + h) eng_store }

/-- The body of the second loop over atoms (lines 265-521). -/
def adp_atom2 (B : Build) (G : Globals) (S : Splines) (h : Nat) (uf us : Bool) (i : Nat)
    (st : AdpSt) : AdpSt :=
  let atom := G.conf_atoms (i + G.cnfstart h - G.firstatom)
  let st := atom.neigh.enum.foldl (adp_neigh B G S h uf us i) st
  let st := adp_embed B G S h i st
  adp_self_energy G h i st

/-- The statements that apply `tmp_force` in the third loop (lines 565-583,
606-624 and 674-692, three times the same text): it is added to the three
slots of atom `i`, subtracted from the three slots of the neighbor atom and,
with `STRESS` and `us`, entered into the six stress slots. -/
def adp_apply_force (B : Build) (G : Globals) (h : Nat) (us : Bool) (i : Nat)
    (neigh : neigh_t) (tmp_force : vector) (f : Buf) : Buf :=
  let n_i := 3 * (G.cnfstart h + i)
  let stresses := G.stress_p + 6 * h
  let f := addf f (n_i + 0) tmp_force.x
  let f := addf f (n_i + 1) tmp_force.y
  let f := addf f (n_i + 2) tmp_force.z
  let n_j := 3 * neigh.nr
  let f := subf f (n_j + 0) tmp_force.x
  let f := subf f (n_j + 1) tmp_force.y
  let f := subf f (n_j + 2) tmp_force.z
  if B.STRESS && us then stress_update f stresses neigh.dist tmp_force else f

/-- The vector `tmp_force` of the embedding force of one neighbor
(lines 540-564). -/
def adp_eam_tmp_force (G : Globals) (S : Splines) (h i : Nat) (neigh : neigh_t)
    (acc : AccTab) : vector :=
  let ai := i + G.cnfstart h - G.firstatom
  let aj := neigh.nr - G.firstatom
  let atom := G.conf_atoms ai
  let self := decide (neigh.nr = i + G.cnfstart h)
  let col_F := G.paircol + G.ntypes + atom.type
  let rho_grad : ℚ :=
    if neigh.r < G.pot_end (neigh.col 1) then
      S.splint_grad_dir (neigh.slot 1) (neigh.shift 1) (neigh.step 1)
    else 0
  let rho_grad_j : ℚ :=
    if atom.type = neigh.type then rho_grad
    else if neigh.r < G.pot_end (col_F - G.ntypes) then
      S.g_splint_grad (col_F - G.ntypes) neigh.r
    else 0
  let eam_force := rho_grad * (acc.get ai).gradF + rho_grad_j * (acc.get aj).gradF
  let eam_force := if self then eam_force * (1 / 2) else eam_force
  ⟨neigh.dist_r.x * eam_force, neigh.dist_r.y * eam_force, neigh.dist_r.z * eam_force⟩

/-- The embedding force of one neighbor in the third loop (lines 537-584). -/
def adp_force_eam (B : Build) (G : Globals) (S : Splines) (h : Nat) (us : Bool) (i : Nat)
    (neigh : neigh_t) (st : AdpSt) : AdpSt :=
  let atom := G.conf_atoms (i + G.cnfstart h - G.firstatom)
  let col_F := G.paircol + G.ntypes + atom.type
  if neigh.r < G.pot_end (neigh.col 1) ∨ neigh.r < G.pot_end (col_F - G.ntypes) then
    { st with
      forces := adp_apply_force B G h us i neigh (adp_eam_tmp_force G S h i neigh st.acc)
        st.forces }
  else st

/-- The vector `tmp_force` of the dipole force of entry `j` of the neighbor
list (lines 586-605). -/
def adp_dipole_tmp_force (G : Globals) (h i j : Nat) (neigh : neigh_t) (acc : AccTab)
    (cache : CacheTab) : vector :=
  let ai := i + G.cnfstart h - G.firstatom
  let aj := neigh.nr - G.firstatom
  let self := decide (neigh.nr = i + G.cnfstart h)
  let u_force : vector :=
    ⟨(acc.get ai).mu.x - (acc.get aj).mu.x, (acc.get ai).mu.y - (acc.get aj).mu.y,
      (acc.get ai).mu.z - (acc.get aj).mu.z⟩
  let u_force : vector :=
    if self then ⟨u_force.x * (1 / 2), u_force.y * (1 / 2), u_force.z * (1 / 2)⟩
    else u_force
  let c := cache.get ai j
  let tmp := SPROD u_force neigh.dist * c.u_grad
  ⟨u_force.x * c.u_val + tmp * neigh.dist_r.x, u_force.y * c.u_val + tmp * neigh.dist_r.y,
    u_force.z * c.u_val + tmp * neigh.dist_r.z⟩

/-- The dipole force of entry `j` of the neighbor list in the third loop
(lines 585-625). -/
def adp_force_dipole (B : Build) (G : Globals) (h : Nat) (us : Bool) (i j : Nat)
    (neigh : neigh_t) (st : AdpSt) : AdpSt :=
  if neigh.r < G.pot_end (neigh.col 2) then
    { st with
      forces := adp_apply_force B G h us i neigh
        (adp_dipole_tmp_force G h i j neigh st.acc st.cache) st.forces }
  else st

/-- The vector `tmp_force` of the quadrupole force of entry `j` of the
neighbor list (lines 627-673). -/
def adp_quadrupole_tmp_force (G : Globals) (h i j : Nat) (neigh : neigh_t) (acc : AccTab)
    (cache : CacheTab) : vector :=
  let ai := i + G.cnfstart h - G.firstatom
  let aj := neigh.nr - G.firstatom
  let self := decide (neigh.nr = i + G.cnfstart h)
  let li := (acc.get ai).lambda
  let lj := (acc.get aj).lambda
  let w_force : sym_tens :=
    { xx := li.xx + lj.xx, yy := li.yy + lj.yy, zz := li.zz + lj.zz,
      yz := li.yz + lj.yz, zx := li.zx + lj.zx, xy := li.xy + lj.xy }
  let w_force : sym_tens :=
    if self then
      { xx := w_force.xx * (1 / 2), yy := w_force.yy * (1 / 2), zz := w_force.zz * (1 / 2),
        yz := w_force.yz * (1 / 2), zx := w_force.zx * (1 / 2), xy := w_force.xy * (1 / 2) }
    else w_force
  let tmp_vect : vector :=
    ⟨w_force.xx * neigh.dist.x + w_force.xy * neigh.dist.y + w_force.zx * neigh.dist.z,
      w_force.xy * neigh.dist.x + w_force.yy * neigh.dist.y + w_force.yz * neigh.dist.z,
      w_force.zx * neigh.dist.x + w_force.yz * neigh.dist.y + w_force.zz * neigh.dist.z⟩
  let nu := ((acc.get ai).nu + (acc.get aj).nu) / 3
  let c := cache.get ai j
  let f1 := 2 * c.w_val
  let f2 := (SPROD tmp_vect neigh.dist - nu * neigh.r * neigh.r) * c.w_grad
    - nu * f1 * neigh.r
  ⟨f1 * tmp_vect.x + f2 * neigh.dist_r.x, f1 * tmp_vect.y + f2 * neigh.dist_r.y,
    f1 * tmp_vect.z + f2 * neigh.dist_r.z⟩

/-- The quadrupole force of entry `j` of the neighbor list in the third loop
(lines 626-693). -/
def adp_force_quadrupole (B : Build) (G : Globals) (h : Nat) (us : Bool) (i j : Nat)
    (neigh : neigh_t) (st : AdpSt) : AdpSt :=
  if neigh.r < G.pot_end (neigh.col 3) then
    { st with
      forces := adp_apply_force B G h us i neigh
        (adp_quadrupole_tmp_force G h i j neigh st.acc st.cache) st.forces }
  else st

/-- The body of the neighbor loop of the third loop over atoms
(lines 531-694). -/
def adp_neigh3 (B : Build) (G : Globals) (S : Splines) (h : Nat) (us : Bool) (i : Nat)
    (st : AdpSt) (jn : Nat × neigh_t) : AdpSt :=
  let st := adp_force_eam B G S h us i jn.2 st
  let st := adp_force_dipole B G h us i jn.1 jn.2 st
  adp_force_quadrupole B G h us i jn.1 jn.2 st

/-- The body of the third loop over atoms (lines 526-709): the force loop
over the neighbors, the `FWEIGHT` division and the force term of the sum. -/
def adp_atom3 (B : Build) (G : Globals) (S : Splines) (h : Nat) (us : Bool) (i : Nat)
    (st : AdpSt) : AdpSt :=
  let atom := G.conf_atoms (i + G.cnfstart h - G.firstatom)
  let n_i := 3 * (G.cnfstart h + i)
  let st := atom.neigh.enum.foldl (adp_neigh3 B G S h us i) st
  let f :=
    if B.FWEIGHT then
      let f := divf st.forces (n_i + 0) (B.FORCE_EPS + atom.absforce)
      let f := divf f (n_i + 1) (B.FORCE_EPS + atom.absforce)
      divf f (n_i + 2) (B.FORCE_EPS + atom.absforce)
    else st.forces
  if B.CONTRIB && !atom.contrib then { st with forces := f }
  else
    { st with
      forces := f
      tmpsum := st.tmpsum + G.conf_weight h *
        (dsquare (f.get (n_i + 0)) + dsquare (f.get (n_i + 1)) + dsquare (f.get (n_i + 2))) }

/-- The start of the body of the configuration loop of `calc_forces_adp`
(lines 218-226): the energy slot and, with `STRESS`, the stress slots are
zeroed and the limit slot is set to the negated reference value. -/
def adp_conf_init (B : Build) (G : Globals) (h : Nat) (f : Buf) : Buf :=
  let stresses := G.stress_p + 6 * h
  let f := setf f (G.energy_p + h) 0
  let f := if B.STRESS then forLoop (fun i f => setf f (stresses + i) 0) 6 f else f
  setf f (G.limit_p + h) (-G.force_0 (G.limit_p + h))

/-- The end of the body of the configuration loop of `calc_forces_adp`
(lines 712-731): the energy, stress and limit terms of the sum. -/
def adp_conf_terms (B : Build) (G : Globals) (h : Nat) (uf us : Bool) (st : AdpSt) : AdpSt :=
  let s := pair_conf_stress B G h uf us (pair_conf_energy G h ⟨st.forces, st.tmpsum⟩)
  { st with
    forces := s.forces
    tmpsum := s.tmpsum + G.conf_weight h * dsquare (s.forces.get (G.limit_p + h)) }

/-- The body of the loop over configurations of `calc_forces_adp`
(lines 214-731). -/
def adp_conf (B : Build) (G : Globals) (S : Splines) (h : Nat) (st : AdpSt) : AdpSt :=
  let uf := G.conf_uf (h - G.firstconf)
  let us := G.conf_us (h - G.firstconf)
  let st := { st with forces := adp_conf_init B G h st.forces }
  let st := forLoop (adp_reset G h uf) (G.inconf h) st
  let st := forLoop (adp_atom2 B G S h uf us) (G.inconf h) st
  let st := if uf then forLoop (adp_atom3 B G S h us) (G.inconf h) st else st
  adp_conf_terms B G h uf us st

/-- The global dummy constraints for type `g` (lines 754-780), computed by
the root process unless `NOPUNISH` is set. -/
def adp_dummy (B : Build) (G : Globals) (S : Splines) (g : Nat) (st : St) : St :=
  let col := G.paircol + G.ntypes + g
  let f := setf st.forces (G.dummy_p + G.ntypes + g) 0
  let f :=
    if B.RESCALE then
      setf f (G.dummy_p + g)
        (B.DUMMY_WEIGHT * S.g_splint_grad col ((1 / 2) * (G.pot_begin col + G.pot_end col))
          - G.force_0 (G.dummy_p + g))
    else
      setf f (G.dummy_p + g) (B.DUMMY_WEIGHT * S.g_splint_grad col 1)
  let tmpsum := st.tmpsum + dsquare (f.get (G.dummy_p + g))
  let tmpsum := tmpsum + dsquare (f.get (G.dummy_p + G.ntypes + g))
  ⟨f, tmpsum⟩

/-- One pass through the body of `while (1)` of `calc_forces_adp` in the
build without MPI (lines 153-844): `myconf` is set to `nconf` (line 207), so
the loop `for (h = firstconf; h < firstconf + myconf; h++)` evaluates `nconf`
configurations, from `tmpsum = 0` and `rho_sum_loc = 0`; then the global dummy
constraints are added; the result is the buffer, `sum` and the scratch
fields. -/
def adp_pass (B : Build) (G : Globals) (S : Splines) (forces : Buf) (acc : AccTab)
    (cache : CacheTab) : AdpSt :=
  let st := forLoop (fun k => adp_conf B G S (G.firstconf + k)) G.nconf
    ⟨forces, 0, 0, acc, cache⟩
  let rho_sum := st.rho_sum_loc
  if !B.NOPUNISH && decide (G.myid = 0) then
    let s := forLoop (adp_dummy B G S) G.ntypes ⟨st.forces, st.tmpsum⟩
    if B.RESCALE then { st with forces := s.forces, tmpsum := s.tmpsum }
    else
      let rho_sum := rho_sum / (G.natoms : ℚ)
      let f := setf s.forces (G.dummy_p + G.ntypes) (B.DUMMY_WEIGHT * (rho_sum - 1))
      { st with
        forces := f
        tmpsum := s.tmpsum + dsquare (f.get (G.dummy_p + G.ntypes)) }
  else st

/-- The result of `calc_forces_adp` on the root process together with the
scratch fields it leaves. -/
structure AdpResult where
  ret : Dbl
  forces : Buf
  fcalls : Nat
  acc : AccTab
  cache : CacheTab

/-- The function `calc_forces_adp` in the build without MPI: as for
`calc_forces_pair`, the loop is left only by the root process and `fuel`
bounds the number of passes. -/
def calc_forces_adp (B : Build) (G : Globals) (S : Splines) :
    Nat → Buf → AccTab → CacheTab → Option AdpResult
  | 0, _, _, _ => none
  | fuel + 1, forces, acc, cache =>
    let st := adp_pass B G S forces acc cache
    if G.myid = 0 then
      some ⟨adp_return (Dbl.fin st.tmpsum), st.forces, G.fcalls + 1, st.acc, st.cache⟩
    else calc_forces_adp B G S fuel st.forces st.acc st.cache

/-! ## `calc_forces_pair` in the MPI build -/

/-- What the collective operations of one pass through `while (1)` deliver to
a process in the MPI build.  `MPI_Bcast` overwrites `flag` with the value the
root process was called with and the potential with that of the root (`pot`);
for `flag == 2` the call of `potsync` (in `mpi_utils.c`, not among the sources
at hand) brings the sampling data of the root (`sync_begin`, `sync_end`,
`sync_step`).  On the root, `MPI_Reduce` adds the local sums of the other
processes (`others`) and `MPI_Gatherv` stores the regions they send
(`recv k` is the value received for offset `k`, if any). -/
structure Round where
  flag : Int
  pot : Splines
  sync_begin : Nat → ℚ
  sync_end : Nat → ℚ
  sync_step : Nat → ℚ
  others : ℚ
  recv : Nat → Option ℚ

/-- The function `calc_forces_pair` in the MPI build, as one process runs it
(lines 128-366); `rounds` lists what the collective operations deliver in
the successive passes, and `none` stands for a process that waits in
`MPI_Bcast` for a pass the root has not started.  After the broadcast a flag
of 1 leaves the loop and the function returns -1.0; otherwise the process
evaluates its partition, the root adds the reduced sum, receives the gathered
regions, counts the call and returns, and every other process starts the
next pass. -/
def calc_forces_pair_mpi (B : Build) : Globals → List Round → Buf → Option Result
  | _, [], _ => none
  | G, rd :: rest, forces =>
    if rd.flag = 1 then some ⟨Dbl.fin (-1), forces, G.fcalls⟩
    else
      let G1 : Globals :=
        if rd.flag = 2 then
          { G with pot_begin := rd.sync_begin, pot_end := rd.sync_end, pot_step := rd.sync_step }
        else G
      let st := pair_conf_loop B G1 rd.pot ⟨forces, 0⟩
      if G1.myid = 0 then
        some ⟨pair_return (Dbl.fin (st.tmpsum + rd.others)),
          ⟨fun k => (rd.recv k).getD (st.forces.get k)⟩, G1.fcalls + 1⟩
      else calc_forces_pair_mpi B G1 rest st.forces

/-! ## `calc_forces_pair` with a record of its loop -/

/-- What a call of `calc_forces_pair` in the build without MPI leaves behind
together with a record of its control flow: how often the body of
`while (1)` was entered, the value of `g_mpi.myconf` on return, and the
configurations `h` the loop body was run for, in order. -/
structure PairRun where
  res : Result
  passes : Nat
  myconf : Nat
  visited : List Nat

/-- The loop over the configurations of the partition (line 182), which also
appends every `h` it runs the body for to the record. -/
def pair_conf_loop_log (B : Build) (G : Globals) (S : Splines) (s : St × List Nat) :
    St × List Nat :=
  forLoop (fun k t => (pair_conf B G S (G.firstconf + k) t.1, t.2 ++ [G.firstconf + k]))
    G.myconf s

/-- The function `calc_forces_pair` in the build without MPI, with its
parameter `flag` (which this build never reads) and with the record of the
passes and configurations.  `fuel` bounds the number of passes. -/
def calc_forces_pair_log (B : Build) (G : Globals) (S : Splines) (_flag : Int) :
    Nat → Nat → List Nat → Buf → Option PairRun
  | 0, _, _, _ => none
  | fuel + 1, passes, visited, forces =>
    let G1 := { G with myconf := G.nconf }
    let s := pair_conf_loop_log B G1 S (⟨forces, 0⟩, visited)
    if G.myid = 0 then
      some ⟨⟨pair_return (Dbl.fin s.1.tmpsum), s.1.forces, G.fcalls + 1⟩, passes + 1,
        G1.myconf, s.2⟩
    else calc_forces_pair_log B G S _flag fuel (passes + 1) s.2 s.1.forces

/-! ## The collective operations of `calc_forces_adp` -/

/-- The collective operations that `calc_forces_adp` issues in the MPI build
without `APOT`: the two broadcasts of lines 169 and 171, the call of `potsync`
(line 181), the reductions of `rho_sum_loc` (line 738) and of `tmpsum`
(line 796), and the gathers of the four regions of `forces`. -/
inductive Coll where
  | bcast_xi
  | bcast_flag
  | potsync
  | reduce_rho
  | reduce_sum
  | gather_forces
  | gather_energies
  | gather_stresses
  | gather_limits
  deriving DecidableEq

/-- The gathers a process issues after the reduction of `tmpsum`
(lines 798-840).  The root takes the first branch, in which the gather of the
limit region stands under `#ifdef RESCALE` (line 813); every other process
takes the second, in which it stands under `#ifndef RESCALE` (line 834). -/
def adp_gathers (B : Build) (myid : Nat) : List Coll :=
  if myid = 0 then
    [Coll.gather_forces, Coll.gather_energies]
      ++ (if B.STRESS then [Coll.gather_stresses] else [])
      ++ (if B.RESCALE then [Coll.gather_limits] else [])
  else
    [Coll.gather_forces, Coll.gather_energies]
      ++ (if B.STRESS then [Coll.gather_stresses] else [])
      ++ (if B.RESCALE then [] else [Coll.gather_limits])

/-- The collective operations the process `myid` issues, in order, in one
pass through the body of `while (1)` of `calc_forces_adp` (MPI build without
`APOT`) in which the broadcast flag is `flag`: a flag of 1 leaves the loop
right after the two broadcasts. -/
def adp_collectives (B : Build) (myid : Nat) (flag : Int) : List Coll :=
  [Coll.bcast_xi, Coll.bcast_flag]
    ++ (if flag = 1 then []
        else
          (if flag = 2 then [Coll.potsync] else [])
            ++ [Coll.reduce_rho, Coll.reduce_sum]
            ++ adp_gathers B myid)

/-! ## Potential tables and their loaders

`read_pot_table4` (`potential_input_f4.c`) and `read_pot_table0`,
`init_calc_table0` (`potential_input_f0.c`, the `APOT` build for `PAIR`
without `COULOMB` and `DIPOLE`).  The counters and offsets that only grow are
natural numbers; the integers read from the file, and what is computed from
them (`first`, `last`, `len`), are in `Int`.  The numbers `read_pot_table4`
takes from the file are in `Dbl`, since `%lf` converts `nan` and `inf` as well;
the tables of the analytic loaders hold rationals.  Allocation is taken to succeed;
array accesses of the two readers are not checked against the allocated
length, those of `init_calc_table0` are. -/

/-- The assignment `a[i] = v` to an array given as a function of the index. -/
def seta {α : Type} (a : Nat → α) (i : Nat) (v : α) : Nat → α :=
  fun k => if k = i then v else a k

/-- The fatal errors `error(1, …)` of `read_pot_table4`. -/
inductive LoadError where
  | premature_end
  | not_monotonous (i : Nat)
  deriving DecidableEq

/-- The loop `for (i = 0; i < n; i++) body` whose body can end the program
with a fatal error. -/
def forLoopE {ε σ : Type} (body : Nat → σ → Except ε σ) : Nat → σ → Except ε σ
  | 0, s => Except.ok s
  | k + 1, s =>
    match forLoopE body k s with
    | Except.error e => Except.error e
    | Except.ok t => body k t

/-- The loop `for (i = 0; i < n; i++) body` whose body can fail. -/
def forLoopO {σ : Type} (body : Nat → σ → Option σ) : Nat → σ → Option σ
  | 0, s => some s
  | k + 1, s =>
    match forLoopO body k s with
    | none => none
    | some t => body k t

/-- The type `pot_table_t` of potfit, with the fields the loaders use, as the
analytic loaders fill it. -/
structure pot_table_t where
  len : Int
  idxlen : Int
  ncols : Nat
  first : Nat → Int
  last : Nat → Int
  begin_ : Nat → ℚ
  end_ : Nat → ℚ
  step : Nat → ℚ
  invstep : Nat → ℚ
  xcoord : Buf
  table : Buf
  d2tab : Buf
  idx : Nat → Nat

/-! ### The doubles of a potential file -/

/-- The C comparison `a <= b` of two doubles: false when one of them is
NaN. -/
def Dbl.le : Dbl → Dbl → Bool
  | Dbl.fin a, Dbl.fin b => decide (a ≤ b)
  | Dbl.fin _, Dbl.posInf => true
  | Dbl.fin _, Dbl.negInf => false
  | Dbl.posInf, Dbl.posInf => true
  | Dbl.posInf, Dbl.fin _ => false
  | Dbl.posInf, Dbl.negInf => false
  | Dbl.negInf, Dbl.fin _ => true
  | Dbl.negInf, Dbl.posInf => true
  | Dbl.negInf, Dbl.negInf => true
  | Dbl.nan, _ => false
  | _, Dbl.nan => false

/-- The difference `a - b` of two doubles; the difference of two finite
values is exact. -/
def Dbl.sub : Dbl → Dbl → Dbl
  | Dbl.fin a, Dbl.fin b => Dbl.fin (a - b)
  | Dbl.fin _, Dbl.posInf => Dbl.negInf
  | Dbl.fin _, Dbl.negInf => Dbl.posInf
  | Dbl.posInf, Dbl.posInf => Dbl.nan
  | Dbl.posInf, Dbl.fin _ => Dbl.posInf
  | Dbl.posInf, Dbl.negInf => Dbl.posInf
  | Dbl.negInf, Dbl.fin _ => Dbl.negInf
  | Dbl.negInf, Dbl.posInf => Dbl.negInf
  | Dbl.negInf, Dbl.negInf => Dbl.nan
  | Dbl.nan, _ => Dbl.nan
  | _, Dbl.nan => Dbl.nan

/-- The quotient `a / b` of two doubles; the quotient of two finite values
with a nonzero divisor is exact, and a zero divisor counts as `+0.0`. -/
def Dbl.div : Dbl → Dbl → Dbl
  | Dbl.fin a, Dbl.fin b =>
    if b = 0 then (if a = 0 then Dbl.nan else if 0 < a then Dbl.posInf else Dbl.negInf)
    else Dbl.fin (a / b)
  | Dbl.fin _, Dbl.posInf => Dbl.fin 0
  | Dbl.fin _, Dbl.negInf => Dbl.fin 0
  | Dbl.posInf, Dbl.fin b => if 0 ≤ b then Dbl.posInf else Dbl.negInf
  | Dbl.negInf, Dbl.fin b => if 0 ≤ b then Dbl.negInf else Dbl.posInf
  | Dbl.posInf, Dbl.posInf => Dbl.nan
  | Dbl.posInf, Dbl.negInf => Dbl.nan
  | Dbl.negInf, Dbl.posInf => Dbl.nan
  | Dbl.negInf, Dbl.negInf => Dbl.nan
  | Dbl.nan, _ => Dbl.nan
  | _, Dbl.nan => Dbl.nan

/-- The type `pot_table_t` of potfit as `read_pot_table4` fills it: the
same fields as above, with the numbers as `%lf` delivers them. -/
structure pot_table_d where
  len : Int
  idxlen : Int
  ncols : Nat
  first : Nat → Int
  last : Nat → Int
  begin_ : Nat → Dbl
  end_ : Nat → Dbl
  step : Nat → Dbl
  invstep : Nat → Dbl
  xcoord : Nat → Dbl
  table : Nat → Dbl
  d2tab : Nat → Dbl
  idx : Nat → Nat

/-! ### `read_pot_table4` -/

/-- The potential file from the position at which `read_pot_table4` starts,
as `fscanf` delivers it: `ints` are the integers the successive `%d`
conversions of the info block yield, `reals` the numbers the successive `%lf`
conversions of the table yield (`%lf` also converts `nan`, `inf` and
`infinity`).  A conversion past the end of a list is the failure of `fscanf`
at the end of the file. -/
structure PotFile where
  ints : List Int
  reals : List Dbl

/-- The variables of `read_pot_table4`: the read positions in the file, the
array `nvals`, the table `g_pot.opt_pot`, the counters `k` and `l` and the
offsets of the pointers `val` and `ord` into `table` and `xcoord`. -/
structure Load4 where
  ipos : Nat
  rpos : Nat
  nvals : Nat → Int
  pt : pot_table_d
  k : Nat
  l : Nat
  val : Nat
  ord : Nat

/-- The body of the loop over the info block (lines 66-78). -/
def read_pot_table4_info (F : PotFile) (i : Nat) (s : Load4) : Except LoadError Load4 :=
  if s.ipos < F.ints.length then
    let n : Int := F.ints.getD s.ipos 0
    let first : Int := if i = 0 then 2 else s.pt.last (i - 1) + 3
    Except.ok
      { s with
        ipos := s.ipos + 1
        nvals := seta s.nvals i n
        pt :=
          { s.pt with
            step := seta s.pt.step i (Dbl.fin 0)
            invstep := seta s.pt.invstep i (Dbl.fin 0)
            first := seta s.pt.first i first
            last := seta s.pt.last i (first + n - 1)
            len := first + n } }
  else Except.error LoadError.premature_end

/-- The allocation of the function table (lines 80-100): the four arrays
are cleared, and `k`, `l`, `val`, `ord` start at 0. -/
def read_pot_table4_alloc (s : Load4) : Load4 :=
  { s with
    pt :=
      { s.pt with
        table := fun _ => Dbl.fin 0
        xcoord := fun _ => Dbl.fin 0
        d2tab := fun _ => Dbl.fin 0
        idx := fun _ => 0 }
    k := 0
    l := 0
    val := 0
    ord := 0 }

/-- The statement `if (c) pt->idx[k++] = l++; else l++;`. -/
def idx_step (c : Prop) [Decidable c] (s : Load4) : Load4 :=
  if c then
    { s with pt := { s.pt with idx := seta s.pt.idx s.k s.l }, k := s.k + 1, l := s.l + 1 }
  else { s with l := s.l + 1 }

/-- The body of the loop over the sampling points of column `i`
(lines 124-138): one abscissa and one value are read, the abscissa is
compared with the one before it by the C comparison `<=`, and the index map
is extended. -/
def read_pot_table4_point (F : PotFile) (invar_pot : Nat → Int) (i j : Nat) (s : Load4) :
    Except LoadError Load4 :=
  if s.rpos + 2 ≤ F.reals.length then
    let s1 : Load4 :=
      { s with
        rpos := s.rpos + 2
        pt :=
          { s.pt with
            xcoord := seta s.pt.xcoord s.ord (F.reals.getD s.rpos (Dbl.fin 0))
            table := seta s.pt.table s.val (F.reals.getD (s.rpos + 1) (Dbl.fin 0)) }
        val := s.val + 1
        ord := s.ord + 1 }
    if 0 < j ∧ Dbl.le (s1.pt.xcoord (s1.ord - 1)) (s1.pt.xcoord (s1.ord - 2)) = true then
      Except.error (LoadError.not_monotonous i)
    else Except.ok (idx_step (invar_pot i = 0 ∧ (j : Int) < s1.nvals i - 1) s1)
  else Except.error LoadError.premature_end

/-- The two boundary gradients of a column (lines 105-112): read from the
file when it has gradients, `1e30` and `0.0` otherwise. -/
def read_pot_table4_gradient (F : PotFile) (have_gradient : Bool) (s : Load4) :
    Except LoadError Load4 :=
  if have_gradient then
    if s.rpos + 2 ≤ F.reals.length then
      Except.ok
        { s with
          rpos := s.rpos + 2
          pt :=
            { s.pt with
              table :=
                seta (seta s.pt.table s.val (F.reals.getD s.rpos (Dbl.fin 0))) (s.val + 1)
                  (F.reals.getD (s.rpos + 1) (Dbl.fin 0)) } }
    else Except.error LoadError.premature_end
  else
    Except.ok
      { s with
        pt :=
          { s.pt with
            table := seta (seta s.pt.table s.val (Dbl.fin (10 ^ 30))) (s.val + 1) (Dbl.fin 0) } }

/-- What follows the loop over the sampling points of column `i`
(lines 139-143): `begin`, `end`, `step` and `invstep` of the column. -/
def read_pot_table4_range (i : Nat) (s : Load4) : Load4 :=
  let b := s.pt.xcoord (s.pt.first i).toNat
  let e := s.pt.xcoord (s.pt.last i).toNat
  let st := Dbl.div (Dbl.sub e b) (Dbl.fin ((s.nvals i : ℚ) - 1))
  { s with
    pt :=
      { s.pt with
        begin_ := seta s.pt.begin_ i b
        end_ := seta s.pt.end_ i e
        step := seta s.pt.step i st
        invstep := seta s.pt.invstep i (Dbl.div (Dbl.fin 1) st) } }

/-- The body of the loop over the pair potentials (lines 103-145).
`gradient[i]` holds a value from 0 to 3. -/
def read_pot_table4_column (F : PotFile) (have_gradient : Bool) (invar_pot : Nat → Int)
    (gradient : Nat → Nat) (i : Nat) (s : Load4) : Except LoadError Load4 :=
  match read_pot_table4_gradient F have_gradient s with
  | Except.error e => Except.error e
  | Except.ok s1 =>
    let s2 : Load4 := { s1 with val := s1.val + 2, ord := s1.ord + 2 }
    let s3 := idx_step (invar_pot i = 0 ∧ gradient i / 2 ≠ 0) s2
    let s4 := idx_step (invar_pot i = 0 ∧ gradient i % 2 ≠ 0) s3
    match forLoopE (read_pot_table4_point F invar_pot i) (s4.nvals i).toNat s4 with
    | Except.error e => Except.error e
    | Except.ok s5 => Except.ok (read_pot_table4_range i s5)

/-- The info block of `read_pot_table4` (lines 66-78), run on the table `pt`
whose arrays the caller has allocated. -/
def read_pot_table4_header (F : PotFile) (num_pots : Nat) (pt : pot_table_d) :
    Except LoadError Load4 :=
  forLoopE (read_pot_table4_info F) num_pots ⟨0, 0, fun _ => 0, pt, 0, 0, 0, 0⟩

/-- The function `read_pot_table4` in the `PAIR` build (lines 53-145 and
325-329): the info block, the allocation, the pair potential columns, and
`idxlen = k`.  `init_calc_table4` then makes `g_pot.calc_pot` share the
arrays of the table returned here. -/
def read_pot_table4 (F : PotFile) (num_pots paircol : Nat) (have_gradient : Bool)
    (invar_pot : Nat → Int) (gradient : Nat → Nat) (pt : pot_table_d) :
    Except LoadError pot_table_d :=
  match read_pot_table4_header F num_pots pt with
  | Except.error e => Except.error e
  | Except.ok s1 =>
    match forLoopE (read_pot_table4_column F have_gradient invar_pot gradient) paircol
        (read_pot_table4_alloc s1) with
    | Except.error e => Except.error e
    | Except.ok s2 => Except.ok { s2.pt with idxlen := s2.k }

/-! ### `read_pot_table0` -/

/-- The type `apot_table_t` of potfit, with the fields `read_pot_table0`
uses after the file is parsed.  Row `number` of `values` and `invar_par`
holds the chemical potentials, row `g_pot.global_pot` the global
parameters; entry `n_par[i]` of row `i` of `invar_par` is the counter that
the parser increments for every invariant parameter of potential `i`. -/
structure apot_table_t where
  number : Nat
  total_par : Int
  globals : Nat
  n_par : Nat → Nat
  n_glob : Nat → Nat
  values : Nat → Nat → ℚ
  invar_par : Nat → Nat → Int
  begin_ : Nat → ℚ
  end_ : Nat → ℚ
  idxpot : Nat → Nat
  idxparam : Nat → Nat

/-- The settings `read_pot_table0` reads and does not change:
`g_param.enable_cp`, `g_param.ntypes`, `g_param.compnodes`,
`g_pot.invar_pot` and `g_pot.global_pot`. -/
structure LoadParams where
  enable_cp : Bool
  ntypes : Nat
  compnodes : Nat
  invar_pot : Nat → Int
  global_pot : Nat

/-- The variables of `read_pot_table0` from line 105 on: the tables
`g_pot.apot_table` and `g_pot.opt_pot`, the array `g_pot.calc_list`,
`g_pot.cp_start`, `g_pot.global_idx`, `g_pot.have_globals`, the counters `k`
and `l`, and the offsets of the pointers `val` and `list` into `table` and
`calc_list`. -/
structure Load0 where
  apt : apot_table_t
  pt : pot_table_t
  calc_list : Buf
  cp_start : Int
  global_idx : Int
  have_globals : Bool
  k : Nat
  l : Nat
  val : Nat
  list : Nat

/-- Lines 105-117: global parameters that no potential uses are disabled. -/
def read_pot_table0_unused (s : Load0) : Load0 :=
  if s.have_globals = true ∧ forLoop (fun i j => j + s.apt.n_glob i) s.apt.globals 0 = 0 then
    { s with have_globals := false }
  else s

/-- Lines 122-130 (`PAIR`): `cp_start` and the count of the chemical
potentials. -/
def read_pot_table0_cp_start (P : LoadParams) (s : Load0) : Load0 :=
  if P.enable_cp then
    { s with
      cp_start := s.apt.total_par - s.apt.globals + P.ntypes * (P.ntypes + 1)
      apt :=
        { s.apt with
          total_par :=
            s.apt.total_par + (P.ntypes + P.compnodes - s.apt.invar_par s.apt.number P.ntypes) } }
  else s

/-- The body of the loop that initializes the function table
(lines 141-152). -/
def read_pot_table0_column (i : Nat) (s : Load0) : Load0 :=
  let first : Int := if i = 0 then 2 else s.pt.last (i - 1) + 3
  { s with
    pt :=
      { s.pt with
        begin_ := seta s.pt.begin_ i (s.apt.begin_ i)
        end_ := seta s.pt.end_ i (s.apt.end_ i)
        step := seta s.pt.step i 0
        invstep := seta s.pt.invstep i 0
        first := seta s.pt.first i first
        last := seta s.pt.last i (first + s.apt.n_par i - 1) } }

/-- Lines 141-162: the layout of the columns and the length of the table. -/
def read_pot_table0_layout (P : LoadParams) (s : Load0) : Load0 :=
  let s1 := forLoop read_pot_table0_column s.apt.number s
  let len0 : Int := s1.pt.first (s1.apt.number - 1) + s1.apt.n_par (s1.apt.number - 1)
  let len1 : Int := if s1.have_globals then len0 + s1.apt.globals else len0
  let len2 : Int := if P.enable_cp then len1 + (P.ntypes + P.compnodes) else len1
  { s1 with pt := { s1.pt with len := len2 } }

/-- Lines 171-196: the allocation; `table`, `calc_list` and `idx` are
cleared, and `k`, `l`, `val`, `list` start at 0. -/
def read_pot_table0_alloc (s : Load0) : Load0 :=
  { s with
    pt := { s.pt with table := ⟨fun _ => 0⟩, idx := fun _ => 0 }
    calc_list := ⟨fun _ => 0⟩
    k := 0
    l := 0
    val := 0
    list := 0 }

/-- The statements `pt->idx[k] = l++; apt->idxpot[k] = i;
apt->idxparam[k++] = j;`. -/
def idx_entry (i j : Nat) (s : Load0) : Load0 :=
  { s with
    pt := { s.pt with idx := seta s.pt.idx s.k s.l }
    apt := { s.apt with idxpot := seta s.apt.idxpot s.k i, idxparam := seta s.apt.idxparam s.k j }
    k := s.k + 1
    l := s.l + 1 }

/-- The body of the loop over the parameters of potential `i`
(lines 203-217). -/
def read_pot_table0_param (P : LoadParams) (i j : Nat) (s : Load0) : Load0 :=
  let v := s.apt.values i j
  let s1 : Load0 :=
    { s with
      pt := { s.pt with table := setf s.pt.table s.val v }
      calc_list := setf s.calc_list s.list v
      val := s.val + 1
      list := s.list + 1 }
  if P.invar_pot i = 0 ∧ s1.apt.invar_par i j = 0 then idx_entry i j s1
  else { s1 with l := s1.l + 1 }

/-- The body of the loop over the potentials (lines 198-221). -/
def read_pot_table0_pot (P : LoadParams) (i : Nat) (s : Load0) : Load0 :=
  let s1 : Load0 := { s with val := s.val + 2, list := s.list + 2, l := s.l + 2 }
  let s2 := forLoop (read_pot_table0_param P i) (s1.apt.n_par i) s1
  let s3 : Load0 :=
    if P.invar_pot i = 0 then
      { s2 with
        pt :=
          { s2.pt with
            idxlen := s2.pt.idxlen + (s2.apt.n_par i - s2.apt.invar_par i (s2.apt.n_par i)) } }
    else s2
  { s3 with
    apt := { s3.apt with total_par := s3.apt.total_par - s3.apt.invar_par i (s3.apt.n_par i) } }

/-- The main loop of `read_pot_table0` (lines 198-221). -/
def read_pot_table0_main (P : LoadParams) (s : Load0) : Load0 :=
  forLoop (read_pot_table0_pot P) s.apt.number s

/-- The body of the loop over the chemical potentials (lines 228-238); it
has no `else` branch. -/
def read_pot_table0_cp_step (i j : Nat) (s : Load0) : Load0 :=
  let s1 : Load0 :=
    { s with pt := { s.pt with table := setf s.pt.table s.val (s.apt.values i j) }, val := s.val + 1 }
  if s1.apt.invar_par i j = 0 then idx_entry i j s1 else s1

/-- Lines 223-244 (`PAIR`): the chemical potentials.  The call of
`init_chemical_potential` (not among the sources) is left out. -/
def read_pot_table0_cp (P : LoadParams) (s : Load0) : Load0 :=
  if P.enable_cp then
    let s1 := forLoop (read_pot_table0_cp_step s.apt.number) (P.ntypes + P.compnodes) s
    let d : Int := P.ntypes + P.compnodes - s1.apt.invar_par s1.apt.number P.ntypes
    { s1 with pt := { s1.pt with idxlen := s1.pt.idxlen + d }, global_idx := s1.global_idx + d }
  else s

/-- The body of the loop over the global parameters (lines 326-340). -/
def read_pot_table0_glob_step (i j : Nat) (s : Load0) : Load0 :=
  let v := s.apt.values i j
  let s1 : Load0 :=
    { s with
      pt := { s.pt with table := setf s.pt.table s.val v }
      calc_list := setf s.calc_list s.list v
      val := s.val + 1
      list := s.list + 1 }
  if s1.apt.invar_par i j = 0 then idx_entry i j s1 else { s1 with l := s1.l + 1 }

/-- Lines 323-344: the global parameters, and `global_idx`. -/
def read_pot_table0_globals (P : LoadParams) (s : Load0) : Load0 :=
  let s1 : Load0 :=
    if s.have_globals then
      let s2 := forLoop (read_pot_table0_glob_step P.global_pot) s.apt.globals s
      let c : Int := s2.apt.invar_par P.global_pot s2.apt.globals
      { s2 with
        pt := { s2.pt with idxlen := s2.pt.idxlen + (s2.apt.globals - c) }
        apt := { s2.apt with total_par := s2.apt.total_par - c } }
    else s
  { s1 with global_idx := s1.global_idx + (s1.pt.last (s1.apt.number - 1) + 1) }

/-- The state of `read_pot_table0` when its main loop starts (line 198). -/
def read_pot_table0_pre (P : LoadParams) (s : Load0) : Load0 :=
  read_pot_table0_alloc (read_pot_table0_layout P (read_pot_table0_cp_start P
    (read_pot_table0_unused s)))

/-- The function `read_pot_table0` from line 105 on, in the `PAIR` build
without `COULOMB` and `DIPOLE`, applied to the state the parsers leave.  The
calls of `apot_assign_functions` and `check_apot_functions` (not among the
sources) are left out; `init_calc_table0`, which fills `g_pot.calc_pot`, is
called last. -/
def read_pot_table0 (P : LoadParams) (s : Load0) : Load0 :=
  read_pot_table0_globals P (read_pot_table0_cp P (read_pot_table0_main P
    (read_pot_table0_pre P s)))

/-! ### `init_calc_table0` -/

/-- What `init_calc_table0` calls and reads besides the tables: the
function pointers `g_pot.apot_table.fvalue[i]` (as functions of the abscissa
and the parameter row), `cutoff` (of `functions.c`, not among the sources)
and `g_pot.smooth_pot`. -/
structure ApotFuns where
  fvalue : Nat → ℚ → (Nat → ℚ) → ℚ
  cutoff : ℚ → ℚ → ℚ → ℚ
  smooth_pot : Nat → Int

/-- The assignment `a[i] = v` to an array of doubles allocated with `len`
elements; `none` when `i` is not below `len`. -/
def store (len : Int) (a : Buf) (i : Nat) (v : ℚ) : Option Buf :=
  if (i : Int) < len then some (setf a i v) else none

/-- The assignment `a[i] = v` to an array of ints allocated with `len`
elements; `none` when `i` is not below `len`. -/
def store_idx (len : Int) (a : Nat → Nat) (i : Nat) (v : Nat) : Option (Nat → Nat) :=
  if (i : Int) < len then some (seta a i v) else none

/-- The body of the loop over the samples of column `i` (lines 2240-2249);
`STEPS` is the constant `APOT_STEPS`. -/
def init_calc_table0_sample (Fn : ApotFuns) (A : apot_table_t) (STEPS : Nat) (i j : Nat)
    (c : pot_table_t) : Option pot_table_t :=
  let index := i * STEPS + (i + 1) * 2 + j
  let h := A.values i (A.n_par i - 1)
  match store c.len c.xcoord index (c.begin_ i + j * c.step i) with
  | none => none
  | some xc =>
    let x := xc.get index
    let f := Fn.fvalue i x (A.values i)
    match store c.len c.table index
        (if Fn.smooth_pot i ≠ 0 then f * Fn.cutoff x (c.begin_ i) h else f) with
    | none => none
    | some tb =>
      match store_idx c.len c.idx (i * STEPS + j) index with
      | none => none
      | some ix => some { c with xcoord := xc, table := tb, idx := ix }

/-- The body of the loop over the potentials (lines 2228-2250), on the
table `calc` and the counter `x`. -/
def init_calc_table0_pot (Fn : ApotFuns) (A : apot_table_t) (STEPS : Nat) (i : Nat)
    (s : pot_table_t × Int) : Option (pot_table_t × Int) :=
  let c := s.1
  match store c.len c.table (i * STEPS + i * 2) (10 * 10 ^ 30) with
  | none => none
  | some t1 =>
    match store c.len t1 (i * STEPS + i * 2 + 1) 0 with
    | none => none
    | some t2 =>
      let x1 : Int := s.2 + 2
      let x2 : Int := x1 + (STEPS - 1)
      let st : ℚ := (c.end_ i - c.begin_ i) / ((STEPS : ℚ) - 1)
      let c1 : pot_table_t :=
        { c with
          table := t2
          first := seta c.first i x1
          last := seta c.last i x2
          step := seta c.step i st
          invstep := seta c.invstep i (1 / st) }
      match forLoopO (init_calc_table0_sample Fn A STEPS i) STEPS c1 with
      | none => none
      | some c2 => some (c2, x2 + 1)

/-- The function `init_calc_table0` (lines 2202-2251).  `calc_pot` holds the
arrays as `Malloc` returns them; `none` stands for a write outside an array
of `calc->len` elements. -/
def init_calc_table0 (Fn : ApotFuns) (A : apot_table_t) (opt : pot_table_t)
    (ntypes compnodes STEPS : Nat) (calc_pot : pot_table_t) : Option pot_table_t :=
  let size := A.number
  let calc1 : pot_table_t :=
    { calc_pot with
      len := size * STEPS + 2 * opt.ncols + ntypes + compnodes
      idxlen := STEPS
      ncols := opt.ncols
      begin_ := opt.begin_
      end_ := opt.end_ }
  match forLoopO (init_calc_table0_pot Fn A STEPS) size (calc1, 0) with
  | none => none
  | some r => some r.1

/-! ## The accumulation of `calc_forces_pair` in double arithmetic

The model of `calc_forces_pair` above computes in exact arithmetic.  Here the
body of its configuration loop is written once more with the result of every
arithmetic operation passed through a rounding `fl` to a double; with the
identity for `fl` this is the model above.  `round_double` is the rounding of
IEEE 754 arithmetic to the nearest double, ties to even, with an unbounded
exponent range (overflow and subnormal numbers are not modelled). -/

/-- The integer nearest to `q`, the even one of the two when `q` lies halfway
between them. -/
def round_even (q : ℚ) : ℤ :=
  if q - ⌊q⌋ < 1 / 2 then ⌊q⌋
  else if 1 / 2 < q - ⌊q⌋ then ⌊q⌋ + 1
  else if ⌊q⌋ % 2 = 0 then ⌊q⌋ else ⌊q⌋ + 1

/-- The double nearest to `q`: with `2 ^ k ≤ |q| < 2 ^ (k + 1)`, `q` is
rounded to the nearest multiple of `2 ^ (k - 52)`, a number of 53 significant
bits, ties to the even one. -/
def round_double (q : ℚ) : ℚ :=
  if q = 0 then 0
  else (round_even (q / 2 ^ (Int.log 2 |q| - 52)) : ℚ) * 2 ^ (Int.log 2 |q| - 52)

/-- The compound assignment `forces[i] += v` in double arithmetic. -/
def addf_fl (fl : ℚ → ℚ) (f : Buf) (i : Nat) (v : ℚ) : Buf :=
  setf f i (fl (f.get i + v))

/-- The compound assignment `forces[i] -= v` in double arithmetic. -/
def subf_fl (fl : ℚ → ℚ) (f : Buf) (i : Nat) (v : ℚ) : Buf :=
  setf f i (fl (f.get i - v))

/-- The compound assignment `forces[i] /= v` in double arithmetic. -/
def divf_fl (fl : ℚ → ℚ) (f : Buf) (i : Nat) (v : ℚ) : Buf :=
  setf f i (fl (f.get i / v))

/-- The function `dsquare` (see above) in double arithmetic: the rounded
square. -/
def dsquare_fl (fl : ℚ → ℚ) (x : ℚ) : ℚ := fl (x * x)

/-- The six statements `forces[stresses + k] -= dist.a * tmp_force.b` in
double arithmetic. -/
def stress_update_fl (fl : ℚ → ℚ) (f : Buf) (stresses : Nat) (dist t : vector) : Buf :=
  let f := subf_fl fl f (stresses + 0) (fl (dist.x * t.x))
  let f := subf_fl fl f (stresses + 1) (fl (dist.y * t.y))
  let f := subf_fl fl f (stresses + 2) (fl (dist.z * t.z))
  let f := subf_fl fl f (stresses + 3) (fl (dist.x * t.y))
  let f := subf_fl fl f (stresses + 4) (fl (dist.y * t.z))
  subf_fl fl f (stresses + 5) (fl (dist.z * t.x))

/-- The body of the neighbor loop of `calc_forces_pair` (lines 222-269) in
double arithmetic. -/
def pair_neigh_fl (fl : ℚ → ℚ) (B : Build) (G : Globals) (S : Splines) (h : Nat)
    (uf us : Bool) (i : Nat) (f : Buf) (neigh : neigh_t) : Buf :=
  let stresses := G.stress_p + 6 * h
  let n_i := 3 * (G.cnfstart h + i)
  let self := decide (neigh.nr = i + G.cnfstart h)
  if neigh.r < G.pot_end (neigh.col 0) then
    let pv := pair_phi S uf neigh
    let phi_val := if self then fl (pv.1 * (1 / 2)) else pv.1
    let phi_grad := if self then fl (pv.2 * (1 / 2)) else pv.2
    let f := addf_fl fl f (G.energy_p + h) phi_val
    if uf then
      let tmp_force : vector :=
        ⟨fl (neigh.dist_r.x * phi_grad), fl (neigh.dist_r.y * phi_grad),
          fl (neigh.dist_r.z * phi_grad)⟩
      let f := addf_fl fl f (n_i + 0) tmp_force.x
      let f := addf_fl fl f (n_i + 1) tmp_force.y
      let f := addf_fl fl f (n_i + 2) tmp_force.z
      let n_j := 3 * neigh.nr
      let f := subf_fl fl f (n_j + 0) tmp_force.x
      let f := subf_fl fl f (n_j + 1) tmp_force.y
      let f := subf_fl fl f (n_j + 2) tmp_force.z
      if B.STRESS && us then stress_update_fl fl f stresses neigh.dist tmp_force else f
    else f
  else f

/-- The body of the second loop over atoms of `calc_forces_pair`
(lines 218-287) in double arithmetic. -/
def pair_atom_fl (fl : ℚ → ℚ) (B : Build) (G : Globals) (S : Splines) (h : Nat)
    (uf us : Bool) (i : Nat) (st : St) : St :=
  let atom := G.conf_atoms (i + G.cnfstart h - G.firstatom)
  let n_i := 3 * (G.cnfstart h + i)
  let f := atom.neigh.foldl (pair_neigh_fl fl B G S h uf us i) st.forces
  if uf then
    let f :=
      if B.FWEIGHT then
        let f := divf_fl fl f (n_i + 0) (fl (B.FORCE_EPS + atom.absforce))
        let f := divf_fl fl f (n_i + 1) (fl (B.FORCE_EPS + atom.absforce))
        divf_fl fl f (n_i + 2) (fl (B.FORCE_EPS + atom.absforce))
      else f
    if B.CONTRIB && !atom.contrib then ⟨f, st.tmpsum⟩
    else
      ⟨f, fl (st.tmpsum + fl (G.conf_weight h *
        fl (fl (dsquare_fl fl (f.get (n_i + 0)) + dsquare_fl fl (f.get (n_i + 1)))
          + dsquare_fl fl (f.get (n_i + 2)))))⟩
  else ⟨f, st.tmpsum⟩

/-- The body of the stress loop (lines 298-302) in double arithmetic. -/
def pair_stress_term_fl (fl : ℚ → ℚ) (G : Globals) (h i : Nat) (st : St) : St :=
  let stresses := G.stress_p + 6 * h
  let f := divf_fl fl st.forces (stresses + i) (G.conf_vol (h - G.firstconf))
  let f := subf_fl fl f (stresses + i) (G.force_0 (stresses + i))
  ⟨f, fl (st.tmpsum
    + fl (fl (G.conf_weight h * G.sweight) * dsquare_fl fl (f.get (stresses + i))))⟩

/-- The energy contribution of configuration `h` (lines 290-293) in double
arithmetic. -/
def pair_conf_energy_fl (fl : ℚ → ℚ) (G : Globals) (h : Nat) (st : St) : St :=
  let f := divf_fl fl st.forces (G.energy_p + h) (G.inconf h : ℚ)
  let f := subf_fl fl f (G.energy_p + h) (G.force_0 (G.energy_p + h))
  ⟨f, fl (st.tmpsum
    + fl (fl (G.conf_weight h * G.eweight) * dsquare_fl fl (f.get (G.energy_p + h))))⟩

/-- The stress contribution of configuration `h` (lines 295-304) in double
arithmetic. -/
def pair_conf_stress_fl (fl : ℚ → ℚ) (B : Build) (G : Globals) (h : Nat) (uf us : Bool)
    (st : St) : St :=
  if B.STRESS && (uf && us) then forLoop (pair_stress_term_fl fl G h) 6 st else st

/-- The body of the loop over configurations of `calc_forces_pair`
(lines 183-304) in double arithmetic; the slots are seeded as in the exact
model. -/
def pair_conf_fl (fl : ℚ → ℚ) (B : Build) (G : Globals) (S : Splines) (h : Nat) (st : St) :
    St :=
  let uf := G.conf_uf (h - G.firstconf)
  let us := G.conf_us (h - G.firstconf)
  let f := pair_conf_reset B G h uf st.forces
  let st := forLoop (pair_atom_fl fl B G S h uf us) (G.inconf h) ⟨f, st.tmpsum⟩
  let st := pair_conf_energy_fl fl G h st
  pair_conf_stress_fl fl B G h uf us st

/-- The loop over the configurations of the partition in double
arithmetic. -/
def pair_conf_loop_fl (fl : ℚ → ℚ) (B : Build) (G : Globals) (S : Splines) (st : St) : St :=
  forLoop (fun k => pair_conf_fl fl B G S (G.firstconf + k)) G.myconf st

/-- The sum `MPI_Reduce` with `MPI_SUM` delivers to the root process of two
processes in double arithmetic: the rounded sum of the two local sums. -/
def reduce_sum_fl (fl : ℚ → ℚ) (a b : ℚ) : ℚ := fl (a + b)

/-! ## Notions used in the statements -/

/-- Two buffers hold the same value at every offset of `X`. -/
def Agree (X : Nat → Prop) (f f' : Buf) : Prop := ∀ k, X k → f.get k = f'.get k

/-- What one neighbor adds to the buffer at offset `k`. -/
def pair_delta (B : Build) (G : Globals) (S : Splines) (h : Nat) (uf us : Bool) (i : Nat)
    (neigh : neigh_t) (k : Nat) : ℚ :=
  (pair_neigh B G S h uf us i ⟨fun _ => 0⟩ neigh).get k

/-- The offsets a neighbor of atom `i` of configuration `h` can touch. -/
def pair_touched (G : Globals) (h i nr k : Nat) : Prop :=
  k = G.energy_p + h ∨ (3 * (G.cnfstart h + i) ≤ k ∧ k < 3 * (G.cnfstart h + i) + 3) ∨
    (3 * nr ≤ k ∧ k < 3 * nr + 3) ∨ (G.stress_p + 6 * h ≤ k ∧ k < G.stress_p + 6 * h + 6)

/-- The offsets written by the evaluation of configuration `h`: its energy
slot, the force slots of its atoms and, with `STRESS`, its six stress
slots. -/
def conf_slot (B : Build) (G : Globals) (h k : Nat) : Prop :=
  k = G.energy_p + h ∨ (3 * G.cnfstart h ≤ k ∧ k < 3 * (G.cnfstart h + G.inconf h)) ∨
    (B.STRESS = true ∧ G.stress_p + 6 * h ≤ k ∧ k < G.stress_p + 6 * h + 6)

/-- Every neighbor of every atom of configuration `h` is an atom of `h`. -/
def NeighIn (G : Globals) (h : Nat) : Prop :=
  ∀ i, i < G.inconf h → ∀ n, n ∈ (G.conf_atoms (i + G.cnfstart h - G.firstatom)).neigh →
    G.cnfstart h ≤ n.nr ∧ n.nr < G.cnfstart h + G.inconf h

/-- Half neighbor lists: every neighbor of an atom of configuration `h` is an
atom of `h` whose global index is not smaller than the atom's own. -/
def HalfList (G : Globals) (h : Nat) : Prop :=
  ∀ i, i < G.inconf h → ∀ n, n ∈ (G.conf_atoms (i + G.cnfstart h - G.firstatom)).neigh →
    G.cnfstart h + i ≤ n.nr ∧ n.nr < G.cnfstart h + G.inconf h

/-- The layout of the data set and of the residual vector: configurations
are consecutive runs of atoms, and the force, energy and stress regions
follow one another without overlap. -/
structure Layout (G : Globals) : Prop where
  cnf_succ : ∀ h, h < G.nconf → G.cnfstart (h + 1) = G.cnfstart h + G.inconf h
  atoms_le : G.cnfstart G.nconf ≤ G.natoms
  energy_ge : 3 * G.natoms ≤ G.energy_p
  stress_ge : G.energy_p + G.nconf ≤ G.stress_p

/-- What the evaluation of configuration `h` adds to the local sum. -/
def pair_conf_term (B : Build) (G : Globals) (S : Splines) (h : Nat) : ℚ :=
  (pair_conf B G S h ⟨⟨fun _ => 0⟩, 0⟩).tmpsum

/-- The value the evaluation of configuration `h` leaves at offset `k`. -/
def pair_conf_val (B : Build) (G : Globals) (S : Splines) (h k : Nat) : ℚ :=
  (pair_conf B G S h ⟨⟨fun _ => 0⟩, 0⟩).forces.get k

/-- Modelled from the spec: the data of the process whose partition is the
`count` configurations from `first` on (the distribution of the data set is
done in `mpi_utils.c`, which is not among the sources).  `G` is the data set
as the single partition holds it (`firstconf = 0`, `firstatom = 0`); the
process-local arrays `conf_uf`, `conf_us`, `conf_vol` and `conf_atoms` hold the
slice that starts at the first configuration (atom) of the partition, the
global arrays are shared. -/
def partition (G : Globals) (first count : Nat) : Globals :=
  { G with
    firstconf := first
    myconf := count
    firstatom := G.cnfstart first
    conf_uf := fun j => G.conf_uf (first + j)
    conf_us := fun j => G.conf_us (first + j)
    conf_vol := fun j => G.conf_vol (first + j)
    conf_atoms := fun a => G.conf_atoms (G.cnfstart first + a) }

/-- The data set `G` with entry `j` of the neighbor list of the atom stored at
index `a` of `conf_atoms` removed. -/
def erase_neigh (G : Globals) (a j : Nat) : Globals :=
  { G with
    conf_atoms := fun b =>
      if b = a then { G.conf_atoms b with neigh := (G.conf_atoms b).neigh.eraseIdx j }
      else G.conf_atoms b }

/-- Component `k` of a vector: 0 is `x`, 1 is `y`, anything else is `z`. -/
def vector.comp (v : vector) (k : Nat) : ℚ :=
  if k = 0 then v.x else if k = 1 then v.y else v.z

/-- Component `k` of the vector `tmp_force = dist_r * phi_grad` that an entry
`n` of the neighbor list of the atom with global index `own` yields in
`calc_forces_pair` (lines 236-248); it is 0 for an entry out of range, and the
gradient is halved for a self entry. -/
def pair_tmp_force (G : Globals) (S : Splines) (own : Nat) (n : neigh_t) (k : Nat) : ℚ :=
  if n.r < G.pot_end (n.col 0) then
    n.dist_r.comp k *
      (if n.nr = own then (pair_phi S true n).2 * (1 / 2) else (pair_phi S true n).2)
  else 0

/-- The value that C3 states for slot `k` of atom `i` of configuration `h`,
following the words of the claim: the contributions of the atom's own in-range
neighbors, minus the contributions of the in-range entries of the other atoms
that name it, minus the reference force. -/
def pair_force_claimed (G : Globals) (S : Splines) (h i k : Nat) : ℚ :=
  ((G.conf_atoms (G.cnfstart h + i)).neigh.map
      (fun n => pair_tmp_force G S (G.cnfstart h + i) n k)).sum
    - (∑ b in Finset.range (G.inconf h),
        if b = i then 0
        else ((G.conf_atoms (G.cnfstart h + b)).neigh.map
          (fun n => if n.nr = G.cnfstart h + i then pair_tmp_force G S (G.cnfstart h + b) n k
            else 0)).sum)
    - G.force_0 (3 * (G.cnfstart h + i) + k)

/-- The value the code leaves in slot `k` of atom `i` of configuration `h`
when forces are used: as `pair_force_claimed`, but the entries that name the
atom are taken from the neighbor lists of all atoms of the configuration, the
atom's own list included. -/
def pair_force_value (G : Globals) (S : Splines) (h i k : Nat) : ℚ :=
  ((G.conf_atoms (G.cnfstart h + i)).neigh.map
      (fun n => pair_tmp_force G S (G.cnfstart h + i) n k)).sum
    - (∑ b in Finset.range (G.inconf h),
        ((G.conf_atoms (G.cnfstart h + b)).neigh.map
          (fun n => if n.nr = G.cnfstart h + i then pair_tmp_force G S (G.cnfstart h + b) n k
            else 0)).sum)
    - G.force_0 (3 * (G.cnfstart h + i) + k)

/-- The pair value and gradient of one neighbor of the atom with global
index `own` after the self-interaction halving (lines 236-239). -/
def pair_halved (S : Splines) (uf : Bool) (own : Nat) (n : neigh_t) : ℚ × ℚ :=
  if n.nr = own then ((pair_phi S uf n).1 * (1 / 2), (pair_phi S uf n).2 * (1 / 2))
  else ((pair_phi S uf n).1, (pair_phi S uf n).2)

/-- The weighted sum of squares of the residual slots of configuration `h` in
the buffer `F`: `conf_weight[h]` times the squared force slots of its atoms,
`eweight` times the squared energy slot and, in a `STRESS` build, `sweight`
times the six squared stress slots. -/
def pair_sq_sum (B : Build) (G : Globals) (F : Buf) (h : Nat) : ℚ :=
  G.conf_weight h *
    ((∑ a in Finset.range (G.inconf h),
        (dsquare (F.get (3 * (G.cnfstart h + a) + 0))
          + dsquare (F.get (3 * (G.cnfstart h + a) + 1))
          + dsquare (F.get (3 * (G.cnfstart h + a) + 2))))
      + G.eweight * dsquare (F.get (G.energy_p + h))
      + (if B.STRESS then
          G.sweight * ∑ j in Finset.range 6, dsquare (F.get (G.stress_p + 6 * h + j))
        else 0))

/-- What offset `k` receives when the vector `t` is added to the three force
slots of the atom with global index `a`. -/
def slot_part (a : Nat) (t : vector) (k : Nat) : ℚ :=
  if 3 * a ≤ k ∧ k < 3 * a + 3 then t.comp (k - 3 * a) else 0

/-- Component `c` of the sum, over the atoms of configuration `h`, of the
force slot in the buffer `F` plus the reference force. -/
def force_sum (G : Globals) (F : Buf) (h c : Nat) : ℚ :=
  ∑ a in Finset.range (G.inconf h),
    (F.get (3 * (G.cnfstart h + a) + c) + G.force_0 (3 * (G.cnfstart h + a) + c))

/-- The vector `tmp_force` of an entry `n` of the neighbor list of the atom
with global index `own` in the pair part. -/
def pair_tmp_vector (G : Globals) (S : Splines) (own : Nat) (n : neigh_t) : vector :=
  ⟨pair_tmp_force G S own n 0, pair_tmp_force G S own n 1, pair_tmp_force G S own n 2⟩

/-- Scratch fields that are all zero. -/
def acc_zero : AccTab := ⟨fun _ => ⟨0, 0, ⟨0, 0, 0⟩, ⟨0, 0, 0, 0, 0, 0⟩, 0⟩⟩

/-- Neighbor scratch fields that are all zero. -/
def cache_zero : CacheTab := ⟨fun _ _ => ⟨0, 0, 0, 0⟩⟩

/-- The components `(a, b)` of the product `dist_a * t_b` that stress slot `j`
holds, in the order (x,x), (y,y), (z,z), (x,y), (y,z), (z,x). -/
def stress_pair (j : Nat) : Nat × Nat :=
  if j = 0 then (0, 0) else if j = 1 then (1, 1) else if j = 2 then (2, 2)
  else if j = 3 then (0, 1) else if j = 4 then (1, 2) else (2, 0)

/-- The density gradient `rho_grad` of a neighbor as C16 words it: the
gradient of the neighbor's density column at the cached slot if
`r < end[col[1]]`, and 0 otherwise. -/
def eam_rho_grad (G : Globals) (S : Splines) (n : neigh_t) : ℚ :=
  if n.r < G.pot_end (n.col 1) then S.splint_grad_dir (n.slot 1) (n.shift 1) (n.step 1)
  else 0

/-- The density gradient `rho_grad_j` as C16 words it, for an owning atom
of type `ti`: `rho_grad` when the two types are equal, otherwise the gradient
of column `paircol + ti` at `r` if `r < end[paircol + ti]`, and 0 otherwise. -/
def eam_rho_grad_j (G : Globals) (S : Splines) (ti : Nat) (n : neigh_t) : ℚ :=
  if ti = n.type then eam_rho_grad G S n
  else if n.r < G.pot_end (G.paircol + ti) then S.g_splint_grad (G.paircol + ti) n.r
  else 0

/-! ### Agreement of scratch fields -/

/-- Two scratch tables show the same thing under `π` at every atom of `A`. -/
def AccAgree {α : Type} (π : adp_acc → α) (A : Nat → Prop) (t t' : AccTab) : Prop :=
  ∀ a, A a → π (t.get a) = π (t'.get a)

/-- Two neighbor scratch tables show the same thing under `π` at every entry
of `X`. -/
def CacheAgree {α : Type} (π : adp_cache → α) (X : Nat → Nat → Prop) (t t' : CacheTab) :
    Prop :=
  ∀ a j, X a j → π (t.get a j) = π (t'.get a j)

/-- The accumulators of an atom: density, dipole and quadrupole sums. -/
def acc_sums (p : adp_acc) : ℚ × vector × sym_tens := (p.rho, p.mu, p.lambda)

/-- The dipole cache of a neighbor entry as far as a configuration with the
flag `uf` reads it: the gradient is read only when forces are used. -/
def cache_u (uf : Bool) (c : adp_cache) : ℚ × ℚ := (c.u_val, if uf then c.u_grad else 0)

/-- The quadrupole cache of a neighbor entry as far as a configuration with
the flag `uf` reads it. -/
def cache_w (uf : Bool) (c : adp_cache) : ℚ × ℚ := (c.w_val, if uf then c.w_grad else 0)

/-- Two states of `calc_forces_adp` that cannot be told apart by what follows
in the evaluation of a configuration with flag `uf`: the buffer and the two
sums are the same, the accumulators agree on the atoms of `A`, `gradF` on
`YG`, `nu` on `YN`, and the dipole and quadrupole caches on the entries of
`XU` and `XW`. -/
structure Sim (uf : Bool) (A YG YN : Nat → Prop) (XU XW : Nat → Nat → Prop)
    (s t : AdpSt) : Prop where
  forces : s.forces = t.forces
  tmpsum : s.tmpsum = t.tmpsum
  rho_sum : s.rho_sum_loc = t.rho_sum_loc
  sums : AccAgree acc_sums A s.acc t.acc
  gradF : AccAgree (fun p => p.gradF) YG s.acc t.acc
  nu : AccAgree (fun p => p.nu) YN s.acc t.acc
  cu : CacheAgree (cache_u uf) XU s.cache t.cache
  cw : CacheAgree (cache_w uf) XW s.cache t.cache

/-! ## A sample data set -/

/-- A neighbor entry of the sample data set: atom `nr` at distance `r`. -/
def exNeigh (nr : Nat) (r : ℚ) : neigh_t :=
  { type := 0, nr := nr, r := r, dist := ⟨1, 2, 3⟩, dist_r := ⟨1, 0, 0⟩,
    sqrdist := ⟨1, 4, 9, 2, 6, 3⟩, col := fun _ => 0, slot := fun _ => 0,
    shift := fun _ => 0, step := fun _ => 1 }

/-- A sample build: `STRESS` on, `FWEIGHT` and `CONTRIB` off. -/
def exB : Build :=
  { STRESS := true, FWEIGHT := false, CONTRIB := false, RESCALE := false, NOPUNISH := false,
    FORCE_EPS := 1, DUMMY_WEIGHT := 1 }

/-- Sample splines: value 3 and gradient 2 everywhere. -/
def exS : Splines :=
  { splint_dir := fun _ _ _ => 3, splint_comb_dir := fun _ _ _ => (3, 2),
    splint_grad_dir := fun _ _ _ => 2, g_splint := fun _ _ => 3,
    g_splint_comb := fun _ _ => (3, 2), g_splint_grad := fun _ _ => 2 }

/-- A sample data set: configuration 0 has the atoms 0 and 1, configuration 1
has atom 2; atom 0 has atom 1 and itself as neighbors, atom 1 has itself at
the cutoff distance `end = 2`, atom 2 has itself. -/
def exG : Globals :=
  { nconf := 2, natoms := 3
    inconf := fun h => if h = 0 then 2 else 1
    cnfstart := fun h => if h = 0 then 0 else if h = 1 then 2 else 3
    conf_uf := fun _ => true, conf_us := fun _ => true
    conf_weight := fun _ => 1, conf_vol := fun _ => 2
    force_0 := fun _ => 1
    conf_atoms := fun a =>
      if a = 0 then ⟨0, 1, true, [exNeigh 1 1, exNeigh 0 1]⟩
      else if a = 1 then ⟨0, 1, true, [exNeigh 1 2]⟩
      else if a = 2 then ⟨0, 1, true, [exNeigh 2 1]⟩
      else ⟨0, 1, true, []⟩
    energy_p := 9, stress_p := 11, limit_p := 23, dummy_p := 25
    paircol := 1, fcalls := 0, ntypes := 1, eweight := 1, sweight := 1
    pot_begin := fun _ => 0, pot_end := fun _ => 2, pot_step := fun _ => 1
    myid := 0, firstconf := 0, myconf := 2, firstatom := 0 }

/-- A sample build with `RESCALE`. -/
def exBR : Build := { exB with RESCALE := true }

/-- Sample splines whose embedding function has value `x` and gradient `x`
at `x`; the others are those of `exS`. -/
def exS_lin : Splines := { exS with g_splint_comb := fun _ x => (x, x) }

/-- Scratch fields in which every atom holds the density `q` and nothing
else. -/
def acc_rho (q : ℚ) : AccTab := ⟨fun _ => ⟨q, 0, ⟨0, 0, 0⟩, ⟨0, 0, 0, 0, 0, 0⟩, 0⟩⟩

/-- A state of `calc_forces_adp` with an empty buffer in which every atom
holds the density `q`. -/
def ex_st (q : ℚ) : AdpSt := ⟨⟨fun _ => 0⟩, 0, 0, acc_rho q, cache_zero⟩

/-- Sample splines whose density function has the value -1; the embedding
function is that of `exS_lin`, the others are those of `exS`. -/
def exS_neg : Splines := { exS_lin with splint_dir := fun _ _ _ => -1 }

/-- Scratch fields in which every atom holds a quadrupole tensor with all
components 1 and `nu = 3`. -/
def acc_one : AccTab := ⟨fun _ => ⟨0, 0, ⟨0, 0, 0⟩, ⟨1, 1, 1, 1, 1, 1⟩, 3⟩⟩

/-- Neighbor scratch fields that are all 1. -/
def cache_one : CacheTab := ⟨fun _ _ => ⟨1, 1, 1, 1⟩⟩

/-- A sample pass of the MPI build with the given flag; nothing is received
from other processes. -/
def exRound (flag : Int) : Round :=
  { flag := flag, pot := exS, sync_begin := fun _ => 0, sync_end := fun _ => 2,
    sync_step := fun _ => 1, others := 0, recv := fun _ => none }

/-! ## Notions used in the statements about the loaders -/

/-- The closed form of the start of column `i` in a packed table with point
counts `n`: `2 * (i + 1) + n 0 + … + n (i - 1)`. -/
def packed_first (n : Nat → Int) (i : Nat) : Int :=
  2 * ((i : Int) + 1) + ((List.range i).map n).sum

/-- The point count of column `i` as the info block of the file gives it. -/
def file_nvals (F : PotFile) (i : Nat) : Int := F.ints.getD i 0

/-- How many numbers of the file a column spends on its boundary
gradients. -/
def grad_len (have_gradient : Bool) : Nat := if have_gradient then 2 else 0

/-- Two states of `read_pot_table4` hold the same point counts and the same
column layout. -/
def Frame4 (s t : Load4) : Prop :=
  t.nvals = s.nvals ∧ t.pt.first = s.pt.first ∧ t.pt.last = s.pt.last ∧ t.pt.len = s.pt.len

/-- Two states of `read_pot_table0` agree on what its loops only read: the
parsed potentials and the column layout. -/
def Frame0 (s t : Load0) : Prop :=
  t.apt.number = s.apt.number ∧ t.apt.n_par = s.apt.n_par ∧ t.apt.values = s.apt.values ∧
  t.apt.invar_par = s.apt.invar_par ∧ t.apt.globals = s.apt.globals ∧
  t.pt.first = s.pt.first ∧ t.pt.last = s.pt.last ∧ t.pt.len = s.pt.len ∧
  t.have_globals = s.have_globals

/-- The number of parameters of potential `i` as the parsed table gives
it. -/
def apot_nvals (A : apot_table_t) (i : Nat) : Int := A.n_par i

/-- The trailing slots of the table of `read_pot_table0`: the global
parameters, when they are in use, and the chemical potentials, when they are
enabled. -/
def trailing_slots (P : LoadParams) (s : Load0) : Int :=
  (if (read_pot_table0_unused s).have_globals then (s.apt.globals : Int) else 0)
    + (if P.enable_cp then ((P.ntypes : Int) + P.compnodes) else 0)

/-- The packed column layout of `N` columns with point counts `n`: column 0
starts at 2, every later column starts three slots after the end of the one
before it (so two reserved slots precede each column), column `i` ends at
`first i + n i - 1`, its start has the closed form `packed_first`, it is not
empty when `n i ≥ 1`, and, when no count is negative, the index ranges
`[first i, last i]` follow one another with the two reserved slots between
them, so that they are pairwise disjoint. -/
def PackedLayout (n : Nat → Int) (N : Nat) (first last : Nat → Int) : Prop :=
  first 0 = 2 ∧
  (∀ i, 0 < i → i < N → first i = last (i - 1) + 3) ∧
  (∀ i, i < N → last i = first i + n i - 1) ∧
  (∀ i, i < N → first i = packed_first n i) ∧
  (∀ i, i < N → 1 ≤ n i → first i ≤ last i) ∧
  ((∀ i, i < N → 0 ≤ n i) → ∀ i j, i < j → j < N → last i + 3 ≤ first j)

/-- The number of table slots that precede potential `i` in the table of
`read_pot_table0`: two reserved slots and the parameters of every earlier
potential. -/
def apot_pos (A : apot_table_t) (i : Nat) : Nat :=
  ((List.range i).map (fun m => 2 + A.n_par m)).sum

/-- Parameter `j` of potential `i` is optimized: neither the potential nor
the parameter is invariant. -/
def Optimizable (P : LoadParams) (A : apot_table_t) (i j : Nat) : Prop :=
  P.invar_pot i = 0 ∧ A.invar_par i j = 0

/-- The parameter `(i', j')` comes before `(i, j)` in the order in which the
main loop of `read_pot_table0` visits the parameters. -/
def Before (i j i' j' : Nat) : Prop := i' < i ∨ (i' = i ∧ j' < j)

/-- The proviso on the counters of the parser: for every potential `i`,
`invar_par[i][n_par[i]]` is the number of its invariant parameters. -/
def InvarCounted (A : apot_table_t) : Prop :=
  ∀ i, i < A.number →
    A.invar_par i (A.n_par i)
      = (((List.range (A.n_par i)).filter (fun j => decide (A.invar_par i j ≠ 0))).length : Int)

/-- The number of optimized parameters among the first `n` parameters of
potential `i`. -/
def opt_count (P : LoadParams) (A : apot_table_t) (i n : Nat) : Nat :=
  ((List.range n).filter (fun j => decide (P.invar_pot i = 0 ∧ A.invar_par i j = 0))).length

/-- The state of the main loop of `read_pot_table0` in front of parameter
`j` of potential `i`, with `l` and `val` at `pos`: the `k` entries written so
far name optimized parameters that come before `(i, j)`, each with its slot
in the table, in increasing order of the slot; every optimized parameter
before `(i, j)` has an entry; and every parameter before `(i, j)` is stored in
its slot. -/
structure MainInv (P : LoadParams) (A : apot_table_t) (i j pos : Nat) (t : Load0) : Prop where
  l : t.l = pos
  val : t.val = pos
  entries : ∀ m, m < t.k →
    Before i j (t.apt.idxpot m) (t.apt.idxparam m) ∧
    t.apt.idxparam m < A.n_par (t.apt.idxpot m) ∧
    Optimizable P A (t.apt.idxpot m) (t.apt.idxparam m) ∧
    t.pt.idx m = apot_pos A (t.apt.idxpot m) + 2 + t.apt.idxparam m
  sorted : ∀ m m', m < m' → m' < t.k → t.pt.idx m < t.pt.idx m'
  complete : ∀ i' j', Before i j i' j' → j' < A.n_par i' → Optimizable P A i' j' →
    ∃ m, m < t.k ∧ t.apt.idxpot m = i' ∧ t.apt.idxparam m = j'
  table : ∀ i' j', Before i j i' j' → j' < A.n_par i' →
    t.pt.table.get (apot_pos A i' + 2 + j') = A.values i' j'

/-- The value `init_calc_table0` stores for sample `j` of column `i`, whose
range starts at `b` and whose step is `st`: the analytic function at the
abscissa `b + j * st`, times the cutoff function when the potential is
smoothed. -/
def apot_sample (Fn : ApotFuns) (A : apot_table_t) (b st : ℚ) (i j : Nat) : ℚ :=
  if Fn.smooth_pot i ≠ 0 then
    Fn.fvalue i (b + j * st) (A.values i) * Fn.cutoff (b + j * st) b (A.values i (A.n_par i - 1))
  else Fn.fvalue i (b + j * st) (A.values i)

/-- The state of `init_calc_table0` in front of sample `j` of column `i`,
when `c1` was the state in front of the first sample: the layout and the
ranges are those of `c1`, the arrays are unchanged below the slots of the
column, and the samples written so far stand in their slots. -/
structure SampleInv (Fn : ApotFuns) (A : apot_table_t) (S i : Nat) (c1 : pot_table_t) (j : Nat)
    (c : pot_table_t) : Prop where
  len : c.len = c1.len
  first : c.first = c1.first
  last : c.last = c1.last
  begin_ : c.begin_ = c1.begin_
  end_ : c.end_ = c1.end_
  step : c.step = c1.step
  low : ∀ m, m < i * S + (i + 1) * 2 →
    c.table.get m = c1.table.get m ∧ c.xcoord.get m = c1.xcoord.get m
  lowidx : ∀ m, m < i * S → c.idx m = c1.idx m
  own : ∀ j', j' < j →
    c.xcoord.get (i * S + (i + 1) * 2 + j') = c1.begin_ i + j' * c1.step i ∧
    c.table.get (i * S + (i + 1) * 2 + j') = apot_sample Fn A (c1.begin_ i) (c1.step i) i j' ∧
    c.idx (i * S + j') = i * S + (i + 1) * 2 + j'

/-- Column `i` of the table of `init_calc_table0` is complete: its layout
entries, its step, its two boundary slots and its `S` samples with their
abscissas and index entries. -/
def ColumnDone (Fn : ApotFuns) (A : apot_table_t) (S : Nat) (i : Nat) (c : pot_table_t) : Prop :=
  c.first i = 2 + (i : Int) * (S + 2) ∧
  c.last i = c.first i + S - 1 ∧
  c.step i = (c.end_ i - c.begin_ i) / ((S : ℚ) - 1) ∧
  c.table.get (i * S + i * 2) = 10 * 10 ^ 30 ∧
  c.table.get (i * S + i * 2 + 1) = 0 ∧
  ∀ j, j < S →
    c.xcoord.get (i * S + (i + 1) * 2 + j) = c.begin_ i + j * c.step i ∧
    c.table.get (i * S + (i + 1) * 2 + j) = apot_sample Fn A (c.begin_ i) (c.step i) i j ∧
    c.idx (i * S + j) = i * S + (i + 1) * 2 + j

/-- The state of `init_calc_table0` in front of potential `i`: the counter
`x`, the length and the ranges of the table, and the columns completed so
far. -/
structure PotInv (Fn : ApotFuns) (A : apot_table_t) (S : Nat) (L : Int) (b e : Nat → ℚ)
    (i : Nat) (s : pot_table_t × Int) : Prop where
  x : s.2 = (i : Int) * (S + 2)
  len : s.1.len = L
  begin_ : s.1.begin_ = b
  end_ : s.1.end_ = e
  done : ∀ i', i' < i → ColumnDone Fn A S i' s.1

/-- The table of `init_calc_table0` in front of the first sample of column
`i`, when `c` and `x` were the table and the counter in front of the
column. -/
def init_calc_table0_head (S i : Nat) (c : pot_table_t) (x : Int) : pot_table_t :=
  { c with
    table := setf (setf c.table (i * S + i * 2) (10 * 10 ^ 30)) (i * S + i * 2 + 1) 0
    first := seta c.first i (x + 2)
    last := seta c.last i (x + 2 + (S - 1))
    step := seta c.step i ((c.end_ i - c.begin_ i) / ((S : ℚ) - 1))
    invstep := seta c.invstep i (1 / ((c.end_ i - c.begin_ i) / ((S : ℚ) - 1))) }

/-- The table of `init_calc_table0` in front of its loop (line 2228). -/
def init_calc_table0_start (A : apot_table_t) (opt : pot_table_t) (ntypes compnodes STEPS : Nat)
    (calc_pot : pot_table_t) : pot_table_t :=
  { calc_pot with
    len := A.number * STEPS + 2 * opt.ncols + ntypes + compnodes
    idxlen := STEPS
    ncols := opt.ncols
    begin_ := opt.begin_
    end_ := opt.end_ }

/-! ## The moment of the embedding step in `calc_forces_adp` -/

/-- The state of `calc_forces_adp` in configuration `h` when the second
loop over atoms starts: the slots of the configuration are initialized and
the first loop over atoms has reset the forces and the accumulators. -/
def adp_after_reset (B : Build) (G : Globals) (h : Nat) (st : AdpSt) : AdpSt :=
  forLoop (adp_reset G h (G.conf_uf (h - G.firstconf))) (G.inconf h)
    { st with forces := adp_conf_init B G h st.forces }

/-- The state of `calc_forces_adp` at the moment the embedding step of atom
`i` of configuration `h` starts: the second loop has finished the atoms
before `i` and the neighbor loop of atom `i`. -/
def adp_before_embed (B : Build) (G : Globals) (S : Splines) (h i : Nat) (st : AdpSt) : AdpSt :=
  (G.conf_atoms (i + G.cnfstart h - G.firstatom)).neigh.enum.foldl
    (adp_neigh B G S h (G.conf_uf (h - G.firstconf)) (G.conf_us (h - G.firstconf)) i)
    (forLoop (adp_atom2 B G S h (G.conf_uf (h - G.firstconf)) (G.conf_us (h - G.firstconf))) i
      (adp_after_reset B G h st))

/-! ## Sample potential files and tables -/

/-- A table whose fields are all 0. -/
def exPt : pot_table_t :=
  { len := 0, idxlen := 0, ncols := 0
    first := fun _ => 0, last := fun _ => 0
    begin_ := fun _ => 0, end_ := fun _ => 0, step := fun _ => 0, invstep := fun _ => 0
    xcoord := ⟨fun _ => 0⟩, table := ⟨fun _ => 0⟩, d2tab := ⟨fun _ => 0⟩
    idx := fun _ => 0 }

/-- A table of `read_pot_table4` whose fields are all 0. -/
def exPt4 : pot_table_d :=
  { len := 0, idxlen := 0, ncols := 0
    first := fun _ => 0, last := fun _ => 0
    begin_ := fun _ => Dbl.fin 0, end_ := fun _ => Dbl.fin 0, step := fun _ => Dbl.fin 0
    invstep := fun _ => Dbl.fin 0
    xcoord := fun _ => Dbl.fin 0, table := fun _ => Dbl.fin 0, d2tab := fun _ => Dbl.fin 0
    idx := fun _ => 0 }

/-- A file without gradients with three columns (the pair potentials of two
atom types): two points at the abscissas 1, 2, three points at the abscissas
1, 2, 3, and two points at the abscissas 1, 2. -/
def exFile : PotFile :=
  ⟨[2, 3, 2], [1, 10, 2, 20, 1, 5, 2, 6, 3, 7, 1, 8, 2, 9].map Dbl.fin⟩

/-- Three analytic potentials (the pair potentials of two atom types) with
2, 1 and 1 parameters, of which parameter 1 of potential 0 is invariant, and
(row 3) two chemical potentials with the values 31 and 32, of which the first
is invariant.  The counters `invar_par[0][2]` and `invar_par[3][2]` are 1. -/
def exApt : apot_table_t :=
  { number := 3, total_par := 4, globals := 0
    n_par := fun i => if i = 0 then 2 else if i < 3 then 1 else 0
    n_glob := fun _ => 0
    values := fun i j =>
      if i = 0 then (if j = 0 then 11 else 12)
      else if i = 1 then 21
      else if i = 2 then 22
      else if j = 0 then 31 else 32
    invar_par := fun i j =>
      if i = 0 then (if j = 0 then 0 else 1)
      else if i < 3 then 0
      else if j = 1 then 0 else 1
    begin_ := fun _ => 1, end_ := fun _ => 2
    idxpot := fun _ => 0, idxparam := fun _ => 0 }

/-- Settings with chemical potentials for two atom types, no composition
nodes and no invariant potential. -/
def exP : LoadParams :=
  { enable_cp := true, ntypes := 2, compnodes := 0, invar_pot := fun _ => 0, global_pot := 4 }

/-- The state in which `read_pot_table0` finds `exApt` after parsing. -/
def exLoad0 : Load0 :=
  { apt := exApt, pt := exPt, calc_list := ⟨fun _ => 0⟩, cp_start := 0, global_idx := 0
    have_globals := false, k := 0, l := 0, val := 0, list := 0 }

/-- Sample analytic functions: every potential is the identity function,
not smoothed. -/
def exFn : ApotFuns := { fvalue := fun _ x _ => x, cutoff := fun _ _ _ => 1, smooth_pot := fun _ => 0 }

/-- A table with three columns and the ranges `[1, 2]`. -/
def exOpt : pot_table_t := { exPt with ncols := 3, begin_ := fun _ => 1, end_ := fun _ => 2 }

/-! ## A data set with a full neighbor list -/

/-- The sample build without `STRESS`. -/
def exB0 : Build := { exB with STRESS := false }

/-- A data set of one configuration with the atoms 0 and 1 in which the
neighbor list of atom 1 names atom 0, at distance 1 inside the cutoff 2;
atom 0 has no neighbors.  Forces are used, every reference value is 1, and
the regions of the residual vector do not overlap. -/
def exG_back : Globals :=
  { exG with
    nconf := 1, natoms := 2
    inconf := fun h => if h = 0 then 2 else 0
    cnfstart := fun h => if h = 0 then 0 else 2
    conf_atoms := fun a =>
      if a = 1 then ⟨0, 1, true, [exNeigh 0 1]⟩ else ⟨0, 1, true, []⟩
    energy_p := 6, stress_p := 7, limit_p := 13, dummy_p := 14, myconf := 1 }

/-- A data set of three configurations of one atom without neighbors each,
none of which uses forces; the reference energy of every configuration is 1,
and the weights of the configurations are the doubles nearest to 0.1, 0.2
and 0.3. -/
def exG_w : Globals :=
  { nconf := 3, natoms := 3
    inconf := fun _ => 1
    cnfstart := fun h => h
    conf_uf := fun _ => false, conf_us := fun _ => false
    conf_weight := fun h => round_double (((h : ℚ) + 1) / 10), conf_vol := fun _ => 1
    force_0 := fun k => if 9 ≤ k ∧ k < 12 then 1 else 0
    conf_atoms := fun _ => ⟨0, 1, true, []⟩
    energy_p := 9, stress_p := 12, limit_p := 30, dummy_p := 32
    paircol := 1, fcalls := 0, ntypes := 1, eweight := 1, sweight := 1
    pot_begin := fun _ => 0, pot_end := fun _ => 2, pot_step := fun _ => 1
    myid := 0, firstconf := 0, myconf := 3, firstatom := 0 }

/-! ## Lemmas on the elementary statements -/

theorem setf_get (f : Buf) (i k : Nat) (v : ℚ) :
    (setf f i v).get k = if k = i then v else f.get k := rfl

theorem addf_get (f : Buf) (i k : Nat) (v : ℚ) :
    (addf f i v).get k = f.get k + if k = i then v else 0 := by
  unfold addf
  rw [setf_get]
  split_ifs with hk
  · subst hk; ring
  · ring

theorem subf_get (f : Buf) (i k : Nat) (v : ℚ) :
    (subf f i v).get k = f.get k - if k = i then v else 0 := by
  unfold subf
  rw [setf_get]
  split_ifs with hk
  · subst hk; ring
  · ring

theorem divf_get (f : Buf) (i k : Nat) (v : ℚ) :
    (divf f i v).get k = if k = i then f.get i / v else f.get k := rfl

theorem forLoop_zero {σ : Type} (body : Nat → σ → σ) (s : σ) : forLoop body 0 s = s := rfl

theorem forLoop_succ {σ : Type} (body : Nat → σ → σ) (n : Nat) (s : σ) :
    forLoop body (n + 1) s = body n (forLoop body n s) := rfl

theorem forLoop_congr {σ : Type} (body body' : Nat → σ → σ) (n : Nat) (s : σ)
    (hb : ∀ i, i < n → ∀ t, body i t = body' i t) :
    forLoop body n s = forLoop body' n s := by
  induction n with
  | zero => rfl
  | succ n ih =>
    rw [forLoop_succ, forLoop_succ, ih (fun i hi t => hb i (Nat.lt_succ_of_lt hi) t),
      hb n (Nat.lt_succ_self n)]

theorem Agree.mono {X Y : Nat → Prop} {f f' : Buf} (hXY : ∀ k, Y k → X k)
    (ha : Agree X f f') : Agree Y f f' := fun k hk => ha k (hXY k hk)

theorem agree_setf {X : Nat → Prop} {f f' : Buf} (i : Nat) (v : ℚ) (ha : Agree X f f') :
    Agree (fun k => X k ∨ k = i) (setf f i v) (setf f' i v) := by
  intro k hk
  rw [setf_get, setf_get]
  split_ifs with hki
  · rfl
  · rcases hk with hk | hk
    · exact ha k hk
    · exact absurd hk hki

theorem agree_setf_same {X : Nat → Prop} {f f' : Buf} (i : Nat) (v : ℚ) (ha : Agree X f f') :
    Agree X (setf f i v) (setf f' i v) :=
  (agree_setf i v ha).mono (fun _ hk => Or.inl hk)

theorem agree_addf {X : Nat → Prop} {f f' : Buf} (i : Nat) (v : ℚ) (ha : Agree X f f') :
    Agree X (addf f i v) (addf f' i v) := by
  intro k hk
  rw [addf_get, addf_get, ha k hk]

theorem agree_subf {X : Nat → Prop} {f f' : Buf} (i : Nat) (v : ℚ) (ha : Agree X f f') :
    Agree X (subf f i v) (subf f' i v) := by
  intro k hk
  rw [subf_get, subf_get, ha k hk]

theorem agree_divf {X : Nat → Prop} {f f' : Buf} (i : Nat) (v : ℚ) (ha : Agree X f f') :
    Agree X (divf f i v) (divf f' i v) := by
  intro k hk
  rw [divf_get, divf_get]
  split_ifs with hki
  · rw [← hki, ha k hk]
  · exact ha k hk

/-! ## Lemmas on the neighbor loop of `calc_forces_pair` -/

theorem pair_neigh_get (B : Build) (G : Globals) (S : Splines) (h : Nat) (uf us : Bool)
    (i : Nat) (f : Buf) (n : neigh_t) (k : Nat) :
    (pair_neigh B G S h uf us i f n).get k = f.get k + pair_delta B G S h uf us i n k := by
  unfold pair_delta pair_neigh
  simp only []
  split_ifs <;> simp only [stress_update, addf_get, subf_get] <;> ring

theorem pair_foldl_get (B : Build) (G : Globals) (S : Splines) (h : Nat) (uf us : Bool)
    (i : Nat) (l : List neigh_t) (f : Buf) (k : Nat) :
    (l.foldl (pair_neigh B G S h uf us i) f).get k
      = f.get k + (l.map (fun n => pair_delta B G S h uf us i n k)).sum := by
  induction l generalizing f with
  | nil => simp
  | cons n l ih =>
    simp only [List.foldl_cons, List.map_cons, List.sum_cons]
    rw [ih, pair_neigh_get]
    ring

theorem pair_delta_frame (B : Build) (G : Globals) (S : Splines) (h : Nat) (uf us : Bool)
    (i : Nat) (n : neigh_t) (k : Nat) (hk : ¬ pair_touched G h i n.nr k) :
    pair_delta B G S h uf us i n k = 0 := by
  unfold pair_touched at hk
  have h0 : k ≠ G.energy_p + h := by omega
  have h1 : k ≠ 3 * (G.cnfstart h + i) := by omega
  have h2 : k ≠ 3 * (G.cnfstart h + i) + 1 := by omega
  have h3 : k ≠ 3 * (G.cnfstart h + i) + 2 := by omega
  have h4 : k ≠ 3 * n.nr := by omega
  have h5 : k ≠ 3 * n.nr + 1 := by omega
  have h6 : k ≠ 3 * n.nr + 2 := by omega
  have h7 : k ≠ G.stress_p + 6 * h := by omega
  have h8 : k ≠ G.stress_p + 6 * h + 1 := by omega
  have h9 : k ≠ G.stress_p + 6 * h + 2 := by omega
  have h10 : k ≠ G.stress_p + 6 * h + 3 := by omega
  have h11 : k ≠ G.stress_p + 6 * h + 4 := by omega
  have h12 : k ≠ G.stress_p + 6 * h + 5 := by omega
  unfold pair_delta pair_neigh
  simp only []
  split_ifs <;>
    simp only [stress_update, addf_get, subf_get, Nat.add_zero, if_neg h0, if_neg h1, if_neg h2,
      if_neg h3, if_neg h4, if_neg h5, if_neg h6, if_neg h7, if_neg h8, if_neg h9, if_neg h10,
      if_neg h11, if_neg h12, add_zero, sub_zero]

/-- Without forces a neighbor touches the energy slot only. -/
theorem pair_delta_nouf (B : Build) (G : Globals) (S : Splines) (h : Nat) (us : Bool)
    (i : Nat) (n : neigh_t) (k : Nat) (hk : k ≠ G.energy_p + h) :
    pair_delta B G S h false us i n k = 0 := by
  unfold pair_delta pair_neigh
  simp only [Bool.false_eq_true, if_false]
  split_ifs <;> simp [addf_get, hk]

/-- Without the stress switch or the stress flag a neighbor leaves the stress
slots alone (given they are no energy or force slots). -/
theorem pair_delta_nostress (B : Build) (G : Globals) (S : Splines) (h : Nat) (uf us : Bool)
    (i : Nat) (n : neigh_t) (k : Nat) (hs : (B.STRESS && us) = false)
    (hk : k ≠ G.energy_p + h ∧ ¬ (3 * (G.cnfstart h + i) ≤ k ∧ k < 3 * (G.cnfstart h + i) + 3) ∧
      ¬ (3 * n.nr ≤ k ∧ k < 3 * n.nr + 3)) :
    pair_delta B G S h uf us i n k = 0 := by
  have h0 : k ≠ G.energy_p + h := by omega
  have h1 : k ≠ 3 * (G.cnfstart h + i) := by omega
  have h2 : k ≠ 3 * (G.cnfstart h + i) + 1 := by omega
  have h3 : k ≠ 3 * (G.cnfstart h + i) + 2 := by omega
  have h4 : k ≠ 3 * n.nr := by omega
  have h5 : k ≠ 3 * n.nr + 1 := by omega
  have h6 : k ≠ 3 * n.nr + 2 := by omega
  unfold pair_delta pair_neigh
  simp only [hs, Bool.false_eq_true, if_false]
  split_ifs <;>
    simp only [addf_get, subf_get, Nat.add_zero, if_neg h0, if_neg h1, if_neg h2,
      if_neg h3, if_neg h4, if_neg h5, if_neg h6, add_zero, sub_zero]

/-! ## The contribution of one neighbor, written out -/

theorem list_sum_map_sub {α : Type} (l : List α) (f g : α → ℚ) :
    (l.map (fun a => f a - g a)).sum = (l.map f).sum - (l.map g).sum := by
  induction l with
  | nil => simp
  | cons a l ih =>
    simp only [List.map_cons, List.sum_cons, ih]
    ring

theorem list_sum_map_ite {α : Type} (l : List α) (P : Prop) [Decidable P] (f : α → ℚ) :
    (l.map (fun a => if P then f a else 0)).sum = if P then (l.map f).sum else 0 := by
  by_cases hP : P
  · simp only [hP, if_true]
  · simp only [hP, if_false]
    exact List.sum_eq_zero (fun x hx => by
      obtain ⟨_, _, rfl⟩ := List.mem_map.1 hx
      rfl)

theorem stress_update_get (f : Buf) (s k : Nat) (d t : vector) :
    (stress_update f s d t).get k = f.get k + (stress_update ⟨fun _ => 0⟩ s d t).get k := by
  simp only [stress_update, subf_get]
  ring

theorem stress_update_frame (f : Buf) (s k : Nat) (d t : vector)
    (hk : k < s ∨ s + 6 ≤ k) : (stress_update f s d t).get k = f.get k := by
  simp only [stress_update, subf_get, Nat.add_zero]
  rw [if_neg (by omega), if_neg (by omega), if_neg (by omega), if_neg (by omega),
    if_neg (by omega), if_neg (by omega)]
  simp only [sub_zero]

/-- What one neighbor adds at offset `x`, written out: the energy part, the
part for the owning atom, the part for the neighbor atom and the stress
part. -/
theorem pair_delta_eq (B : Build) (G : Globals) (S : Splines) (h : Nat) (uf us : Bool)
    (i : Nat) (n : neigh_t) (x : Nat) :
    pair_delta B G S h uf us i n x
      = if n.r < G.pot_end (n.col 0) then
          (if x = G.energy_p + h then (pair_halved S uf (i + G.cnfstart h) n).1 else 0)
          + (if uf = true then
              ((if x = 3 * (G.cnfstart h + i) then
                  n.dist_r.x * (pair_halved S uf (i + G.cnfstart h) n).2 else 0)
                + (if x = 3 * (G.cnfstart h + i) + 1 then
                  n.dist_r.y * (pair_halved S uf (i + G.cnfstart h) n).2 else 0)
                + (if x = 3 * (G.cnfstart h + i) + 2 then
                  n.dist_r.z * (pair_halved S uf (i + G.cnfstart h) n).2 else 0))
              - ((if x = 3 * n.nr then
                  n.dist_r.x * (pair_halved S uf (i + G.cnfstart h) n).2 else 0)
                + (if x = 3 * n.nr + 1 then
                  n.dist_r.y * (pair_halved S uf (i + G.cnfstart h) n).2 else 0)
                + (if x = 3 * n.nr + 2 then
                  n.dist_r.z * (pair_halved S uf (i + G.cnfstart h) n).2 else 0))
              + (if (B.STRESS && us) = true then
                  (stress_update ⟨fun _ => 0⟩ (G.stress_p + 6 * h) n.dist
                    ⟨n.dist_r.x * (pair_halved S uf (i + G.cnfstart h) n).2,
                      n.dist_r.y * (pair_halved S uf (i + G.cnfstart h) n).2,
                      n.dist_r.z * (pair_halved S uf (i + G.cnfstart h) n).2⟩).get x
                else 0)
            else 0)
        else 0 := by
  unfold pair_delta pair_neigh pair_halved
  by_cases hr : n.r < G.pot_end (n.col 0)
  · by_cases hs : n.nr = i + G.cnfstart h
    · cases uf
      · simp only [hr, if_pos hs, decide_eq_true hs, if_true, if_false, Bool.false_eq_true,
          addf_get, add_zero, zero_add]
      · by_cases ht : (B.STRESS && us) = true
        · simp only [hr, ht, if_pos hs, decide_eq_true hs, if_true]
          rw [stress_update_get]
          simp only [addf_get, subf_get, Nat.add_zero]
          ring
        · simp only [hr, ht, if_pos hs, decide_eq_true hs, if_true, if_false,
            Bool.false_eq_true, addf_get, subf_get, Nat.add_zero, add_zero]
          ring
    · cases uf
      · simp only [hr, if_neg hs, decide_eq_false hs, if_true, if_false, Bool.false_eq_true,
          addf_get, add_zero, zero_add]
      · by_cases ht : (B.STRESS && us) = true
        · simp only [hr, ht, if_neg hs, decide_eq_false hs, if_true, if_false,
            Bool.false_eq_true]
          rw [stress_update_get]
          simp only [addf_get, subf_get, Nat.add_zero]
          ring
        · simp only [hr, ht, if_neg hs, decide_eq_false hs, if_true, if_false,
            Bool.false_eq_true, addf_get, subf_get, Nat.add_zero, add_zero]
          ring
  · simp only [hr, if_false]

theorem slot3_ne (x b : Nat) (hx : x < 3 * b ∨ 3 * b + 3 ≤ x) (t0 t1 t2 : ℚ) :
    (if x = 3 * b then t0 else 0) + (if x = 3 * b + 1 then t1 else 0)
      + (if x = 3 * b + 2 then t2 else 0) = 0 := by
  rw [if_neg (by omega), if_neg (by omega), if_neg (by omega)]
  simp only [add_zero]

/-- Three consecutive slots of atom `b` seen from slot `k` of atom `a`. -/
theorem slot3_ite (a b k : Nat) (hk : k < 3) (t0 t1 t2 : ℚ) :
    (if 3 * a + k = 3 * b then t0 else 0) + (if 3 * a + k = 3 * b + 1 then t1 else 0)
        + (if 3 * a + k = 3 * b + 2 then t2 else 0)
      = if b = a then (if k = 0 then t0 else if k = 1 then t1 else t2) else 0 := by
  by_cases hb : b = a <;> interval_cases k <;>
    simp (disch := omega) only [if_pos, if_neg, hb, if_true, if_false, add_zero, zero_add]


/-! ## Lemmas on the loops of `calc_forces_pair` -/

theorem stress_reset_get (f : Buf) (s k : Nat) :
    (forLoop (fun i f => setf f (s + i) 0) 6 f).get k
      = if s ≤ k ∧ k < s + 6 then 0 else f.get k := by
  simp only [forLoop, setf_get]
  split_ifs <;> first | rfl | (exfalso; omega)

theorem pair_reset_get (G : Globals) (h : Nat) (uf : Bool) (m : Nat) (f : Buf) (k : Nat) :
    (forLoop (pair_reset G h uf) m f).get k
      = if 3 * G.cnfstart h ≤ k ∧ k < 3 * (G.cnfstart h + m) then
          (if uf then -G.force_0 k else 0)
        else f.get k := by
  induction m with
  | zero =>
    rw [forLoop_zero, if_neg]
    omega
  | succ m ih =>
    rw [forLoop_succ]
    generalize forLoop (pair_reset G h uf) m f = g at ih ⊢
    unfold pair_reset
    cases uf
    · simp only [Bool.false_eq_true, if_false, setf_get, ih]
      split_ifs <;> first | rfl | (exfalso; omega)
    · simp only [if_true, setf_get, ih]
      split_ifs <;> first | rfl | (exfalso; omega) | (subst_vars; rfl)

theorem pair_conf_reset_get (B : Build) (G : Globals) (h : Nat) (uf : Bool) (f : Buf)
    (k : Nat) :
    (pair_conf_reset B G h uf f).get k
      = if 3 * G.cnfstart h ≤ k ∧ k < 3 * (G.cnfstart h + G.inconf h) then
          (if uf then -G.force_0 k else 0)
        else if B.STRESS = true ∧ G.stress_p + 6 * h ≤ k ∧ k < G.stress_p + 6 * h + 6 then 0
        else if k = G.energy_p + h then 0 else f.get k := by
  unfold pair_conf_reset
  simp only [pair_reset_get]
  cases B.STRESS
  · simp [setf_get]
  · simp [stress_reset_get, setf_get]

theorem pair_conf_reset_agree (B : Build) (G : Globals) (h : Nat) (uf : Bool)
    {X : Nat → Prop} {f f' : Buf} (ha : Agree X f f') :
    Agree (fun k => X k ∨ conf_slot B G h k)
      (pair_conf_reset B G h uf f) (pair_conf_reset B G h uf f') := by
  intro k hk
  rw [pair_conf_reset_get, pair_conf_reset_get]
  split_ifs with h1 h2 h3 h4 <;> first
    | rfl
    | (rcases hk with hk | hk
       · exact ha k hk
       · unfold conf_slot at hk
         tauto)

theorem pair_neigh_agree (B : Build) (G : Globals) (S : Splines) (h : Nat) (uf us : Bool)
    (i : Nat) (n : neigh_t) {X : Nat → Prop} {f f' : Buf} (ha : Agree X f f') :
    Agree X (pair_neigh B G S h uf us i f n) (pair_neigh B G S h uf us i f' n) := by
  intro k hk
  rw [pair_neigh_get, pair_neigh_get, ha k hk]

theorem pair_foldl_agree (B : Build) (G : Globals) (S : Splines) (h : Nat) (uf us : Bool)
    (i : Nat) (l : List neigh_t) {X : Nat → Prop} {f f' : Buf} (ha : Agree X f f') :
    Agree X (l.foldl (pair_neigh B G S h uf us i) f) (l.foldl (pair_neigh B G S h uf us i) f') := by
  intro k hk
  rw [pair_foldl_get, pair_foldl_get, ha k hk]

theorem pair_atom_agree (B : Build) (G : Globals) (S : Splines) (h : Nat) (uf us : Bool)
    (i : Nat) {X : Nat → Prop} {s t : St} (ha : Agree X s.forces t.forces)
    (hX : ∀ j, j < 3 → X (3 * (G.cnfstart h + i) + j)) :
    Agree X (pair_atom B G S h uf us i s).forces (pair_atom B G S h uf us i t).forces ∧
      (pair_atom B G S h uf us i s).tmpsum - s.tmpsum
        = (pair_atom B G S h uf us i t).tmpsum - t.tmpsum := by
  have hf := pair_foldl_agree B G S h uf us i
    (G.conf_atoms (i + G.cnfstart h - G.firstatom)).neigh ha
  have hd := agree_divf (3 * (G.cnfstart h + i) + 2)
      (B.FORCE_EPS + (G.conf_atoms (i + G.cnfstart h - G.firstatom)).absforce)
    (agree_divf (3 * (G.cnfstart h + i) + 1)
      (B.FORCE_EPS + (G.conf_atoms (i + G.cnfstart h - G.firstatom)).absforce)
    (agree_divf (3 * (G.cnfstart h + i) + 0)
      (B.FORCE_EPS + (G.conf_atoms (i + G.cnfstart h - G.firstatom)).absforce) hf))
  unfold pair_atom
  cases uf <;> by_cases hF : B.FWEIGHT = true <;>
    by_cases hc : (B.CONTRIB && !(G.conf_atoms (i + G.cnfstart h - G.firstatom)).contrib) = true <;>
    simp only [hF, hc, if_true, if_false, sub_self, add_sub_cancel_left, Bool.false_eq_true]
  · exact ⟨hf, trivial⟩
  · exact ⟨hf, trivial⟩
  · exact ⟨hf, trivial⟩
  · exact ⟨hf, trivial⟩
  · exact ⟨hd, trivial⟩
  · refine ⟨hd, ?_⟩
    rw [hd _ (hX 0 (by omega)), hd _ (hX 1 (by omega)), hd _ (hX 2 (by omega))]
  · exact ⟨hf, trivial⟩
  · refine ⟨hf, ?_⟩
    rw [hf _ (hX 0 (by omega)), hf _ (hX 1 (by omega)), hf _ (hX 2 (by omega))]

theorem pair_atoms_agree (B : Build) (G : Globals) (S : Splines) (h : Nat) (uf us : Bool)
    (m : Nat) {X : Nat → Prop} {s t : St} (ha : Agree X s.forces t.forces)
    (hX : ∀ k, 3 * G.cnfstart h ≤ k ∧ k < 3 * (G.cnfstart h + m) → X k) :
    Agree X (forLoop (pair_atom B G S h uf us) m s).forces
        (forLoop (pair_atom B G S h uf us) m t).forces ∧
      (forLoop (pair_atom B G S h uf us) m s).tmpsum - s.tmpsum
        = (forLoop (pair_atom B G S h uf us) m t).tmpsum - t.tmpsum := by
  induction m with
  | zero => exact ⟨ha, by simp [forLoop]⟩
  | succ m ih =>
    have ih' := ih (fun k hk => hX k (by omega))
    have hs := pair_atom_agree B G S h uf us m ih'.1 (fun j hj => hX _ (by omega))
    rw [forLoop_succ, forLoop_succ]
    refine ⟨hs.1, ?_⟩
    linarith [hs.2, ih'.2]

theorem pair_conf_energy_agree (G : Globals) (h : Nat) {X : Nat → Prop} {s t : St}
    (ha : Agree X s.forces t.forces) (hX : X (G.energy_p + h)) :
    Agree X (pair_conf_energy G h s).forces (pair_conf_energy G h t).forces ∧
      (pair_conf_energy G h s).tmpsum - s.tmpsum
        = (pair_conf_energy G h t).tmpsum - t.tmpsum := by
  have hd := agree_subf (G.energy_p + h) (G.force_0 (G.energy_p + h))
    (agree_divf (G.energy_p + h) (G.inconf h : ℚ) ha)
  unfold pair_conf_energy
  refine ⟨hd, ?_⟩
  simp only [add_sub_cancel_left]
  rw [hd _ hX]

theorem pair_stress_term_agree (G : Globals) (h i : Nat) {X : Nat → Prop} {s t : St}
    (ha : Agree X s.forces t.forces) (hX : X (G.stress_p + 6 * h + i)) :
    Agree X (pair_stress_term G h i s).forces (pair_stress_term G h i t).forces ∧
      (pair_stress_term G h i s).tmpsum - s.tmpsum
        = (pair_stress_term G h i t).tmpsum - t.tmpsum := by
  have hd := agree_subf (G.stress_p + 6 * h + i) (G.force_0 (G.stress_p + 6 * h + i))
    (agree_divf (G.stress_p + 6 * h + i) (G.conf_vol (h - G.firstconf)) ha)
  unfold pair_stress_term
  refine ⟨hd, ?_⟩
  simp only [add_sub_cancel_left]
  rw [hd _ hX]

theorem pair_stress_loop_agree (G : Globals) (h m : Nat) {X : Nat → Prop} {s t : St}
    (ha : Agree X s.forces t.forces)
    (hX : ∀ i, i < m → X (G.stress_p + 6 * h + i)) :
    Agree X (forLoop (pair_stress_term G h) m s).forces
        (forLoop (pair_stress_term G h) m t).forces ∧
      (forLoop (pair_stress_term G h) m s).tmpsum - s.tmpsum
        = (forLoop (pair_stress_term G h) m t).tmpsum - t.tmpsum := by
  induction m with
  | zero => exact ⟨ha, by simp [forLoop]⟩
  | succ m ih =>
    have ih' := ih (fun i hi => hX i (by omega))
    have hs := pair_stress_term_agree G h m ih'.1 (hX m (by omega))
    rw [forLoop_succ, forLoop_succ]
    refine ⟨hs.1, ?_⟩
    linarith [hs.2, ih'.2]

theorem pair_conf_stress_agree (B : Build) (G : Globals) (h : Nat) (uf us : Bool)
    {X : Nat → Prop} {s t : St} (ha : Agree X s.forces t.forces)
    (hX : B.STRESS = true → ∀ i, i < 6 → X (G.stress_p + 6 * h + i)) :
    Agree X (pair_conf_stress B G h uf us s).forces (pair_conf_stress B G h uf us t).forces ∧
      (pair_conf_stress B G h uf us s).tmpsum - s.tmpsum
        = (pair_conf_stress B G h uf us t).tmpsum - t.tmpsum := by
  unfold pair_conf_stress
  split_ifs with h1
  · have hS : B.STRESS = true := by
      cases hB : B.STRESS
      · rw [hB] at h1; simp at h1
      · rfl
    exact pair_stress_loop_agree G h 6 ha (hX hS)
  · exact ⟨ha, by simp⟩

/-- The evaluation of one configuration makes two runs agree on the offsets
it writes, keeps them in agreement elsewhere, and adds the same amount to
the local sum. -/
theorem pair_conf_agree (B : Build) (G : Globals) (S : Splines) (h : Nat)
    {X : Nat → Prop} {s t : St} (ha : Agree X s.forces t.forces) :
    Agree (fun k => X k ∨ conf_slot B G h k)
        (pair_conf B G S h s).forces (pair_conf B G S h t).forces ∧
      (pair_conf B G S h s).tmpsum - s.tmpsum
        = (pair_conf B G S h t).tmpsum - t.tmpsum := by
  have h1 := pair_conf_reset_agree B G h (G.conf_uf (h - G.firstconf)) ha
  have h2 := pair_atoms_agree B G S h (G.conf_uf (h - G.firstconf))
    (G.conf_us (h - G.firstconf)) (G.inconf h)
    (s := ⟨pair_conf_reset B G h (G.conf_uf (h - G.firstconf)) s.forces, s.tmpsum⟩)
    (t := ⟨pair_conf_reset B G h (G.conf_uf (h - G.firstconf)) t.forces, t.tmpsum⟩)
    h1 (fun k hk => Or.inr (Or.inr (Or.inl hk)))
  have h3 := pair_conf_energy_agree G h h2.1 (Or.inr (Or.inl rfl))
  have h4 := pair_conf_stress_agree B G h (G.conf_uf (h - G.firstconf))
    (G.conf_us (h - G.firstconf)) h3.1
    (fun hS i hi => Or.inr (Or.inr (Or.inr ⟨hS, by omega, by omega⟩)))
  unfold pair_conf
  refine ⟨h4.1, ?_⟩
  have e2 := h2.2
  have e3 := h3.2
  have e4 := h4.2
  simp only [] at e2 e3 e4 ⊢
  linarith

/-! ## Well-formed data sets and frame lemmas -/

theorem HalfList.neighIn {G : Globals} {h : Nat} (hh : HalfList G h) : NeighIn G h :=
  fun i hi n hn => ⟨by have := (hh i hi n hn).1; omega, (hh i hi n hn).2⟩

theorem Layout.cnf_le {G : Globals} (hL : Layout G) (h d : Nat) (hd : h + d + 1 ≤ G.nconf) :
    G.cnfstart h + G.inconf h ≤ G.cnfstart (h + d + 1) := by
  induction d with
  | zero => rw [Nat.add_zero, hL.cnf_succ h (by omega)]
  | succ d ih =>
    have h1 := ih (by omega)
    have h2 := hL.cnf_succ (h + d + 1) (by omega)
    rw [show h + (d + 1) + 1 = (h + d + 1) + 1 by omega, h2]
    omega

theorem Layout.cnf_lt {G : Globals} (hL : Layout G) {h h' : Nat} (hlt : h < h')
    (hn : h' ≤ G.nconf) : G.cnfstart h + G.inconf h ≤ G.cnfstart h' := by
  have := hL.cnf_le h (h' - h - 1) (by omega)
  rwa [show h + (h' - h - 1) + 1 = h' by omega] at this

theorem Layout.cnf_mono {G : Globals} (hL : Layout G) {h h' : Nat} (hle : h ≤ h')
    (hn : h' ≤ G.nconf) : G.cnfstart h ≤ G.cnfstart h' := by
  rcases Nat.eq_or_lt_of_le hle with he | hlt
  · rw [he]
  · have := hL.cnf_lt hlt hn
    omega

theorem Layout.force_lt {G : Globals} (hL : Layout G) {h : Nat} (hn : h < G.nconf) :
    3 * (G.cnfstart h + G.inconf h) ≤ G.energy_p := by
  have h1 : G.cnfstart h + G.inconf h ≤ G.cnfstart G.nconf := by
    rcases Nat.eq_or_lt_of_le (Nat.succ_le_of_lt hn) with he | hlt
    · rw [← he, Nat.succ_eq_add_one, hL.cnf_succ h hn]
    · exact hL.cnf_lt hn (le_refl _)
  have h2 := hL.atoms_le
  have h3 := hL.energy_ge
  omega

/-- The offsets written for two different configurations are different. -/
theorem conf_slot_disjoint (B : Build) {G : Globals} (hL : Layout G) {h h' : Nat}
    (hn : h < G.nconf) (hn' : h' < G.nconf) (hne : h ≠ h') {k : Nat}
    (hk : conf_slot B G h k) : ¬ conf_slot B G h' k := by
  have f1 := hL.force_lt hn
  have f2 := hL.force_lt hn'
  have s1 := hL.stress_ge
  unfold conf_slot at hk ⊢
  rcases Nat.lt_or_gt_of_ne hne with hlt | hgt
  · have c := hL.cnf_lt hlt (le_of_lt hn')
    omega
  · have c := hL.cnf_lt hgt (le_of_lt hn)
    omega

theorem pair_delta_conf_frame (B : Build) (G : Globals) (S : Splines) (h : Nat) (uf us : Bool)
    (i : Nat) (n : neigh_t) (k : Nat) (hi : i < G.inconf h)
    (hn : G.cnfstart h ≤ n.nr ∧ n.nr < G.cnfstart h + G.inconf h)
    (hk : ¬ conf_slot B G h k) : pair_delta B G S h uf us i n k = 0 := by
  unfold conf_slot at hk
  cases hS : B.STRESS
  · apply pair_delta_nostress
    · rw [hS]; rfl
    · omega
  · apply pair_delta_frame
    unfold pair_touched
    rw [hS] at hk
    simp only [true_and] at hk
    omega

theorem pair_atom_frame (B : Build) (G : Globals) (S : Splines) (h : Nat) (uf us : Bool)
    (i : Nat) (st : St) (k : Nat) (hi : i < G.inconf h) (hN : NeighIn G h)
    (hk : ¬ conf_slot B G h k) :
    (pair_atom B G S h uf us i st).forces.get k = st.forces.get k := by
  have hf : ((G.conf_atoms (i + G.cnfstart h - G.firstatom)).neigh.foldl
      (pair_neigh B G S h uf us i) st.forces).get k = st.forces.get k := by
    rw [pair_foldl_get]
    have hz : ((G.conf_atoms (i + G.cnfstart h - G.firstatom)).neigh.map
        (fun n => pair_delta B G S h uf us i n k)).sum = 0 := by
      apply List.sum_eq_zero
      intro x hx
      obtain ⟨n, hn, rfl⟩ := List.mem_map.1 hx
      exact pair_delta_conf_frame B G S h uf us i n k hi (hN i hi n hn) hk
    rw [hz, add_zero]
  have h0 : k ≠ 3 * (G.cnfstart h + i) + 0 := by unfold conf_slot at hk; omega
  have h1 : k ≠ 3 * (G.cnfstart h + i) + 1 := by unfold conf_slot at hk; omega
  have h2 : k ≠ 3 * (G.cnfstart h + i) + 2 := by unfold conf_slot at hk; omega
  unfold pair_atom
  simp only []
  split_ifs <;> simp only [divf_get, if_neg h0, if_neg h1, if_neg h2, hf]

theorem pair_atoms_frame (B : Build) (G : Globals) (S : Splines) (h : Nat) (uf us : Bool)
    (m : Nat) (st : St) (k : Nat) (hm : m ≤ G.inconf h) (hN : NeighIn G h)
    (hk : ¬ conf_slot B G h k) :
    (forLoop (pair_atom B G S h uf us) m st).forces.get k = st.forces.get k := by
  induction m with
  | zero => rfl
  | succ m ih =>
    rw [forLoop_succ, pair_atom_frame B G S h uf us m _ k (by omega) hN hk, ih (by omega)]

theorem pair_stress_term_frame (G : Globals) (h i : Nat) (st : St) (k : Nat)
    (hk : k ≠ G.stress_p + 6 * h + i) :
    (pair_stress_term G h i st).forces.get k = st.forces.get k := by
  unfold pair_stress_term
  simp only [subf_get, divf_get]
  rw [if_neg hk, if_neg hk, sub_zero]

theorem pair_stress_loop_frame (G : Globals) (h m : Nat) (st : St) (k : Nat)
    (hk : ¬ (G.stress_p + 6 * h ≤ k ∧ k < G.stress_p + 6 * h + m)) :
    (forLoop (pair_stress_term G h) m st).forces.get k = st.forces.get k := by
  induction m with
  | zero => rfl
  | succ m ih =>
    rw [forLoop_succ, pair_stress_term_frame G h m _ k (by omega)]
    exact ih (by omega)

/-- The evaluation of configuration `h` changes no offset outside
`conf_slot`, provided the neighbors of `h` are atoms of `h`. -/
theorem pair_conf_frame (B : Build) (G : Globals) (S : Splines) (h : Nat) (st : St)
    (k : Nat) (hN : NeighIn G h) (hk : ¬ conf_slot B G h k) :
    (pair_conf B G S h st).forces.get k = st.forces.get k := by
  have hk' := hk
  unfold conf_slot at hk'
  unfold pair_conf
  simp only []
  have hs : ∀ t : St, (pair_conf_stress B G h (G.conf_uf (h - G.firstconf))
      (G.conf_us (h - G.firstconf)) t).forces.get k = t.forces.get k := by
    intro t
    unfold pair_conf_stress
    split_ifs with h1
    · apply pair_stress_loop_frame
      have hS : B.STRESS = true := by
        cases hB : B.STRESS
        · rw [hB] at h1; simp at h1
        · rfl
      rw [hS] at hk'
      simp only [true_and] at hk'
      omega
    · rfl
  have he : ∀ t : St, (pair_conf_energy G h t).forces.get k = t.forces.get k := by
    intro t
    unfold pair_conf_energy
    simp only [subf_get, divf_get]
    rw [if_neg (by omega), if_neg (by omega), sub_zero]
  rw [hs, he, pair_atoms_frame B G S h _ _ _ _ k (le_refl _) hN hk, pair_conf_reset_get]
  rw [if_neg (by omega), if_neg (by tauto), if_neg (by omega)]

/-! ## Lemmas on the configuration loop -/

theorem pair_conf_tmpsum (B : Build) (G : Globals) (S : Splines) (h : Nat) (st : St) :
    (pair_conf B G S h st).tmpsum = st.tmpsum + pair_conf_term B G S h := by
  have h1 := (pair_conf_agree B G S h (X := fun _ => False) (s := st)
    (t := ⟨⟨fun _ => 0⟩, 0⟩) (fun _ hk => hk.elim)).2
  unfold pair_conf_term
  simp only [sub_zero] at h1
  linarith

theorem pair_conf_value (B : Build) (G : Globals) (S : Splines) (h : Nat) (st : St)
    (k : Nat) (hk : conf_slot B G h k) :
    (pair_conf B G S h st).forces.get k = pair_conf_val B G S h k :=
  (pair_conf_agree B G S h (X := fun _ => False) (s := st)
    (t := ⟨⟨fun _ => 0⟩, 0⟩) (fun _ hk => hk.elim)).1 k (Or.inr hk)

theorem pair_loop_tmpsum (B : Build) (G : Globals) (S : Splines) (p n : Nat) (st : St) :
    (forLoop (fun j => pair_conf B G S (p + j)) n st).tmpsum
      = st.tmpsum + ∑ j in Finset.range n, pair_conf_term B G S (p + j) := by
  induction n with
  | zero => simp [forLoop]
  | succ n ih =>
    rw [forLoop_succ, pair_conf_tmpsum, ih, Finset.sum_range_succ]
    ring

theorem pair_loop_frame (B : Build) (G : Globals) (S : Splines) (p n : Nat) (st : St)
    (k : Nat) (hN : ∀ j, j < n → NeighIn G (p + j))
    (hk : ∀ j, j < n → ¬ conf_slot B G (p + j) k) :
    (forLoop (fun j => pair_conf B G S (p + j)) n st).forces.get k = st.forces.get k := by
  induction n with
  | zero => rfl
  | succ n ih =>
    rw [forLoop_succ, pair_conf_frame B G S (p + n) _ k (hN n (by omega)) (hk n (by omega))]
    exact ih (fun j hj => hN j (by omega)) (fun j hj => hk j (by omega))

theorem pair_loop_value (B : Build) (G : Globals) (S : Splines) (hL : Layout G)
    (p n : Nat) (hn : p + n ≤ G.nconf) (hN : ∀ h, h < G.nconf → NeighIn G h) (st : St)
    (j : Nat) (hj : j < n) (k : Nat) (hk : conf_slot B G (p + j) k) :
    (forLoop (fun j => pair_conf B G S (p + j)) n st).forces.get k
      = pair_conf_val B G S (p + j) k := by
  induction n with
  | zero => omega
  | succ n ih =>
    rw [forLoop_succ]
    rcases Nat.eq_or_lt_of_le (Nat.le_of_lt_succ hj) with he | hlt
    · subst he
      exact pair_conf_value B G S (p + j) _ k hk
    · rw [pair_conf_frame B G S (p + n) _ k (hN _ (by omega))
        (conf_slot_disjoint B hL (by omega) (by omega) (by omega) hk)]
      exact ih (by omega) hlt

theorem pair_atom_view (B : Build) (G : Globals) (S : Splines) (hL : Layout G)
    (ha : G.firstatom = 0) (p c h : Nat) (hp : p ≤ h) (hn : h ≤ G.nconf) (uf us : Bool)
    (i : Nat) (st : St) :
    pair_atom B (partition G p c) S h uf us i st = pair_atom B G S h uf us i st := by
  have hc := hL.cnf_mono hp hn
  have e : (partition G p c).conf_atoms (i + (partition G p c).cnfstart h
      - (partition G p c).firstatom) = G.conf_atoms (i + G.cnfstart h - G.firstatom) := by
    show G.conf_atoms (G.cnfstart p + (i + G.cnfstart h - G.cnfstart p)) = _
    rw [ha]
    congr 1
    omega
  unfold pair_atom
  simp only []
  rw [e]
  rfl

theorem pair_conf_view (B : Build) (G : Globals) (S : Splines) (hL : Layout G)
    (h0 : G.firstconf = 0) (ha : G.firstatom = 0) (p c h : Nat) (hp : p ≤ h)
    (hn : h ≤ G.nconf) (st : St) :
    pair_conf B (partition G p c) S h st = pair_conf B G S h st := by
  have eu : (partition G p c).conf_uf (h - (partition G p c).firstconf)
      = G.conf_uf (h - G.firstconf) := by
    show G.conf_uf (p + (h - p)) = _
    rw [h0]
    congr 1
    omega
  have es : (partition G p c).conf_us (h - (partition G p c).firstconf)
      = G.conf_us (h - G.firstconf) := by
    show G.conf_us (p + (h - p)) = _
    rw [h0]
    congr 1
    omega
  have ev : (partition G p c).conf_vol (h - (partition G p c).firstconf)
      = G.conf_vol (h - G.firstconf) := by
    show G.conf_vol (p + (h - p)) = _
    rw [h0]
    congr 1
    omega
  have e1 : ∀ i t, pair_stress_term (partition G p c) h i t = pair_stress_term G h i t := by
    intro i t
    unfold pair_stress_term
    simp only []
    rw [ev]
    rfl
  have e2 : ∀ uf us t, pair_conf_stress B (partition G p c) h uf us t
      = pair_conf_stress B G h uf us t := by
    intro uf us t
    unfold pair_conf_stress
    rw [forLoop_congr _ _ 6 t (fun i _ t => e1 i t)]
  have e3 : ∀ uf us t, forLoop (pair_atom B (partition G p c) S h uf us)
      ((partition G p c).inconf h) t = forLoop (pair_atom B G S h uf us) (G.inconf h) t := by
    intro uf us t
    exact forLoop_congr _ _ _ t (fun i _ t => pair_atom_view B G S hL ha p c h hp hn uf us i t)
  unfold pair_conf
  simp only []
  rw [eu, es, e2, e3]
  rfl

theorem pair_loop_view (B : Build) (G : Globals) (S : Splines) (hL : Layout G)
    (h0 : G.firstconf = 0) (ha : G.firstatom = 0) (p c : Nat) (hn : p + c ≤ G.nconf)
    (st : St) :
    pair_conf_loop B (partition G p c) S st
      = forLoop (fun j => pair_conf B G S (p + j)) c st := by
  show forLoop (fun j => pair_conf B (partition G p c) S (p + j)) c st = _
  exact forLoop_congr _ _ _ st
    (fun j hj t => pair_conf_view B G S hL h0 ha p c (p + j) (by omega) (by omega) t)

theorem calc_forces_pair_root (B : Build) (G : Globals) (S : Splines) (fuel : Nat)
    (f : Buf) (h0 : G.myid = 0) :
    calc_forces_pair B G S (fuel + 1) f
      = some ⟨pair_return (Dbl.fin (pair_pass B G S f).tmpsum), (pair_pass B G S f).forces,
          G.fcalls + 1⟩ := by
  unfold calc_forces_pair
  simp only [h0, if_true]

theorem pair_loop_agree (B : Build) (G : Globals) (S : Splines) (p n : Nat)
    {X : Nat → Prop} {s t : St} (ha : Agree X s.forces t.forces) :
    Agree (fun k => X k ∨ ∃ j, j < n ∧ conf_slot B G (p + j) k)
      (forLoop (fun j => pair_conf B G S (p + j)) n s).forces
      (forLoop (fun j => pair_conf B G S (p + j)) n t).forces := by
  induction n with
  | zero => exact fun k hk => hk.elim (ha k) (fun ⟨j, hj, _⟩ => absurd hj (Nat.not_lt_zero j))
  | succ n ih =>
    rw [forLoop_succ, forLoop_succ]
    refine (pair_conf_agree B G S (p + n) ih).1.mono ?_
    rintro k (hk | ⟨j, hj, hk⟩)
    · exact Or.inl (Or.inl hk)
    · rcases Nat.eq_or_lt_of_le (Nat.le_of_lt_succ hj) with he | hlt
      · subst he
        exact Or.inr hk
      · exact Or.inl (Or.inr ⟨j, hlt, hk⟩)

theorem pair_pass_fcalls (B : Build) (G : Globals) (S : Splines) (c : Nat) (f : Buf) :
    pair_pass B { G with myconf := G.nconf, fcalls := c } S f = pair_pass B G S f := rfl

theorem exG_layout : Layout exG :=
  ⟨by decide, by decide, by decide, by decide⟩

theorem exG_halfList : ∀ h, h < exG.nconf → HalfList exG h := by
  unfold HalfList
  decide

theorem exG_neighIn : ∀ h, h < exG.nconf → NeighIn exG h :=
  fun h hh => (exG_halfList h hh).neighIn

/-! ## Closed forms for the second loop over atoms -/

theorem pair_pass_eq (B : Build) (G : Globals) (S : Splines) (f : Buf) :
    pair_pass B G S f
      = forLoop (fun j => pair_conf B G S (G.firstconf + j)) G.nconf ⟨f, 0⟩ := rfl

theorem pair_atom_get (B : Build) (G : Globals) (S : Splines) (h : Nat) (uf us : Bool)
    (i : Nat) (st : St) (k : Nat)
    (hF : B.FWEIGHT = true → uf = true →
      ¬ (3 * (G.cnfstart h + i) ≤ k ∧ k < 3 * (G.cnfstart h + i) + 3)) :
    (pair_atom B G S h uf us i st).forces.get k
      = st.forces.get k + ((G.conf_atoms (i + G.cnfstart h - G.firstatom)).neigh.map
          (fun n => pair_delta B G S h uf us i n k)).sum := by
  unfold pair_atom
  simp only []
  cases hB : B.FWEIGHT
  · simp only [Bool.false_eq_true, if_false]
    split_ifs <;> exact pair_foldl_get B G S h uf us i _ _ k
  · cases uf
    · simp only [Bool.false_eq_true, if_false]
      exact pair_foldl_get B G S h false us i _ _ k
    · have hF' := hF hB rfl
      have h0 : k ≠ 3 * (G.cnfstart h + i) + 0 := by omega
      have h1 : k ≠ 3 * (G.cnfstart h + i) + 1 := by omega
      have h2 : k ≠ 3 * (G.cnfstart h + i) + 2 := by omega
      simp only [if_true]
      split_ifs <;>
        simp only [divf_get, if_neg h0, if_neg h1, if_neg h2] <;>
        exact pair_foldl_get B G S h true us i _ _ k

theorem pair_atoms_get (B : Build) (G : Globals) (S : Splines) (h : Nat) (uf us : Bool)
    (m : Nat) (st : St) (k : Nat)
    (hF : B.FWEIGHT = true → uf = true →
      ¬ (3 * G.cnfstart h ≤ k ∧ k < 3 * (G.cnfstart h + m))) :
    (forLoop (pair_atom B G S h uf us) m st).forces.get k
      = st.forces.get k + ∑ i in Finset.range m,
          ((G.conf_atoms (i + G.cnfstart h - G.firstatom)).neigh.map
            (fun n => pair_delta B G S h uf us i n k)).sum := by
  induction m with
  | zero => simp [forLoop]
  | succ m ih =>
    rw [forLoop_succ,
      pair_atom_get B G S h uf us m _ k (fun hB hu => by have := hF hB hu; omega),
      ih (fun hB hu => by have := hF hB hu; omega), Finset.sum_range_succ]
    ring

/-- The contribution of one neighbor to the energy slot. -/
theorem pair_delta_energy (B : Build) (G : Globals) (S : Splines) (h : Nat) (uf us : Bool)
    (i : Nat) (n : neigh_t) (hL : Layout G) (hh : h < G.nconf) (hi : i < G.inconf h)
    (hn : G.cnfstart h ≤ n.nr ∧ n.nr < G.cnfstart h + G.inconf h) :
    pair_delta B G S h uf us i n (G.energy_p + h)
      = if n.r < G.pot_end (n.col 0) then
          (if n.nr = G.cnfstart h + i then 1 / 2 else 1) * (pair_phi S uf n).1
        else 0 := by
  have hf := hL.force_lt hh
  have hs := hL.stress_ge
  rw [pair_delta_eq, Nat.add_comm i (G.cnfstart h)]
  by_cases hr : n.r < G.pot_end (n.col 0)
  · simp only [hr, if_true]
    rw [slot3_ne _ _ (by omega), slot3_ne _ _ (by omega),
      stress_update_frame _ _ _ _ _ (by omega)]
    simp only [sub_zero, ite_self, add_zero]
    unfold pair_halved
    split_ifs <;> ring
  · simp only [hr, if_false]

theorem pair_conf_stress_frame (B : Build) (G : Globals) (h : Nat) (uf us : Bool) (st : St)
    (k : Nat) (hk : ¬ (G.stress_p + 6 * h ≤ k ∧ k < G.stress_p + 6 * h + 6)) :
    (pair_conf_stress B G h uf us st).forces.get k = st.forces.get k := by
  unfold pair_conf_stress
  split_ifs
  · exact pair_stress_loop_frame G h 6 st k hk
  · rfl

theorem pair_conf_stress_tmpsum (B : Build) (G : Globals) (h : Nat) (uf us : Bool) (f : Buf)
    (a b : ℚ) :
    (pair_conf_stress B G h uf us ⟨f, a⟩).tmpsum - a
      = (pair_conf_stress B G h uf us ⟨f, b⟩).tmpsum - b :=
  (pair_conf_stress_agree B G h uf us (X := fun _ => True) (s := ⟨f, a⟩) (t := ⟨f, b⟩)
    (fun _ _ => rfl) (fun _ _ _ => trivial)).2

theorem pair_conf_stress_forces (B : Build) (G : Globals) (h : Nat) (uf us : Bool) (f : Buf)
    (a b : ℚ) (k : Nat) :
    (pair_conf_stress B G h uf us ⟨f, a⟩).forces.get k
      = (pair_conf_stress B G h uf us ⟨f, b⟩).forces.get k :=
  (pair_conf_stress_agree B G h uf us (X := fun _ => True) (s := ⟨f, a⟩) (t := ⟨f, b⟩)
    (fun _ _ => rfl) (fun _ _ _ => trivial)).1 k trivial

/-- The energy slot that the evaluation of configuration `h` leaves. -/
theorem pair_conf_val_energy (B : Build) (G : Globals) (S : Splines) (h : Nat)
    (hL : Layout G) (hh : h < G.nconf) (hN : NeighIn G h) :
    pair_conf_val B G S h (G.energy_p + h)
      = (∑ i in Finset.range (G.inconf h),
          ((G.conf_atoms (i + G.cnfstart h - G.firstatom)).neigh.map
            (fun n => if n.r < G.pot_end (n.col 0) then
                (if n.nr = G.cnfstart h + i then 1 / 2 else 1)
                  * (pair_phi S (G.conf_uf (h - G.firstconf)) n).1
              else 0)).sum) / (G.inconf h : ℚ) - G.force_0 (G.energy_p + h) := by
  have hf := hL.force_lt hh
  have hs := hL.stress_ge
  unfold pair_conf_val pair_conf
  simp only []
  rw [pair_conf_stress_frame B G h _ _ _ _ (by omega)]
  unfold pair_conf_energy
  simp only [subf_get, divf_get, if_true]
  rw [pair_atoms_get B G S h _ _ _ _ _ (fun _ _ => by omega), pair_conf_reset_get]
  rw [if_neg (by omega), if_neg (by omega), if_pos rfl, zero_add]
  have hsum : ∀ i, i ∈ Finset.range (G.inconf h) →
      ((G.conf_atoms (i + G.cnfstart h - G.firstatom)).neigh.map
        (fun n => pair_delta B G S h (G.conf_uf (h - G.firstconf))
          (G.conf_us (h - G.firstconf)) i n (G.energy_p + h))).sum
      = ((G.conf_atoms (i + G.cnfstart h - G.firstatom)).neigh.map
          (fun n => if n.r < G.pot_end (n.col 0) then
              (if n.nr = G.cnfstart h + i then 1 / 2 else 1)
                * (pair_phi S (G.conf_uf (h - G.firstconf)) n).1
            else 0)).sum := by
    intro i hi
    congr 1
    apply List.map_congr_left
    intro n hn
    exact pair_delta_energy B G S h _ _ i n hL hh (Finset.mem_range.1 hi)
      (hN i (Finset.mem_range.1 hi) n hn)
  rw [Finset.sum_congr rfl hsum]

/-- The energy term of configuration `h` in the local sum: the local sum is
the one for energy weight 0 plus the weighted square of the energy slot. -/
theorem pair_conf_term_energy (B : Build) (G : Globals) (S : Splines) (h : Nat)
    (hL : Layout G) (hh : h < G.nconf) :
    pair_conf_term B G S h
      = pair_conf_term B { G with eweight := 0 } S h
        + G.conf_weight h * G.eweight * dsquare (pair_conf_val B G S h (G.energy_p + h)) := by
  have hs := hL.stress_ge
  unfold pair_conf_term pair_conf_val pair_conf
  simp only []
  rw [pair_conf_stress_frame B G h _ _ _ _ (by omega)]
  generalize hA : forLoop (pair_atom B G S h (G.conf_uf (h - G.firstconf))
    (G.conf_us (h - G.firstconf))) (G.inconf h)
    ⟨pair_conf_reset B G h (G.conf_uf (h - G.firstconf)) ⟨fun _ => 0⟩, 0⟩ = A
  have hA0 : forLoop (pair_atom B { G with eweight := 0 } S h (G.conf_uf (h - G.firstconf))
      (G.conf_us (h - G.firstconf))) (G.inconf h)
      ⟨pair_conf_reset B { G with eweight := 0 } h (G.conf_uf (h - G.firstconf))
        ⟨fun _ => 0⟩, 0⟩ = A := hA
  have e1 : pair_conf_energy G h A
      = ⟨(pair_conf_energy G h A).forces, A.tmpsum + G.conf_weight h * G.eweight
          * dsquare ((pair_conf_energy G h A).forces.get (G.energy_p + h))⟩ := rfl
  have e2 : pair_conf_energy { G with eweight := 0 } h A
      = ⟨(pair_conf_energy G h A).forces, A.tmpsum + G.conf_weight h * 0
          * dsquare ((pair_conf_energy G h A).forces.get (G.energy_p + h))⟩ := rfl
  show (pair_conf_stress B G h _ _ (pair_conf_energy G h A)).tmpsum
    = (pair_conf_stress B G h _ _ (pair_conf_energy { G with eweight := 0 } h _)).tmpsum + _
  rw [hA0, e1, e2]
  have e3 := pair_conf_stress_tmpsum B G h (G.conf_uf (h - G.firstconf))
    (G.conf_us (h - G.firstconf)) (pair_conf_energy G h A).forces
    (A.tmpsum + G.conf_weight h * G.eweight
      * dsquare ((pair_conf_energy G h A).forces.get (G.energy_p + h)))
    (A.tmpsum + G.conf_weight h * 0
      * dsquare ((pair_conf_energy G h A).forces.get (G.energy_p + h)))
  linarith

/-! ## Closed forms for the force slots -/

/-- The contribution of one neighbor of atom `i` to slot `k` of atom `a`, both
atoms of configuration `h`, when forces are used. -/
theorem pair_delta_force (B : Build) (G : Globals) (S : Splines) (h : Nat) (us : Bool)
    (i a k : Nat) (n : neigh_t) (hL : Layout G) (hh : h < G.nconf)
    (ha : a < G.inconf h) (hk : k < 3) :
    pair_delta B G S h true us i n (3 * (G.cnfstart h + a) + k)
      = (if i = a then pair_tmp_force G S (G.cnfstart h + i) n k else 0)
        - (if n.nr = G.cnfstart h + a then pair_tmp_force G S (G.cnfstart h + i) n k
            else 0) := by
  have hf := hL.force_lt hh
  have hs := hL.stress_ge
  rw [pair_delta_eq]
  unfold pair_tmp_force vector.comp pair_halved
  rw [Nat.add_comm i (G.cnfstart h)]
  by_cases hr : n.r < G.pot_end (n.col 0)
  · simp only [hr, if_true]
    rw [slot3_ite _ _ k hk, slot3_ite _ _ k hk]
    rw [if_neg (by omega), stress_update_frame _ _ _ _ _ (by omega)]
    have e1 : (G.cnfstart h + i = G.cnfstart h + a) = (i = a) := by
      simp only [Nat.add_left_cancel_iff]
    simp only [e1, add_zero, ite_self, sub_zero, zero_add]
    split_ifs <;> ring
  · simp only [hr, if_false, ite_self, sub_self]

/-! ## The force slots on return -/

theorem pair_conf_energy_frame (G : Globals) (h : Nat) (st : St) (k : Nat)
    (hk : k ≠ G.energy_p + h) :
    (pair_conf_energy G h st).forces.get k = st.forces.get k := by
  unfold pair_conf_energy
  simp only [subf_get, divf_get, if_neg hk, sub_zero]

theorem pair_atom_tmpsum_nouf (B : Build) (G : Globals) (S : Splines) (h : Nat) (us : Bool)
    (i : Nat) (st : St) : (pair_atom B G S h false us i st).tmpsum = st.tmpsum := rfl

theorem pair_atoms_tmpsum_nouf (B : Build) (G : Globals) (S : Splines) (h : Nat) (us : Bool)
    (m : Nat) (st : St) :
    (forLoop (pair_atom B G S h false us) m st).tmpsum = st.tmpsum := by
  induction m with
  | zero => rfl
  | succ m ih => rw [forLoop_succ, pair_atom_tmpsum_nouf, ih]

/-- Without forces the evaluation of a configuration adds nothing to the
local sum when the energy weight is 0. -/
theorem pair_conf_term_nouf (B : Build) (G : Globals) (S : Splines) (h : Nat)
    (hu : G.conf_uf (h - G.firstconf) = false) (he : G.eweight = 0) :
    pair_conf_term B G S h = 0 := by
  unfold pair_conf_term pair_conf
  simp only [hu]
  unfold pair_conf_stress pair_conf_energy
  simp only [he, Bool.false_and, Bool.and_false, Bool.false_eq_true, if_false,
    pair_atoms_tmpsum_nouf, mul_zero, zero_mul, add_zero]

/-- The force slot `k` of atom `a` that the evaluation of configuration `h`
leaves when forces are used (build without `FWEIGHT`). -/
theorem pair_conf_val_force (B : Build) (G : Globals) (S : Splines) (h a k : Nat)
    (hF : B.FWEIGHT = false) (hL : Layout G) (hh : h < G.nconf) (ha : a < G.inconf h)
    (hk : k < 3) (hu : G.conf_uf (h - G.firstconf) = true) (hfa : G.firstatom = 0) :
    pair_conf_val B G S h (3 * (G.cnfstart h + a) + k) = pair_force_value G S h a k := by
  have hf := hL.force_lt hh
  have hs := hL.stress_ge
  unfold pair_conf_val pair_conf
  simp only []
  rw [pair_conf_stress_frame B G h _ _ _ _ (by omega),
    pair_conf_energy_frame G h _ _ (by omega),
    pair_atoms_get B G S h _ _ _ _ _ (fun hB _ => by rw [hF] at hB; cases hB),
    pair_conf_reset_get]
  simp only []
  rw [if_pos (by omega), hu, if_pos rfl]
  have hsum : ∀ i, i ∈ Finset.range (G.inconf h) →
      ((G.conf_atoms (i + G.cnfstart h - G.firstatom)).neigh.map
        (fun n => pair_delta B G S h true (G.conf_us (h - G.firstconf)) i n
          (3 * (G.cnfstart h + a) + k))).sum
      = (if i = a then ((G.conf_atoms (G.cnfstart h + i)).neigh.map
            (fun n => pair_tmp_force G S (G.cnfstart h + i) n k)).sum else 0)
        - ((G.conf_atoms (G.cnfstart h + i)).neigh.map
            (fun n => if n.nr = G.cnfstart h + a then
              pair_tmp_force G S (G.cnfstart h + i) n k else 0)).sum := by
    intro i _
    rw [hfa, Nat.sub_zero, Nat.add_comm i, ← list_sum_map_ite, ← list_sum_map_sub]
    congr 1
    apply List.map_congr_left
    intro n _
    exact pair_delta_force B G S h _ i a k n hL hh ha hk
  rw [Finset.sum_congr rfl hsum, Finset.sum_sub_distrib, Finset.sum_ite_eq',
    if_pos (Finset.mem_range.2 ha)]
  unfold pair_force_value
  ring

/-- A force slot of a configuration evaluated without forces is left at 0. -/
theorem pair_conf_val_nouf (B : Build) (G : Globals) (S : Splines) (h a k : Nat)
    (hL : Layout G) (hh : h < G.nconf) (ha : a < G.inconf h) (hk : k < 3)
    (hu : G.conf_uf (h - G.firstconf) = false) :
    pair_conf_val B G S h (3 * (G.cnfstart h + a) + k) = 0 := by
  have hf := hL.force_lt hh
  have hs := hL.stress_ge
  unfold pair_conf_val pair_conf
  simp only []
  rw [pair_conf_stress_frame B G h _ _ _ _ (by omega),
    pair_conf_energy_frame G h _ _ (by omega), hu,
    pair_atoms_get B G S h _ _ _ _ _ (fun _ hu => by cases hu), pair_conf_reset_get]
  simp only []
  rw [if_pos (by omega)]
  simp only [Bool.false_eq_true, if_false, zero_add]
  apply Finset.sum_eq_zero
  intro i _
  apply List.sum_eq_zero
  intro x hx
  obtain ⟨n, _, rfl⟩ := List.mem_map.1 hx
  exact pair_delta_nouf B G S h _ i n _ (by omega)

/-! ## The local sum as a sum of squares of the residual slots -/

/-- With half neighbor lists the neighbor loop of atom `i` leaves the force
slots of the atoms before `i` alone. -/
theorem pair_atom_lower (B : Build) (G : Globals) (S : Splines) (h : Nat) (us : Bool)
    (i a k : Nat) (st : St) (hF : B.FWEIGHT = false) (hL : Layout G) (hh : h < G.nconf)
    (hi : i < G.inconf h) (hH : HalfList G h) (ha : a < i) (hk : k < 3) :
    (pair_atom B G S h true us i st).forces.get (3 * (G.cnfstart h + a) + k)
      = st.forces.get (3 * (G.cnfstart h + a) + k) := by
  rw [pair_atom_get B G S h true us i st _ (fun hB _ => by rw [hF] at hB; cases hB)]
  have hz : ((G.conf_atoms (i + G.cnfstart h - G.firstatom)).neigh.map
      (fun n => pair_delta B G S h true us i n (3 * (G.cnfstart h + a) + k))).sum = 0 := by
    apply List.sum_eq_zero
    intro x hx
    obtain ⟨n, hn, rfl⟩ := List.mem_map.1 hx
    have h1 := hH i hi n hn
    rw [pair_delta_force B G S h us i a k n hL hh (by omega) hk, if_neg (by omega),
      if_neg (by omega), sub_zero]
  rw [hz, add_zero]

theorem pair_atom_tmpsum (B : Build) (G : Globals) (S : Splines) (h : Nat) (us : Bool)
    (i : Nat) (st : St) (hF : B.FWEIGHT = false) (hC : B.CONTRIB = false) :
    (pair_atom B G S h true us i st).tmpsum
      = st.tmpsum + G.conf_weight h *
        (dsquare ((pair_atom B G S h true us i st).forces.get (3 * (G.cnfstart h + i) + 0))
          + dsquare ((pair_atom B G S h true us i st).forces.get (3 * (G.cnfstart h + i) + 1))
          + dsquare ((pair_atom B G S h true us i st).forces.get
              (3 * (G.cnfstart h + i) + 2))) := by
  unfold pair_atom
  simp only [hF, hC, Bool.false_and, Bool.false_eq_true, if_false, if_true]

theorem pair_atoms_sq (B : Build) (G : Globals) (S : Splines) (h : Nat) (us : Bool)
    (m : Nat) (st : St) (hF : B.FWEIGHT = false) (hC : B.CONTRIB = false) (hL : Layout G)
    (hh : h < G.nconf) (hm : m ≤ G.inconf h) (hH : HalfList G h) :
    (forLoop (pair_atom B G S h true us) m st).tmpsum
      = st.tmpsum + G.conf_weight h * ∑ a in Finset.range m,
        (dsquare ((forLoop (pair_atom B G S h true us) m st).forces.get
            (3 * (G.cnfstart h + a) + 0))
          + dsquare ((forLoop (pair_atom B G S h true us) m st).forces.get
            (3 * (G.cnfstart h + a) + 1))
          + dsquare ((forLoop (pair_atom B G S h true us) m st).forces.get
            (3 * (G.cnfstart h + a) + 2))) := by
  induction m with
  | zero => simp [forLoop]
  | succ m ih =>
    have ih' := ih (by omega)
    rw [forLoop_succ, pair_atom_tmpsum B G S h us m _ hF hC, ih', Finset.sum_range_succ]
    have hl : ∀ a, a ∈ Finset.range m →
        (dsquare ((pair_atom B G S h true us m
              (forLoop (pair_atom B G S h true us) m st)).forces.get
            (3 * (G.cnfstart h + a) + 0))
          + dsquare ((pair_atom B G S h true us m
              (forLoop (pair_atom B G S h true us) m st)).forces.get
            (3 * (G.cnfstart h + a) + 1))
          + dsquare ((pair_atom B G S h true us m
              (forLoop (pair_atom B G S h true us) m st)).forces.get
            (3 * (G.cnfstart h + a) + 2)))
        = (dsquare ((forLoop (pair_atom B G S h true us) m st).forces.get
            (3 * (G.cnfstart h + a) + 0))
          + dsquare ((forLoop (pair_atom B G S h true us) m st).forces.get
            (3 * (G.cnfstart h + a) + 1))
          + dsquare ((forLoop (pair_atom B G S h true us) m st).forces.get
            (3 * (G.cnfstart h + a) + 2))) := by
      intro a ha
      have ha' := Finset.mem_range.1 ha
      rw [pair_atom_lower B G S h us m a 0 _ hF hL hh (by omega) hH ha' (by omega),
        pair_atom_lower B G S h us m a 1 _ hF hL hh (by omega) hH ha' (by omega),
        pair_atom_lower B G S h us m a 2 _ hF hL hh (by omega) hH ha' (by omega)]
    rw [Finset.sum_congr rfl hl]
    ring

theorem pair_stress_term_tmpsum (G : Globals) (h i : Nat) (st : St) :
    (pair_stress_term G h i st).tmpsum
      = st.tmpsum + G.conf_weight h * G.sweight
        * dsquare ((pair_stress_term G h i st).forces.get (G.stress_p + 6 * h + i)) := rfl

theorem pair_stress_loop_sq (G : Globals) (h m : Nat) (st : St) :
    (forLoop (pair_stress_term G h) m st).tmpsum
      = st.tmpsum + G.conf_weight h * G.sweight * ∑ j in Finset.range m,
        dsquare ((forLoop (pair_stress_term G h) m st).forces.get (G.stress_p + 6 * h + j)) := by
  induction m with
  | zero => simp [forLoop]
  | succ m ih =>
    rw [forLoop_succ, pair_stress_term_tmpsum, ih, Finset.sum_range_succ]
    have hl : ∀ j, j ∈ Finset.range m →
        dsquare ((pair_stress_term G h m (forLoop (pair_stress_term G h) m st)).forces.get
          (G.stress_p + 6 * h + j))
        = dsquare ((forLoop (pair_stress_term G h) m st).forces.get
          (G.stress_p + 6 * h + j)) := by
      intro j hj
      have hj' := Finset.mem_range.1 hj
      rw [pair_stress_term_frame G h m _ _ (by omega)]
    rw [Finset.sum_congr rfl hl]
    ring

/-- A stress slot of a configuration evaluated without forces or without
stresses is left at 0 in a `STRESS` build. -/
theorem pair_conf_val_nostress (B : Build) (G : Globals) (S : Splines) (h j : Nat)
    (hS : B.STRESS = true) (hL : Layout G) (hh : h < G.nconf) (hj : j < 6)
    (hN : NeighIn G h)
    (hu : (G.conf_uf (h - G.firstconf) && G.conf_us (h - G.firstconf)) = false) :
    pair_conf_val B G S h (G.stress_p + 6 * h + j) = 0 := by
  have hf := hL.force_lt hh
  have hs := hL.stress_ge
  unfold pair_conf_val pair_conf
  simp only []
  have e1 : ∀ t : St, (pair_conf_stress B G h (G.conf_uf (h - G.firstconf))
      (G.conf_us (h - G.firstconf)) t) = t := by
    intro t
    unfold pair_conf_stress
    rw [hu, Bool.and_false, if_neg (by simp)]
  rw [e1, pair_conf_energy_frame G h _ _ (by omega),
    pair_atoms_get B G S h _ _ _ _ _ (fun _ _ => by omega), pair_conf_reset_get]
  simp only []
  rw [if_neg (by omega), if_pos ⟨hS, by omega, by omega⟩, zero_add]
  apply Finset.sum_eq_zero
  intro i hi
  apply List.sum_eq_zero
  intro x hx
  obtain ⟨n, hn, rfl⟩ := List.mem_map.1 hx
  have h1 := hN i (Finset.mem_range.1 hi) n hn
  have hi' := Finset.mem_range.1 hi
  have x0 : ¬ (G.stress_p + 6 * h + j = G.energy_p + h) := by omega
  rw [pair_delta_eq]
  cases hcu : G.conf_uf (h - G.firstconf)
  · simp only [Bool.false_eq_true, if_false, add_zero, if_neg x0, ite_self]
  · have hcs : G.conf_us (h - G.firstconf) = false := by
      rw [hcu] at hu
      simpa using hu
    simp only [hcs, Bool.and_false, Bool.false_eq_true, if_false, if_true, add_zero,
      if_neg x0]
    rw [slot3_ne _ _ (by omega), slot3_ne _ _ (by omega)]
    simp only [sub_zero, add_zero, ite_self, zero_add]

theorem dsquare_zero : dsquare 0 = 0 := by
  unfold dsquare
  ring

theorem pair_conf_stress_sq (B : Build) (G : Globals) (h : Nat) (uf us : Bool) (st : St) :
    (pair_conf_stress B G h uf us st).tmpsum
      = st.tmpsum + (if (B.STRESS && (uf && us)) = true then
          G.conf_weight h * G.sweight * ∑ j in Finset.range 6,
            dsquare ((pair_conf_stress B G h uf us st).forces.get (G.stress_p + 6 * h + j))
        else 0) := by
  unfold pair_conf_stress
  split_ifs
  · exact pair_stress_loop_sq G h 6 st
  · rw [add_zero]

/-- What the evaluation of configuration `h` adds to the local sum is the
weighted sum of squares of the slots it leaves (half neighbor lists, build
without `FWEIGHT` and `CONTRIB`). -/
theorem pair_conf_term_sq (B : Build) (G : Globals) (S : Splines) (h : Nat)
    (hF : B.FWEIGHT = false) (hC : B.CONTRIB = false) (hL : Layout G) (hh : h < G.nconf)
    (hH : HalfList G h) :
    pair_conf_term B G S h
      = pair_sq_sum B G (pair_conf B G S h ⟨⟨fun _ => 0⟩, 0⟩).forces h := by
  have hf := hL.force_lt hh
  have hs := hL.stress_ge
  have hN := hH.neighIn
  -- the stages of the evaluation
  obtain ⟨A, hA⟩ : ∃ A, A = forLoop (pair_atom B G S h (G.conf_uf (h - G.firstconf))
      (G.conf_us (h - G.firstconf))) (G.inconf h)
      ⟨pair_conf_reset B G h (G.conf_uf (h - G.firstconf)) ⟨fun _ => 0⟩, 0⟩ := ⟨_, rfl⟩
  have hP : pair_conf B G S h ⟨⟨fun _ => 0⟩, 0⟩
      = pair_conf_stress B G h (G.conf_uf (h - G.firstconf)) (G.conf_us (h - G.firstconf))
          (pair_conf_energy G h A) := by
    rw [hA]
    rfl
  have hE : (pair_conf_energy G h A).tmpsum = A.tmpsum + G.conf_weight h * G.eweight
      * dsquare ((pair_conf_energy G h A).forces.get (G.energy_p + h)) := rfl
  -- the slots of the result
  have vE : (pair_conf B G S h ⟨⟨fun _ => 0⟩, 0⟩).forces.get (G.energy_p + h)
      = (pair_conf_energy G h A).forces.get (G.energy_p + h) := by
    rw [hP, pair_conf_stress_frame B G h _ _ _ _ (by omega)]
  have vF : ∀ a k, a < G.inconf h → k < 3 →
      (pair_conf B G S h ⟨⟨fun _ => 0⟩, 0⟩).forces.get (3 * (G.cnfstart h + a) + k)
        = A.forces.get (3 * (G.cnfstart h + a) + k) := by
    intro a k ha hk
    rw [hP, pair_conf_stress_frame B G h _ _ _ _ (by omega),
      pair_conf_energy_frame G h _ _ (by omega)]
  have vF0 : G.conf_uf (h - G.firstconf) = false → ∀ a k, a < G.inconf h → k < 3 →
      (pair_conf B G S h ⟨⟨fun _ => 0⟩, 0⟩).forces.get (3 * (G.cnfstart h + a) + k) = 0 :=
    fun hu a k ha hk => pair_conf_val_nouf B G S h a k hL hh ha hk hu
  have vS0 : B.STRESS = true →
      (G.conf_uf (h - G.firstconf) && G.conf_us (h - G.firstconf)) = false → ∀ j, j < 6 →
      (pair_conf B G S h ⟨⟨fun _ => 0⟩, 0⟩).forces.get (G.stress_p + 6 * h + j) = 0 :=
    fun hS hu j hj => pair_conf_val_nostress B G S h j hS hL hh hj hN hu
  -- the local sum
  have hT : pair_conf_term B G S h
      = A.tmpsum + G.conf_weight h * G.eweight
          * dsquare ((pair_conf B G S h ⟨⟨fun _ => 0⟩, 0⟩).forces.get (G.energy_p + h))
        + (if (B.STRESS && (G.conf_uf (h - G.firstconf) && G.conf_us (h - G.firstconf)))
              = true then
            G.conf_weight h * G.sweight * ∑ j in Finset.range 6,
              dsquare ((pair_conf B G S h ⟨⟨fun _ => 0⟩, 0⟩).forces.get
                (G.stress_p + 6 * h + j))
          else 0) := by
    rw [vE]
    unfold pair_conf_term
    rw [hP, pair_conf_stress_sq, hE]
  have hAt : A.tmpsum = G.conf_weight h * ∑ a in Finset.range (G.inconf h),
      (dsquare ((pair_conf B G S h ⟨⟨fun _ => 0⟩, 0⟩).forces.get
          (3 * (G.cnfstart h + a) + 0))
        + dsquare ((pair_conf B G S h ⟨⟨fun _ => 0⟩, 0⟩).forces.get
          (3 * (G.cnfstart h + a) + 1))
        + dsquare ((pair_conf B G S h ⟨⟨fun _ => 0⟩, 0⟩).forces.get
          (3 * (G.cnfstart h + a) + 2))) := by
    cases hu : G.conf_uf (h - G.firstconf)
    · have e0 : A.tmpsum = 0 := by
        rw [hA, hu, pair_atoms_tmpsum_nouf]
      rw [e0, Finset.sum_eq_zero, mul_zero]
      intro a ha
      have ha' := Finset.mem_range.1 ha
      rw [vF0 hu a 0 ha' (by omega), vF0 hu a 1 ha' (by omega), vF0 hu a 2 ha' (by omega),
        dsquare_zero]
      ring
    · have e1 := pair_atoms_sq B G S h (G.conf_us (h - G.firstconf)) (G.inconf h)
        ⟨pair_conf_reset B G h true ⟨fun _ => 0⟩, 0⟩ hF hC hL hh (le_refl _) hH
      rw [hu] at hA
      rw [← hA, zero_add] at e1
      rw [e1]
      congr 1
      apply Finset.sum_congr rfl
      intro a ha
      have ha' := Finset.mem_range.1 ha
      rw [vF a 0 ha' (by omega), vF a 1 ha' (by omega), vF a 2 ha' (by omega)]
  rw [hT, hAt]
  unfold pair_sq_sum
  cases hS : B.STRESS
  · simp only [Bool.false_and, Bool.false_eq_true, if_false]
    ring
  · cases hu : (G.conf_uf (h - G.firstconf) && G.conf_us (h - G.firstconf))
    · have ez : ∑ j in Finset.range 6,
          dsquare ((pair_conf B G S h ⟨⟨fun _ => 0⟩, 0⟩).forces.get
            (G.stress_p + 6 * h + j)) = 0 := by
        apply Finset.sum_eq_zero
        intro j hj
        rw [vS0 hS hu j (Finset.mem_range.1 hj), dsquare_zero]
      simp only [Bool.and_false, Bool.false_eq_true, if_false, if_true, ez]
      ring
    · simp only [Bool.and_self, if_true]
      ring

theorem pair_sq_sum_congr (B : Build) (G : Globals) (F F' : Buf) (h : Nat)
    (hA : Agree (conf_slot B G h) F F') : pair_sq_sum B G F h = pair_sq_sum B G F' h := by
  unfold pair_sq_sum
  have e1 : ∀ a, a ∈ Finset.range (G.inconf h) →
      (dsquare (F.get (3 * (G.cnfstart h + a) + 0))
        + dsquare (F.get (3 * (G.cnfstart h + a) + 1))
        + dsquare (F.get (3 * (G.cnfstart h + a) + 2)))
      = (dsquare (F'.get (3 * (G.cnfstart h + a) + 0))
        + dsquare (F'.get (3 * (G.cnfstart h + a) + 1))
        + dsquare (F'.get (3 * (G.cnfstart h + a) + 2))) := by
    intro a ha
    have ha' := Finset.mem_range.1 ha
    rw [hA _ (Or.inr (Or.inl (by omega))), hA _ (Or.inr (Or.inl (by omega))),
      hA _ (Or.inr (Or.inl (by omega)))]
  rw [Finset.sum_congr rfl e1, hA _ (Or.inl rfl)]
  cases hS : B.STRESS
  · simp only [Bool.false_eq_true, if_false]
  · have e2 : ∀ j, j ∈ Finset.range 6 →
        dsquare (F.get (G.stress_p + 6 * h + j)) = dsquare (F'.get (G.stress_p + 6 * h + j)) := by
      intro j hj
      have hj' := Finset.mem_range.1 hj
      rw [hA _ (Or.inr (Or.inr ⟨hS, by omega, by omega⟩))]
    simp only [if_true]
    rw [Finset.sum_congr rfl e2]

/-! ## Action and reaction -/

theorem slot_part_eq (a k : Nat) (t : vector) :
    (if k = 3 * a + 0 then t.x else 0) + (if k = 3 * a + 1 then t.y else 0)
        + (if k = 3 * a + 2 then t.z else 0) = slot_part a t k := by
  unfold slot_part vector.comp
  by_cases h0 : k = 3 * a
  · subst h0
    simp
  · by_cases h1 : k = 3 * a + 1
    · subst h1
      simp
    · by_cases h2 : k = 3 * a + 2
      · subst h2
        simp
      · have x : ¬ (3 * a ≤ k ∧ k < 3 * a + 3) := by omega
        simp only [Nat.add_zero, if_neg h0, if_neg h1, if_neg h2, if_neg x, add_zero]

theorem slot_part_at (a b c : Nat) (t : vector) (hc : c < 3) :
    slot_part a t (3 * b + c) = if b = a then t.comp c else 0 := by
  unfold slot_part
  by_cases hb : b = a
  · subst hb
    have x : 3 * b ≤ 3 * b + c ∧ 3 * b + c < 3 * b + 3 := by omega
    rw [if_pos x, if_pos rfl, Nat.add_sub_cancel_left]
  · have x : ¬ (3 * a ≤ 3 * b + c ∧ 3 * b + c < 3 * a + 3) := by omega
    rw [if_neg x, if_neg hb]

theorem slot_part_out (a k : Nat) (t : vector) (hk : k < 3 * a ∨ 3 * a + 3 ≤ k) :
    slot_part a t k = 0 := by
  unfold slot_part
  have x : ¬ (3 * a ≤ k ∧ k < 3 * a + 3) := by omega
  rw [if_neg x]

/-- The six statements `forces[n_i + k] += t.k; forces[n_j + k] -= t.k` at an
offset `k`. -/
theorem six_get (f : Buf) (a b k : Nat) (t : vector) :
    (subf (subf (subf (addf (addf (addf f (3 * a + 0) t.x) (3 * a + 1) t.y) (3 * a + 2) t.z)
      (3 * b + 0) t.x) (3 * b + 1) t.y) (3 * b + 2) t.z).get k
      = f.get k + slot_part a t k - slot_part b t k := by
  simp only [addf_get, subf_get]
  rw [← slot_part_eq a k t, ← slot_part_eq b k t]
  ring

theorem adp_apply_force_get (B : Build) (G : Globals) (h : Nat) (us : Bool) (i : Nat)
    (n : neigh_t) (t : vector) (f : Buf) (k : Nat)
    (hk : k < G.stress_p + 6 * h ∨ G.stress_p + 6 * h + 6 ≤ k) :
    (adp_apply_force B G h us i n t f).get k
      = f.get k + slot_part (G.cnfstart h + i) t k - slot_part n.nr t k := by
  unfold adp_apply_force
  simp only []
  split_ifs
  · rw [stress_update_frame _ _ _ _ _ hk, six_get]
  · rw [six_get]

theorem pair_neigh_force_get (B : Build) (G : Globals) (S : Splines) (h : Nat) (us : Bool)
    (i : Nat) (f : Buf) (n : neigh_t) (k : Nat) (he : k ≠ G.energy_p + h)
    (hk : k < G.stress_p + 6 * h ∨ G.stress_p + 6 * h + 6 ≤ k) :
    (pair_neigh B G S h true us i f n).get k
      = f.get k + slot_part (G.cnfstart h + i) (pair_tmp_vector G S (i + G.cnfstart h) n) k
          - slot_part n.nr (pair_tmp_vector G S (i + G.cnfstart h) n) k := by
  unfold pair_neigh
  by_cases hr : n.r < G.pot_end (n.col 0)
  · have v : pair_tmp_vector G S (i + G.cnfstart h) n
        = ⟨n.dist_r.x * (if decide (n.nr = i + G.cnfstart h) = true then
              (pair_phi S true n).2 * (1 / 2) else (pair_phi S true n).2),
            n.dist_r.y * (if decide (n.nr = i + G.cnfstart h) = true then
              (pair_phi S true n).2 * (1 / 2) else (pair_phi S true n).2),
            n.dist_r.z * (if decide (n.nr = i + G.cnfstart h) = true then
              (pair_phi S true n).2 * (1 / 2) else (pair_phi S true n).2)⟩ := by
      unfold pair_tmp_vector pair_tmp_force
      simp only [if_pos hr, vector.comp, decide_eq_true_eq]
      simp
    rw [v]
    simp only [if_pos hr, if_true]
    generalize (if decide (n.nr = i + G.cnfstart h) = true then
      (pair_phi S true n).2 * (1 / 2) else (pair_phi S true n).2) = g
    generalize (if decide (n.nr = i + G.cnfstart h) = true then
      (pair_phi S true n).1 * (1 / 2) else (pair_phi S true n).1) = e
    by_cases hs : (B.STRESS && us) = true
    · rw [if_pos hs, stress_update_frame _ _ _ _ _ hk]
      refine (six_get _ _ _ _ ⟨_, _, _⟩).trans ?_
      rw [addf_get, if_neg he, add_zero]
    · rw [if_neg hs]
      refine (six_get _ _ _ _ ⟨_, _, _⟩).trans ?_
      rw [addf_get, if_neg he, add_zero]
  · simp only [if_neg hr]
    have v : pair_tmp_vector G S (i + G.cnfstart h) n = ⟨0, 0, 0⟩ := by
      unfold pair_tmp_vector pair_tmp_force
      simp only [if_neg hr]
    rw [v]
    have z : ∀ a, slot_part a ⟨0, 0, 0⟩ k = 0 := by
      intro a
      unfold slot_part vector.comp
      simp
    rw [z, z, add_zero, sub_zero]

theorem Layout.conf_le_natoms {G : Globals} (hL : Layout G) {h : Nat} (hn : h < G.nconf) :
    G.cnfstart h + G.inconf h ≤ G.natoms := by
  have h1 : G.cnfstart h + G.inconf h ≤ G.cnfstart G.nconf := by
    rcases Nat.eq_or_lt_of_le (Nat.succ_le_of_lt hn) with he | hlt
    · rw [← he, Nat.succ_eq_add_one, hL.cnf_succ h hn]
    · exact hL.cnf_lt hn (le_refl _)
  have h2 := hL.atoms_le
  omega

theorem force_sum_congr (G : Globals) (F F' : Buf) (h c : Nat)
    (hk : ∀ a, a < G.inconf h →
      F'.get (3 * (G.cnfstart h + a) + c) = F.get (3 * (G.cnfstart h + a) + c)) :
    force_sum G F' h c = force_sum G F h c := by
  unfold force_sum
  apply Finset.sum_congr rfl
  intro a ha
  rw [hk a (Finset.mem_range.mp ha)]

/-- A buffer that differs only outside the force region has the same sums. -/
theorem force_sum_frame {G : Globals} (hL : Layout G) (F F' : Buf) (h c : Nat)
    (hh : h < G.nconf) (hc : c < 3) (hs : ∀ k, k < 3 * G.natoms → F'.get k = F.get k) :
    force_sum G F' h c = force_sum G F h c := by
  apply force_sum_congr
  intro a ha
  have := hL.conf_le_natoms hh
  exact hs _ (by omega)

theorem sum_slot_part (G : Globals) (h c a : Nat) (t : vector) (hc : c < 3)
    (ha : G.cnfstart h ≤ a ∧ a < G.cnfstart h + G.inconf h) :
    ∑ x in Finset.range (G.inconf h), slot_part a t (3 * (G.cnfstart h + x) + c)
      = t.comp c := by
  simp only [slot_part_at _ _ _ _ hc]
  rw [Finset.sum_eq_single (a - G.cnfstart h)]
  · have x0 : G.cnfstart h + (a - G.cnfstart h) = a := by omega
    rw [if_pos x0]
  · intro b _ hb
    have x0 : ¬ G.cnfstart h + b = a := by omega
    rw [if_neg x0]
  · intro hn
    exfalso
    apply hn
    rw [Finset.mem_range]
    omega

theorem sum_slot_part_out (G : Globals) (h c a : Nat) (t : vector) (hc : c < 3)
    (ha : a < G.cnfstart h ∨ G.cnfstart h + G.inconf h ≤ a) :
    ∑ x in Finset.range (G.inconf h), slot_part a t (3 * (G.cnfstart h + x) + c) = 0 := by
  apply Finset.sum_eq_zero
  intro x hx
  have hx' := Finset.mem_range.mp hx
  have x0 : ¬ G.cnfstart h + x = a := by omega
  rw [slot_part_at _ _ _ _ hc, if_neg x0]

/-- A step that adds a vector to the slots of atom `a` and subtracts it from
the slots of atom `b`, both atoms of configuration `h'`, changes the sum of no
configuration. -/
theorem force_sum_step {G : Globals} (hL : Layout G) (h h' c : Nat) (hh : h < G.nconf)
    (hh' : h' < G.nconf) (hc : c < 3) (a b : Nat)
    (ha : G.cnfstart h' ≤ a ∧ a < G.cnfstart h' + G.inconf h')
    (hb : G.cnfstart h' ≤ b ∧ b < G.cnfstart h' + G.inconf h') (t : vector) (F F' : Buf)
    (hs : ∀ k, k < 3 * G.natoms → F'.get k = F.get k + slot_part a t k - slot_part b t k) :
    force_sum G F' h c = force_sum G F h c := by
  have hn := hL.conf_le_natoms hh
  have e : force_sum G F' h c = force_sum G F h c
      + ∑ x in Finset.range (G.inconf h), slot_part a t (3 * (G.cnfstart h + x) + c)
      - ∑ x in Finset.range (G.inconf h), slot_part b t (3 * (G.cnfstart h + x) + c) := by
    unfold force_sum
    rw [← Finset.sum_add_distrib, ← Finset.sum_sub_distrib]
    apply Finset.sum_congr rfl
    intro x hx
    have hx' := Finset.mem_range.mp hx
    rw [hs _ (by omega)]
    ring
  rw [e]
  by_cases he : h' = h
  · subst he
    rw [sum_slot_part G h' c a t hc ha, sum_slot_part G h' c b t hc hb]
    ring
  · have d : G.cnfstart h' + G.inconf h' ≤ G.cnfstart h
        ∨ G.cnfstart h + G.inconf h ≤ G.cnfstart h' := by
      rcases Nat.lt_or_gt_of_ne he with hlt | hgt
      · exact Or.inl (hL.cnf_lt hlt (le_of_lt hh))
      · exact Or.inr (hL.cnf_lt hgt (le_of_lt hh'))
    rw [sum_slot_part_out G h c a t hc (by omega), sum_slot_part_out G h c b t hc (by omega)]
    ring

theorem pair_neigh_force_sum (B : Build) {G : Globals} (S : Splines) (hL : Layout G)
    (h h' c : Nat) (hh : h < G.nconf) (hh' : h' < G.nconf) (hc : c < 3) (uf us : Bool)
    (i : Nat) (hi : i < G.inconf h') (n : neigh_t)
    (hn : G.cnfstart h' ≤ n.nr ∧ n.nr < G.cnfstart h' + G.inconf h') (f : Buf) :
    force_sum G (pair_neigh B G S h' uf us i f n) h c = force_sum G f h c := by
  have e1 := hL.energy_ge
  have e2 := hL.stress_ge
  cases uf
  · apply force_sum_frame hL _ _ h c hh hc
    intro k hk
    unfold pair_neigh
    simp only [Bool.false_eq_true, if_false]
    have x0 : ¬ k = G.energy_p + h' := by omega
    by_cases hr : n.r < G.pot_end (n.col 0)
    · rw [if_pos hr, addf_get, if_neg x0, add_zero]
    · rw [if_neg hr]
  · apply force_sum_step hL h h' c hh hh' hc (G.cnfstart h' + i) n.nr (by omega) hn
      (pair_tmp_vector G S (i + G.cnfstart h') n)
    intro k hk
    exact pair_neigh_force_get B G S h' us i f n k (by omega) (by omega)

theorem pair_foldl_force_sum (B : Build) {G : Globals} (S : Splines) (hL : Layout G)
    (h h' c : Nat) (hh : h < G.nconf) (hh' : h' < G.nconf) (hc : c < 3) (uf us : Bool)
    (i : Nat) (hi : i < G.inconf h') (l : List neigh_t)
    (hn : ∀ n, n ∈ l → G.cnfstart h' ≤ n.nr ∧ n.nr < G.cnfstart h' + G.inconf h') (f : Buf) :
    force_sum G (l.foldl (pair_neigh B G S h' uf us i) f) h c = force_sum G f h c := by
  induction l generalizing f with
  | nil => rfl
  | cons n l ih =>
    rw [List.foldl_cons, ih (fun m hm => hn m (List.mem_cons_of_mem _ hm)),
      pair_neigh_force_sum B S hL h h' c hh hh' hc uf us i hi n (hn n (List.mem_cons_self _ _))]

theorem pair_atom_force_sum (B : Build) {G : Globals} (S : Splines) (hL : Layout G)
    (hF : B.FWEIGHT = false) (h h' c : Nat) (hh : h < G.nconf) (hh' : h' < G.nconf)
    (hc : c < 3) (uf us : Bool) (i : Nat) (hi : i < G.inconf h') (hN : NeighIn G h')
    (st : St) :
    force_sum G (pair_atom B G S h' uf us i st).forces h c = force_sum G st.forces h c := by
  have e := pair_foldl_force_sum B S hL h h' c hh hh' hc uf us i hi _ (hN i hi) st.forces
  unfold pair_atom
  simp only [hF, Bool.false_eq_true, if_false]
  split_ifs <;> exact e

theorem pair_atoms_force_sum (B : Build) {G : Globals} (S : Splines) (hL : Layout G)
    (hF : B.FWEIGHT = false) (h h' c : Nat) (hh : h < G.nconf) (hh' : h' < G.nconf)
    (hc : c < 3) (uf us : Bool) (hN : NeighIn G h') (m : Nat) (hm : m ≤ G.inconf h')
    (st : St) :
    force_sum G (forLoop (pair_atom B G S h' uf us) m st).forces h c
      = force_sum G st.forces h c := by
  induction m with
  | zero => rfl
  | succ m ih =>
    rw [forLoop_succ, pair_atom_force_sum B S hL hF h h' c hh hh' hc uf us m (by omega) hN,
      ih (by omega)]

/-- After the evaluation of a configuration with forces enabled whose
neighbors are its own atoms, the force slots plus the reference forces sum to
zero. -/
theorem pair_conf_force_sum (B : Build) {G : Globals} (S : Splines) (hL : Layout G)
    (hF : B.FWEIGHT = false) (h c : Nat) (hh : h < G.nconf) (hc : c < 3)
    (hu : G.conf_uf (h - G.firstconf) = true) (hN : NeighIn G h) (st : St) :
    force_sum G (pair_conf B G S h st).forces h c = 0 := by
  have e1 := hL.energy_ge
  have e2 := hL.stress_ge
  have e3 := hL.conf_le_natoms hh
  unfold pair_conf
  simp only []
  rw [force_sum_frame hL _ _ h c hh hc
      (fun k hk => pair_conf_stress_frame B G h _ _ _ k (by omega)),
    force_sum_frame hL _ _ h c hh hc
      (fun k hk => pair_conf_energy_frame G h _ k (by omega)),
    pair_atoms_force_sum B S hL hF h h c hh hh hc _ _ hN _ (le_refl _)]
  unfold force_sum
  apply Finset.sum_eq_zero
  intro a ha
  have ha' := Finset.mem_range.mp ha
  have x0 : 3 * G.cnfstart h ≤ 3 * (G.cnfstart h + a) + c
      ∧ 3 * (G.cnfstart h + a) + c < 3 * (G.cnfstart h + G.inconf h) := by omega
  rw [pair_conf_reset_get, if_pos x0, hu, if_pos rfl]
  ring

/-! ## The force slots in `calc_forces_adp` -/

theorem adp_dipole_forces (G : Globals) (S : Splines) (h : Nat) (uf : Bool) (i j : Nat)
    (n : neigh_t) (st : AdpSt) : (adp_dipole G S h uf i j n st).forces = st.forces := by
  unfold adp_dipole
  simp only []
  by_cases hr : n.r < G.pot_end (n.col 2)
  · rw [if_pos hr]
  · rw [if_neg hr]

theorem adp_quadrupole_forces (G : Globals) (S : Splines) (h : Nat) (uf : Bool) (i j : Nat)
    (n : neigh_t) (st : AdpSt) : (adp_quadrupole G S h uf i j n st).forces = st.forces := by
  unfold adp_quadrupole
  simp only []
  by_cases hr : n.r < G.pot_end (n.col 3)
  · rw [if_pos hr]
  · rw [if_neg hr]

theorem adp_density_forces (G : Globals) (S : Splines) (h i : Nat) (n : neigh_t)
    (st : AdpSt) : (adp_density G S h i n st).forces = st.forces := by
  unfold adp_density
  simp only []
  split_ifs <;> rfl

/-- The second loop changes the buffer as the neighbor loop of
`calc_forces_pair` does. -/
theorem adp_neigh_forces (B : Build) (G : Globals) (S : Splines) (h : Nat) (uf us : Bool)
    (i : Nat) (st : AdpSt) (jn : Nat × neigh_t) :
    (adp_neigh B G S h uf us i st jn).forces = pair_neigh B G S h uf us i st.forces jn.2 := by
  unfold adp_neigh
  simp only []
  rw [adp_density_forces, adp_quadrupole_forces, adp_dipole_forces]

theorem adp_neigh_foldl_force_sum (B : Build) {G : Globals} (S : Splines) (hL : Layout G)
    (h h' c : Nat) (hh : h < G.nconf) (hh' : h' < G.nconf) (hc : c < 3) (uf us : Bool)
    (i : Nat) (hi : i < G.inconf h') (l : List (Nat × neigh_t))
    (hn : ∀ jn, jn ∈ l → G.cnfstart h' ≤ jn.2.nr ∧ jn.2.nr < G.cnfstart h' + G.inconf h')
    (st : AdpSt) :
    force_sum G (l.foldl (adp_neigh B G S h' uf us i) st).forces h c
      = force_sum G st.forces h c := by
  induction l generalizing st with
  | nil => rfl
  | cons jn l ih =>
    rw [List.foldl_cons, ih (fun m hm => hn m (List.mem_cons_of_mem _ hm)), adp_neigh_forces,
      pair_neigh_force_sum B S hL h h' c hh hh' hc uf us i hi jn.2
        (hn jn (List.mem_cons_self _ _))]

theorem adp_embed_get (B : Build) (G : Globals) (S : Splines) (h i : Nat) (st : AdpSt)
    (k : Nat) (he : k ≠ G.energy_p + h) (hl : k ≠ G.limit_p + h) :
    (adp_embed B G S h i st).forces.get k = st.forces.get k := by
  unfold adp_embed
  simp only []
  split_ifs <;> simp only [addf_get, if_neg he, if_neg hl, add_zero]

theorem adp_self_energy_get (G : Globals) (h i : Nat) (st : AdpSt) (k : Nat)
    (he : k ≠ G.energy_p + h) :
    (adp_self_energy G h i st).forces.get k = st.forces.get k := by
  unfold adp_self_energy
  simp only [addf_get, if_neg he, add_zero]

theorem mem_enum_snd {l : List neigh_t} {jn : Nat × neigh_t} (hm : jn ∈ l.enum) :
    jn.2 ∈ l :=
  List.snd_mem_of_mem_enum hm

theorem adp_atom2_force_sum (B : Build) {G : Globals} (S : Splines) (hL : Layout G)
    (hlim : 3 * G.natoms ≤ G.limit_p) (h h' c : Nat) (hh : h < G.nconf)
    (hh' : h' < G.nconf) (hc : c < 3) (uf us : Bool) (i : Nat) (hi : i < G.inconf h')
    (hN : NeighIn G h') (st : AdpSt) :
    force_sum G (adp_atom2 B G S h' uf us i st).forces h c = force_sum G st.forces h c := by
  have e1 := hL.energy_ge
  unfold adp_atom2
  simp only []
  rw [force_sum_frame hL _ _ h c hh hc
      (fun k hk => adp_self_energy_get G h' i _ k (by omega)),
    force_sum_frame hL _ _ h c hh hc
      (fun k hk => adp_embed_get B G S h' i _ k (by omega) (by omega)),
    adp_neigh_foldl_force_sum B S hL h h' c hh hh' hc uf us i hi _
      (fun jn hm => hN i hi jn.2 (mem_enum_snd hm))]

theorem adp_atoms2_force_sum (B : Build) {G : Globals} (S : Splines) (hL : Layout G)
    (hlim : 3 * G.natoms ≤ G.limit_p) (h h' c : Nat) (hh : h < G.nconf)
    (hh' : h' < G.nconf) (hc : c < 3) (uf us : Bool) (hN : NeighIn G h') (m : Nat)
    (hm : m ≤ G.inconf h') (st : AdpSt) :
    force_sum G (forLoop (adp_atom2 B G S h' uf us) m st).forces h c
      = force_sum G st.forces h c := by
  induction m with
  | zero => rfl
  | succ m ih =>
    rw [forLoop_succ,
      adp_atom2_force_sum B S hL hlim h h' c hh hh' hc uf us m (by omega) hN, ih (by omega)]

theorem adp_apply_force_sum (B : Build) {G : Globals} (hL : Layout G) (h h' c : Nat)
    (hh : h < G.nconf) (hh' : h' < G.nconf) (hc : c < 3) (us : Bool) (i : Nat)
    (hi : i < G.inconf h') (n : neigh_t)
    (hn : G.cnfstart h' ≤ n.nr ∧ n.nr < G.cnfstart h' + G.inconf h') (t : vector) (f : Buf) :
    force_sum G (adp_apply_force B G h' us i n t f) h c = force_sum G f h c := by
  have e1 := hL.energy_ge
  have e2 := hL.stress_ge
  apply force_sum_step hL h h' c hh hh' hc (G.cnfstart h' + i) n.nr (by omega) hn t
  intro k hk
  exact adp_apply_force_get B G h' us i n t f k (by omega)

theorem adp_neigh3_force_sum (B : Build) {G : Globals} (S : Splines) (hL : Layout G)
    (h h' c : Nat) (hh : h < G.nconf) (hh' : h' < G.nconf) (hc : c < 3) (us : Bool)
    (i : Nat) (hi : i < G.inconf h') (jn : Nat × neigh_t)
    (hn : G.cnfstart h' ≤ jn.2.nr ∧ jn.2.nr < G.cnfstart h' + G.inconf h') (st : AdpSt) :
    force_sum G (adp_neigh3 B G S h' us i st jn).forces h c = force_sum G st.forces h c := by
  have e3 : ∀ s : AdpSt, force_sum G (adp_force_quadrupole B G h' us i jn.1 jn.2 s).forces h c
      = force_sum G s.forces h c := by
    intro s
    unfold adp_force_quadrupole
    split_ifs
    · exact adp_apply_force_sum B hL h h' c hh hh' hc us i hi jn.2 hn _ _
    · rfl
  have e2 : ∀ s : AdpSt, force_sum G (adp_force_dipole B G h' us i jn.1 jn.2 s).forces h c
      = force_sum G s.forces h c := by
    intro s
    unfold adp_force_dipole
    split_ifs
    · exact adp_apply_force_sum B hL h h' c hh hh' hc us i hi jn.2 hn _ _
    · rfl
  have e1 : ∀ s : AdpSt, force_sum G (adp_force_eam B G S h' us i jn.2 s).forces h c
      = force_sum G s.forces h c := by
    intro s
    unfold adp_force_eam
    simp only []
    split_ifs
    · exact adp_apply_force_sum B hL h h' c hh hh' hc us i hi jn.2 hn _ _
    · rfl
  unfold adp_neigh3
  simp only []
  rw [e3, e2, e1]

theorem adp_neigh3_foldl_force_sum (B : Build) {G : Globals} (S : Splines) (hL : Layout G)
    (h h' c : Nat) (hh : h < G.nconf) (hh' : h' < G.nconf) (hc : c < 3) (us : Bool)
    (i : Nat) (hi : i < G.inconf h') (l : List (Nat × neigh_t))
    (hn : ∀ jn, jn ∈ l → G.cnfstart h' ≤ jn.2.nr ∧ jn.2.nr < G.cnfstart h' + G.inconf h')
    (st : AdpSt) :
    force_sum G (l.foldl (adp_neigh3 B G S h' us i) st).forces h c
      = force_sum G st.forces h c := by
  induction l generalizing st with
  | nil => rfl
  | cons jn l ih =>
    rw [List.foldl_cons, ih (fun m hm => hn m (List.mem_cons_of_mem _ hm)),
      adp_neigh3_force_sum B S hL h h' c hh hh' hc us i hi jn (hn jn (List.mem_cons_self _ _))]

theorem adp_atom3_force_sum (B : Build) {G : Globals} (S : Splines) (hL : Layout G)
    (hF : B.FWEIGHT = false) (h h' c : Nat) (hh : h < G.nconf) (hh' : h' < G.nconf)
    (hc : c < 3) (us : Bool) (i : Nat) (hi : i < G.inconf h') (hN : NeighIn G h')
    (st : AdpSt) :
    force_sum G (adp_atom3 B G S h' us i st).forces h c = force_sum G st.forces h c := by
  have e := adp_neigh3_foldl_force_sum B S hL h h' c hh hh' hc us i hi _
    (fun jn hm => hN i hi jn.2 (mem_enum_snd hm)) st
  unfold adp_atom3
  simp only [hF, Bool.false_eq_true, if_false]
  split_ifs <;> exact e

theorem adp_atoms3_force_sum (B : Build) {G : Globals} (S : Splines) (hL : Layout G)
    (hF : B.FWEIGHT = false) (h h' c : Nat) (hh : h < G.nconf) (hh' : h' < G.nconf)
    (hc : c < 3) (us : Bool) (hN : NeighIn G h') (m : Nat) (hm : m ≤ G.inconf h')
    (st : AdpSt) :
    force_sum G (forLoop (adp_atom3 B G S h' us) m st).forces h c
      = force_sum G st.forces h c := by
  induction m with
  | zero => rfl
  | succ m ih =>
    rw [forLoop_succ, adp_atom3_force_sum B S hL hF h h' c hh hh' hc us m (by omega) hN,
      ih (by omega)]

theorem adp_conf_terms_get (B : Build) (G : Globals) (h : Nat) (uf us : Bool) (st : AdpSt)
    (k : Nat) (he : k ≠ G.energy_p + h)
    (hs : ¬ (G.stress_p + 6 * h ≤ k ∧ k < G.stress_p + 6 * h + 6)) :
    (adp_conf_terms B G h uf us st).forces.get k = st.forces.get k := by
  unfold adp_conf_terms
  simp only []
  rw [pair_conf_stress_frame B G h uf us _ k hs, pair_conf_energy_frame G h _ k he]

theorem adp_reset_forces (G : Globals) (h : Nat) (uf : Bool) (m : Nat) (st : AdpSt) :
    (forLoop (adp_reset G h uf) m st).forces = forLoop (pair_reset G h uf) m st.forces := by
  induction m with
  | zero => rfl
  | succ m ih =>
    rw [forLoop_succ, forLoop_succ, ← ih]
    unfold adp_reset pair_reset
    simp only []

theorem adp_conf_init_get (B : Build) (G : Globals) (h : Nat) (f : Buf) (k : Nat)
    (he : k ≠ G.energy_p + h) (hl : k ≠ G.limit_p + h)
    (hs : ¬ (G.stress_p + 6 * h ≤ k ∧ k < G.stress_p + 6 * h + 6)) :
    (adp_conf_init B G h f).get k = f.get k := by
  unfold adp_conf_init
  simp only []
  rw [setf_get, if_neg hl]
  split_ifs
  · rw [stress_reset_get, if_neg hs, setf_get, if_neg he]
  · rw [setf_get, if_neg he]

/-- The buffer after the two reset steps of configuration `h`. -/
theorem adp_conf_reset_get (B : Build) {G : Globals} (hL : Layout G)
    (hlim : 3 * G.natoms ≤ G.limit_p) (h : Nat) (uf : Bool) (st : AdpSt) (k : Nat)
    (hk : k < 3 * G.natoms) :
    (forLoop (adp_reset G h uf) (G.inconf h)
        { st with forces := adp_conf_init B G h st.forces }).forces.get k
      = if 3 * G.cnfstart h ≤ k ∧ k < 3 * (G.cnfstart h + G.inconf h) then
          (if uf then -G.force_0 k else 0)
        else st.forces.get k := by
  have e1 := hL.energy_ge
  have e2 := hL.stress_ge
  rw [adp_reset_forces, pair_reset_get]
  split_ifs
  · rfl
  · rfl
  · exact adp_conf_init_get B G h _ k (by omega) (by omega) (by omega)

/-- The part of the body of the configuration loop after the two reset
steps changes the sum of no configuration. -/
theorem adp_conf_body_force_sum (B : Build) {G : Globals} (S : Splines) (hL : Layout G)
    (hlim : 3 * G.natoms ≤ G.limit_p) (hF : B.FWEIGHT = false) (h h' c : Nat)
    (hh : h < G.nconf) (hh' : h' < G.nconf) (hc : c < 3) (uf us : Bool) (hN : NeighIn G h')
    (st : AdpSt) :
    force_sum G (adp_conf_terms B G h' uf us
        (if uf = true then
          forLoop (adp_atom3 B G S h' us) (G.inconf h')
            (forLoop (adp_atom2 B G S h' uf us) (G.inconf h') st)
        else forLoop (adp_atom2 B G S h' uf us) (G.inconf h') st)).forces h c
      = force_sum G st.forces h c := by
  have e1 := hL.energy_ge
  have e2 := hL.stress_ge
  rw [force_sum_frame hL _ _ h c hh hc
    (fun k hk => adp_conf_terms_get B G h' uf us _ k (by omega) (by omega))]
  have a2 := adp_atoms2_force_sum B S hL hlim h h' c hh hh' hc uf us hN _ (le_refl _) st
  by_cases hu : uf = true
  · rw [if_pos hu, adp_atoms3_force_sum B S hL hF h h' c hh hh' hc us hN _ (le_refl _), a2]
  · rw [if_neg hu, a2]

/-- After the evaluation of a configuration with forces enabled whose
neighbors are its own atoms, the force slots plus the reference forces sum to
zero. -/
theorem adp_conf_force_sum (B : Build) {G : Globals} (S : Splines) (hL : Layout G)
    (hlim : 3 * G.natoms ≤ G.limit_p) (hF : B.FWEIGHT = false) (h c : Nat)
    (hh : h < G.nconf) (hc : c < 3) (hu : G.conf_uf (h - G.firstconf) = true)
    (hN : NeighIn G h) (st : AdpSt) :
    force_sum G (adp_conf B G S h st).forces h c = 0 := by
  have e3 := hL.conf_le_natoms hh
  unfold adp_conf
  simp only []
  rw [adp_conf_body_force_sum B S hL hlim hF h h c hh hh hc _ _ hN]
  unfold force_sum
  apply Finset.sum_eq_zero
  intro a ha
  have ha' := Finset.mem_range.mp ha
  have x0 : 3 * G.cnfstart h ≤ 3 * (G.cnfstart h + a) + c
      ∧ 3 * (G.cnfstart h + a) + c < 3 * (G.cnfstart h + G.inconf h) := by omega
  rw [adp_conf_reset_get B hL hlim h _ st _ (by omega), if_pos x0, hu, if_pos rfl]
  ring

/-- The evaluation of another configuration whose neighbors are its own atoms
leaves the sum unchanged. -/
theorem adp_conf_force_sum_other (B : Build) {G : Globals} (S : Splines) (hL : Layout G)
    (hlim : 3 * G.natoms ≤ G.limit_p) (hF : B.FWEIGHT = false) (h h' c : Nat)
    (hh : h < G.nconf) (hh' : h' < G.nconf) (hne : h' ≠ h) (hc : c < 3) (hN : NeighIn G h')
    (st : AdpSt) :
    force_sum G (adp_conf B G S h' st).forces h c = force_sum G st.forces h c := by
  have e3 := hL.conf_le_natoms hh
  have d : G.cnfstart h' + G.inconf h' ≤ G.cnfstart h
      ∨ G.cnfstart h + G.inconf h ≤ G.cnfstart h' := by
    rcases Nat.lt_or_gt_of_ne hne with hlt | hgt
    · exact Or.inl (hL.cnf_lt hlt (le_of_lt hh))
    · exact Or.inr (hL.cnf_lt hgt (le_of_lt hh'))
  unfold adp_conf
  simp only []
  rw [adp_conf_body_force_sum B S hL hlim hF h h' c hh hh' hc _ _ hN]
  apply force_sum_congr
  intro a ha
  have x0 : ¬ (3 * G.cnfstart h' ≤ 3 * (G.cnfstart h + a) + c
      ∧ 3 * (G.cnfstart h + a) + c < 3 * (G.cnfstart h' + G.inconf h')) := by omega
  rw [adp_conf_reset_get B hL hlim h' _ st _ (by omega), if_neg x0]

theorem adp_loop_force_sum (B : Build) {G : Globals} (S : Splines) (hL : Layout G)
    (hlim : 3 * G.natoms ≤ G.limit_p) (hF : B.FWEIGHT = false)
    (hN : ∀ h, h < G.nconf → NeighIn G h) (hc0 : G.firstconf = 0) (h c : Nat) (hc : c < 3)
    (hu : G.conf_uf h = true) (m : Nat) (hm : m ≤ G.nconf) (hh : h < m) (st : AdpSt) :
    force_sum G (forLoop (fun k => adp_conf B G S (G.firstconf + k)) m st).forces h c = 0 := by
  induction m with
  | zero => omega
  | succ m ih =>
    rw [forLoop_succ, hc0, Nat.zero_add]
    rcases Nat.eq_or_lt_of_le (Nat.le_of_lt_succ hh) with he | hlt
    · subst he
      exact adp_conf_force_sum B S hL hlim hF h c (by omega) hc
        (by rw [hc0, Nat.sub_zero]; exact hu) (hN h (by omega)) _
    · rw [adp_conf_force_sum_other B S hL hlim hF h m c (by omega) (by omega) (by omega) hc
        (hN m (by omega))]
      have := ih (by omega) hlt
      rw [hc0] at this
      exact this

theorem adp_dummy_get (B : Build) (G : Globals) (S : Splines) (m : Nat) (st : St) (k : Nat)
    (hk : k < G.dummy_p) :
    (forLoop (adp_dummy B G S) m st).forces.get k = st.forces.get k := by
  induction m with
  | zero => rfl
  | succ m ih =>
    rw [forLoop_succ, ← ih]
    generalize forLoop (adp_dummy B G S) m st = s
    have x0 : ¬ k = G.dummy_p + m := by omega
    have x1 : ¬ k = G.dummy_p + G.ntypes + m := by omega
    unfold adp_dummy
    simp only []
    split_ifs <;> simp only [setf_get, if_neg x0, if_neg x1]

theorem adp_pass_get (B : Build) (G : Globals) (S : Splines) (f : Buf) (acc : AccTab)
    (cache : CacheTab) (k : Nat) (hk : k < G.dummy_p) :
    (adp_pass B G S f acc cache).forces.get k
      = (forLoop (fun j => adp_conf B G S (G.firstconf + j)) G.nconf
          ⟨f, 0, 0, acc, cache⟩).forces.get k := by
  have x0 : ¬ k = G.dummy_p + G.ntypes := by omega
  unfold adp_pass
  simp only []
  split_ifs
  · exact adp_dummy_get B G S _ _ k hk
  · rw [setf_get, if_neg x0]
    exact adp_dummy_get B G S _ _ k hk
  · rfl

theorem calc_forces_adp_root (B : Build) (G : Globals) (S : Splines) (fuel : Nat)
    (f : Buf) (acc : AccTab) (cache : CacheTab) (h0 : G.myid = 0) :
    calc_forces_adp B G S (fuel + 1) f acc cache
      = some ⟨adp_return (Dbl.fin (adp_pass B G S f acc cache).tmpsum),
          (adp_pass B G S f acc cache).forces, G.fcalls + 1,
          (adp_pass B G S f acc cache).acc, (adp_pass B G S f acc cache).cache⟩ := by
  unfold calc_forces_adp
  simp only [h0, if_true]

/-- On return from `calc_forces_adp` the sums of every configuration with
forces enabled are zero. -/
theorem adp_pass_force_sum (B : Build) {G : Globals} (S : Splines) (hL : Layout G)
    (hlim : 3 * G.natoms ≤ G.limit_p) (hdum : 3 * G.natoms ≤ G.dummy_p)
    (hF : B.FWEIGHT = false) (hN : ∀ h, h < G.nconf → NeighIn G h) (hc0 : G.firstconf = 0)
    (h c : Nat) (hh : h < G.nconf) (hc : c < 3) (hu : G.conf_uf h = true) (f : Buf)
    (acc : AccTab) (cache : CacheTab) :
    force_sum G (adp_pass B G S f acc cache).forces h c = 0 := by
  rw [force_sum_frame hL _ _ h c hh hc
    (fun k hk => adp_pass_get B G S f acc cache k (by omega))]
  exact adp_loop_force_sum B S hL hlim hF hN hc0 h c hc hu G.nconf (le_refl _) hh _

/-! ## The buffer and the sum on return -/

theorem pair_return_fin (q : ℚ) : pair_return (Dbl.fin q) = Dbl.fin q := rfl

theorem pair_pass_value (B : Build) (G : Globals) (S : Splines) (f : Buf) (hL : Layout G)
    (hN : ∀ h, h < G.nconf → NeighIn G h) (hc : G.firstconf = 0) (h k : Nat)
    (hh : h < G.nconf) (hk : conf_slot B G h k) :
    (pair_pass B G S f).forces.get k = pair_conf_val B G S h k := by
  rw [pair_pass_eq, hc]
  have hk' : conf_slot B G (0 + h) k := by rwa [Nat.zero_add]
  rw [pair_loop_value B G S hL 0 G.nconf (by omega) hN _ h hh k hk', Nat.zero_add]

theorem pair_pass_tmpsum (B : Build) (G : Globals) (S : Splines) (f : Buf)
    (hc : G.firstconf = 0) :
    (pair_pass B G S f).tmpsum = ∑ h in Finset.range G.nconf, pair_conf_term B G S h := by
  rw [pair_pass_eq, hc, pair_loop_tmpsum]
  simp only [Nat.zero_add, zero_add]

/-- On return from `calc_forces_pair` the sums of every configuration with
forces enabled are zero. -/
theorem pair_pass_force_sum (B : Build) {G : Globals} (S : Splines) (hL : Layout G)
    (hF : B.FWEIGHT = false) (hN : ∀ h, h < G.nconf → NeighIn G h) (hc0 : G.firstconf = 0)
    (h c : Nat) (hh : h < G.nconf) (hc : c < 3) (hu : G.conf_uf h = true) (f : Buf) :
    force_sum G (pair_pass B G S f).forces h c = 0 := by
  have e : force_sum G (pair_pass B G S f).forces h c
      = force_sum G (pair_conf B G S h ⟨⟨fun _ => 0⟩, 0⟩).forces h c := by
    apply force_sum_congr
    intro a ha
    rw [pair_pass_value B G S f hL hN hc0 h _ hh (Or.inr (Or.inl (by omega)))]
    rfl
  rw [e]
  exact pair_conf_force_sum B S hL hF h c hh hc (by rw [hc0, Nat.sub_zero]; exact hu)
    (hN h hh) _

/-! ## Closed forms for the stress slots of `calc_forces_pair` -/

theorem list_sum_map_neg {α : Type} (l : List α) (g : α → ℚ) :
    (l.map (fun x => -g x)).sum = -(l.map g).sum := by
  induction l with
  | nil => simp
  | cons a l ih =>
    simp only [List.map_cons, List.sum_cons, ih]
    ring

theorem stress_update_zero_get (s j : Nat) (d t : vector) (hj : j < 6) :
    (stress_update ⟨fun _ => 0⟩ s d t).get (s + j)
      = -(d.comp (stress_pair j).1 * t.comp (stress_pair j).2) := by
  simp only [stress_update, subf_get]
  interval_cases j <;>
    simp (disch := omega) only [if_pos, if_neg, stress_pair, vector.comp, Nat.add_zero,
      Nat.add_left_cancel_iff, if_true, if_false] <;> ring

/-- The contribution of one neighbor to stress slot `j`. -/
theorem pair_delta_stress (B : Build) (G : Globals) (S : Splines) (h i j : Nat)
    (n : neigh_t) (hS : B.STRESS = true) (hL : Layout G) (hh : h < G.nconf)
    (hi : i < G.inconf h) (hj : j < 6)
    (hn : G.cnfstart h ≤ n.nr ∧ n.nr < G.cnfstart h + G.inconf h) :
    pair_delta B G S h true true i n (G.stress_p + 6 * h + j)
      = -(n.dist.comp (stress_pair j).1
          * pair_tmp_force G S (G.cnfstart h + i) n (stress_pair j).2) := by
  have hf := hL.force_lt hh
  have hs := hL.stress_ge
  have x0 : ¬ (G.stress_p + 6 * h + j = G.energy_p + h) := by omega
  rw [pair_delta_eq, Nat.add_comm i (G.cnfstart h)]
  unfold pair_tmp_force
  by_cases hr : n.r < G.pot_end (n.col 0)
  · simp only [if_pos hr, hS, Bool.and_true, if_true, if_neg x0, zero_add]
    rw [slot3_ne _ _ (by omega), slot3_ne _ _ (by omega), stress_update_zero_get _ _ _ _ hj]
    unfold pair_halved vector.comp
    by_cases hself : n.nr = G.cnfstart h + i
    · simp only [if_pos hself]
      split_ifs <;> ring
    · simp only [if_neg hself]
      split_ifs <;> ring
  · simp only [if_neg hr, mul_zero, neg_zero]

theorem pair_stress_loop_get (G : Globals) (h m : Nat) (st : St) (k : Nat) :
    (forLoop (pair_stress_term G h) m st).forces.get k
      = if G.stress_p + 6 * h ≤ k ∧ k < G.stress_p + 6 * h + m then
          st.forces.get k / G.conf_vol (h - G.firstconf) - G.force_0 k
        else st.forces.get k := by
  induction m with
  | zero =>
    have x0 : ¬ (G.stress_p + 6 * h ≤ k ∧ k < G.stress_p + 6 * h + 0) := by omega
    rw [forLoop_zero, if_neg x0]
  | succ m ih =>
    rw [forLoop_succ]
    generalize forLoop (pair_stress_term G h) m st = s at ih ⊢
    unfold pair_stress_term
    simp only [subf_get, divf_get]
    by_cases hk : k = G.stress_p + 6 * h + m
    · have x1 : ¬ (G.stress_p + 6 * h ≤ k ∧ k < G.stress_p + 6 * h + m) := by omega
      have x2 : G.stress_p + 6 * h ≤ k ∧ k < G.stress_p + 6 * h + (m + 1) := by omega
      rw [if_neg x1] at ih
      rw [if_pos hk, if_pos hk, if_pos x2, ← hk, ih]
    · rw [if_neg hk, if_neg hk, ih, sub_zero]
      by_cases hk2 : G.stress_p + 6 * h ≤ k ∧ k < G.stress_p + 6 * h + m
      · have x2 : G.stress_p + 6 * h ≤ k ∧ k < G.stress_p + 6 * h + (m + 1) := by omega
        rw [if_pos hk2, if_pos x2]
      · have x2 : ¬ (G.stress_p + 6 * h ≤ k ∧ k < G.stress_p + 6 * h + (m + 1)) := by omega
        rw [if_neg hk2, if_neg x2]

/-- The stress slot `j` that the evaluation of a configuration with both
flags set leaves. -/
theorem pair_conf_val_stress (B : Build) (G : Globals) (S : Splines) (h j : Nat)
    (hS : B.STRESS = true) (hL : Layout G) (hh : h < G.nconf) (hj : j < 6)
    (hN : NeighIn G h) (hu : G.conf_uf (h - G.firstconf) = true)
    (hv : G.conf_us (h - G.firstconf) = true) :
    pair_conf_val B G S h (G.stress_p + 6 * h + j)
      = (-(∑ i in Finset.range (G.inconf h),
          ((G.conf_atoms (i + G.cnfstart h - G.firstatom)).neigh.map
            (fun n => n.dist.comp (stress_pair j).1
              * pair_tmp_force G S (G.cnfstart h + i) n (stress_pair j).2)).sum))
          / G.conf_vol (h - G.firstconf) - G.force_0 (G.stress_p + 6 * h + j) := by
  have hf := hL.force_lt hh
  have hs := hL.stress_ge
  unfold pair_conf_val pair_conf
  simp only []
  unfold pair_conf_stress
  rw [hu, hv, hS]
  simp only [Bool.and_self, if_true]
  have x1 : G.stress_p + 6 * h ≤ G.stress_p + 6 * h + j
      ∧ G.stress_p + 6 * h + j < G.stress_p + 6 * h + 6 := by omega
  rw [pair_stress_loop_get, if_pos x1, pair_conf_energy_frame G h _ _ (by omega),
    pair_atoms_get B G S h _ _ _ _ _ (fun _ _ => by omega), pair_conf_reset_get]
  simp only []
  rw [if_neg (by omega), if_pos ⟨hS, by omega, by omega⟩, zero_add]
  have hsum : ∀ i, i ∈ Finset.range (G.inconf h) →
      ((G.conf_atoms (i + G.cnfstart h - G.firstatom)).neigh.map
        (fun n => pair_delta B G S h true true i n (G.stress_p + 6 * h + j))).sum
      = -((G.conf_atoms (i + G.cnfstart h - G.firstatom)).neigh.map
          (fun n => n.dist.comp (stress_pair j).1
              * pair_tmp_force G S (G.cnfstart h + i) n (stress_pair j).2)).sum := by
    intro i hi
    rw [← list_sum_map_neg]
    congr 1
    apply List.map_congr_left
    intro n hn
    exact pair_delta_stress B G S h i j n hS hL hh (Finset.mem_range.1 hi) hj
      (hN i (Finset.mem_range.1 hi) n hn)
  rw [Finset.sum_congr rfl hsum, Finset.sum_neg_distrib]

/-- The stress term of configuration `h` in the local sum: the local sum is
the one for stress weight 0 plus, when the stress loop runs, the weighted
squares of the six stress slots. -/
theorem pair_conf_term_stress (B : Build) (G : Globals) (S : Splines) (h : Nat) :
    pair_conf_term B G S h
      = pair_conf_term B { G with sweight := 0 } S h
        + (if (B.STRESS && (G.conf_uf (h - G.firstconf) && G.conf_us (h - G.firstconf)))
              = true then
            G.conf_weight h * G.sweight * ∑ j in Finset.range 6,
              dsquare (pair_conf_val B G S h (G.stress_p + 6 * h + j))
          else 0) := by
  unfold pair_conf_term pair_conf_val pair_conf
  simp only []
  generalize hA : pair_conf_energy G h
    (forLoop (pair_atom B G S h (G.conf_uf (h - G.firstconf))
      (G.conf_us (h - G.firstconf))) (G.inconf h)
      ⟨pair_conf_reset B G h (G.conf_uf (h - G.firstconf)) ⟨fun _ => 0⟩, 0⟩) = A
  have hA0 : pair_conf_energy { G with sweight := 0 } h
      (forLoop (pair_atom B { G with sweight := 0 } S h (G.conf_uf (h - G.firstconf))
        (G.conf_us (h - G.firstconf))) (G.inconf h)
        ⟨pair_conf_reset B { G with sweight := 0 } h (G.conf_uf (h - G.firstconf))
          ⟨fun _ => 0⟩, 0⟩) = A := hA
  show (pair_conf_stress B G h _ _ A).tmpsum
    = (pair_conf_stress B { G with sweight := 0 } h _ _
        (pair_conf_energy { G with sweight := 0 } h _)).tmpsum + _
  rw [hA0, pair_conf_stress_sq B G, pair_conf_stress_sq B { G with sweight := 0 }]
  split_ifs
  · simp only [mul_zero, zero_mul, add_zero]
  · simp only [add_zero]

/-! ## The scratch fields of `calc_forces_adp` -/

theorem AccTab.acc_modify_get (t : AccTab) (a b : Nat) (g : adp_acc → adp_acc) :
    (t.modify a g).get b = if b = a then g (t.get a) else t.get b := rfl

theorem CacheTab.cache_modify_get (t : CacheTab) (a j b k : Nat) (g : adp_cache → adp_cache) :
    (t.modify a j g).get b k = if b = a ∧ k = j then g (t.get a j) else t.get b k := rfl

theorem AccTab.acc_modify_get_same (t : AccTab) (a : Nat) (g : adp_acc → adp_acc) :
    (t.modify a g).get a = g (t.get a) := by
  rw [AccTab.acc_modify_get, if_pos rfl]

/-- An addition to the density of atom `a`, seen from atom `b`. -/
theorem AccTab.acc_modify_rho_get (t : AccTab) (a b : Nat) (v : ℚ) :
    (t.modify a (fun p => { p with rho := p.rho + v })).get b
      = { t.get b with rho := (t.get b).rho + if b = a then v else 0 } := by
  rw [AccTab.acc_modify_get]
  by_cases hb : b = a
  · rw [if_pos hb, if_pos hb, hb]
  · rw [if_neg hb, if_neg hb, add_zero]

theorem adp_density_acc (G : Globals) (S : Splines) (h i : Nat) (n : neigh_t) (st : AdpSt)
    (b : Nat) :
    ∃ q, (adp_density G S h i n st).acc.get b = { st.acc.get b with rho := q } := by
  unfold adp_density
  simp only []
  split_ifs <;>
    first
      | exact ⟨(st.acc.get b).rho, rfl⟩
      | (simp only [AccTab.acc_modify_rho_get]
         exact ⟨_, rfl⟩)

theorem adp_density_cache (G : Globals) (S : Splines) (h i : Nat) (n : neigh_t)
    (st : AdpSt) : (adp_density G S h i n st).cache = st.cache := by
  unfold adp_density
  simp only []
  split_ifs <;> rfl

/-! ## Independence of `calc_forces_adp` from the scratch fields on entry -/

theorem AccAgree.acc_mono {α : Type} {π : adp_acc → α} {A A' : Nat → Prop} {t t' : AccTab}
    (hA : ∀ a, A' a → A a) (h : AccAgree π A t t') : AccAgree π A' t t' :=
  fun a ha => h a (hA a ha)

theorem CacheAgree.cache_mono {α : Type} {π : adp_cache → α} {X X' : Nat → Nat → Prop}
    {t t' : CacheTab} (hX : ∀ a j, X' a j → X a j) (h : CacheAgree π X t t') :
    CacheAgree π X' t t' :=
  fun a j ha => h a j (hX a j ha)

/-- An assignment that acts on what `π` shows keeps the agreement. -/
theorem AccAgree.acc_modify {α : Type} {π : adp_acc → α} {A : Nat → Prop} {t t' : AccTab}
    (a : Nat) {g g' : adp_acc → adp_acc} (h : AccAgree π A t t')
    (hg : ∀ p q, π p = π q → π (g p) = π (g' q)) :
    AccAgree π A (t.modify a g) (t'.modify a g') := by
  intro b hb
  rw [AccTab.acc_modify_get, AccTab.acc_modify_get]
  by_cases hba : b = a
  · rw [if_pos hba, if_pos hba]
    exact hg _ _ (by rw [← hba]; exact h b hb)
  · rw [if_neg hba, if_neg hba]
    exact h b hb

/-- An assignment that fixes what `π` shows adds the atom to the agreement. -/
theorem AccAgree.acc_modify_new {α : Type} {π : adp_acc → α} {A : Nat → Prop} {t t' : AccTab}
    (a : Nat) {g g' : adp_acc → adp_acc} (h : AccAgree π A t t')
    (hg : ∀ p q, π (g p) = π (g' q)) :
    AccAgree π (fun b => A b ∨ b = a) (t.modify a g) (t'.modify a g') := by
  intro b hb
  rw [AccTab.acc_modify_get, AccTab.acc_modify_get]
  by_cases hba : b = a
  · rw [if_pos hba, if_pos hba]
    exact hg _ _
  · rw [if_neg hba, if_neg hba]
    rcases hb with hb | hb
    · exact h b hb
    · exact absurd hb hba

theorem CacheAgree.cache_modify {α : Type} {π : adp_cache → α} {X : Nat → Nat → Prop}
    {t t' : CacheTab} (a j : Nat) {g g' : adp_cache → adp_cache} (h : CacheAgree π X t t')
    (hg : ∀ p q, π p = π q → π (g p) = π (g' q)) :
    CacheAgree π X (t.modify a j g) (t'.modify a j g') := by
  intro b k hb
  rw [CacheTab.cache_modify_get, CacheTab.cache_modify_get]
  by_cases hba : b = a ∧ k = j
  · rw [if_pos hba, if_pos hba]
    exact hg _ _ (by rw [← hba.1, ← hba.2]; exact h b k hb)
  · rw [if_neg hba, if_neg hba]
    exact h b k hb

theorem CacheAgree.cache_modify_new {α : Type} {π : adp_cache → α} {X : Nat → Nat → Prop}
    {t t' : CacheTab} (a j : Nat) {g g' : adp_cache → adp_cache} (h : CacheAgree π X t t')
    (hg : ∀ p q, π (g p) = π (g' q)) :
    CacheAgree π (fun b k => X b k ∨ (b = a ∧ k = j)) (t.modify a j g) (t'.modify a j g') := by
  intro b k hb
  rw [CacheTab.cache_modify_get, CacheTab.cache_modify_get]
  by_cases hba : b = a ∧ k = j
  · rw [if_pos hba, if_pos hba]
    exact hg _ _
  · rw [if_neg hba, if_neg hba]
    rcases hb with hb | hb
    · exact h b k hb
    · exact absurd hb hba

theorem Sim.sim_mono {uf : Bool} {A YG YN A' YG' YN' : Nat → Prop}
    {XU XW XU' XW' : Nat → Nat → Prop} {s t : AdpSt} (h : Sim uf A YG YN XU XW s t)
    (hA : ∀ a, A' a → A a) (hG : ∀ a, YG' a → YG a) (hN : ∀ a, YN' a → YN a)
    (hU : ∀ a j, XU' a j → XU a j) (hW : ∀ a j, XW' a j → XW a j) :
    Sim uf A' YG' YN' XU' XW' s t :=
  ⟨h.forces, h.tmpsum, h.rho_sum, h.sums.acc_mono hA, h.gradF.acc_mono hG, h.nu.acc_mono hN,
    h.cu.cache_mono hU, h.cw.cache_mono hW⟩

/-- States with the same buffer and sums agree on the empty sets, for any
flag. -/
theorem Sim.base {u : Bool} {A YG YN : Nat → Prop} {XU XW : Nat → Nat → Prop}
    {s t : AdpSt} (h : Sim u A YG YN XU XW s t) (uf' : Bool) :
    Sim uf' (fun _ => False) (fun _ => False) (fun _ => False) (fun _ _ => False)
      (fun _ _ => False) s t :=
  ⟨h.forces, h.tmpsum, h.rho_sum, fun _ ha => ha.elim, fun _ ha => ha.elim,
    fun _ ha => ha.elim, fun _ _ ha => ha.elim, fun _ _ ha => ha.elim⟩

theorem adp_reset_sim (G : Globals) (h : Nat) (uf : Bool) (i : Nat) {uf' : Bool}
    {A YG YN : Nat → Prop} {XU XW : Nat → Nat → Prop} {s t : AdpSt}
    (hs : Sim uf' A YG YN XU XW s t) :
    Sim uf' (fun b => A b ∨ b = G.cnfstart h - G.firstatom + i) YG YN XU XW
      (adp_reset G h uf i s) (adp_reset G h uf i t) := by
  have hf := hs.forces
  unfold adp_reset
  simp only []
  refine ⟨by rw [hf], hs.tmpsum, hs.rho_sum, ?_, ?_, ?_, hs.cu, hs.cw⟩
  · dsimp only
    apply AccAgree.acc_modify_new _ hs.sums
    intro p q
    rfl
  · dsimp only
    apply AccAgree.acc_modify _ hs.gradF
    intro p q e
    exact e
  · dsimp only
    apply AccAgree.acc_modify _ hs.nu
    intro p q e
    exact e

theorem adp_reset_loop_sim (G : Globals) (h : Nat) (uf : Bool) (m : Nat) {uf' : Bool}
    {A YG YN : Nat → Prop} {XU XW : Nat → Nat → Prop} {s t : AdpSt}
    (hs : Sim uf' A YG YN XU XW s t) :
    Sim uf' (fun b => A b ∨ ∃ i, i < m ∧ b = G.cnfstart h - G.firstatom + i) YG YN XU XW
      (forLoop (adp_reset G h uf) m s) (forLoop (adp_reset G h uf) m t) := by
  induction m with
  | zero =>
    rw [forLoop_zero, forLoop_zero]
    exact hs.sim_mono (fun a ha => ha.elim id (fun ⟨i, hi, _⟩ => absurd hi (Nat.not_lt_zero i)))
      (fun _ x => x) (fun _ x => x) (fun _ _ x => x) (fun _ _ x => x)
  | succ m ih =>
    rw [forLoop_succ, forLoop_succ]
    refine (adp_reset_sim G h uf m ih).sim_mono ?_ (fun _ x => x) (fun _ x => x)
      (fun _ _ x => x) (fun _ _ x => x)
    intro a ha
    rcases ha with ha | ⟨i, hi, hb⟩
    · exact Or.inl (Or.inl ha)
    · rcases Nat.eq_or_lt_of_le (Nat.le_of_lt_succ hi) with he | hlt
      · exact Or.inr (by rw [hb, he])
      · exact Or.inl (Or.inr ⟨i, hlt, hb⟩)

theorem adp_dipole_sim (G : Globals) (S : Splines) (h : Nat) (uf : Bool) (i j : Nat)
    (n : neigh_t) {A YG YN : Nat → Prop} {XU XW : Nat → Nat → Prop} {s t : AdpSt}
    (hs : Sim uf A YG YN XU XW s t) :
    Sim uf A YG YN
      (fun a k => XU a k
        ∨ (a = i + G.cnfstart h - G.firstatom ∧ k = j ∧ n.r < G.pot_end (n.col 2))) XW
      (adp_dipole G S h uf i j n s) (adp_dipole G S h uf i j n t) := by
  unfold adp_dipole
  by_cases hr : n.r < G.pot_end (n.col 2)
  · simp only [if_pos hr]
    refine ⟨hs.forces, hs.tmpsum, hs.rho_sum, ?_, ?_, ?_, ?_, ?_⟩
    · dsimp only
      cases uf <;> simp only [Bool.false_eq_true, if_false, if_true] <;>
        repeat' apply AccAgree.acc_modify
      all_goals
        first
          | exact hs.sums
          | (intro p q e
             simp only [acc_sums, Prod.mk.injEq] at e ⊢
             obtain ⟨e1, e2, e3⟩ := e
             simp only [e1, e2, e3, and_self])
    · dsimp only
      repeat' apply AccAgree.acc_modify
      all_goals
        first
          | exact hs.gradF
          | (intro p q e
             exact e)
    · dsimp only
      repeat' apply AccAgree.acc_modify
      all_goals
        first
          | exact hs.nu
          | (intro p q e
             exact e)
    · dsimp only
      refine CacheAgree.cache_mono ?_ (CacheAgree.cache_modify_new _ _ hs.cu ?_)
      · intro a k hak
        rcases hak with hak | ⟨h1, h2, _⟩
        · exact Or.inl hak
        · exact Or.inr ⟨h1, h2⟩
      · intro p q
        cases uf <;> simp only [cache_u, Bool.false_eq_true, if_false, if_true]
    · dsimp only
      apply CacheAgree.cache_modify _ _ hs.cw
      intro p q e
      exact e
  · simp only [if_neg hr]
    exact hs.sim_mono (fun _ x => x) (fun _ x => x) (fun _ x => x)
      (fun a k hak => hak.elim id (fun x => absurd x.2.2 hr)) (fun _ _ x => x)

theorem adp_quadrupole_sim (G : Globals) (S : Splines) (h : Nat) (uf : Bool) (i j : Nat)
    (n : neigh_t) {A YG YN : Nat → Prop} {XU XW : Nat → Nat → Prop} {s t : AdpSt}
    (hs : Sim uf A YG YN XU XW s t) :
    Sim uf A YG YN XU
      (fun a k => XW a k
        ∨ (a = i + G.cnfstart h - G.firstatom ∧ k = j ∧ n.r < G.pot_end (n.col 3)))
      (adp_quadrupole G S h uf i j n s) (adp_quadrupole G S h uf i j n t) := by
  unfold adp_quadrupole
  by_cases hr : n.r < G.pot_end (n.col 3)
  · simp only [if_pos hr]
    refine ⟨hs.forces, hs.tmpsum, hs.rho_sum, ?_, ?_, ?_, ?_, ?_⟩
    · dsimp only
      cases uf <;> simp only [Bool.false_eq_true, if_false, if_true] <;>
        repeat' apply AccAgree.acc_modify
      all_goals
        first
          | exact hs.sums
          | (intro p q e
             simp only [acc_sums, Prod.mk.injEq] at e ⊢
             obtain ⟨e1, e2, e3⟩ := e
             simp only [e1, e2, e3, and_self])
    · dsimp only
      repeat' apply AccAgree.acc_modify
      all_goals
        first
          | exact hs.gradF
          | (intro p q e
             exact e)
    · dsimp only
      repeat' apply AccAgree.acc_modify
      all_goals
        first
          | exact hs.nu
          | (intro p q e
             exact e)
    · dsimp only
      apply CacheAgree.cache_modify _ _ hs.cu
      intro p q e
      exact e
    · dsimp only
      refine CacheAgree.cache_mono ?_ (CacheAgree.cache_modify_new _ _ hs.cw ?_)
      · intro a k hak
        rcases hak with hak | ⟨h1, h2, _⟩
        · exact Or.inl hak
        · exact Or.inr ⟨h1, h2⟩
      · intro p q
        cases uf <;> simp only [cache_w, Bool.false_eq_true, if_false, if_true]
  · simp only [if_neg hr]
    exact hs.sim_mono (fun _ x => x) (fun _ x => x) (fun _ x => x) (fun _ _ x => x)
      (fun a k hak => hak.elim id (fun x => absurd x.2.2 hr))

theorem adp_density_sim (G : Globals) (S : Splines) (h i : Nat) (n : neigh_t) {uf : Bool}
    {A YG YN : Nat → Prop} {XU XW : Nat → Nat → Prop} {s t : AdpSt}
    (hs : Sim uf A YG YN XU XW s t) :
    Sim uf A YG YN XU XW (adp_density G S h i n s) (adp_density G S h i n t) := by
  unfold adp_density
  simp only []
  split_ifs <;> refine ⟨hs.forces, hs.tmpsum, hs.rho_sum, ?_, ?_, ?_, hs.cu, hs.cw⟩ <;>
    dsimp only <;> (repeat' apply AccAgree.acc_modify)
  all_goals
    first
      | exact hs.sums
      | exact hs.gradF
      | exact hs.nu
      | (intro p q e
         exact e)
      | (intro p q e
         simp only [acc_sums, Prod.mk.injEq] at e ⊢
         obtain ⟨e1, e2, e3⟩ := e
         simp only [e1, e2, e3, and_self])

theorem adp_neigh_sim (B : Build) (G : Globals) (S : Splines) (h : Nat) (uf us : Bool)
    (i : Nat) (jn : Nat × neigh_t) {A YG YN : Nat → Prop} {XU XW : Nat → Nat → Prop}
    {s t : AdpSt} (hs : Sim uf A YG YN XU XW s t) :
    Sim uf A YG YN
      (fun a k => XU a k
        ∨ (a = i + G.cnfstart h - G.firstatom ∧ k = jn.1 ∧ jn.2.r < G.pot_end (jn.2.col 2)))
      (fun a k => XW a k
        ∨ (a = i + G.cnfstart h - G.firstatom ∧ k = jn.1 ∧ jn.2.r < G.pot_end (jn.2.col 3)))
      (adp_neigh B G S h uf us i s jn) (adp_neigh B G S h uf us i t jn) := by
  unfold adp_neigh
  have h1 : Sim uf A YG YN XU XW
      { s with forces := pair_neigh B G S h uf us i s.forces jn.2 }
      { t with forces := pair_neigh B G S h uf us i t.forces jn.2 } :=
    ⟨by rw [hs.forces], hs.tmpsum, hs.rho_sum, hs.sums, hs.gradF, hs.nu, hs.cu, hs.cw⟩
  exact adp_density_sim G S h i jn.2
    (adp_quadrupole_sim G S h uf i jn.1 jn.2 (adp_dipole_sim G S h uf i jn.1 jn.2 h1))

theorem adp_neigh_foldl_sim (B : Build) (G : Globals) (S : Splines) (h : Nat) (uf us : Bool)
    (i : Nat) (l : List (Nat × neigh_t)) {A YG YN : Nat → Prop} {XU XW : Nat → Nat → Prop}
    {s t : AdpSt} (hs : Sim uf A YG YN XU XW s t) :
    Sim uf A YG YN
      (fun a k => XU a k ∨ (a = i + G.cnfstart h - G.firstatom
        ∧ ∃ n, (k, n) ∈ l ∧ n.r < G.pot_end (n.col 2)))
      (fun a k => XW a k ∨ (a = i + G.cnfstart h - G.firstatom
        ∧ ∃ n, (k, n) ∈ l ∧ n.r < G.pot_end (n.col 3)))
      (l.foldl (adp_neigh B G S h uf us i) s) (l.foldl (adp_neigh B G S h uf us i) t) := by
  induction l generalizing XU XW s t with
  | nil =>
    exact hs.sim_mono (fun _ x => x) (fun _ x => x) (fun _ x => x)
      (fun a k hak => hak.elim id (fun ⟨_, n, hn, _⟩ => absurd hn (List.not_mem_nil _)))
      (fun a k hak => hak.elim id (fun ⟨_, n, hn, _⟩ => absurd hn (List.not_mem_nil _)))
  | cons jn l ih =>
    rw [List.foldl_cons, List.foldl_cons]
    refine (ih (adp_neigh_sim B G S h uf us i jn hs)).sim_mono (fun _ x => x) (fun _ x => x)
      (fun _ x => x) ?_ ?_
    · intro a k hak
      rcases hak with hak | ⟨ha, n, hn, hr⟩
      · exact Or.inl (Or.inl hak)
      · rcases List.mem_cons.1 hn with he | hl
        · refine Or.inl (Or.inr ⟨ha, ?_, ?_⟩)
          · rw [← he]
          · rw [← he]
            exact hr
        · exact Or.inr ⟨ha, n, hl, hr⟩
    · intro a k hak
      rcases hak with hak | ⟨ha, n, hn, hr⟩
      · exact Or.inl (Or.inl hak)
      · rcases List.mem_cons.1 hn with he | hl
        · refine Or.inl (Or.inr ⟨ha, ?_, ?_⟩)
          · rw [← he]
          · rw [← he]
            exact hr
        · exact Or.inr ⟨ha, n, hl, hr⟩

theorem Sim.rho_eq {uf : Bool} {A YG YN : Nat → Prop} {XU XW : Nat → Nat → Prop}
    {s t : AdpSt} (hs : Sim uf A YG YN XU XW s t) {a : Nat} (hA : A a) :
    (s.acc.get a).rho = (t.acc.get a).rho := by
  have := hs.sums _ hA
  simp only [acc_sums, Prod.mk.injEq] at this
  exact this.1

theorem Sim.mu_eq {uf : Bool} {A YG YN : Nat → Prop} {XU XW : Nat → Nat → Prop}
    {s t : AdpSt} (hs : Sim uf A YG YN XU XW s t) {a : Nat} (hA : A a) :
    (s.acc.get a).mu = (t.acc.get a).mu := by
  have := hs.sums _ hA
  simp only [acc_sums, Prod.mk.injEq] at this
  exact this.2.1

theorem Sim.lambda_eq {uf : Bool} {A YG YN : Nat → Prop} {XU XW : Nat → Nat → Prop}
    {s t : AdpSt} (hs : Sim uf A YG YN XU XW s t) {a : Nat} (hA : A a) :
    (s.acc.get a).lambda = (t.acc.get a).lambda := by
  have := hs.sums _ hA
  simp only [acc_sums, Prod.mk.injEq] at this
  exact this.2.2

/-- The clamp of a `RESCALE` build (lines 425-431). -/
theorem embed_clamp_sim (a k : Nat) (v e : ℚ) {uf : Bool}
    {A YG YN : Nat → Prop} {XU XW : Nat → Nat → Prop} {s t : AdpSt}
    (hs : Sim uf A YG YN XU XW s t) (hA : A a) (w : ℚ → ℚ) :
    Sim uf A YG YN XU XW
      (if e < (s.acc.get a).rho then
        { s with
          forces := addf s.forces k (w (s.acc.get a).rho)
          acc := s.acc.modify a (fun p => { p with rho := v }) }
      else s)
      (if e < (t.acc.get a).rho then
        { t with
          forces := addf t.forces k (w (t.acc.get a).rho)
          acc := t.acc.modify a (fun p => { p with rho := v }) }
      else t) := by
  rw [hs.rho_eq hA]
  split_ifs
  · refine ⟨?_, hs.tmpsum, hs.rho_sum, ?_, ?_, ?_, hs.cu, hs.cw⟩
    · dsimp only
      rw [hs.forces]
    · dsimp only
      apply AccAgree.acc_modify _ hs.sums
      intro p q e
      simp only [acc_sums, Prod.mk.injEq] at e ⊢
      obtain ⟨e1, e2, e3⟩ := e
      simp only [e1, e2, e3, and_self]
    · dsimp only
      apply AccAgree.acc_modify _ hs.gradF
      intro p q e
      exact e
    · dsimp only
      apply AccAgree.acc_modify _ hs.nu
      intro p q e
      exact e
  · exact hs

/-- The penalty below the table of a `RESCALE` build (lines 433-438). -/
theorem embed_low_sim (a k : Nat) (b : ℚ) {uf : Bool}
    {A YG YN : Nat → Prop} {XU XW : Nat → Nat → Prop} {s t : AdpSt}
    (hs : Sim uf A YG YN XU XW s t) (hA : A a) (w : ℚ → ℚ) :
    Sim uf A YG YN XU XW
      (if (s.acc.get a).rho < b then
        { s with forces := addf s.forces k (w (s.acc.get a).rho) }
      else s)
      (if (t.acc.get a).rho < b then
        { t with forces := addf t.forces k (w (t.acc.get a).rho) }
      else t) := by
  rw [hs.rho_eq hA]
  split_ifs
  · refine ⟨?_, hs.tmpsum, hs.rho_sum, hs.sums, hs.gradF, hs.nu, hs.cu, hs.cw⟩
    dsimp only
    rw [hs.forces]
  · exact hs

/-- An embedding energy and gradient that depend on the density only. -/
theorem embed_store_sim (a k : Nat) {uf : Bool}
    {A YG YN : Nat → Prop} {XU XW : Nat → Nat → Prop} {s t : AdpSt}
    (hs : Sim uf A YG YN XU XW s t) (hA : A a) (w g : ℚ → ℚ) :
    Sim uf A (fun b => YG b ∨ b = a) YN XU XW
      { s with
        forces := addf s.forces k (w (s.acc.get a).rho)
        acc := s.acc.modify a (fun p => { p with gradF := g (s.acc.get a).rho }) }
      { t with
        forces := addf t.forces k (w (t.acc.get a).rho)
        acc := t.acc.modify a (fun p => { p with gradF := g (t.acc.get a).rho }) } := by
  rw [hs.rho_eq hA]
  refine ⟨?_, hs.tmpsum, hs.rho_sum, ?_, ?_, ?_, hs.cu, hs.cw⟩
  · dsimp only
    rw [hs.forces]
  · dsimp only
    apply AccAgree.acc_modify _ hs.sums
    intro p q e
    exact e
  · dsimp only
    apply AccAgree.acc_modify_new _ hs.gradF
    intro p q
    rfl
  · dsimp only
    apply AccAgree.acc_modify _ hs.nu
    intro p q e
    exact e

theorem adp_embed_sim (B : Build) (G : Globals) (S : Splines) (h i : Nat) {uf : Bool}
    {A YG YN : Nat → Prop} {XU XW : Nat → Nat → Prop} {s t : AdpSt}
    (hs : Sim uf A YG YN XU XW s t) (hA : A (i + G.cnfstart h - G.firstatom)) :
    Sim uf A (fun a => YG a ∨ a = i + G.cnfstart h - G.firstatom) YN XU XW
      (adp_embed B G S h i s) (adp_embed B G S h i t) := by
  have e := hs.rho_eq hA
  unfold adp_embed
  simp only []
  generalize G.paircol + G.ntypes + (G.conf_atoms (i + G.cnfstart h - G.firstatom)).type = col
  cases hR : B.RESCALE
  · simp only [Bool.false_eq_true, if_false]
    by_cases c1 : (t.acc.get (i + G.cnfstart h - G.firstatom)).rho < G.pot_begin col
    · have c1s : (s.acc.get (i + G.cnfstart h - G.firstatom)).rho < G.pot_begin col := by
        rw [e]
        exact c1
      simp only [if_pos c1, if_pos c1s]
      exact embed_store_sim _ _ hs hA
        (fun r => (S.g_splint_comb col (G.pot_begin col)).1
          + (r - G.pot_begin col) * (S.g_splint_comb col (G.pot_begin col)).2)
        (fun _ => (S.g_splint_comb col (G.pot_begin col)).2)
    · have c1s : ¬ (s.acc.get (i + G.cnfstart h - G.firstatom)).rho < G.pot_begin col := by
        rw [e]
        exact c1
      simp only [if_neg c1, if_neg c1s]
      by_cases c2 : G.pot_end col < (t.acc.get (i + G.cnfstart h - G.firstatom)).rho
      · have c2s : G.pot_end col < (s.acc.get (i + G.cnfstart h - G.firstatom)).rho := by
          rw [e]
          exact c2
        simp only [if_pos c2, if_pos c2s]
        exact embed_store_sim _ _ hs hA
          (fun r => (S.g_splint_comb col (G.pot_end col - (1 / 2) * G.pot_step col)).1
            + (r - G.pot_end col)
              * (S.g_splint_comb col (G.pot_end col - (1 / 2) * G.pot_step col)).2)
          (fun _ => (S.g_splint_comb col (G.pot_end col - (1 / 2) * G.pot_step col)).2)
      · have c2s : ¬ G.pot_end col < (s.acc.get (i + G.cnfstart h - G.firstatom)).rho := by
          rw [e]
          exact c2
        simp only [if_neg c2, if_neg c2s]
        exact embed_store_sim _ _ hs hA (fun r => (S.g_splint_comb col r).1)
          (fun r => (S.g_splint_comb col r).2)
  · simp only [if_true]
    exact embed_store_sim _ _
      (embed_low_sim _ _ _
        (embed_clamp_sim _ _ _ _ hs hA
          (fun r => B.DUMMY_WEIGHT * 10 * dsquare (r - G.pot_end col))) hA
        (fun r => B.DUMMY_WEIGHT * 10 * dsquare (G.pot_begin col - r))) hA
      (fun r => (S.g_splint_comb col r).1) (fun r => (S.g_splint_comb col r).2)

theorem adp_self_energy_sim (G : Globals) (h i : Nat) {uf : Bool}
    {A YG YN : Nat → Prop} {XU XW : Nat → Nat → Prop} {s t : AdpSt}
    (hs : Sim uf A YG YN XU XW s t) (hA : A (i + G.cnfstart h - G.firstatom)) :
    Sim uf A YG (fun a => YN a ∨ a = i + G.cnfstart h - G.firstatom) XU XW
      (adp_self_energy G h i s) (adp_self_energy G h i t) := by
  have e1 := hs.rho_eq hA
  have e2 := hs.mu_eq hA
  have e3 := hs.lambda_eq hA
  unfold adp_self_energy
  simp only []
  rw [e1, e2, e3]
  refine ⟨?_, hs.tmpsum, ?_, ?_, ?_, ?_, hs.cu, hs.cw⟩
  · dsimp only
    rw [hs.forces]
  · dsimp only
    rw [hs.rho_sum]
  · dsimp only
    apply AccAgree.acc_modify _ hs.sums
    intro p q e
    exact e
  · dsimp only
    apply AccAgree.acc_modify _ hs.gradF
    intro p q e
    exact e
  · dsimp only
    apply AccAgree.acc_modify_new _ hs.nu
    intro p q
    rfl

theorem adp_atom2_sim (B : Build) (G : Globals) (S : Splines) (h : Nat) (uf us : Bool)
    (i : Nat) {A YG YN : Nat → Prop} {XU XW : Nat → Nat → Prop} {s t : AdpSt}
    (hs : Sim uf A YG YN XU XW s t) (hA : A (i + G.cnfstart h - G.firstatom)) :
    Sim uf A (fun a => YG a ∨ a = i + G.cnfstart h - G.firstatom)
      (fun a => YN a ∨ a = i + G.cnfstart h - G.firstatom)
      (fun a k => XU a k ∨ (a = i + G.cnfstart h - G.firstatom
        ∧ ∃ n, (k, n) ∈ (G.conf_atoms (i + G.cnfstart h - G.firstatom)).neigh.enum
          ∧ n.r < G.pot_end (n.col 2)))
      (fun a k => XW a k ∨ (a = i + G.cnfstart h - G.firstatom
        ∧ ∃ n, (k, n) ∈ (G.conf_atoms (i + G.cnfstart h - G.firstatom)).neigh.enum
          ∧ n.r < G.pot_end (n.col 3)))
      (adp_atom2 B G S h uf us i s) (adp_atom2 B G S h uf us i t) := by
  unfold adp_atom2
  exact adp_self_energy_sim G h i
    (adp_embed_sim B G S h i (adp_neigh_foldl_sim B G S h uf us i _ hs) hA) hA

theorem adp_atoms2_sim (B : Build) (G : Globals) (S : Splines) (h : Nat) (uf us : Bool)
    (m : Nat) {A YG YN : Nat → Prop} {XU XW : Nat → Nat → Prop} {s t : AdpSt}
    (hs : Sim uf A YG YN XU XW s t)
    (hA : ∀ i, i < m → A (i + G.cnfstart h - G.firstatom)) :
    Sim uf A (fun a => YG a ∨ ∃ i, i < m ∧ a = i + G.cnfstart h - G.firstatom)
      (fun a => YN a ∨ ∃ i, i < m ∧ a = i + G.cnfstart h - G.firstatom)
      (fun a k => XU a k ∨ ∃ i, i < m ∧ a = i + G.cnfstart h - G.firstatom
        ∧ ∃ n, (k, n) ∈ (G.conf_atoms (i + G.cnfstart h - G.firstatom)).neigh.enum
          ∧ n.r < G.pot_end (n.col 2))
      (fun a k => XW a k ∨ ∃ i, i < m ∧ a = i + G.cnfstart h - G.firstatom
        ∧ ∃ n, (k, n) ∈ (G.conf_atoms (i + G.cnfstart h - G.firstatom)).neigh.enum
          ∧ n.r < G.pot_end (n.col 3))
      (forLoop (adp_atom2 B G S h uf us) m s) (forLoop (adp_atom2 B G S h uf us) m t) := by
  induction m with
  | zero =>
    rw [forLoop_zero, forLoop_zero]
    exact hs.sim_mono (fun _ x => x)
      (fun a ha => ha.elim id (fun ⟨i, hi, _⟩ => absurd hi (Nat.not_lt_zero i)))
      (fun a ha => ha.elim id (fun ⟨i, hi, _⟩ => absurd hi (Nat.not_lt_zero i)))
      (fun a k ha => ha.elim id (fun ⟨i, hi, _⟩ => absurd hi (Nat.not_lt_zero i)))
      (fun a k ha => ha.elim id (fun ⟨i, hi, _⟩ => absurd hi (Nat.not_lt_zero i)))
  | succ m ih =>
    rw [forLoop_succ, forLoop_succ]
    have step := adp_atom2_sim B G S h uf us m (ih (fun i hi => hA i (Nat.lt_succ_of_lt hi)))
      (hA m (Nat.lt_succ_self m))
    refine step.sim_mono (fun _ x => x) ?_ ?_ ?_ ?_
    · intro a ha
      rcases ha with ha | ⟨i, hi, hb⟩
      · exact Or.inl (Or.inl ha)
      · rcases Nat.eq_or_lt_of_le (Nat.le_of_lt_succ hi) with he | hlt
        · exact Or.inr (by rw [hb, he])
        · exact Or.inl (Or.inr ⟨i, hlt, hb⟩)
    · intro a ha
      rcases ha with ha | ⟨i, hi, hb⟩
      · exact Or.inl (Or.inl ha)
      · rcases Nat.eq_or_lt_of_le (Nat.le_of_lt_succ hi) with he | hlt
        · exact Or.inr (by rw [hb, he])
        · exact Or.inl (Or.inr ⟨i, hlt, hb⟩)
    · intro a k ha
      rcases ha with ha | ⟨i, hi, hb, hn⟩
      · exact Or.inl (Or.inl ha)
      · rcases Nat.eq_or_lt_of_le (Nat.le_of_lt_succ hi) with he | hlt
        · subst he
          exact Or.inr ⟨hb, hn⟩
        · exact Or.inl (Or.inr ⟨i, hlt, hb, hn⟩)
    · intro a k ha
      rcases ha with ha | ⟨i, hi, hb, hn⟩
      · exact Or.inl (Or.inl ha)
      · rcases Nat.eq_or_lt_of_le (Nat.le_of_lt_succ hi) with he | hlt
        · subst he
          exact Or.inr ⟨hb, hn⟩
        · exact Or.inl (Or.inr ⟨i, hlt, hb, hn⟩)

theorem Sim.set_forces {uf : Bool} {A YG YN : Nat → Prop} {XU XW : Nat → Nat → Prop}
    {s t : AdpSt} (hs : Sim uf A YG YN XU XW s t) {f g : Buf} (hfg : f = g) :
    Sim uf A YG YN XU XW { s with forces := f } { t with forces := g } :=
  ⟨hfg, hs.tmpsum, hs.rho_sum, hs.sums, hs.gradF, hs.nu, hs.cu, hs.cw⟩

theorem adp_force_eam_sim (B : Build) (G : Globals) (S : Splines) (h : Nat) (us : Bool)
    (i : Nat) (n : neigh_t) {uf : Bool} {A YG YN : Nat → Prop} {XU XW : Nat → Nat → Prop}
    {s t : AdpSt} (hs : Sim uf A YG YN XU XW s t)
    (hi : YG (i + G.cnfstart h - G.firstatom)) (hj : YG (n.nr - G.firstatom)) :
    Sim uf A YG YN XU XW (adp_force_eam B G S h us i n s) (adp_force_eam B G S h us i n t) := by
  have e1 : (s.acc.get (i + G.cnfstart h - G.firstatom)).gradF
      = (t.acc.get (i + G.cnfstart h - G.firstatom)).gradF := hs.gradF _ hi
  have e2 : (s.acc.get (n.nr - G.firstatom)).gradF = (t.acc.get (n.nr - G.firstatom)).gradF :=
    hs.gradF _ hj
  have ev : adp_eam_tmp_force G S h i n s.acc = adp_eam_tmp_force G S h i n t.acc := by
    unfold adp_eam_tmp_force
    simp only []
    rw [e1, e2]
  unfold adp_force_eam
  simp only []
  split_ifs
  · exact hs.set_forces (by rw [ev, hs.forces])
  · exact hs

theorem adp_force_dipole_sim (B : Build) (G : Globals) (h : Nat) (us : Bool)
    (i j : Nat) (n : neigh_t) {A YG YN : Nat → Prop} {XU XW : Nat → Nat → Prop}
    {s t : AdpSt} (hs : Sim true A YG YN XU XW s t)
    (hi : A (i + G.cnfstart h - G.firstatom)) (hj : A (n.nr - G.firstatom))
    (hc : n.r < G.pot_end (n.col 2) → XU (i + G.cnfstart h - G.firstatom) j) :
    Sim true A YG YN XU XW (adp_force_dipole B G h us i j n s)
      (adp_force_dipole B G h us i j n t) := by
  unfold adp_force_dipole
  by_cases hr : n.r < G.pot_end (n.col 2)
  · rw [if_pos hr, if_pos hr]
    have e1 := hs.mu_eq hi
    have e2 := hs.mu_eq hj
    have e3 := hs.cu _ _ (hc hr)
    simp only [cache_u, if_true, Prod.mk.injEq] at e3
    have ev : adp_dipole_tmp_force G h i j n s.acc s.cache
        = adp_dipole_tmp_force G h i j n t.acc t.cache := by
      unfold adp_dipole_tmp_force
      simp only []
      rw [e1, e2, e3.1, e3.2]
    exact hs.set_forces (by rw [ev, hs.forces])
  · rw [if_neg hr, if_neg hr]
    exact hs

theorem adp_force_quadrupole_sim (B : Build) (G : Globals) (h : Nat) (us : Bool)
    (i j : Nat) (n : neigh_t) {A YG YN : Nat → Prop} {XU XW : Nat → Nat → Prop}
    {s t : AdpSt} (hs : Sim true A YG YN XU XW s t)
    (hi : A (i + G.cnfstart h - G.firstatom)) (hj : A (n.nr - G.firstatom))
    (hni : YN (i + G.cnfstart h - G.firstatom)) (hnj : YN (n.nr - G.firstatom))
    (hc : n.r < G.pot_end (n.col 3) → XW (i + G.cnfstart h - G.firstatom) j) :
    Sim true A YG YN XU XW (adp_force_quadrupole B G h us i j n s)
      (adp_force_quadrupole B G h us i j n t) := by
  unfold adp_force_quadrupole
  by_cases hr : n.r < G.pot_end (n.col 3)
  · rw [if_pos hr, if_pos hr]
    have e1 := hs.lambda_eq hi
    have e2 := hs.lambda_eq hj
    have e3 := hs.cw _ _ (hc hr)
    have e4 : (s.acc.get (i + G.cnfstart h - G.firstatom)).nu
        = (t.acc.get (i + G.cnfstart h - G.firstatom)).nu := hs.nu _ hni
    have e5 : (s.acc.get (n.nr - G.firstatom)).nu = (t.acc.get (n.nr - G.firstatom)).nu :=
      hs.nu _ hnj
    simp only [cache_w, if_true, Prod.mk.injEq] at e3
    have ev : adp_quadrupole_tmp_force G h i j n s.acc s.cache
        = adp_quadrupole_tmp_force G h i j n t.acc t.cache := by
      unfold adp_quadrupole_tmp_force
      simp only []
      rw [e1, e2, e3.1, e3.2, e4, e5]
    exact hs.set_forces (by rw [ev, hs.forces])
  · rw [if_neg hr, if_neg hr]
    exact hs

theorem adp_neigh3_sim (B : Build) (G : Globals) (S : Splines) (h : Nat) (us : Bool)
    (i : Nat) (jn : Nat × neigh_t) {A YG YN : Nat → Prop} {XU XW : Nat → Nat → Prop}
    {s t : AdpSt} (hs : Sim true A YG YN XU XW s t)
    (hi : A (i + G.cnfstart h - G.firstatom)) (hj : A (jn.2.nr - G.firstatom))
    (hgi : YG (i + G.cnfstart h - G.firstatom)) (hgj : YG (jn.2.nr - G.firstatom))
    (hni : YN (i + G.cnfstart h - G.firstatom)) (hnj : YN (jn.2.nr - G.firstatom))
    (hu : jn.2.r < G.pot_end (jn.2.col 2) → XU (i + G.cnfstart h - G.firstatom) jn.1)
    (hw : jn.2.r < G.pot_end (jn.2.col 3) → XW (i + G.cnfstart h - G.firstatom) jn.1) :
    Sim true A YG YN XU XW (adp_neigh3 B G S h us i s jn) (adp_neigh3 B G S h us i t jn) := by
  unfold adp_neigh3
  exact adp_force_quadrupole_sim B G h us i jn.1 jn.2
    (adp_force_dipole_sim B G h us i jn.1 jn.2
      (adp_force_eam_sim B G S h us i jn.2 hs hgi hgj) hi hj hu) hi hj hni hnj hw

theorem adp_neigh3_foldl_sim (B : Build) (G : Globals) (S : Splines) (h : Nat) (us : Bool)
    (i : Nat) (l : List (Nat × neigh_t)) {A YG YN : Nat → Prop} {XU XW : Nat → Nat → Prop}
    {s t : AdpSt} (hs : Sim true A YG YN XU XW s t)
    (hi : A (i + G.cnfstart h - G.firstatom)) (hgi : YG (i + G.cnfstart h - G.firstatom))
    (hni : YN (i + G.cnfstart h - G.firstatom))
    (hl : ∀ jn, jn ∈ l → A (jn.2.nr - G.firstatom) ∧ YG (jn.2.nr - G.firstatom)
      ∧ YN (jn.2.nr - G.firstatom)
      ∧ (jn.2.r < G.pot_end (jn.2.col 2) → XU (i + G.cnfstart h - G.firstatom) jn.1)
      ∧ (jn.2.r < G.pot_end (jn.2.col 3) → XW (i + G.cnfstart h - G.firstatom) jn.1)) :
    Sim true A YG YN XU XW (l.foldl (adp_neigh3 B G S h us i) s)
      (l.foldl (adp_neigh3 B G S h us i) t) := by
  induction l generalizing s t with
  | nil => exact hs
  | cons jn l ih =>
    rw [List.foldl_cons, List.foldl_cons]
    have hjn := hl jn (List.mem_cons_self _ _)
    exact ih (adp_neigh3_sim B G S h us i jn hs hi hjn.1 hgi hjn.2.1 hni hjn.2.2.1
      hjn.2.2.2.1 hjn.2.2.2.2) (fun x hx => hl x (List.mem_cons_of_mem _ hx))

theorem adp_atom3_sim (B : Build) (G : Globals) (S : Splines) (h : Nat) (us : Bool)
    (i : Nat) {A YG YN : Nat → Prop} {XU XW : Nat → Nat → Prop}
    {s t : AdpSt} (hs : Sim true A YG YN XU XW s t)
    (hi : A (i + G.cnfstart h - G.firstatom)) (hgi : YG (i + G.cnfstart h - G.firstatom))
    (hni : YN (i + G.cnfstart h - G.firstatom))
    (hl : ∀ jn, jn ∈ (G.conf_atoms (i + G.cnfstart h - G.firstatom)).neigh.enum →
      A (jn.2.nr - G.firstatom) ∧ YG (jn.2.nr - G.firstatom)
      ∧ YN (jn.2.nr - G.firstatom)
      ∧ (jn.2.r < G.pot_end (jn.2.col 2) → XU (i + G.cnfstart h - G.firstatom) jn.1)
      ∧ (jn.2.r < G.pot_end (jn.2.col 3) → XW (i + G.cnfstart h - G.firstatom) jn.1)) :
    Sim true A YG YN XU XW (adp_atom3 B G S h us i s) (adp_atom3 B G S h us i t) := by
  have hf := adp_neigh3_foldl_sim B G S h us i _ hs hi hgi hni hl
  unfold adp_atom3
  simp only []
  rw [hf.forces, hf.tmpsum]
  split_ifs <;>
    exact ⟨rfl, rfl, hf.rho_sum, hf.sums, hf.gradF, hf.nu, hf.cu, hf.cw⟩

theorem adp_atoms3_sim (B : Build) (G : Globals) (S : Splines) (h : Nat) (us : Bool)
    (m : Nat) {A YG YN : Nat → Prop} {XU XW : Nat → Nat → Prop}
    {s t : AdpSt} (hs : Sim true A YG YN XU XW s t)
    (hi : ∀ i, i < m → A (i + G.cnfstart h - G.firstatom)
      ∧ YG (i + G.cnfstart h - G.firstatom) ∧ YN (i + G.cnfstart h - G.firstatom)
      ∧ ∀ jn, jn ∈ (G.conf_atoms (i + G.cnfstart h - G.firstatom)).neigh.enum →
        A (jn.2.nr - G.firstatom) ∧ YG (jn.2.nr - G.firstatom)
        ∧ YN (jn.2.nr - G.firstatom)
        ∧ (jn.2.r < G.pot_end (jn.2.col 2) → XU (i + G.cnfstart h - G.firstatom) jn.1)
        ∧ (jn.2.r < G.pot_end (jn.2.col 3) → XW (i + G.cnfstart h - G.firstatom) jn.1)) :
    Sim true A YG YN XU XW (forLoop (adp_atom3 B G S h us) m s)
      (forLoop (adp_atom3 B G S h us) m t) := by
  induction m with
  | zero => exact hs
  | succ m ih =>
    rw [forLoop_succ, forLoop_succ]
    have hm := hi m (Nat.lt_succ_self m)
    exact adp_atom3_sim B G S h us m (ih (fun i hlt => hi i (Nat.lt_succ_of_lt hlt)))
      hm.1 hm.2.1 hm.2.2.1 hm.2.2.2

theorem adp_conf_terms_sim (B : Build) (G : Globals) (h : Nat) (uf us : Bool) {uf' : Bool}
    {A YG YN : Nat → Prop} {XU XW : Nat → Nat → Prop} {s t : AdpSt}
    (hs : Sim uf' A YG YN XU XW s t) :
    Sim uf' A YG YN XU XW (adp_conf_terms B G h uf us s) (adp_conf_terms B G h uf us t) := by
  unfold adp_conf_terms
  simp only []
  rw [hs.forces, hs.tmpsum]
  exact ⟨rfl, rfl, hs.rho_sum, hs.sums, hs.gradF, hs.nu, hs.cu, hs.cw⟩

/-- The evaluation of a configuration whose neighbors are its own atoms gives
the same buffer and sums whatever the scratch fields hold before. -/
theorem adp_conf_sim (B : Build) (G : Globals) (S : Splines) (h : Nat) (hN : NeighIn G h)
    (ha : G.firstatom = 0) {uf' : Bool} {A YG YN : Nat → Prop} {XU XW : Nat → Nat → Prop}
    {s t : AdpSt} (hs : Sim uf' A YG YN XU XW s t) :
    Sim uf' (fun _ => False) (fun _ => False) (fun _ => False) (fun _ _ => False)
      (fun _ _ => False) (adp_conf B G S h s) (adp_conf B G S h t) := by
  have h1 := (hs.base (G.conf_uf (h - G.firstconf))).set_forces
    (show adp_conf_init B G h s.forces = adp_conf_init B G h t.forces by rw [hs.forces])
  have h2 := adp_reset_loop_sim G h (G.conf_uf (h - G.firstconf)) (G.inconf h) h1
  have hA : ∀ i, i < G.inconf h →
      (False ∨ ∃ k, k < G.inconf h
        ∧ i + G.cnfstart h - G.firstatom = G.cnfstart h - G.firstatom + k) := by
    intro i hi
    exact Or.inr ⟨i, hi, by omega⟩
  have h3 := adp_atoms2_sim B G S h (G.conf_uf (h - G.firstconf))
    (G.conf_us (h - G.firstconf)) (G.inconf h) h2 hA
  unfold adp_conf
  simp only []
  apply Sim.base (u := G.conf_uf (h - G.firstconf))
  apply adp_conf_terms_sim
  cases hu : G.conf_uf (h - G.firstconf)
  · simp only [Bool.false_eq_true, if_false]
    rw [hu] at h3
    exact h3
  · simp only [if_true]
    rw [hu] at h3
    refine adp_atoms3_sim B G S h _ (G.inconf h) h3 ?_
    intro i hi
    have hin : ∀ a, G.cnfstart h ≤ a → a < G.cnfstart h + G.inconf h →
        ∃ k, k < G.inconf h ∧ a - G.firstatom = k + G.cnfstart h - G.firstatom :=
      fun a h1 h2 => ⟨a - G.cnfstart h, by omega, by omega⟩
    refine ⟨hA i hi, Or.inr ⟨i, hi, rfl⟩, Or.inr ⟨i, hi, rfl⟩, ?_⟩
    intro jn hjn
    have hn := hN i hi jn.2 (mem_enum_snd hjn)
    obtain ⟨k, hk, hek⟩ := hin jn.2.nr hn.1 hn.2
    refine ⟨Or.inr ⟨k, hk, by omega⟩, Or.inr ⟨k, hk, hek⟩, Or.inr ⟨k, hk, hek⟩, ?_, ?_⟩
    · intro hr
      exact Or.inr ⟨i, hi, rfl, jn.2, hjn, hr⟩
    · intro hr
      exact Or.inr ⟨i, hi, rfl, jn.2, hjn, hr⟩

theorem adp_loop_sim (B : Build) (G : Globals) (S : Splines)
    (hN : ∀ h, h < G.nconf → NeighIn G h) (hc : G.firstconf = 0) (ha : G.firstatom = 0)
    (m : Nat) (hm : m ≤ G.nconf) {uf : Bool} {s t : AdpSt}
    (hs : Sim uf (fun _ => False) (fun _ => False) (fun _ => False) (fun _ _ => False)
      (fun _ _ => False) s t) :
    Sim uf (fun _ => False) (fun _ => False) (fun _ => False) (fun _ _ => False)
      (fun _ _ => False) (forLoop (fun k => adp_conf B G S (G.firstconf + k)) m s)
      (forLoop (fun k => adp_conf B G S (G.firstconf + k)) m t) := by
  induction m with
  | zero => exact hs
  | succ m ih =>
    rw [forLoop_succ, forLoop_succ]
    exact adp_conf_sim B G S _ (hN _ (by omega)) ha (ih (by omega))

/-- One pass of `calc_forces_adp` gives the same buffer and sum whatever the
scratch fields hold on entry. -/
theorem adp_pass_scratch (B : Build) (G : Globals) (S : Splines) (f : Buf)
    (acc acc' : AccTab) (cache cache' : CacheTab)
    (hN : ∀ h, h < G.nconf → NeighIn G h) (hc : G.firstconf = 0) (ha : G.firstatom = 0) :
    (adp_pass B G S f acc cache).forces = (adp_pass B G S f acc' cache').forces
      ∧ (adp_pass B G S f acc cache).tmpsum = (adp_pass B G S f acc' cache').tmpsum := by
  have h0 : Sim false (fun _ => False) (fun _ => False) (fun _ => False) (fun _ _ => False)
      (fun _ _ => False) ⟨f, 0, 0, acc, cache⟩ ⟨f, 0, 0, acc', cache'⟩ :=
    ⟨rfl, rfl, rfl, fun _ x => x.elim, fun _ x => x.elim, fun _ x => x.elim,
      fun _ _ x => x.elim, fun _ _ x => x.elim⟩
  have hl := adp_loop_sim B G S hN hc ha G.nconf (le_refl _) h0
  unfold adp_pass
  simp only []
  split_ifs
  · dsimp only
    rw [hl.forces, hl.tmpsum]
    exact ⟨rfl, rfl⟩
  · dsimp only
    rw [hl.forces, hl.tmpsum, hl.rho_sum]
    exact ⟨rfl, rfl⟩
  · exact ⟨hl.forces, hl.tmpsum⟩

/-! ## The loop as a fold, and the record of the loop -/

theorem forLoop_eq_foldl {σ : Type} (body : Nat → σ → σ) (n : Nat) (s : σ) :
    forLoop body n s = (List.range n).foldl (fun t k => body k t) s := by
  induction n with
  | zero => rfl
  | succ n ih => rw [forLoop_succ, List.range_succ, List.foldl_append, ← ih]; rfl

theorem pair_loop_log_eq (B : Build) (G : Globals) (S : Splines) (n : Nat) (st : St)
    (vs : List Nat) :
    forLoop (fun k (t : St × List Nat) =>
        (pair_conf B G S (G.firstconf + k) t.1, t.2 ++ [G.firstconf + k])) n (st, vs)
      = (forLoop (fun k => pair_conf B G S (G.firstconf + k)) n st,
          vs ++ (List.range n).map (fun k => G.firstconf + k)) := by
  induction n with
  | zero => simp [forLoop]
  | succ n ih =>
    rw [forLoop_succ, ih, forLoop_succ, List.range_succ, List.map_append, List.append_assoc]
    rfl

theorem calc_forces_pair_log_root (B : Build) (G : Globals) (S : Splines) (flag : Int)
    (fuel p : Nat) (vs : List Nat) (f : Buf) (h0 : G.myid = 0) :
    calc_forces_pair_log B G S flag (fuel + 1) p vs f
      = some ⟨⟨pair_return (Dbl.fin (pair_pass B G S f).tmpsum), (pair_pass B G S f).forces,
          G.fcalls + 1⟩, p + 1, G.nconf,
          vs ++ (List.range G.nconf).map (fun k => G.firstconf + k)⟩ := by
  have e : pair_conf_loop_log B { G with myconf := G.nconf } S (⟨f, 0⟩, vs)
      = (pair_pass B G S f, vs ++ (List.range G.nconf).map (fun k => G.firstconf + k)) :=
    pair_loop_log_eq B { G with myconf := G.nconf } S G.nconf ⟨f, 0⟩ vs
  unfold calc_forces_pair_log
  simp only []
  rw [if_pos h0, e]

/-! ## Loops that can fail, and the packed layout -/

theorem forLoopE_succ {ε σ : Type} (body : Nat → σ → Except ε σ) (n : Nat) (s t : σ)
    (h : forLoopE body n s = Except.ok t) : forLoopE body (n + 1) s = body n t := by
  show (match forLoopE body n s with
    | Except.error e => Except.error e
    | Except.ok t => body n t) = _
  rw [h]

theorem forLoopE_error {ε σ : Type} (body : Nat → σ → Except ε σ) (n : Nat) (s : σ) (e : ε)
    (h : forLoopE body n s = Except.error e) : forLoopE body (n + 1) s = Except.error e := by
  show (match forLoopE body n s with
    | Except.error e => Except.error e
    | Except.ok t => body n t) = _
  rw [h]

theorem forLoopE_inv {ε σ : Type} (body : Nat → σ → Except ε σ) (I : Nat → σ → Prop)
    (n : Nat) (s : σ) (h0 : I 0 s)
    (hstep : ∀ k, k < n → ∀ t t', I k t → body k t = Except.ok t' → I (k + 1) t')
    (r : σ) (hr : forLoopE body n s = Except.ok r) : I n r := by
  induction n generalizing r with
  | zero =>
    have : s = r := by
      have h : Except.ok s = (Except.ok r : Except ε σ) := hr
      injection h
    rw [← this]; exact h0
  | succ n ih =>
    cases hp : forLoopE body n s with
    | error e => rw [forLoopE_error body n s e hp] at hr; cases hr
    | ok t =>
      rw [forLoopE_succ body n s t hp] at hr
      exact hstep n (Nat.lt_succ_self n) t r
        (ih (fun k hk => hstep k (Nat.lt_succ_of_lt hk)) t hp) hr

theorem forLoop_inv {σ : Type} (body : Nat → σ → σ) (I : Nat → σ → Prop) (n : Nat) (s : σ)
    (h0 : I 0 s) (hstep : ∀ k, k < n → ∀ t, I k t → I (k + 1) (body k t)) :
    I n (forLoop body n s) := by
  induction n with
  | zero => exact h0
  | succ n ih =>
    rw [forLoop_succ]
    exact hstep n (Nat.lt_succ_self n) _ (ih (fun k hk => hstep k (Nat.lt_succ_of_lt hk)))

theorem seta_same {α : Type} (a : Nat → α) (i : Nat) (v : α) : seta a i v i = v := by
  unfold seta; rw [if_pos rfl]

theorem seta_ne {α : Type} (a : Nat → α) (i k : Nat) (v : α) (h : k ≠ i) :
    seta a i v k = a k := by
  unfold seta; rw [if_neg h]

theorem packed_first_zero (n : Nat → Int) : packed_first n 0 = 2 := by
  simp [packed_first]

theorem packed_first_succ (n : Nat → Int) (i : Nat) :
    packed_first n (i + 1) = packed_first n i + n i + 2 := by
  unfold packed_first
  rw [List.range_succ, List.map_append, List.sum_append]
  simp only [List.map_cons, List.map_nil, List.sum_cons, List.sum_nil, add_zero]
  push_cast
  ring

theorem packed_first_mono (n : Nat → Int) (N : Nat) (hn : ∀ i, i < N → 0 ≤ n i) (i j : Nat)
    (hij : i < j) (hj : j < N) : packed_first n i + n i + 2 ≤ packed_first n j := by
  induction j with
  | zero => exact absurd hij (Nat.not_lt_zero i)
  | succ j ih =>
    rw [packed_first_succ]
    rcases Nat.lt_succ_iff_lt_or_eq.1 hij with h | h
    · have := ih h (Nat.lt_of_succ_lt hj)
      have := hn j (Nat.lt_of_succ_lt hj)
      omega
    · rw [h]

/-- The column layout a loader leaves in a table for the first `N` columns
with point counts `n`. -/
theorem layout_step (n : Nat → Int) (N : Nat) (first last : Nat → Int) (v : Int)
    (hv : v = if N = 0 then 2 else last (N - 1) + 3)
    (hf : ∀ i, i < N → first i = packed_first n i ∧ last i = packed_first n i + n i - 1) :
    ∀ i, i < N + 1 →
      seta first N v i = packed_first n i ∧
      seta last N (v + n N - 1) i = packed_first n i + n i - 1 := by
  have hvN : v = packed_first n N := by
    rw [hv]
    cases N with
    | zero => rw [if_pos rfl, packed_first_zero]
    | succ M =>
      rw [if_neg (Nat.succ_ne_zero M), Nat.add_sub_cancel, (hf M (Nat.lt_succ_self M)).2,
        packed_first_succ]
      ring
  intro i hi
  rcases Nat.lt_succ_iff_lt_or_eq.1 hi with h | h
  · rw [seta_ne _ _ _ _ (Nat.ne_of_lt h), seta_ne _ _ _ _ (Nat.ne_of_lt h)]
    exact hf i h
  · rw [h, seta_same, seta_same, hvN]
    exact ⟨rfl, rfl⟩

theorem read_pot_table4_info_ok (F : PotFile) (i : Nat) (s : Load4)
    (hlt : s.ipos < F.ints.length) :
    ∃ t, read_pot_table4_info F i s = Except.ok t ∧ t.ipos = s.ipos + 1 ∧ t.rpos = s.rpos ∧
      t.nvals = seta s.nvals i (F.ints.getD s.ipos 0) ∧
      t.pt.first = seta s.pt.first i (if i = 0 then 2 else s.pt.last (i - 1) + 3) ∧
      t.pt.last = seta s.pt.last i
        ((if i = 0 then 2 else s.pt.last (i - 1) + 3) + F.ints.getD s.ipos 0 - 1) ∧
      t.pt.len = (if i = 0 then 2 else s.pt.last (i - 1) + 3) + F.ints.getD s.ipos 0 := by
  unfold read_pot_table4_info
  rw [if_pos hlt]
  exact ⟨_, rfl, rfl, rfl, rfl, rfl, rfl, rfl⟩

theorem read_pot_table4_header_ok (F : PotFile) (pt : pot_table_d) (N : Nat)
    (hN : N ≤ F.ints.length) :
    ∃ s, read_pot_table4_header F N pt = Except.ok s ∧ s.ipos = N ∧ s.rpos = 0 ∧
      (∀ i, i < N → s.nvals i = file_nvals F i) ∧
      (∀ i, i < N → s.pt.first i = packed_first (file_nvals F) i ∧
        s.pt.last i = packed_first (file_nvals F) i + file_nvals F i - 1) ∧
      (0 < N → s.pt.len = packed_first (file_nvals F) (N - 1) + file_nvals F (N - 1)) := by
  unfold read_pot_table4_header
  induction N with
  | zero =>
    exact ⟨_, rfl, rfl, rfl, fun i hi => absurd hi (Nat.not_lt_zero i),
      fun i hi => absurd hi (Nat.not_lt_zero i), fun h => absurd h (Nat.lt_irrefl 0)⟩
  | succ N ih =>
    obtain ⟨s, hs, hip, hrp, hnv, hfl, _⟩ := ih (Nat.le_of_succ_le hN)
    have hlt : s.ipos < F.ints.length := by rw [hip]; exact hN
    obtain ⟨t, ht, tip, trp, tnv, tf, tl, tlen⟩ := read_pot_table4_info_ok F N s hlt
    have hlay := layout_step (file_nvals F) N s.pt.first s.pt.last
      (if N = 0 then 2 else s.pt.last (N - 1) + 3) rfl hfl
    have hget : F.ints.getD s.ipos 0 = file_nvals F N := by rw [hip]; rfl
    rw [hget] at tnv tl tlen
    refine ⟨t, (forLoopE_succ _ N _ s hs).trans ht, ?_, ?_, ?_, ?_, ?_⟩
    · rw [tip, hip]
    · rw [trp, hrp]
    · intro i hi
      rw [tnv]
      rcases Nat.lt_succ_iff_lt_or_eq.1 hi with h | h
      · rw [seta_ne _ _ _ _ (Nat.ne_of_lt h)]
        exact hnv i h
      · rw [h, seta_same]
    · intro i hi
      rw [tf, tl]
      exact hlay i hi
    · intro _
      have := (hlay N (Nat.lt_succ_self N)).1
      rw [seta_same] at this
      rw [tlen, this, Nat.add_sub_cancel]

/-! ## What the loops of the loaders leave unchanged -/

theorem Frame4.refl4 (s : Load4) : Frame4 s s := ⟨rfl, rfl, rfl, rfl⟩

theorem Frame4.trans4 {s t u : Load4} (h1 : Frame4 s t) (h2 : Frame4 t u) : Frame4 s u :=
  ⟨h2.1.trans h1.1, h2.2.1.trans h1.2.1, h2.2.2.1.trans h1.2.2.1, h2.2.2.2.trans h1.2.2.2⟩

theorem idx_step_frame (c : Prop) [Decidable c] (s : Load4) : Frame4 s (idx_step c s) := by
  unfold idx_step
  split_ifs <;> exact ⟨rfl, rfl, rfl, rfl⟩

theorem read_pot_table4_point_frame (F : PotFile) (invar_pot : Nat → Int) (i j : Nat)
    (s t : Load4) (h : read_pot_table4_point F invar_pot i j s = Except.ok t) : Frame4 s t := by
  unfold read_pot_table4_point at h
  simp only [] at h
  split_ifs at h
  injection h with h
  rw [← h]
  exact Frame4.trans4 ⟨rfl, rfl, rfl, rfl⟩ (idx_step_frame _ _)

theorem read_pot_table4_gradient_frame (F : PotFile) (hg : Bool) (s t : Load4)
    (h : read_pot_table4_gradient F hg s = Except.ok t) :
    Frame4 s t ∧ t.rpos = s.rpos + grad_len hg ∧ t.ord = s.ord ∧ t.val = s.val ∧
      t.pt.xcoord = s.pt.xcoord ∧ t.pt.begin_ = s.pt.begin_ ∧ t.pt.end_ = s.pt.end_ := by
  unfold read_pot_table4_gradient at h
  unfold grad_len
  cases hg with
  | true =>
    simp only [if_true] at h
    split_ifs at h
    injection h with h
    rw [← h]
    exact ⟨⟨rfl, rfl, rfl, rfl⟩, rfl, rfl, rfl, rfl, rfl, rfl⟩
  | false =>
    simp only [Bool.false_eq_true, if_false] at h
    injection h with h
    rw [← h]
    exact ⟨⟨rfl, rfl, rfl, rfl⟩, rfl, rfl, rfl, rfl, rfl, rfl⟩

theorem read_pot_table4_points_frame (F : PotFile) (invar_pot : Nat → Int) (i n : Nat)
    (s t : Load4) (h : forLoopE (read_pot_table4_point F invar_pot i) n s = Except.ok t) :
    Frame4 s t :=
  forLoopE_inv _ (fun _ u => Frame4 s u) n s (Frame4.refl4 s)
    (fun k _ u u' hu hb => Frame4.trans4 hu (read_pot_table4_point_frame F invar_pot i k u u' hb))
    t h

theorem read_pot_table4_column_frame (F : PotFile) (hg : Bool) (invar_pot : Nat → Int)
    (gradient : Nat → Nat) (i : Nat) (s t : Load4)
    (h : read_pot_table4_column F hg invar_pot gradient i s = Except.ok t) : Frame4 s t := by
  unfold read_pot_table4_column at h
  cases h1 : read_pot_table4_gradient F hg s with
  | error e => rw [h1] at h; cases h
  | ok s1 =>
    rw [h1] at h
    simp only [] at h
    have f1 := (read_pot_table4_gradient_frame F hg s s1 h1).1
    generalize h4 : idx_step (invar_pot i = 0 ∧ gradient i % 2 ≠ 0)
      (idx_step (invar_pot i = 0 ∧ gradient i / 2 ≠ 0)
        ({ s1 with val := s1.val + 2, ord := s1.ord + 2 } : Load4)) = s4 at h
    have f4 : Frame4 s1 s4 := by
      rw [← h4]
      have a : Frame4 s1 ({ s1 with val := s1.val + 2, ord := s1.ord + 2 } : Load4) :=
        ⟨rfl, rfl, rfl, rfl⟩
      exact Frame4.trans4 (Frame4.trans4 a (idx_step_frame _ _)) (idx_step_frame _ _)
    cases h5 : forLoopE (read_pot_table4_point F invar_pot i) (s4.nvals i).toNat s4 with
    | error e => rw [h5] at h; cases h
    | ok s5 =>
      rw [h5] at h
      injection h with h
      rw [← h]
      exact Frame4.trans4 (Frame4.trans4 (Frame4.trans4 f1 f4)
        (read_pot_table4_points_frame F invar_pot i _ s4 s5 h5)) ⟨rfl, rfl, rfl, rfl⟩

theorem read_pot_table4_frame (F : PotFile) (num_pots paircol : Nat) (hg : Bool)
    (invar_pot : Nat → Int) (gradient : Nat → Nat) (pt0 pt : pot_table_d) (s : Load4)
    (hs : read_pot_table4_header F num_pots pt0 = Except.ok s)
    (h : read_pot_table4 F num_pots paircol hg invar_pot gradient pt0 = Except.ok pt) :
    pt.first = s.pt.first ∧ pt.last = s.pt.last ∧ pt.len = s.pt.len := by
  unfold read_pot_table4 at h
  rw [hs] at h
  simp only [] at h
  cases h2 : forLoopE (read_pot_table4_column F hg invar_pot gradient) paircol
      (read_pot_table4_alloc s) with
  | error e => rw [h2] at h; cases h
  | ok s2 =>
    rw [h2] at h
    injection h with h
    have f := forLoopE_inv _ (fun _ u => Frame4 (read_pot_table4_alloc s) u) paircol _
      (Frame4.refl4 _)
      (fun k _ u u' hu hb =>
        Frame4.trans4 hu (read_pot_table4_column_frame F hg invar_pot gradient k u u' hb))
      s2 h2
    rw [← h]
    exact ⟨f.2.1, f.2.2.1, f.2.2.2⟩

/-! ## The layout and the frame of `read_pot_table0` -/

theorem Frame0.refl0 (s : Load0) : Frame0 s s := ⟨rfl, rfl, rfl, rfl, rfl, rfl, rfl, rfl, rfl⟩

theorem Frame0.trans0 {s t u : Load0} (a : Frame0 s t) (b : Frame0 t u) : Frame0 s u := by
  obtain ⟨a1, a2, a3, a4, a5, a6, a7, a8, a9⟩ := a
  obtain ⟨b1, b2, b3, b4, b5, b6, b7, b8, b9⟩ := b
  exact ⟨b1.trans a1, b2.trans a2, b3.trans a3, b4.trans a4, b5.trans a5, b6.trans a6,
    b7.trans a7, b8.trans a8, b9.trans a9⟩

theorem idx_entry_frame (i j : Nat) (s : Load0) : Frame0 s (idx_entry i j s) :=
  ⟨rfl, rfl, rfl, rfl, rfl, rfl, rfl, rfl, rfl⟩

theorem read_pot_table0_param_frame (P : LoadParams) (i j : Nat) (s : Load0) :
    Frame0 s (read_pot_table0_param P i j s) := by
  unfold read_pot_table0_param
  simp only []
  split_ifs
  · exact Frame0.trans0 (t := { s with
      pt := { s.pt with table := setf s.pt.table s.val (s.apt.values i j) }
      calc_list := setf s.calc_list s.list (s.apt.values i j)
      val := s.val + 1
      list := s.list + 1 }) ⟨rfl, rfl, rfl, rfl, rfl, rfl, rfl, rfl, rfl⟩ (idx_entry_frame i j _)
  · exact ⟨rfl, rfl, rfl, rfl, rfl, rfl, rfl, rfl, rfl⟩

theorem read_pot_table0_params_frame (P : LoadParams) (i n : Nat) (s : Load0) :
    Frame0 s (forLoop (read_pot_table0_param P i) n s) :=
  forLoop_inv _ (fun _ u => Frame0 s u) n s (Frame0.refl0 s)
    (fun k _ u hu => Frame0.trans0 hu (read_pot_table0_param_frame P i k u))

theorem read_pot_table0_pot_frame (P : LoadParams) (i : Nat) (s : Load0) :
    Frame0 s (read_pot_table0_pot P i s) := by
  have a : Frame0 s ({ s with val := s.val + 2, list := s.list + 2, l := s.l + 2 } : Load0) :=
    ⟨rfl, rfl, rfl, rfl, rfl, rfl, rfl, rfl, rfl⟩
  have b := Frame0.trans0 a (read_pot_table0_params_frame P i (s.apt.n_par i) _)
  unfold read_pot_table0_pot
  simp only []
  split_ifs
  · exact Frame0.trans0 b ⟨rfl, rfl, rfl, rfl, rfl, rfl, rfl, rfl, rfl⟩
  · exact Frame0.trans0 b ⟨rfl, rfl, rfl, rfl, rfl, rfl, rfl, rfl, rfl⟩

theorem read_pot_table0_pots_frame (P : LoadParams) (n : Nat) (s : Load0) :
    Frame0 s (forLoop (read_pot_table0_pot P) n s) :=
  forLoop_inv _ (fun _ u => Frame0 s u) n s (Frame0.refl0 s)
    (fun k _ u hu => Frame0.trans0 hu (read_pot_table0_pot_frame P k u))

theorem read_pot_table0_cp_step_frame (i j : Nat) (s : Load0) :
    Frame0 s (read_pot_table0_cp_step i j s) := by
  unfold read_pot_table0_cp_step
  simp only []
  split_ifs
  · exact Frame0.trans0 (t := { s with
      pt := { s.pt with table := setf s.pt.table s.val (s.apt.values i j) }
      val := s.val + 1 }) ⟨rfl, rfl, rfl, rfl, rfl, rfl, rfl, rfl, rfl⟩ (idx_entry_frame i j _)
  · exact ⟨rfl, rfl, rfl, rfl, rfl, rfl, rfl, rfl, rfl⟩

theorem read_pot_table0_cp_frame (P : LoadParams) (s : Load0) :
    Frame0 s (read_pot_table0_cp P s) := by
  unfold read_pot_table0_cp
  split_ifs
  · simp only []
    have b : Frame0 s (forLoop (read_pot_table0_cp_step s.apt.number)
        (P.ntypes + P.compnodes) s) :=
      forLoop_inv _ (fun _ u => Frame0 s u) _ s (Frame0.refl0 s)
        (fun k _ u hu => Frame0.trans0 hu (read_pot_table0_cp_step_frame _ k u))
    exact Frame0.trans0 b ⟨rfl, rfl, rfl, rfl, rfl, rfl, rfl, rfl, rfl⟩
  · exact Frame0.refl0 s

theorem read_pot_table0_glob_step_frame (i j : Nat) (s : Load0) :
    Frame0 s (read_pot_table0_glob_step i j s) := by
  unfold read_pot_table0_glob_step
  simp only []
  split_ifs
  · exact Frame0.trans0 (t := { s with
      pt := { s.pt with table := setf s.pt.table s.val (s.apt.values i j) }
      calc_list := setf s.calc_list s.list (s.apt.values i j)
      val := s.val + 1
      list := s.list + 1 }) ⟨rfl, rfl, rfl, rfl, rfl, rfl, rfl, rfl, rfl⟩ (idx_entry_frame i j _)
  · exact ⟨rfl, rfl, rfl, rfl, rfl, rfl, rfl, rfl, rfl⟩

theorem read_pot_table0_globals_frame (P : LoadParams) (s : Load0) :
    Frame0 s (read_pot_table0_globals P s) := by
  unfold read_pot_table0_globals
  simp only []
  split_ifs
  · have b : Frame0 s (forLoop (read_pot_table0_glob_step P.global_pot) s.apt.globals s) :=
      forLoop_inv _ (fun _ u => Frame0 s u) _ s (Frame0.refl0 s)
        (fun k _ u hu => Frame0.trans0 hu (read_pot_table0_glob_step_frame _ k u))
    exact Frame0.trans0 b ⟨rfl, rfl, rfl, rfl, rfl, rfl, rfl, rfl, rfl⟩
  · exact ⟨rfl, rfl, rfl, rfl, rfl, rfl, rfl, rfl, rfl⟩

theorem read_pot_table0_frame (P : LoadParams) (s : Load0) :
    Frame0 (read_pot_table0_pre P s) (read_pot_table0 P s) := by
  unfold read_pot_table0 read_pot_table0_main
  exact Frame0.trans0 (Frame0.trans0 (read_pot_table0_pots_frame P _ _)
    (read_pot_table0_cp_frame P _)) (read_pot_table0_globals_frame P _)

theorem read_pot_table0_unused_apt (s : Load0) :
    (read_pot_table0_unused s).apt = s.apt ∧ (read_pot_table0_unused s).pt = s.pt := by
  unfold read_pot_table0_unused
  split_ifs <;> exact ⟨rfl, rfl⟩

theorem read_pot_table0_cp_start_apt (P : LoadParams) (s : Load0) :
    (read_pot_table0_cp_start P s).apt.number = s.apt.number ∧
    (read_pot_table0_cp_start P s).apt.n_par = s.apt.n_par ∧
    (read_pot_table0_cp_start P s).apt.values = s.apt.values ∧
    (read_pot_table0_cp_start P s).apt.invar_par = s.apt.invar_par ∧
    (read_pot_table0_cp_start P s).apt.globals = s.apt.globals ∧
    (read_pot_table0_cp_start P s).pt = s.pt ∧
    (read_pot_table0_cp_start P s).have_globals = s.have_globals := by
  unfold read_pot_table0_cp_start
  split_ifs <;> exact ⟨rfl, rfl, rfl, rfl, rfl, rfl, rfl⟩

theorem read_pot_table0_columns (N : Nat) (s : Load0) :
    (forLoop read_pot_table0_column N s).apt = s.apt ∧
    (forLoop read_pot_table0_column N s).have_globals = s.have_globals ∧
    (forLoop read_pot_table0_column N s).pt.idxlen = s.pt.idxlen ∧
    ∀ i, i < N →
      (forLoop read_pot_table0_column N s).pt.first i = packed_first (apot_nvals s.apt) i ∧
      (forLoop read_pot_table0_column N s).pt.last i
        = packed_first (apot_nvals s.apt) i + apot_nvals s.apt i - 1 := by
  induction N with
  | zero => exact ⟨rfl, rfl, rfl, fun i hi => absurd hi (Nat.not_lt_zero i)⟩
  | succ N ih =>
    obtain ⟨ha, hg, hx, hfl⟩ := ih
    rw [forLoop_succ]
    generalize forLoop read_pot_table0_column N s = u at ha hg hx hfl
    have hlay := layout_step (apot_nvals s.apt) N u.pt.first u.pt.last
      (if N = 0 then 2 else u.pt.last (N - 1) + 3) rfl hfl
    refine ⟨ha, hg, hx, ?_⟩
    intro i hi
    have := hlay i hi
    unfold read_pot_table0_column
    simp only []
    rw [ha]
    exact this

theorem apot_nvals_congr (A A' : apot_table_t) (h : A'.n_par = A.n_par) :
    apot_nvals A' = apot_nvals A := by
  funext i
  unfold apot_nvals
  rw [h]

theorem read_pot_table0_pre_spec (P : LoadParams) (s : Load0) :
    (read_pot_table0_pre P s).apt.number = s.apt.number ∧
    (read_pot_table0_pre P s).apt.n_par = s.apt.n_par ∧
    (read_pot_table0_pre P s).apt.values = s.apt.values ∧
    (read_pot_table0_pre P s).apt.invar_par = s.apt.invar_par ∧
    (read_pot_table0_pre P s).apt.globals = s.apt.globals ∧
    (read_pot_table0_pre P s).k = 0 ∧ (read_pot_table0_pre P s).l = 0 ∧
    (read_pot_table0_pre P s).val = 0 ∧
    (read_pot_table0_pre P s).pt.idxlen = s.pt.idxlen ∧
    (∀ i, i < s.apt.number →
      (read_pot_table0_pre P s).pt.first i = packed_first (apot_nvals s.apt) i ∧
      (read_pot_table0_pre P s).pt.last i
        = packed_first (apot_nvals s.apt) i + apot_nvals s.apt i - 1) ∧
    (0 < s.apt.number →
      (read_pot_table0_pre P s).pt.len
        = packed_first (apot_nvals s.apt) (s.apt.number - 1)
            + apot_nvals s.apt (s.apt.number - 1) + trailing_slots P s) := by
  obtain ⟨u1, u2⟩ := read_pot_table0_unused_apt s
  obtain ⟨c1, c2, c3, c4, c5, c6, c7⟩ := read_pot_table0_cp_start_apt P (read_pot_table0_unused s)
  rw [u1] at c1 c2 c3 c4 c5
  rw [u2] at c6
  generalize hu : read_pot_table0_cp_start P (read_pot_table0_unused s) = u at c1 c2 c3 c4 c5 c6 c7
  obtain ⟨ha, hg, hx, hfl⟩ := read_pot_table0_columns u.apt.number u
  have hn : apot_nvals u.apt = apot_nvals s.apt := apot_nvals_congr _ _ c2
  rw [hn, c1] at hfl
  rw [c1] at ha hg hx
  have hpre : read_pot_table0_pre P s = read_pot_table0_alloc (read_pot_table0_layout P u) := by
    unfold read_pot_table0_pre
    rw [hu]
  rw [hpre]
  unfold read_pot_table0_alloc read_pot_table0_layout
  simp only []
  rw [c1, ha]
  refine ⟨c1, c2, c3, c4, c5, trivial, trivial, trivial, ?_, ?_, ?_⟩
  · rw [hx, c6]
  · intro i hi
    exact hfl i hi
  · intro hN
    rw [c1, (hfl (s.apt.number - 1) (Nat.sub_lt hN Nat.one_pos)).1, hg, c7, c2, c5]
    unfold trailing_slots apot_nvals
    split_ifs <;> ring

theorem packedLayout_of (n : Nat → Int) (N : Nat) (first last : Nat → Int) (hN : 1 ≤ N)
    (h : ∀ i, i < N → first i = packed_first n i ∧ last i = packed_first n i + n i - 1) :
    PackedLayout n N first last := by
  refine ⟨?_, ?_, ?_, fun i hi => (h i hi).1, ?_, ?_⟩
  · rw [(h 0 hN).1, packed_first_zero]
  · intro i h0 hi
    obtain ⟨k, rfl⟩ : ∃ k, i = k + 1 := ⟨i - 1, by omega⟩
    rw [(h (k + 1) hi).1, Nat.add_sub_cancel, (h k (Nat.lt_of_succ_lt hi)).2, packed_first_succ]
    ring
  · intro i hi
    rw [(h i hi).2, (h i hi).1]
  · intro i hi hn
    rw [(h i hi).2, (h i hi).1]
    omega
  · intro hn i j hij hj
    rw [(h i (Nat.lt_trans hij hj)).2, (h j hj).1]
    have := packed_first_mono n N hn i j hij hj
    omega

/-! ## The columns of `read_pot_table4` -/

theorem Dbl.le_nan_left (a : Dbl) : Dbl.le Dbl.nan a = false := by
  cases a <;> rfl

theorem Dbl.le_nan_right (a : Dbl) : Dbl.le a Dbl.nan = false := by
  cases a <;> rfl

/-! ## One column of `read_pot_table4` -/

theorem apot_pos_succ (A : apot_table_t) (i : Nat) :
    apot_pos A (i + 1) = apot_pos A i + (2 + A.n_par i) := by
  unfold apot_pos
  rw [List.range_succ, List.map_append, List.sum_append]
  simp only [List.map_cons, List.map_nil, List.sum_cons, List.sum_nil, add_zero]

theorem apot_pos_mono (A : apot_table_t) (i n : Nat) (h : i ≤ n) :
    apot_pos A i ≤ apot_pos A n := by
  induction n with
  | zero => rw [Nat.le_zero.1 h]
  | succ n ih =>
    rcases Nat.le_succ_iff.1 h with h1 | h1
    · rw [apot_pos_succ]; exact Nat.le_trans (ih h1) (Nat.le_add_right _ _)
    · rw [h1]

theorem packed_first_apot (A : apot_table_t) (i : Nat) :
    packed_first (apot_nvals A) i = ((apot_pos A i + 2 : Nat) : Int) := by
  induction i with
  | zero => rw [packed_first_zero]; rfl
  | succ i ih =>
    rw [packed_first_succ, ih, apot_pos_succ]
    unfold apot_nvals
    push_cast
    ring

theorem before_pos (A : apot_table_t) (i j i' j' : Nat) (h : Before i j i' j')
    (hj : j' < A.n_par i') : apot_pos A i' + 2 + j' < apot_pos A i + 2 + j := by
  rcases h with h | ⟨h1, h2⟩
  · have := apot_pos_mono A (i' + 1) i h
    rw [apot_pos_succ] at this
    omega
  · rw [h1]; omega

theorem before_succ (i j i' j' : Nat) :
    Before i (j + 1) i' j' ↔ Before i j i' j' ∨ (i' = i ∧ j' = j) := by
  unfold Before
  constructor
  · rintro (h | ⟨h1, h2⟩)
    · exact Or.inl (Or.inl h)
    · rcases Nat.lt_succ_iff_lt_or_eq.1 h2 with h | h
      · exact Or.inl (Or.inr ⟨h1, h⟩)
      · exact Or.inr ⟨h1, h⟩
  · rintro ((h | ⟨h1, h2⟩) | ⟨h1, h2⟩)
    · exact Or.inl h
    · exact Or.inr ⟨h1, Nat.lt_succ_of_lt h2⟩
    · exact Or.inr ⟨h1, by rw [h2]; exact Nat.lt_succ_self j⟩

theorem MainInv.main_congr {P : LoadParams} {A : apot_table_t} {i j pos : Nat} {t : Load0}
    (h : MainInv P A i j pos t) (i2 j2 pos2 : Nat) (t2 : Load0)
    (hb : ∀ i' j', j' < A.n_par i' → (Before i j i' j' ↔ Before i2 j2 i' j'))
    (hl : t2.l = pos2) (hv : t2.val = pos2) (hk : t2.k = t.k)
    (h1 : t2.apt.idxpot = t.apt.idxpot) (h2 : t2.apt.idxparam = t.apt.idxparam)
    (h3 : t2.pt.idx = t.pt.idx) (h4 : t2.pt.table = t.pt.table) :
    MainInv P A i2 j2 pos2 t2 := by
  constructor
  · exact hl
  · exact hv
  · intro m hm
    rw [hk] at hm
    rw [h1, h2, h3]
    obtain ⟨e1, e2, e3, e4⟩ := h.entries m hm
    exact ⟨(hb _ _ e2).1 e1, e2, e3, e4⟩
  · intro m m' hmm hm'
    rw [hk] at hm'
    rw [h3]
    exact h.sorted m m' hmm hm'
  · intro i' j' hbf hj' ho
    rw [hk, h1, h2]
    exact h.complete i' j' ((hb _ _ hj').2 hbf) hj' ho
  · intro i' j' hbf hj'
    rw [h4]
    exact h.table i' j' ((hb _ _ hj').2 hbf) hj'

theorem read_pot_table0_param_step (P : LoadParams) (A : apot_table_t) (i j : Nat) (t : Load0)
    (hv : t.apt.values = A.values) (hp : t.apt.invar_par = A.invar_par)
    (hj : j < A.n_par i) (h : MainInv P A i j (apot_pos A i + 2 + j) t) :
    MainInv P A i (j + 1) (apot_pos A i + 2 + (j + 1)) (read_pot_table0_param P i j t) := by
  have hpos : ∀ m, m < t.k → t.pt.idx m < apot_pos A i + 2 + j := by
    intro m hm
    obtain ⟨e1, e2, _, e4⟩ := h.entries m hm
    rw [e4]
    exact before_pos A i j _ _ e1 e2
  unfold read_pot_table0_param
  simp only []
  by_cases ho : P.invar_pot i = 0 ∧ t.apt.invar_par i j = 0
  · rw [if_pos ho]
    have ho' : Optimizable P A i j := by rw [hp] at ho; exact ho
    refine ⟨?_, ?_, ?_, ?_, ?_, ?_⟩ <;> dsimp only [idx_entry]
    · rw [h.l]; ring
    · rw [h.val]; ring
    · intro m hm
      rcases Nat.lt_succ_iff_lt_or_eq.1 hm with hm' | hm'
      · have hne := Nat.ne_of_lt hm'
        rw [seta_ne _ _ _ _ hne, seta_ne _ _ _ _ hne, seta_ne _ _ _ _ hne]
        obtain ⟨e1, e2, e3, e4⟩ := h.entries m hm'
        exact ⟨(before_succ _ _ _ _).2 (Or.inl e1), e2, e3, e4⟩
      · rw [hm', seta_same, seta_same, seta_same]
        exact ⟨(before_succ _ _ _ _).2 (Or.inr ⟨rfl, rfl⟩), hj, ho', h.l⟩
    · intro m m' hmm hm'
      rcases Nat.lt_succ_iff_lt_or_eq.1 hm' with hk | hk
      · rw [seta_ne _ _ _ _ (Nat.ne_of_lt hk), seta_ne _ _ _ _ (Nat.ne_of_lt (Nat.lt_trans hmm hk))]
        exact h.sorted m m' hmm hk
      · rw [hk] at hmm
        rw [hk, seta_same, seta_ne _ _ _ _ (Nat.ne_of_lt hmm), h.l]
        exact hpos m hmm
    · intro i' j' hbf hj' hopt
      rcases (before_succ _ _ _ _).1 hbf with hb | ⟨hb1, hb2⟩
      · obtain ⟨m, hm, e1, e2⟩ := h.complete i' j' hb hj' hopt
        have hne := Nat.ne_of_lt hm
        exact ⟨m, Nat.lt_succ_of_lt hm, by rw [seta_ne _ _ _ _ hne]; exact e1,
          by rw [seta_ne _ _ _ _ hne]; exact e2⟩
      · exact ⟨t.k, Nat.lt_succ_self _, by rw [seta_same, hb1], by rw [seta_same, hb2]⟩
    · intro i' j' hbf hj'
      rw [setf_get, h.val, hv]
      rcases (before_succ _ _ _ _).1 hbf with hb | ⟨hb1, hb2⟩
      · rw [if_neg (Nat.ne_of_lt (before_pos A i j i' j' hb hj'))]
        exact h.table i' j' hb hj'
      · rw [hb1, hb2, if_pos rfl]
  · rw [if_neg ho]
    have ho' : ¬ Optimizable P A i j := by rw [hp] at ho; exact ho
    refine ⟨?_, ?_, ?_, ?_, ?_, ?_⟩ <;> dsimp only
    · rw [h.l]; ring
    · rw [h.val]; ring
    · intro m hm
      obtain ⟨e1, e2, e3, e4⟩ := h.entries m hm
      exact ⟨(before_succ _ _ _ _).2 (Or.inl e1), e2, e3, e4⟩
    · exact h.sorted
    · intro i' j' hbf hj' hopt
      rcases (before_succ _ _ _ _).1 hbf with hb | ⟨hb1, hb2⟩
      · exact h.complete i' j' hb hj' hopt
      · rw [hb1, hb2] at hopt
        exact absurd hopt ho'
    · intro i' j' hbf hj'
      rw [setf_get, h.val, hv]
      rcases (before_succ _ _ _ _).1 hbf with hb | ⟨hb1, hb2⟩
      · rw [if_neg (Nat.ne_of_lt (before_pos A i j i' j' hb hj'))]
        exact h.table i' j' hb hj'
      · rw [hb1, hb2, if_pos rfl]

theorem before_next (A : apot_table_t) (i i' j' : Nat) (hj : j' < A.n_par i') :
    Before i (A.n_par i) i' j' ↔ Before (i + 1) 0 i' j' := by
  unfold Before
  constructor
  · rintro (h | ⟨h1, _⟩)
    · exact Or.inl (Nat.lt_succ_of_lt h)
    · exact Or.inl (by rw [h1]; exact Nat.lt_succ_self i)
  · rintro (h | ⟨_, h2⟩)
    · rcases Nat.lt_succ_iff_lt_or_eq.1 h with h' | h'
      · exact Or.inl h'
      · exact Or.inr ⟨h', by rw [h'] at hj; exact hj⟩
    · exact absurd h2 (Nat.not_lt_zero j')

theorem read_pot_table0_params_inv (P : LoadParams) (s0 : Load0) (i n : Nat) (t : Load0)
    (hn : n ≤ s0.apt.n_par i) (hf : Frame0 s0 t)
    (h : MainInv P s0.apt i 0 (apot_pos s0.apt i + 2 + 0) t) :
    Frame0 s0 (forLoop (read_pot_table0_param P i) n t) ∧
    MainInv P s0.apt i n (apot_pos s0.apt i + 2 + n) (forLoop (read_pot_table0_param P i) n t) :=
  forLoop_inv (read_pot_table0_param P i)
    (fun j u => j ≤ n → Frame0 s0 u ∧ MainInv P s0.apt i j (apot_pos s0.apt i + 2 + j) u)
    n t (fun _ => ⟨hf, h⟩)
    (fun j hj u hu _ =>
      ⟨Frame0.trans0 (hu (Nat.le_of_lt hj)).1 (read_pot_table0_param_frame P i j u),
        read_pot_table0_param_step P s0.apt i j u (hu (Nat.le_of_lt hj)).1.2.2.1
          (hu (Nat.le_of_lt hj)).1.2.2.2.1 (Nat.lt_of_lt_of_le hj hn) (hu (Nat.le_of_lt hj)).2⟩)
    (Nat.le_refl n)

theorem read_pot_table0_pot_step (P : LoadParams) (s0 : Load0) (i : Nat) (t : Load0)
    (hf : Frame0 s0 t) (h : MainInv P s0.apt i 0 (apot_pos s0.apt i) t) :
    MainInv P s0.apt (i + 1) 0 (apot_pos s0.apt (i + 1)) (read_pot_table0_pot P i t) := by
  have h1 : MainInv P s0.apt i 0 (apot_pos s0.apt i + 2 + 0)
      ({ t with val := t.val + 2, list := t.list + 2, l := t.l + 2 } : Load0) :=
    h.main_congr i 0 _ _ (fun _ _ _ => Iff.rfl) (by show t.l + 2 = _; rw [h.l])
      (by show t.val + 2 = _; rw [h.val]) rfl rfl rfl rfl rfl
  have f1 : Frame0 s0 ({ t with val := t.val + 2, list := t.list + 2, l := t.l + 2 } : Load0) :=
    Frame0.trans0 hf ⟨rfl, rfl, rfl, rfl, rfl, rfl, rfl, rfl, rfl⟩
  obtain ⟨_, h2⟩ := read_pot_table0_params_inv P s0 i (s0.apt.n_par i) _ (Nat.le_refl _) f1 h1
  have hn : t.apt.n_par i = s0.apt.n_par i := by rw [hf.2.1]
  unfold read_pot_table0_pot
  simp only []
  rw [hn]
  generalize forLoop (read_pot_table0_param P i) (s0.apt.n_par i)
    ({ t with val := t.val + 2, list := t.list + 2, l := t.l + 2 } : Load0) = u at h2
  have hpos : apot_pos s0.apt (i + 1) = apot_pos s0.apt i + 2 + s0.apt.n_par i := by
    rw [apot_pos_succ]; ring
  split_ifs
  · exact h2.main_congr (i + 1) 0 _ _ (fun i' j' hj => before_next s0.apt i i' j' hj)
      (by show u.l = _; rw [h2.l, hpos]) (by show u.val = _; rw [h2.val, hpos]) rfl rfl rfl rfl rfl
  · exact h2.main_congr (i + 1) 0 _ _ (fun i' j' hj => before_next s0.apt i i' j' hj)
      (by show u.l = _; rw [h2.l, hpos]) (by show u.val = _; rw [h2.val, hpos]) rfl rfl rfl rfl rfl

theorem read_pot_table0_main_inv (P : LoadParams) (s0 : Load0) (n : Nat)
    (h : MainInv P s0.apt 0 0 0 s0) :
    Frame0 s0 (forLoop (read_pot_table0_pot P) n s0) ∧
    MainInv P s0.apt n 0 (apot_pos s0.apt n) (forLoop (read_pot_table0_pot P) n s0) :=
  forLoop_inv (read_pot_table0_pot P)
    (fun i u => Frame0 s0 u ∧ MainInv P s0.apt i 0 (apot_pos s0.apt i) u) n s0
    ⟨Frame0.refl0 s0, h⟩
    (fun i _ u hu =>
      ⟨Frame0.trans0 hu.1 (read_pot_table0_pot_frame P i u),
        read_pot_table0_pot_step P s0 i u hu.1 hu.2⟩)

/-! ## Counting the entries of the index map -/

theorem opt_count_succ (P : LoadParams) (A : apot_table_t) (i n : Nat) :
    opt_count P A i (n + 1)
      = opt_count P A i n + (if P.invar_pot i = 0 ∧ A.invar_par i n = 0 then 1 else 0) := by
  unfold opt_count
  rw [List.range_succ, List.filter_append, List.length_append]
  by_cases h : P.invar_pot i = 0 ∧ A.invar_par i n = 0
  · rw [if_pos h, List.filter_cons_of_pos (by simpa using h)]
    rfl
  · rw [if_neg h, List.filter_cons_of_neg (by simpa using h)]
    rfl

theorem opt_count_invariant (P : LoadParams) (A : apot_table_t) (i n : Nat)
    (h : P.invar_pot i ≠ 0) : opt_count P A i n = 0 := by
  induction n with
  | zero => rfl
  | succ n ih => rw [opt_count_succ, ih, if_neg (fun hc => h hc.1)]

theorem opt_count_add (P : LoadParams) (A : apot_table_t) (i n : Nat) (h : P.invar_pot i = 0) :
    opt_count P A i n
        + ((List.range n).filter (fun j => decide (A.invar_par i j ≠ 0))).length = n := by
  induction n with
  | zero => rfl
  | succ n ih =>
    rw [opt_count_succ, List.range_succ, List.filter_append, List.length_append]
    by_cases hp : A.invar_par i n = 0
    · rw [if_pos ⟨h, hp⟩, List.filter_cons_of_neg (by simpa using hp)]
      simp only [List.filter_nil, List.length_nil]
      omega
    · rw [if_neg (fun hc => hp hc.2), List.filter_cons_of_pos (by simpa using hp)]
      simp only [List.filter_nil, List.length_cons, List.length_nil]
      omega

theorem read_pot_table0_param_count (P : LoadParams) (i j : Nat) (t : Load0) :
    (read_pot_table0_param P i j t).k
      = t.k + (if P.invar_pot i = 0 ∧ t.apt.invar_par i j = 0 then 1 else 0) ∧
    (read_pot_table0_param P i j t).pt.idxlen = t.pt.idxlen := by
  unfold read_pot_table0_param
  simp only []
  split_ifs <;> exact ⟨rfl, rfl⟩

theorem read_pot_table0_params_count (P : LoadParams) (i n : Nat) (t : Load0) :
    (forLoop (read_pot_table0_param P i) n t).k = t.k + opt_count P t.apt i n ∧
    (forLoop (read_pot_table0_param P i) n t).pt.idxlen = t.pt.idxlen := by
  induction n with
  | zero => exact ⟨rfl, rfl⟩
  | succ n ih =>
    obtain ⟨c1, c2⟩ := read_pot_table0_param_count P i n (forLoop (read_pot_table0_param P i) n t)
    have f := read_pot_table0_params_frame P i n t
    rw [forLoop_succ, c1, c2, ih.1, ih.2, opt_count_succ, f.2.2.2.1]
    exact ⟨by ring, rfl⟩

theorem read_pot_table0_pot_count (P : LoadParams) (i : Nat) (t : Load0) :
    (read_pot_table0_pot P i t).k = t.k + opt_count P t.apt i (t.apt.n_par i) ∧
    (read_pot_table0_pot P i t).pt.idxlen
      = t.pt.idxlen
        + (if P.invar_pot i = 0 then
            (t.apt.n_par i : Int) - t.apt.invar_par i (t.apt.n_par i) else 0) := by
  obtain ⟨c1, c2⟩ := read_pot_table0_params_count P i (t.apt.n_par i)
    ({ t with val := t.val + 2, list := t.list + 2, l := t.l + 2 } : Load0)
  have f := read_pot_table0_params_frame P i (t.apt.n_par i)
    ({ t with val := t.val + 2, list := t.list + 2, l := t.l + 2 } : Load0)
  have f2 : (forLoop (read_pot_table0_param P i) (t.apt.n_par i)
      ({ t with val := t.val + 2, list := t.list + 2, l := t.l + 2 } : Load0)).apt.n_par
      = t.apt.n_par := f.2.1
  have f4 : (forLoop (read_pot_table0_param P i) (t.apt.n_par i)
      ({ t with val := t.val + 2, list := t.list + 2, l := t.l + 2 } : Load0)).apt.invar_par
      = t.apt.invar_par := f.2.2.2.1
  unfold read_pot_table0_pot
  simp only []
  split_ifs with h
  · refine ⟨c1, ?_⟩
    show _ + _ = _
    rw [c2, f2, f4]
  · refine ⟨c1, ?_⟩
    show _ = _
    rw [c2]
    exact (add_zero _).symm

theorem read_pot_table0_main_count (P : LoadParams) (s0 : Load0) (hc : InvarCounted s0.apt)
    (n : Nat) (hn : n ≤ s0.apt.number) :
    (forLoop (read_pot_table0_pot P) n s0).pt.idxlen - s0.pt.idxlen
      = ((forLoop (read_pot_table0_pot P) n s0).k : Int) - s0.k := by
  induction n with
  | zero => show s0.pt.idxlen - s0.pt.idxlen = (s0.k : Int) - s0.k; ring
  | succ n ih =>
    have ih' := ih (Nat.le_of_succ_le hn)
    have f := read_pot_table0_pots_frame P n s0
    obtain ⟨c1, c2⟩ := read_pot_table0_pot_count P n (forLoop (read_pot_table0_pot P) n s0)
    rw [forLoop_succ, c1, c2]
    have a2 : (forLoop (read_pot_table0_pot P) n s0).apt.n_par = s0.apt.n_par := f.2.1
    have a4 : (forLoop (read_pot_table0_pot P) n s0).apt.invar_par = s0.apt.invar_par :=
      f.2.2.2.1
    have hco : opt_count P (forLoop (read_pot_table0_pot P) n s0).apt n (s0.apt.n_par n)
        = opt_count P s0.apt n (s0.apt.n_par n) := by
      unfold opt_count
      rw [a4]
    rw [a2, a4, hco]
    have hcn := hc n hn
    by_cases hp : P.invar_pot n = 0
    · rw [if_pos hp, hcn]
      have := opt_count_add P s0.apt n (s0.apt.n_par n) hp
      push_cast
      omega
    · rw [if_neg hp, opt_count_invariant P s0.apt n _ hp]
      push_cast
      omega

theorem MainInv.main_apt {P : LoadParams} {A : apot_table_t} {i j pos : Nat} {t : Load0}
    (h : MainInv P A i j pos t) (A' : apot_table_t) (h1 : A'.n_par = A.n_par)
    (h2 : A'.invar_par = A.invar_par) (h3 : A'.values = A.values) :
    MainInv P A' i j pos t := by
  have e1 : apot_pos A' = apot_pos A := by
    funext i; unfold apot_pos; rw [h1]
  have e2 : Optimizable P A' = Optimizable P A := by
    funext i j; unfold Optimizable; rw [h2]
  constructor
  · exact h.l
  · exact h.val
  · rw [h1, e1, e2]; exact h.entries
  · exact h.sorted
  · rw [h1, e2]; exact h.complete
  · rw [h1, e1, h3]; exact h.table

theorem read_pot_table0_main_spec (P : LoadParams) (s : Load0) :
    Frame0 (read_pot_table0_pre P s) (read_pot_table0_main P (read_pot_table0_pre P s)) ∧
    MainInv P s.apt s.apt.number 0 (apot_pos s.apt s.apt.number)
      (read_pot_table0_main P (read_pot_table0_pre P s)) := by
  obtain ⟨p1, p2, p3, p4, _, p6, p7, p8, _, _, _⟩ := read_pot_table0_pre_spec P s
  have h0 : MainInv P (read_pot_table0_pre P s).apt 0 0 0 (read_pot_table0_pre P s) := by
    constructor
    · exact p7
    · exact p8
    · intro m hm; rw [p6] at hm; exact absurd hm (Nat.not_lt_zero m)
    · intro m m' _ hm; rw [p6] at hm; exact absurd hm (Nat.not_lt_zero m')
    · intro i' j' hb
      rcases hb with h | ⟨_, h⟩
      · exact absurd h (Nat.not_lt_zero i')
      · exact absurd h (Nat.not_lt_zero j')
    · intro i' j' hb
      rcases hb with h | ⟨_, h⟩
      · exact absurd h (Nat.not_lt_zero i')
      · exact absurd h (Nat.not_lt_zero j')
  obtain ⟨f, h⟩ := read_pot_table0_main_inv P (read_pot_table0_pre P s)
    (read_pot_table0_pre P s).apt.number h0
  have h' := h.main_apt s.apt p2.symm p4.symm p3.symm
  have e : apot_pos (read_pot_table0_pre P s).apt = apot_pos s.apt := by
    funext i; unfold apot_pos; rw [p2]
  rw [e, p1] at h'
  unfold read_pot_table0_main
  exact ⟨f, by rw [p1]; exact h'⟩

/-! ## The loops of `init_calc_table0` -/

theorem forLoopO_succ {σ : Type} (body : Nat → σ → Option σ) (n : Nat) (s t : σ)
    (h : forLoopO body n s = some t) : forLoopO body (n + 1) s = body n t := by
  show (match forLoopO body n s with
    | none => none
    | some t => body n t) = _
  rw [h]

theorem forLoopO_ok {σ : Type} (body : Nat → σ → Option σ) (I : Nat → σ → Prop) (n : Nat)
    (s : σ) (h0 : I 0 s)
    (hstep : ∀ k, k < n → ∀ t, I k t → ∃ t', body k t = some t' ∧ I (k + 1) t') :
    ∃ r, forLoopO body n s = some r ∧ I n r := by
  induction n with
  | zero => exact ⟨s, rfl, h0⟩
  | succ n ih =>
    obtain ⟨r, hr, hI⟩ := ih (fun k hk => hstep k (Nat.lt_succ_of_lt hk))
    obtain ⟨t', ht, hI'⟩ := hstep n (Nat.lt_succ_self n) r hI
    exact ⟨t', (forLoopO_succ body n s r hr).trans ht, hI'⟩

theorem store_ok (len : Int) (a : Buf) (i : Nat) (v : ℚ) (h : (i : Int) < len) :
    store len a i v = some (setf a i v) := by
  unfold store; rw [if_pos h]

theorem store_idx_ok (len : Int) (a : Nat → Nat) (i v : Nat) (h : (i : Int) < len) :
    store_idx len a i v = some (seta a i v) := by
  unfold store_idx; rw [if_pos h]

theorem setf_ne (f : Buf) (i k : Nat) (v : ℚ) (h : k ≠ i) : (setf f i v).get k = f.get k := by
  rw [setf_get, if_neg h]

theorem setf_same (f : Buf) (i : Nat) (v : ℚ) : (setf f i v).get i = v := by
  rw [setf_get, if_pos rfl]

theorem init_calc_table0_sample_step (Fn : ApotFuns) (A : apot_table_t) (S i j : Nat)
    (c1 c : pot_table_t) (hI : SampleInv Fn A S i c1 j c)
    (hsafe : ((i * S + (i + 1) * 2 + j : Nat) : Int) < c1.len) :
    ∃ c', init_calc_table0_sample Fn A S i j c = some c' ∧ SampleInv Fn A S i c1 (j + 1) c' := by
  have h1 : ((i * S + (i + 1) * 2 + j : Nat) : Int) < c.len := by rw [hI.len]; exact hsafe
  have h2 : ((i * S + j : Nat) : Int) < c.len := by
    have : ((i * S + j : Nat) : Int) ≤ ((i * S + (i + 1) * 2 + j : Nat) : Int) := by
      apply Int.ofNat_le.2; omega
    omega
  unfold init_calc_table0_sample
  simp only []
  rw [store_ok _ _ _ _ h1]
  simp only []
  rw [store_ok _ _ _ _ h1]
  simp only []
  rw [store_idx_ok _ _ _ _ h2]
  simp only []
  refine ⟨_, rfl, ?_⟩
  constructor
  · exact hI.len
  · exact hI.first
  · exact hI.last
  · exact hI.begin_
  · exact hI.end_
  · exact hI.step
  · intro m hm
    dsimp only
    rw [setf_ne _ _ m _ (by omega), setf_ne _ _ m _ (by omega)]
    exact hI.low m hm
  · intro m hm
    dsimp only
    rw [seta_ne _ _ _ _ (by omega)]
    exact hI.lowidx m hm
  · intro j' hj'
    dsimp only
    rcases Nat.lt_succ_iff_lt_or_eq.1 hj' with h | h
    · rw [setf_ne _ _ (i * S + (i + 1) * 2 + j') _ (by omega),
        setf_ne _ _ (i * S + (i + 1) * 2 + j') _ (by omega), seta_ne _ _ _ _ (by omega)]
      exact hI.own j' h
    · rw [h, setf_same, setf_same, seta_same, hI.begin_, hI.step]
      exact ⟨rfl, rfl, rfl⟩

theorem init_calc_table0_pot_eq (Fn : ApotFuns) (A : apot_table_t) (S i : Nat)
    (s : pot_table_t × Int) (c2 : pot_table_t)
    (h1 : ((i * S + i * 2 : Nat) : Int) < s.1.len)
    (h2 : ((i * S + i * 2 + 1 : Nat) : Int) < s.1.len)
    (h : forLoopO (init_calc_table0_sample Fn A S i) S (init_calc_table0_head S i s.1 s.2)
      = some c2) :
    init_calc_table0_pot Fn A S i s = some (c2, s.2 + 2 + (S - 1) + 1) := by
  unfold init_calc_table0_pot
  simp only []
  rw [store_ok _ _ _ _ h1]
  simp only []
  rw [store_ok _ _ _ _ h2]
  simp only []
  unfold init_calc_table0_head at h
  rw [h]

theorem init_calc_table0_pot_step (Fn : ApotFuns) (A : apot_table_t) (S : Nat) (L : Int)
    (b e : Nat → ℚ) (size i : Nat) (s : pot_table_t × Int) (hI : PotInv Fn A S L b e i s)
    (hi : i < size) (hL : ((size * S + 2 * size : Nat) : Int) ≤ L) :
    ∃ s', init_calc_table0_pot Fn A S i s = some s' ∧ PotInv Fn A S L b e (i + 1) s' := by
  have hmul : i * S + S ≤ size * S := by
    have := Nat.mul_le_mul_right S (Nat.succ_le_of_lt hi)
    rw [Nat.succ_mul] at this
    exact this
  have hsafe : ∀ m, m < i * S + (i + 1) * 2 + S → ((m : Nat) : Int) < s.1.len := by
    intro m hm
    rw [hI.len]
    have : ((m : Nat) : Int) < ((size * S + 2 * size : Nat) : Int) := Int.ofNat_lt.2 (by omega)
    omega
  have h0 : SampleInv Fn A S i (init_calc_table0_head S i s.1 s.2) 0
      (init_calc_table0_head S i s.1 s.2) :=
    ⟨rfl, rfl, rfl, rfl, rfl, rfl, fun _ _ => ⟨rfl, rfl⟩, fun _ _ => rfl,
      fun j' hj' => absurd hj' (Nat.not_lt_zero j')⟩
  obtain ⟨c2, hc2, hS⟩ := forLoopO_ok (init_calc_table0_sample Fn A S i)
    (SampleInv Fn A S i (init_calc_table0_head S i s.1 s.2)) S
    (init_calc_table0_head S i s.1 s.2) h0
    (fun j hj c hc => init_calc_table0_sample_step Fn A S i j _ c hc (hsafe _ (by omega)))
  refine ⟨_, init_calc_table0_pot_eq Fn A S i s c2 (hsafe _ (by omega)) (hsafe _ (by omega)) hc2,
    ?_⟩
  have hb : c2.begin_ = b := hS.begin_.trans hI.begin_
  have he : c2.end_ = e := hS.end_.trans hI.end_
  have hst : c2.step = seta s.1.step i ((s.1.end_ i - s.1.begin_ i) / ((S : ℚ) - 1)) := hS.step
  have hfi : c2.first = seta s.1.first i (s.2 + 2) := hS.first
  have hla : c2.last = seta s.1.last i (s.2 + 2 + (S - 1)) := hS.last
  have hlow : ∀ m, m < i * S + i * 2 →
      c2.table.get m = s.1.table.get m ∧ c2.xcoord.get m = s.1.xcoord.get m := by
    intro m hm
    obtain ⟨l1, l2⟩ := hS.low m (by omega)
    rw [l1, l2]
    refine ⟨?_, rfl⟩
    show (setf (setf s.1.table _ _) _ _).get m = _
    rw [setf_ne _ _ m _ (by omega), setf_ne _ _ m _ (by omega)]
  constructor
  · show s.2 + 2 + (S - 1) + 1 = _
    rw [hI.x]
    push_cast
    ring
  · exact hS.len.trans hI.len
  · exact hb
  · exact he
  · intro i' hi'
    rcases Nat.lt_succ_iff_lt_or_eq.1 hi' with h | h
    · obtain ⟨d1, d2, d3, d4, d5, d6⟩ := hI.done i' h
      have hne := Nat.ne_of_lt h
      have hmul' : i' * S + S ≤ i * S := by
        have := Nat.mul_le_mul_right S (Nat.succ_le_of_lt h)
        rw [Nat.succ_mul] at this
        exact this
      refine ⟨?_, ?_, ?_, ?_, ?_, ?_⟩
      · show c2.first i' = _
        rw [hfi, seta_ne _ _ _ _ hne]; exact d1
      · show c2.last i' = c2.first i' + _ - 1
        rw [hla, hfi, seta_ne _ _ _ _ hne, seta_ne _ _ _ _ hne]; exact d2
      · show c2.step i' = (c2.end_ i' - c2.begin_ i') / _
        rw [hst, seta_ne _ _ _ _ hne, hb, he, ← hI.begin_, ← hI.end_]; exact d3
      · show c2.table.get _ = _
        rw [(hlow _ (by omega)).1]; exact d4
      · show c2.table.get _ = _
        rw [(hlow _ (by omega)).1]; exact d5
      · intro j hj
        obtain ⟨e1, e2, e3⟩ := d6 j hj
        show c2.xcoord.get _ = c2.begin_ i' + _ * c2.step i' ∧
          c2.table.get _ = apot_sample Fn A (c2.begin_ i') (c2.step i') i' j ∧ c2.idx _ = _
        rw [(hlow _ (by omega)).1, (hlow _ (by omega)).2, hst, seta_ne _ _ _ _ hne, hb,
          ← hI.begin_, hS.lowidx _ (by omega)]
        exact ⟨e1, e2, e3⟩
    · rw [h]
      refine ⟨?_, ?_, ?_, ?_, ?_, ?_⟩
      · show c2.first i = _
        rw [hfi, seta_same, hI.x]; ring
      · show c2.last i = c2.first i + _ - 1
        rw [hla, hfi, seta_same, seta_same]; ring
      · show c2.step i = (c2.end_ i - c2.begin_ i) / _
        rw [hst, seta_same, hb, he, ← hI.begin_, ← hI.end_]
      · show c2.table.get _ = _
        rw [(hS.low _ (by omega)).1]
        show (setf (setf s.1.table _ _) _ _).get _ = _
        rw [setf_ne _ _ (i * S + i * 2) _ (by omega), setf_same]
      · show c2.table.get _ = _
        rw [(hS.low _ (by omega)).1]
        show (setf (setf s.1.table _ _) _ _).get _ = _
        rw [setf_same]
      · intro j hj
        obtain ⟨e1, e2, e3⟩ := hS.own j hj
        have hb1 : (init_calc_table0_head S i s.1 s.2).begin_ = c2.begin_ := hS.begin_.symm
        have hs1 : (init_calc_table0_head S i s.1 s.2).step = c2.step := hS.step.symm
        rw [hb1, hs1] at e1 e2
        exact ⟨e1, e2, e3⟩

theorem init_calc_table0_eq (Fn : ApotFuns) (A : apot_table_t) (opt : pot_table_t)
    (ntypes compnodes STEPS : Nat) (calc_pot : pot_table_t) (r : pot_table_t × Int)
    (h : forLoopO (init_calc_table0_pot Fn A STEPS) A.number
      (init_calc_table0_start A opt ntypes compnodes STEPS calc_pot, 0) = some r) :
    init_calc_table0 Fn A opt ntypes compnodes STEPS calc_pot = some r.1 := by
  unfold init_calc_table0
  simp only []
  unfold init_calc_table0_start at h
  rw [h]

theorem init_calc_table0_spec (Fn : ApotFuns) (A : apot_table_t) (opt : pot_table_t)
    (ntypes compnodes STEPS : Nat) (calc_pot : pot_table_t)
    (h : 2 * A.number ≤ 2 * opt.ncols + ntypes + compnodes) :
    ∃ c, init_calc_table0 Fn A opt ntypes compnodes STEPS calc_pot = some c ∧
      c.len = A.number * STEPS + 2 * opt.ncols + ntypes + compnodes ∧
      c.begin_ = opt.begin_ ∧ c.end_ = opt.end_ ∧
      ∀ i, i < A.number → ColumnDone Fn A STEPS i c := by
  have h' : ((2 * A.number : Nat) : Int) ≤ ((2 * opt.ncols + ntypes + compnodes : Nat) : Int) :=
    Int.ofNat_le.2 h
  have hL : ((A.number * STEPS + 2 * A.number : Nat) : Int)
      ≤ (A.number : Int) * STEPS + 2 * opt.ncols + ntypes + compnodes := by
    push_cast at h' ⊢
    linarith
  have h0 : PotInv Fn A STEPS ((A.number : Int) * STEPS + 2 * opt.ncols + ntypes + compnodes)
      opt.begin_ opt.end_ 0 (init_calc_table0_start A opt ntypes compnodes STEPS calc_pot, 0) :=
    ⟨by simp, rfl, rfl, rfl, fun i' hi' => absurd hi' (Nat.not_lt_zero i')⟩
  obtain ⟨r, hr, hI⟩ := forLoopO_ok (init_calc_table0_pot Fn A STEPS)
    (PotInv Fn A STEPS ((A.number : Int) * STEPS + 2 * opt.ncols + ntypes + compnodes)
      opt.begin_ opt.end_) A.number _ h0
    (fun i hi s hs => init_calc_table0_pot_step Fn A STEPS _ _ _ A.number i s hs hi hL)
  exact ⟨r.1, init_calc_table0_eq Fn A opt ntypes compnodes STEPS calc_pot r hr, hI.len,
    hI.begin_, hI.end_, hI.done⟩

/-! ## Which accumulators the steps of `calc_forces_adp` change -/

theorem adp_dipole_acc_frame (G : Globals) (S : Splines) (h : Nat) (uf : Bool) (i j : Nat)
    (n : neigh_t) (st : AdpSt) (a : Nat) (h1 : a ≠ i + G.cnfstart h - G.firstatom)
    (h2 : a ≠ n.nr - G.firstatom) : (adp_dipole G S h uf i j n st).acc.get a = st.acc.get a := by
  unfold adp_dipole
  simp only []
  by_cases hr : n.r < G.pot_end (n.col 2)
  · rw [if_pos hr]
    simp only [AccTab.acc_modify_get, if_neg h1, if_neg h2]
  · rw [if_neg hr]

theorem adp_quadrupole_acc_frame (G : Globals) (S : Splines) (h : Nat) (uf : Bool) (i j : Nat)
    (n : neigh_t) (st : AdpSt) (a : Nat) (h1 : a ≠ i + G.cnfstart h - G.firstatom)
    (h2 : a ≠ n.nr - G.firstatom) :
    (adp_quadrupole G S h uf i j n st).acc.get a = st.acc.get a := by
  unfold adp_quadrupole
  simp only []
  by_cases hr : n.r < G.pot_end (n.col 3)
  · rw [if_pos hr]
    simp only [AccTab.acc_modify_get, if_neg h1, if_neg h2]
  · rw [if_neg hr]

theorem adp_density_acc_frame (G : Globals) (S : Splines) (h i : Nat) (n : neigh_t)
    (st : AdpSt) (a : Nat) (h1 : a ≠ i + G.cnfstart h - G.firstatom)
    (h2 : a ≠ n.nr - G.firstatom) : (adp_density G S h i n st).acc.get a = st.acc.get a := by
  unfold adp_density
  simp only []
  split_ifs <;> simp only [AccTab.acc_modify_get, if_neg h1, if_neg h2]

theorem adp_neigh_acc_frame (B : Build) (G : Globals) (S : Splines) (h : Nat) (uf us : Bool)
    (i : Nat) (st : AdpSt) (jn : Nat × neigh_t) (a : Nat)
    (h1 : a ≠ i + G.cnfstart h - G.firstatom) (h2 : a ≠ jn.2.nr - G.firstatom) :
    (adp_neigh B G S h uf us i st jn).acc.get a = st.acc.get a := by
  unfold adp_neigh
  simp only []
  rw [adp_density_acc_frame G S h i jn.2 _ a h1 h2,
    adp_quadrupole_acc_frame G S h uf i jn.1 jn.2 _ a h1 h2,
    adp_dipole_acc_frame G S h uf i jn.1 jn.2 _ a h1 h2]

theorem adp_neigh_foldl_acc_frame (B : Build) (G : Globals) (S : Splines) (h : Nat)
    (uf us : Bool) (i : Nat) (l : List (Nat × neigh_t)) (st : AdpSt) (a : Nat)
    (h1 : a ≠ i + G.cnfstart h - G.firstatom)
    (h2 : ∀ jn, jn ∈ l → a ≠ jn.2.nr - G.firstatom) :
    (l.foldl (adp_neigh B G S h uf us i) st).acc.get a = st.acc.get a := by
  induction l generalizing st with
  | nil => rfl
  | cons jn l ih =>
    rw [List.foldl_cons, ih _ (fun x hx => h2 x (List.mem_cons_of_mem _ hx)),
      adp_neigh_acc_frame B G S h uf us i st jn a h1 (h2 jn (List.mem_cons_self _ _))]

theorem adp_embed_sums (B : Build) (G : Globals) (S : Splines) (h i : Nat) (st : AdpSt)
    (hR : B.RESCALE = false) (a : Nat) :
    acc_sums ((adp_embed B G S h i st).acc.get a) = acc_sums (st.acc.get a) := by
  unfold adp_embed
  simp only [hR, Bool.false_eq_true, if_false]
  split_ifs <;>
    (simp only [AccTab.acc_modify_get]
     split_ifs with e
     · rw [e]; rfl
     · rfl)

theorem adp_self_energy_sums (G : Globals) (h i : Nat) (st : AdpSt) (a : Nat) :
    acc_sums ((adp_self_energy G h i st).acc.get a) = acc_sums (st.acc.get a) := by
  unfold adp_self_energy
  simp only [AccTab.acc_modify_get]
  split_ifs with e
  · rw [e]; rfl
  · rfl

theorem adp_atom2_sums_other (B : Build) (G : Globals) (S : Splines) (h : Nat) (uf us : Bool)
    (i : Nat) (st : AdpSt) (hR : B.RESCALE = false) (a : Nat)
    (h1 : a ≠ i + G.cnfstart h - G.firstatom)
    (h2 : ∀ n, n ∈ (G.conf_atoms (i + G.cnfstart h - G.firstatom)).neigh →
      a ≠ n.nr - G.firstatom) :
    acc_sums ((adp_atom2 B G S h uf us i st).acc.get a) = acc_sums (st.acc.get a) := by
  unfold adp_atom2
  simp only []
  rw [adp_self_energy_sums, adp_embed_sums B G S h i _ hR,
    adp_neigh_foldl_acc_frame B G S h uf us i _ st a h1 (fun jn hjn => h2 jn.2 (mem_enum_snd hjn))]

theorem adp_neigh3_acc (B : Build) (G : Globals) (S : Splines) (h : Nat) (us : Bool) (i : Nat)
    (st : AdpSt) (jn : Nat × neigh_t) : (adp_neigh3 B G S h us i st jn).acc = st.acc := by
  unfold adp_neigh3 adp_force_quadrupole adp_force_dipole adp_force_eam
  simp only []
  split_ifs <;> rfl

theorem adp_neigh3_foldl_acc (B : Build) (G : Globals) (S : Splines) (h : Nat) (us : Bool)
    (i : Nat) (l : List (Nat × neigh_t)) (st : AdpSt) :
    (l.foldl (adp_neigh3 B G S h us i) st).acc = st.acc := by
  induction l generalizing st with
  | nil => rfl
  | cons jn l ih => rw [List.foldl_cons, ih, adp_neigh3_acc]

theorem adp_atom3_acc (B : Build) (G : Globals) (S : Splines) (h : Nat) (us : Bool) (i : Nat)
    (st : AdpSt) : (adp_atom3 B G S h us i st).acc = st.acc := by
  unfold adp_atom3
  simp only []
  split_ifs <;> exact adp_neigh3_foldl_acc B G S h us i _ st

theorem adp_atoms3_acc (B : Build) (G : Globals) (S : Splines) (h : Nat) (us : Bool) (n : Nat)
    (st : AdpSt) : (forLoop (adp_atom3 B G S h us) n st).acc = st.acc := by
  induction n with
  | zero => rfl
  | succ n ih => rw [forLoop_succ, adp_atom3_acc, ih]

theorem adp_conf_acc (B : Build) (G : Globals) (S : Splines) (h : Nat) (st : AdpSt) :
    (adp_conf B G S h st).acc
      = (forLoop (adp_atom2 B G S h (G.conf_uf (h - G.firstconf)) (G.conf_us (h - G.firstconf)))
          (G.inconf h) (adp_after_reset B G h st)).acc := by
  unfold adp_conf adp_after_reset adp_conf_terms
  simp only []
  split_ifs
  · rw [adp_atoms3_acc]
  · rfl

theorem adp_atom2_before_embed (B : Build) (G : Globals) (S : Splines) (h i : Nat)
    (st : AdpSt) :
    forLoop (adp_atom2 B G S h (G.conf_uf (h - G.firstconf)) (G.conf_us (h - G.firstconf)))
        (i + 1) (adp_after_reset B G h st)
      = adp_self_energy G h i (adp_embed B G S h i (adp_before_embed B G S h i st)) := rfl

theorem adp_later_sums (B : Build) (G : Globals) (S : Splines) (h i : Nat) (st : AdpSt)
    (hR : B.RESCALE = false) (hH : HalfList G h) (hfa : G.firstatom ≤ G.cnfstart h) (n : Nat)
    (hin : i < n) (hn : n ≤ G.inconf h) :
    acc_sums ((forLoop (adp_atom2 B G S h (G.conf_uf (h - G.firstconf))
        (G.conf_us (h - G.firstconf))) n (adp_after_reset B G h st)).acc.get
          (i + G.cnfstart h - G.firstatom))
      = acc_sums ((adp_before_embed B G S h i st).acc.get (i + G.cnfstart h - G.firstatom)) := by
  induction n with
  | zero => exact absurd hin (Nat.not_lt_zero i)
  | succ n ih =>
    rcases Nat.lt_succ_iff_lt_or_eq.1 hin with hlt | heq
    · rw [forLoop_succ, adp_atom2_sums_other B G S h _ _ n _ hR _ (by omega), ih hlt (by omega)]
      intro m hm
      have := (hH n (by omega) m hm).1
      omega
    · rw [← heq, adp_atom2_before_embed, adp_self_energy_sums, adp_embed_sums B G S h i _ hR]

/-! ## The accumulation in double arithmetic

With the identity for the rounding, the model in double arithmetic is the
exact model.  For every rounding, the evaluation of a configuration writes
its own slots only, and what it writes there does not depend on the buffer it
starts from. -/

theorem pair_conf_loop_fl_id (B : Build) (G : Globals) (S : Splines) (st : St) :
    pair_conf_loop_fl id B G S st = pair_conf_loop B G S st := rfl

theorem addf_fl_get (fl : ℚ → ℚ) (f : Buf) (i k : Nat) (v : ℚ) :
    (addf_fl fl f i v).get k = if k = i then fl (f.get i + v) else f.get k := rfl

theorem subf_fl_get (fl : ℚ → ℚ) (f : Buf) (i k : Nat) (v : ℚ) :
    (subf_fl fl f i v).get k = if k = i then fl (f.get i - v) else f.get k := rfl

theorem divf_fl_get (fl : ℚ → ℚ) (f : Buf) (i k : Nat) (v : ℚ) :
    (divf_fl fl f i v).get k = if k = i then fl (f.get i / v) else f.get k := rfl

theorem agree_addf_fl (fl : ℚ → ℚ) {X : Nat → Prop} {f f' : Buf} (i : Nat) (v : ℚ)
    (ha : Agree X f f') : Agree X (addf_fl fl f i v) (addf_fl fl f' i v) := by
  intro k hk
  rw [addf_fl_get, addf_fl_get]
  split_ifs with hki
  · rw [← hki, ha k hk]
  · exact ha k hk

theorem agree_subf_fl (fl : ℚ → ℚ) {X : Nat → Prop} {f f' : Buf} (i : Nat) (v : ℚ)
    (ha : Agree X f f') : Agree X (subf_fl fl f i v) (subf_fl fl f' i v) := by
  intro k hk
  rw [subf_fl_get, subf_fl_get]
  split_ifs with hki
  · rw [← hki, ha k hk]
  · exact ha k hk

theorem agree_divf_fl (fl : ℚ → ℚ) {X : Nat → Prop} {f f' : Buf} (i : Nat) (v : ℚ)
    (ha : Agree X f f') : Agree X (divf_fl fl f i v) (divf_fl fl f' i v) := by
  intro k hk
  rw [divf_fl_get, divf_fl_get]
  split_ifs with hki
  · rw [← hki, ha k hk]
  · exact ha k hk

theorem stress_update_fl_agree (fl : ℚ → ℚ) {X : Nat → Prop} {f f' : Buf} (s : Nat)
    (d t : vector) (ha : Agree X f f') :
    Agree X (stress_update_fl fl f s d t) (stress_update_fl fl f' s d t) := by
  unfold stress_update_fl
  exact agree_subf_fl fl _ _ (agree_subf_fl fl _ _ (agree_subf_fl fl _ _
    (agree_subf_fl fl _ _ (agree_subf_fl fl _ _ (agree_subf_fl fl _ _ ha)))))

theorem pair_neigh_fl_agree (fl : ℚ → ℚ) (B : Build) (G : Globals) (S : Splines) (h : Nat)
    (uf us : Bool) (i : Nat) (n : neigh_t) {X : Nat → Prop} {f f' : Buf}
    (ha : Agree X f f') :
    Agree X (pair_neigh_fl fl B G S h uf us i f n) (pair_neigh_fl fl B G S h uf us i f' n) := by
  have h1 : ∀ v, Agree X (addf_fl fl f (G.energy_p + h) v) (addf_fl fl f' (G.energy_p + h) v) :=
    fun v => agree_addf_fl fl _ v ha
  have h2 : ∀ v tx ty tz : ℚ,
      Agree X
        (subf_fl fl (subf_fl fl (subf_fl fl (addf_fl fl (addf_fl fl (addf_fl fl
          (addf_fl fl f (G.energy_p + h) v) (3 * (G.cnfstart h + i) + 0) tx)
          (3 * (G.cnfstart h + i) + 1) ty) (3 * (G.cnfstart h + i) + 2) tz)
          (3 * n.nr + 0) tx) (3 * n.nr + 1) ty) (3 * n.nr + 2) tz)
        (subf_fl fl (subf_fl fl (subf_fl fl (addf_fl fl (addf_fl fl (addf_fl fl
          (addf_fl fl f' (G.energy_p + h) v) (3 * (G.cnfstart h + i) + 0) tx)
          (3 * (G.cnfstart h + i) + 1) ty) (3 * (G.cnfstart h + i) + 2) tz)
          (3 * n.nr + 0) tx) (3 * n.nr + 1) ty) (3 * n.nr + 2) tz) :=
    fun v tx ty tz => agree_subf_fl fl _ _ (agree_subf_fl fl _ _ (agree_subf_fl fl _ _
      (agree_addf_fl fl _ _ (agree_addf_fl fl _ _ (agree_addf_fl fl _ _ (h1 v))))))
  unfold pair_neigh_fl
  simp only []
  by_cases hr : n.r < G.pot_end (n.col 0)
  · rw [if_pos hr, if_pos hr]
    cases uf
    · simp only [Bool.false_eq_true, if_false]
      exact h1 _
    · simp only [if_true]
      by_cases hs : (B.STRESS && us) = true
      · rw [if_pos hs, if_pos hs]
        exact stress_update_fl_agree fl _ _ _ (h2 _ _ _ _)
      · rw [if_neg hs, if_neg hs]
        exact h2 _ _ _ _
  · rw [if_neg hr, if_neg hr]
    exact ha

theorem pair_foldl_fl_agree (fl : ℚ → ℚ) (B : Build) (G : Globals) (S : Splines) (h : Nat)
    (uf us : Bool) (i : Nat) (l : List neigh_t) {X : Nat → Prop} {f f' : Buf}
    (ha : Agree X f f') :
    Agree X (l.foldl (pair_neigh_fl fl B G S h uf us i) f)
      (l.foldl (pair_neigh_fl fl B G S h uf us i) f') := by
  induction l generalizing f f' with
  | nil => exact ha
  | cons n l ih =>
    simp only [List.foldl_cons]
    exact ih (pair_neigh_fl_agree fl B G S h uf us i n ha)

theorem pair_atom_fl_agree (fl : ℚ → ℚ) (B : Build) (G : Globals) (S : Splines) (h : Nat)
    (uf us : Bool) (i : Nat) {X : Nat → Prop} {s t : St}
    (ha : Agree X s.forces t.forces) :
    Agree X (pair_atom_fl fl B G S h uf us i s).forces
      (pair_atom_fl fl B G S h uf us i t).forces := by
  have hf := pair_foldl_fl_agree fl B G S h uf us i
    (G.conf_atoms (i + G.cnfstart h - G.firstatom)).neigh ha
  have hd := agree_divf_fl fl (3 * (G.cnfstart h + i) + 2)
      (fl (B.FORCE_EPS + (G.conf_atoms (i + G.cnfstart h - G.firstatom)).absforce))
    (agree_divf_fl fl (3 * (G.cnfstart h + i) + 1)
      (fl (B.FORCE_EPS + (G.conf_atoms (i + G.cnfstart h - G.firstatom)).absforce))
    (agree_divf_fl fl (3 * (G.cnfstart h + i) + 0)
      (fl (B.FORCE_EPS + (G.conf_atoms (i + G.cnfstart h - G.firstatom)).absforce)) hf))
  unfold pair_atom_fl
  cases uf <;> by_cases hF : B.FWEIGHT = true <;>
    by_cases hc : (B.CONTRIB && !(G.conf_atoms (i + G.cnfstart h - G.firstatom)).contrib) = true <;>
    simp only [hF, hc, if_true, if_false, Bool.false_eq_true]
  all_goals first | exact hf | exact hd

theorem pair_atoms_fl_agree (fl : ℚ → ℚ) (B : Build) (G : Globals) (S : Splines) (h : Nat)
    (uf us : Bool) (m : Nat) {X : Nat → Prop} {s t : St}
    (ha : Agree X s.forces t.forces) :
    Agree X (forLoop (pair_atom_fl fl B G S h uf us) m s).forces
      (forLoop (pair_atom_fl fl B G S h uf us) m t).forces := by
  induction m with
  | zero => exact ha
  | succ m ih =>
    rw [forLoop_succ, forLoop_succ]
    exact pair_atom_fl_agree fl B G S h uf us m ih

theorem pair_conf_energy_fl_agree (fl : ℚ → ℚ) (G : Globals) (h : Nat) {X : Nat → Prop}
    {s t : St} (ha : Agree X s.forces t.forces) :
    Agree X (pair_conf_energy_fl fl G h s).forces (pair_conf_energy_fl fl G h t).forces :=
  agree_subf_fl fl (G.energy_p + h) (G.force_0 (G.energy_p + h))
    (agree_divf_fl fl (G.energy_p + h) (G.inconf h : ℚ) ha)

theorem pair_stress_term_fl_agree (fl : ℚ → ℚ) (G : Globals) (h i : Nat) {X : Nat → Prop}
    {s t : St} (ha : Agree X s.forces t.forces) :
    Agree X (pair_stress_term_fl fl G h i s).forces (pair_stress_term_fl fl G h i t).forces :=
  agree_subf_fl fl (G.stress_p + 6 * h + i) (G.force_0 (G.stress_p + 6 * h + i))
    (agree_divf_fl fl (G.stress_p + 6 * h + i) (G.conf_vol (h - G.firstconf)) ha)

theorem pair_stress_loop_fl_agree (fl : ℚ → ℚ) (G : Globals) (h m : Nat) {X : Nat → Prop}
    {s t : St} (ha : Agree X s.forces t.forces) :
    Agree X (forLoop (pair_stress_term_fl fl G h) m s).forces
      (forLoop (pair_stress_term_fl fl G h) m t).forces := by
  induction m with
  | zero => exact ha
  | succ m ih =>
    rw [forLoop_succ, forLoop_succ]
    exact pair_stress_term_fl_agree fl G h m ih

theorem pair_conf_stress_fl_agree (fl : ℚ → ℚ) (B : Build) (G : Globals) (h : Nat)
    (uf us : Bool) {X : Nat → Prop} {s t : St} (ha : Agree X s.forces t.forces) :
    Agree X (pair_conf_stress_fl fl B G h uf us s).forces
      (pair_conf_stress_fl fl B G h uf us t).forces := by
  unfold pair_conf_stress_fl
  split_ifs with h1
  · exact pair_stress_loop_fl_agree fl G h 6 ha
  · exact ha

/-- In double arithmetic as well, the evaluation of one configuration makes
two runs agree on the offsets it writes and keeps them in agreement
elsewhere. -/
theorem pair_conf_fl_agree (fl : ℚ → ℚ) (B : Build) (G : Globals) (S : Splines) (h : Nat)
    {X : Nat → Prop} {s t : St} (ha : Agree X s.forces t.forces) :
    Agree (fun k => X k ∨ conf_slot B G h k)
      (pair_conf_fl fl B G S h s).forces (pair_conf_fl fl B G S h t).forces := by
  have h1 := pair_conf_reset_agree B G h (G.conf_uf (h - G.firstconf)) ha
  have h2 := pair_atoms_fl_agree fl B G S h (G.conf_uf (h - G.firstconf))
    (G.conf_us (h - G.firstconf)) (G.inconf h)
    (s := ⟨pair_conf_reset B G h (G.conf_uf (h - G.firstconf)) s.forces, s.tmpsum⟩)
    (t := ⟨pair_conf_reset B G h (G.conf_uf (h - G.firstconf)) t.forces, t.tmpsum⟩) h1
  have h3 := pair_conf_energy_fl_agree fl G h h2
  exact pair_conf_stress_fl_agree fl B G h (G.conf_uf (h - G.firstconf))
    (G.conf_us (h - G.firstconf)) h3

theorem stress_update_fl_frame (fl : ℚ → ℚ) (f : Buf) (s k : Nat) (d t : vector)
    (hk : ¬ (s ≤ k ∧ k < s + 6)) : (stress_update_fl fl f s d t).get k = f.get k := by
  unfold stress_update_fl
  simp only [subf_fl_get]
  rw [if_neg (by omega), if_neg (by omega), if_neg (by omega), if_neg (by omega),
    if_neg (by omega), if_neg (by omega)]

theorem pair_neigh_fl_frame (fl : ℚ → ℚ) (B : Build) (G : Globals) (S : Splines) (h : Nat)
    (uf us : Bool) (i : Nat) (f : Buf) (n : neigh_t) (k : Nat) (hi : i < G.inconf h)
    (hn : G.cnfstart h ≤ n.nr ∧ n.nr < G.cnfstart h + G.inconf h)
    (hk : ¬ conf_slot B G h k) :
    (pair_neigh_fl fl B G S h uf us i f n).get k = f.get k := by
  unfold conf_slot at hk
  have h0 : k ≠ G.energy_p + h := by omega
  have h1 : k ≠ 3 * (G.cnfstart h + i) + 0 := by omega
  have h2 : k ≠ 3 * (G.cnfstart h + i) + 1 := by omega
  have h3 : k ≠ 3 * (G.cnfstart h + i) + 2 := by omega
  have h4 : k ≠ 3 * n.nr + 0 := by omega
  have h5 : k ≠ 3 * n.nr + 1 := by omega
  have h6 : k ≠ 3 * n.nr + 2 := by omega
  have e : ∀ v tx ty tz : ℚ,
      (subf_fl fl (subf_fl fl (subf_fl fl (addf_fl fl (addf_fl fl (addf_fl fl
          (addf_fl fl f (G.energy_p + h) v) (3 * (G.cnfstart h + i) + 0) tx)
          (3 * (G.cnfstart h + i) + 1) ty) (3 * (G.cnfstart h + i) + 2) tz)
          (3 * n.nr + 0) tx) (3 * n.nr + 1) ty) (3 * n.nr + 2) tz).get k = f.get k := by
    intro v tx ty tz
    simp only [subf_fl_get, addf_fl_get]
    rw [if_neg h6, if_neg h5, if_neg h4, if_neg h3, if_neg h2, if_neg h1, if_neg h0]
  unfold pair_neigh_fl
  simp only []
  by_cases hr : n.r < G.pot_end (n.col 0)
  · rw [if_pos hr]
    cases uf
    · simp only [Bool.false_eq_true, if_false]
      rw [addf_fl_get, if_neg h0]
    · simp only [if_true]
      by_cases hs : (B.STRESS && us) = true
      · rw [if_pos hs]
        have hS : B.STRESS = true := by
          cases hB : B.STRESS
          · rw [hB] at hs; simp at hs
          · rfl
        rw [hS] at hk
        simp only [true_and] at hk
        rw [stress_update_fl_frame fl _ _ k _ _ (by omega)]
        exact e _ _ _ _
      · rw [if_neg hs]
        exact e _ _ _ _
  · rw [if_neg hr]

theorem pair_foldl_fl_frame (fl : ℚ → ℚ) (B : Build) (G : Globals) (S : Splines) (h : Nat)
    (uf us : Bool) (i : Nat) (l : List neigh_t) (f : Buf) (k : Nat) (hi : i < G.inconf h)
    (hn : ∀ n, n ∈ l → G.cnfstart h ≤ n.nr ∧ n.nr < G.cnfstart h + G.inconf h)
    (hk : ¬ conf_slot B G h k) :
    (l.foldl (pair_neigh_fl fl B G S h uf us i) f).get k = f.get k := by
  induction l generalizing f with
  | nil => rfl
  | cons n l ih =>
    simp only [List.foldl_cons]
    rw [ih _ (fun m hm => hn m (List.mem_cons_of_mem _ hm)),
      pair_neigh_fl_frame fl B G S h uf us i f n k hi (hn n (List.mem_cons_self _ _)) hk]

theorem pair_atom_fl_frame (fl : ℚ → ℚ) (B : Build) (G : Globals) (S : Splines) (h : Nat)
    (uf us : Bool) (i : Nat) (st : St) (k : Nat) (hi : i < G.inconf h) (hN : NeighIn G h)
    (hk : ¬ conf_slot B G h k) :
    (pair_atom_fl fl B G S h uf us i st).forces.get k = st.forces.get k := by
  have hf := pair_foldl_fl_frame fl B G S h uf us i
    (G.conf_atoms (i + G.cnfstart h - G.firstatom)).neigh st.forces k hi (hN i hi) hk
  have h0 : k ≠ 3 * (G.cnfstart h + i) + 0 := by unfold conf_slot at hk; omega
  have h1 : k ≠ 3 * (G.cnfstart h + i) + 1 := by unfold conf_slot at hk; omega
  have h2 : k ≠ 3 * (G.cnfstart h + i) + 2 := by unfold conf_slot at hk; omega
  unfold pair_atom_fl
  simp only []
  split_ifs <;> simp only [divf_fl_get, if_neg h0, if_neg h1, if_neg h2, hf]

theorem pair_atoms_fl_frame (fl : ℚ → ℚ) (B : Build) (G : Globals) (S : Splines) (h : Nat)
    (uf us : Bool) (m : Nat) (st : St) (k : Nat) (hm : m ≤ G.inconf h) (hN : NeighIn G h)
    (hk : ¬ conf_slot B G h k) :
    (forLoop (pair_atom_fl fl B G S h uf us) m st).forces.get k = st.forces.get k := by
  induction m with
  | zero => rfl
  | succ m ih =>
    rw [forLoop_succ, pair_atom_fl_frame fl B G S h uf us m _ k (by omega) hN hk, ih (by omega)]

theorem pair_stress_term_fl_frame (fl : ℚ → ℚ) (G : Globals) (h i : Nat) (st : St) (k : Nat)
    (hk : k ≠ G.stress_p + 6 * h + i) :
    (pair_stress_term_fl fl G h i st).forces.get k = st.forces.get k := by
  unfold pair_stress_term_fl
  simp only [subf_fl_get, divf_fl_get]
  rw [if_neg hk, if_neg hk]

theorem pair_stress_loop_fl_frame (fl : ℚ → ℚ) (G : Globals) (h m : Nat) (st : St) (k : Nat)
    (hk : ¬ (G.stress_p + 6 * h ≤ k ∧ k < G.stress_p + 6 * h + m)) :
    (forLoop (pair_stress_term_fl fl G h) m st).forces.get k = st.forces.get k := by
  induction m with
  | zero => rfl
  | succ m ih =>
    rw [forLoop_succ, pair_stress_term_fl_frame fl G h m _ k (by omega)]
    exact ih (by omega)

/-- In double arithmetic as well, the evaluation of configuration `h`
changes no offset outside `conf_slot`, provided the neighbors of `h` are
atoms of `h`. -/
theorem pair_conf_fl_frame (fl : ℚ → ℚ) (B : Build) (G : Globals) (S : Splines) (h : Nat)
    (st : St) (k : Nat) (hN : NeighIn G h) (hk : ¬ conf_slot B G h k) :
    (pair_conf_fl fl B G S h st).forces.get k = st.forces.get k := by
  have hk' := hk
  unfold conf_slot at hk'
  unfold pair_conf_fl
  simp only []
  have hs : ∀ t : St, (pair_conf_stress_fl fl B G h (G.conf_uf (h - G.firstconf))
      (G.conf_us (h - G.firstconf)) t).forces.get k = t.forces.get k := by
    intro t
    unfold pair_conf_stress_fl
    split_ifs with h1
    · apply pair_stress_loop_fl_frame
      have hS : B.STRESS = true := by
        cases hB : B.STRESS
        · rw [hB] at h1; simp at h1
        · rfl
      rw [hS] at hk'
      simp only [true_and] at hk'
      omega
    · rfl
  have he : ∀ t : St, (pair_conf_energy_fl fl G h t).forces.get k = t.forces.get k := by
    intro t
    unfold pair_conf_energy_fl
    simp only [subf_fl_get, divf_fl_get]
    rw [if_neg (by omega), if_neg (by omega)]
  rw [hs, he, pair_atoms_fl_frame fl B G S h _ _ _ _ k (le_refl _) hN hk, pair_conf_reset_get]
  rw [if_neg (by omega), if_neg (by tauto), if_neg (by omega)]

theorem pair_conf_fl_value (fl : ℚ → ℚ) (B : Build) (G : Globals) (S : Splines) (h : Nat)
    (st : St) (k : Nat) (hk : conf_slot B G h k) :
    (pair_conf_fl fl B G S h st).forces.get k
      = (pair_conf_fl fl B G S h ⟨⟨fun _ => 0⟩, 0⟩).forces.get k :=
  (pair_conf_fl_agree fl B G S h (X := fun _ => False) (s := st)
    (t := ⟨⟨fun _ => 0⟩, 0⟩) (fun _ hk => hk.elim)) k (Or.inr hk)

theorem pair_loop_fl_value (fl : ℚ → ℚ) (B : Build) (G : Globals) (S : Splines)
    (hL : Layout G) (p n : Nat) (hn : p + n ≤ G.nconf) (hN : ∀ h, h < G.nconf → NeighIn G h)
    (st : St) (j : Nat) (hj : j < n) (k : Nat) (hk : conf_slot B G (p + j) k) :
    (forLoop (fun j => pair_conf_fl fl B G S (p + j)) n st).forces.get k
      = (pair_conf_fl fl B G S (p + j) ⟨⟨fun _ => 0⟩, 0⟩).forces.get k := by
  induction n with
  | zero => omega
  | succ n ih =>
    rw [forLoop_succ]
    rcases Nat.eq_or_lt_of_le (Nat.le_of_lt_succ hj) with he | hlt
    · subst he
      exact pair_conf_fl_value fl B G S (p + j) _ k hk
    · rw [pair_conf_fl_frame fl B G S (p + n) _ k (hN _ (by omega))
        (conf_slot_disjoint B hL (by omega) (by omega) (by omega) hk)]
      exact ih (by omega) hlt

theorem pair_atom_fl_view (fl : ℚ → ℚ) (B : Build) (G : Globals) (S : Splines)
    (hL : Layout G) (ha : G.firstatom = 0) (p c h : Nat) (hp : p ≤ h) (hn : h ≤ G.nconf)
    (uf us : Bool) (i : Nat) (st : St) :
    pair_atom_fl fl B (partition G p c) S h uf us i st = pair_atom_fl fl B G S h uf us i st := by
  have hc := hL.cnf_mono hp hn
  have e : (partition G p c).conf_atoms (i + (partition G p c).cnfstart h
      - (partition G p c).firstatom) = G.conf_atoms (i + G.cnfstart h - G.firstatom) := by
    show G.conf_atoms (G.cnfstart p + (i + G.cnfstart h - G.cnfstart p)) = _
    rw [ha]
    congr 1
    omega
  unfold pair_atom_fl
  simp only []
  rw [e]
  rfl

theorem pair_conf_fl_view (fl : ℚ → ℚ) (B : Build) (G : Globals) (S : Splines)
    (hL : Layout G) (h0 : G.firstconf = 0) (ha : G.firstatom = 0) (p c h : Nat) (hp : p ≤ h)
    (hn : h ≤ G.nconf) (st : St) :
    pair_conf_fl fl B (partition G p c) S h st = pair_conf_fl fl B G S h st := by
  have eu : (partition G p c).conf_uf (h - (partition G p c).firstconf)
      = G.conf_uf (h - G.firstconf) := by
    show G.conf_uf (p + (h - p)) = _
    rw [h0]
    congr 1
    omega
  have es : (partition G p c).conf_us (h - (partition G p c).firstconf)
      = G.conf_us (h - G.firstconf) := by
    show G.conf_us (p + (h - p)) = _
    rw [h0]
    congr 1
    omega
  have ev : (partition G p c).conf_vol (h - (partition G p c).firstconf)
      = G.conf_vol (h - G.firstconf) := by
    show G.conf_vol (p + (h - p)) = _
    rw [h0]
    congr 1
    omega
  have e1 : ∀ i t, pair_stress_term_fl fl (partition G p c) h i t
      = pair_stress_term_fl fl G h i t := by
    intro i t
    unfold pair_stress_term_fl
    simp only []
    rw [ev]
    rfl
  have e2 : ∀ uf us t, pair_conf_stress_fl fl B (partition G p c) h uf us t
      = pair_conf_stress_fl fl B G h uf us t := by
    intro uf us t
    unfold pair_conf_stress_fl
    rw [forLoop_congr _ _ 6 t (fun i _ t => e1 i t)]
  have e3 : ∀ uf us t, forLoop (pair_atom_fl fl B (partition G p c) S h uf us)
      ((partition G p c).inconf h) t
        = forLoop (pair_atom_fl fl B G S h uf us) (G.inconf h) t := by
    intro uf us t
    exact forLoop_congr _ _ _ t
      (fun i _ t => pair_atom_fl_view fl B G S hL ha p c h hp hn uf us i t)
  unfold pair_conf_fl
  simp only []
  rw [eu, es, e2, e3]
  rfl

theorem pair_loop_fl_view (fl : ℚ → ℚ) (B : Build) (G : Globals) (S : Splines)
    (hL : Layout G) (h0 : G.firstconf = 0) (ha : G.firstatom = 0) (p c : Nat)
    (hn : p + c ≤ G.nconf) (st : St) :
    pair_conf_loop_fl fl B (partition G p c) S st
      = forLoop (fun j => pair_conf_fl fl B G S (p + j)) c st := by
  show forLoop (fun j => pair_conf_fl fl B (partition G p c) S (p + j)) c st = _
  exact forLoop_congr _ _ _ st
    (fun j hj t => pair_conf_fl_view fl B G S hL h0 ha p c (p + j) (by omega) (by omega) t)

theorem exG_w_layout : Layout exG_w :=
  ⟨by decide, by decide, by decide, by decide⟩

theorem exG_w_neighIn : ∀ h, h < exG_w.nconf → NeighIn exG_w h := by
  intro h _ i _ n hn
  cases hn

/-! ## C1: the returned sum is the weighted sum of squares of the residual vector -/

/-- C1: in the single-process PAIR build without `FWEIGHT` and `CONTRIB`, for
a data set with half neighbor lists (every neighbor index lies in the
configuration of the owning atom and is not smaller than the owner's index)
and non-overlapping force, energy and stress regions, the value returned by
`calc_forces_pair` is not NaN and equals the sum over the configurations `h`
of `conf_weight[h]` times (the squared force slots of the atoms of `h`, plus
`eweight` times the squared energy slot, plus `sweight` times the six squared
stress slots, which exist in a `STRESS` build), all slots read from the
residual vector on return. -/
theorem C1_pair_sum_of_squares (B : Build) (G : Globals) (S : Splines) (fuel : Nat)
    (f : Buf) (hF : B.FWEIGHT = false) (hC : B.CONTRIB = false) (hL : Layout G)
    (hH : ∀ h, h < G.nconf → HalfList G h) (h0 : G.myid = 0) (hc : G.firstconf = 0) :
    ∃ r, calc_forces_pair B G S (fuel + 1) f = some r ∧ r.ret.isnan = false ∧
      r.ret = Dbl.fin (∑ h in Finset.range G.nconf, pair_sq_sum B G r.forces h) := by
  have hN : ∀ h, h < G.nconf → NeighIn G h := fun h hh => (hH h hh).neighIn
  have key : (pair_pass B G S f).tmpsum
      = ∑ h in Finset.range G.nconf, pair_sq_sum B G (pair_pass B G S f).forces h := by
    rw [pair_pass_tmpsum B G S f hc]
    apply Finset.sum_congr rfl
    intro h hh
    have hh' := Finset.mem_range.1 hh
    rw [pair_conf_term_sq B G S h hF hC hL hh' (hH h hh')]
    apply pair_sq_sum_congr
    intro k hk
    rw [pair_pass_value B G S f hL hN hc h k hh' hk]
    rfl
  refine ⟨_, calc_forces_pair_root B G S fuel f h0, rfl, ?_⟩
  dsimp only
  rw [pair_return_fin, ← key]

/-- Witness for C1 on the sample data set. -/
theorem C1_pair_sum_of_squares_witness :
    (exB.FWEIGHT = false ∧ exB.CONTRIB = false ∧ Layout exG ∧
      (∀ h, h < exG.nconf → HalfList exG h) ∧ exG.myid = 0 ∧ exG.firstconf = 0) ∧
    ∃ r, calc_forces_pair exB exG exS 1 ⟨fun _ => 7⟩ = some r ∧ r.ret.isnan = false ∧
      r.ret = Dbl.fin (∑ h in Finset.range exG.nconf, pair_sq_sum exB exG r.forces h) :=
  ⟨⟨rfl, rfl, exG_layout, exG_halfList, rfl, rfl⟩,
    C1_pair_sum_of_squares exB exG exS 0 ⟨fun _ => 7⟩ rfl rfl exG_layout exG_halfList rfl rfl⟩

/-! ## C2: the energy residual of `calc_forces_pair` -/

/-- C2: in the single-process build, for every configuration `h` the energy
slot `forces[energy_p + h]` on return is the sum, over the atoms of `h` and
their neighbors with `r < end[col[0]]`, of `c * phi` (`phi` the pair spline
value at the cached slot, `c = 1/2` for a self neighbor and 1 otherwise),
divided by the number of atoms and reduced by the reference energy; the
returned sum is the sum obtained with energy weight 0 plus
`conf_weight[h] * eweight * residual^2` for every configuration. -/
theorem C2_pair_energy (B : Build) (G : Globals) (S : Splines) (fuel : Nat) (f : Buf)
    (hL : Layout G) (hN : ∀ h, h < G.nconf → NeighIn G h) (h0 : G.myid = 0)
    (hc : G.firstconf = 0) (ha : G.firstatom = 0) :
    ∃ r, calc_forces_pair B G S (fuel + 1) f = some r ∧
      (∀ h, h < G.nconf →
        r.forces.get (G.energy_p + h)
          = (∑ i in Finset.range (G.inconf h),
              ((G.conf_atoms (G.cnfstart h + i)).neigh.map
                (fun n => if n.r < G.pot_end (n.col 0) then
                    (if n.nr = G.cnfstart h + i then 1 / 2 else 1)
                      * (pair_phi S (G.conf_uf h) n).1
                  else 0)).sum) / (G.inconf h : ℚ) - G.force_0 (G.energy_p + h)) ∧
      r.ret = Dbl.fin (∑ h in Finset.range G.nconf,
        (pair_conf_term B { G with eweight := 0 } S h
          + G.conf_weight h * G.eweight * dsquare (r.forces.get (G.energy_p + h)))) := by
  refine ⟨_, calc_forces_pair_root B G S fuel f h0, ?_, ?_⟩
  · intro h hh
    dsimp only
    rw [pair_pass_value B G S f hL hN hc h _ hh (Or.inl rfl),
      pair_conf_val_energy B G S h hL hh (hN h hh), hc, ha]
    simp only [Nat.sub_zero, Nat.add_comm]
  · dsimp only
    rw [pair_return_fin, pair_pass_tmpsum B G S f hc]
    congr 1
    apply Finset.sum_congr rfl
    intro h hh
    have hh' := Finset.mem_range.1 hh
    rw [pair_pass_value B G S f hL hN hc h _ hh' (Or.inl rfl),
      pair_conf_term_energy B G S h hL hh']

/-- Witness for C2 on the sample data set. -/
theorem C2_pair_energy_witness :
    (Layout exG ∧ (∀ h, h < exG.nconf → NeighIn exG h) ∧ exG.myid = 0 ∧
      exG.firstconf = 0 ∧ exG.firstatom = 0) ∧
    ∃ r, calc_forces_pair exB exG exS 1 ⟨fun _ => 7⟩ = some r ∧
      (∀ h, h < exG.nconf →
        r.forces.get (exG.energy_p + h)
          = (∑ i in Finset.range (exG.inconf h),
              ((exG.conf_atoms (exG.cnfstart h + i)).neigh.map
                (fun n => if n.r < exG.pot_end (n.col 0) then
                    (if n.nr = exG.cnfstart h + i then 1 / 2 else 1)
                      * (pair_phi exS (exG.conf_uf h) n).1
                  else 0)).sum) / (exG.inconf h : ℚ) - exG.force_0 (exG.energy_p + h)) ∧
      r.ret = Dbl.fin (∑ h in Finset.range exG.nconf,
        (pair_conf_term exB { exG with eweight := 0 } exS h
          + exG.conf_weight h * exG.eweight * dsquare (r.forces.get (exG.energy_p + h)))) :=
  ⟨⟨exG_layout, exG_neighIn, rfl, rfl, rfl⟩,
    C2_pair_energy exB exG exS 0 ⟨fun _ => 7⟩ exG_layout exG_neighIn rfl rfl rfl⟩

/-! ## C3: the force residuals of `calc_forces_pair` -/

theorem pair_pass_force (B : Build) (G : Globals) (S : Splines) (f : Buf)
    (hF : B.FWEIGHT = false) (hL : Layout G) (hN : ∀ h, h < G.nconf → NeighIn G h)
    (hc : G.firstconf = 0) (ha : G.firstatom = 0) (h i k : Nat) (hh : h < G.nconf)
    (hi : i < G.inconf h) (hk : k < 3) (hu : G.conf_uf h = true) :
    (pair_pass B G S f).forces.get (3 * (G.cnfstart h + i) + k)
      = pair_force_value G S h i k := by
  rw [pair_pass_value B G S f hL hN hc h _ hh (Or.inr (Or.inl (by omega))),
    pair_conf_val_force B G S h i k hF hL hh hi hk (by rw [hc, Nat.sub_zero]; exact hu) ha]

theorem exG_force_value : pair_force_value exG exS 0 0 0 = 1 := by
  simp [pair_force_value, pair_tmp_force, pair_phi, vector.comp, exG, exS, exNeigh,
    Finset.sum_range_succ]
  norm_num

theorem exG_force_claimed : pair_force_claimed exG exS 0 0 0 = 2 := by
  simp [pair_force_claimed, pair_tmp_force, pair_phi, vector.comp, exG, exS, exNeigh,
    Finset.sum_range_succ]

/-- C3, as stated, fails on the sample data set: atom 0 has itself as an
in-range neighbor, and its first force slot is left at 1, not at the value 2
of the formula of the claim, which subtracts only the entries of other atoms
that name the atom. -/
theorem C3_pair_force_counterexample :
    exB.FWEIGHT = false ∧ exG.conf_uf 0 = true ∧
    ∃ r, calc_forces_pair exB exG exS 1 ⟨fun _ => 0⟩ = some r ∧
      r.forces.get (3 * (exG.cnfstart 0 + 0) + 0) = 1 ∧
      pair_force_claimed exG exS 0 0 0 = 2 ∧
      r.forces.get (3 * (exG.cnfstart 0 + 0) + 0) ≠ pair_force_claimed exG exS 0 0 0 := by
  refine ⟨rfl, rfl, _, calc_forces_pair_root exB exG exS 0 _ rfl, ?_, exG_force_claimed, ?_⟩
  · dsimp only
    rw [pair_pass_force exB exG exS _ rfl exG_layout exG_neighIn rfl rfl 0 0 0 (by decide)
      (by decide) (by decide) rfl, exG_force_value]
  · dsimp only
    rw [pair_pass_force exB exG exS _ rfl exG_layout exG_neighIn rfl rfl 0 0 0 (by decide)
      (by decide) (by decide) rfl, exG_force_value, exG_force_claimed]
    norm_num

/-- C3, amended: in the single-process build without `FWEIGHT`, for a
configuration whose use-forces flag is set the first loop seeds each force
slot with the negated reference force, and on return slot `k` of atom `i`
holds the contributions `dist_r_k * phi_grad` of the atom's own in-range
neighbors, minus the contributions of the in-range entries, in the neighbor
lists of all atoms of the configuration (the atom's own list included), that
name the atom, minus the reference force; for a configuration whose flag is
clear all force slots are 0 on return and the configuration adds only its
energy term to the returned sum. -/
theorem C3_pair_force_slots (B : Build) (G : Globals) (S : Splines) (fuel : Nat) (f : Buf)
    (hF : B.FWEIGHT = false) (hL : Layout G) (hN : ∀ h, h < G.nconf → NeighIn G h)
    (h0 : G.myid = 0) (hc : G.firstconf = 0) (ha : G.firstatom = 0) :
    ∃ r, calc_forces_pair B G S (fuel + 1) f = some r ∧
      (∀ h i k (g : Buf), i < G.inconf h → k < 3 →
        (pair_conf_reset B G h true g).get (3 * (G.cnfstart h + i) + k)
          = -G.force_0 (3 * (G.cnfstart h + i) + k)) ∧
      (∀ h i k, h < G.nconf → i < G.inconf h → k < 3 → G.conf_uf h = true →
        r.forces.get (3 * (G.cnfstart h + i) + k) = pair_force_value G S h i k) ∧
      (∀ h i k, h < G.nconf → i < G.inconf h → k < 3 → G.conf_uf h = false →
        r.forces.get (3 * (G.cnfstart h + i) + k) = 0) ∧
      r.ret = Dbl.fin (∑ h in Finset.range G.nconf, pair_conf_term B G S h) ∧
      (∀ h, h < G.nconf → G.conf_uf h = false →
        pair_conf_term B G S h
          = G.conf_weight h * G.eweight * dsquare (r.forces.get (G.energy_p + h))) := by
  refine ⟨_, calc_forces_pair_root B G S fuel f h0, ?_, ?_, ?_, ?_, ?_⟩
  · intro h i k g hi hk
    rw [pair_conf_reset_get, if_pos (by omega), if_pos rfl]
  · intro h i k hh hi hk hu
    exact pair_pass_force B G S f hF hL hN hc ha h i k hh hi hk hu
  · intro h i k hh hi hk hu
    dsimp only
    rw [pair_pass_value B G S f hL hN hc h _ hh (Or.inr (Or.inl (by omega))),
      pair_conf_val_nouf B G S h i k hL hh hi hk (by rw [hc, Nat.sub_zero]; exact hu)]
  · dsimp only
    rw [pair_return_fin, pair_pass_tmpsum B G S f hc]
  · intro h hh hu
    dsimp only
    rw [pair_pass_value B G S f hL hN hc h _ hh (Or.inl rfl),
      pair_conf_term_energy B G S h hL hh,
      pair_conf_term_nouf B { G with eweight := 0 } S h
        (by show G.conf_uf (h - G.firstconf) = false; rw [hc, Nat.sub_zero]; exact hu) rfl,
      zero_add]

/-- Witness for the amended C3 on the sample data set. -/
theorem C3_pair_force_slots_witness :
    (exB.FWEIGHT = false ∧ Layout exG ∧ (∀ h, h < exG.nconf → NeighIn exG h) ∧
      exG.myid = 0 ∧ exG.firstconf = 0 ∧ exG.firstatom = 0) ∧
    ∃ r, calc_forces_pair exB exG exS 1 ⟨fun _ => 0⟩ = some r ∧
      r.forces.get (3 * (exG.cnfstart 0 + 0) + 0) = pair_force_value exG exS 0 0 0 :=
  ⟨⟨rfl, exG_layout, exG_neighIn, rfl, rfl, rfl⟩,
    (C3_pair_force_slots exB exG exS 0 ⟨fun _ => 0⟩ rfl exG_layout exG_neighIn rfl rfl
      rfl).imp (fun _ hr => ⟨hr.1, hr.2.2.1 0 0 0 (by decide) (by decide) (by decide) rfl⟩)⟩

/-! ## C4: action and reaction -/

/-- C4: action = reaction.  In the neighbor loop of `calc_forces_pair`, in
the pair part of the second loop of `calc_forces_adp` and, for an in-range
neighbor, in the embedding, dipole and quadrupole passes of its third loop,
the buffer after the step is, at every offset `k` of the force region, the
buffer before plus `slot_part own t k` minus `slot_part n.nr t k` for one and
the same vector `t`, the `tmp_force` of the pass: what is subtracted from the
three slots of the neighbor atom is what is added to the three slots of the
owning atom.  Consequently, in a build without `FWEIGHT`, for a configuration
`h` with forces enabled whose neighbors are all atoms of `h`, the sum over its
atoms of force slot plus reference force is zero in each of the three
components after the evaluation of `h` in either function, from any state;
and when this holds for the neighbors of every configuration, so that no
other configuration writes into the slots of `h`, the sums are zero in the
buffer that `calc_forces_pair` and `calc_forces_adp` return. -/
theorem C4_action_reaction (B : Build) (G : Globals) (S : Splines) (h : Nat)
    (hF : B.FWEIGHT = false) (hL : Layout G) (hlim : 3 * G.natoms ≤ G.limit_p)
    (hh : h < G.nconf) (hu : G.conf_uf (h - G.firstconf) = true) (hN : NeighIn G h) :
    (∀ (us : Bool) (i j : Nat) (n : neigh_t) (st : AdpSt) (k : Nat), k < 3 * G.natoms →
      (pair_neigh B G S h true us i st.forces n).get k
          = st.forces.get k
            + slot_part (G.cnfstart h + i) (pair_tmp_vector G S (i + G.cnfstart h) n) k
            - slot_part n.nr (pair_tmp_vector G S (i + G.cnfstart h) n) k
        ∧ (adp_neigh B G S h true us i st (j, n)).forces.get k
          = st.forces.get k
            + slot_part (G.cnfstart h + i) (pair_tmp_vector G S (i + G.cnfstart h) n) k
            - slot_part n.nr (pair_tmp_vector G S (i + G.cnfstart h) n) k
        ∧ ((n.r < G.pot_end (n.col 1) ∨ n.r < G.pot_end (G.paircol + G.ntypes
              + (G.conf_atoms (i + G.cnfstart h - G.firstatom)).type - G.ntypes)) →
          (adp_force_eam B G S h us i n st).forces.get k
            = st.forces.get k
              + slot_part (G.cnfstart h + i) (adp_eam_tmp_force G S h i n st.acc) k
              - slot_part n.nr (adp_eam_tmp_force G S h i n st.acc) k)
        ∧ (n.r < G.pot_end (n.col 2) →
          (adp_force_dipole B G h us i j n st).forces.get k
            = st.forces.get k
              + slot_part (G.cnfstart h + i) (adp_dipole_tmp_force G h i j n st.acc st.cache) k
              - slot_part n.nr (adp_dipole_tmp_force G h i j n st.acc st.cache) k)
        ∧ (n.r < G.pot_end (n.col 3) →
          (adp_force_quadrupole B G h us i j n st).forces.get k
            = st.forces.get k
              + slot_part (G.cnfstart h + i)
                  (adp_quadrupole_tmp_force G h i j n st.acc st.cache) k
              - slot_part n.nr (adp_quadrupole_tmp_force G h i j n st.acc st.cache) k))
    ∧ (∀ (st : St) (c : Nat), c < 3 → force_sum G (pair_conf B G S h st).forces h c = 0)
    ∧ (∀ (st : AdpSt) (c : Nat), c < 3 → force_sum G (adp_conf B G S h st).forces h c = 0)
    ∧ ((∀ h', h' < G.nconf → NeighIn G h') → G.myid = 0 → G.firstconf = 0 →
        3 * G.natoms ≤ G.dummy_p →
        ∀ (fuel : Nat) (f : Buf) (acc : AccTab) (cache : CacheTab),
          (∃ r, calc_forces_pair B G S (fuel + 1) f = some r
            ∧ ∀ c, c < 3 → force_sum G r.forces h c = 0)
          ∧ (∃ r, calc_forces_adp B G S (fuel + 1) f acc cache = some r
            ∧ ∀ c, c < 3 → force_sum G r.forces h c = 0)) := by
  have e1 := hL.energy_ge
  have e2 := hL.stress_ge
  refine ⟨?_, ?_, ?_, ?_⟩
  · intro us i j n st k hk
    have hp := pair_neigh_force_get B G S h us i st.forces n k (by omega) (by omega)
    refine ⟨hp, ?_, ?_, ?_, ?_⟩
    · rw [adp_neigh_forces]
      exact hp
    · intro hr
      unfold adp_force_eam
      simp only []
      rw [if_pos hr]
      exact adp_apply_force_get B G h us i n _ _ k (by omega)
    · intro hr
      unfold adp_force_dipole
      rw [if_pos hr]
      exact adp_apply_force_get B G h us i n _ _ k (by omega)
    · intro hr
      unfold adp_force_quadrupole
      rw [if_pos hr]
      exact adp_apply_force_get B G h us i n _ _ k (by omega)
  · intro st c hc
    exact pair_conf_force_sum B S hL hF h c hh hc hu hN st
  · intro st c hc
    exact adp_conf_force_sum B S hL hlim hF h c hh hc hu hN st
  · intro hNall h0 hc0 hdum fuel f acc cache
    have hu' : G.conf_uf h = true := by
      rw [hc0, Nat.sub_zero] at hu
      exact hu
    refine ⟨⟨_, calc_forces_pair_root B G S fuel f h0, ?_⟩,
      ⟨_, calc_forces_adp_root B G S fuel f acc cache h0, ?_⟩⟩
    · intro c hc
      exact pair_pass_force_sum B S hL hF hNall hc0 h c hh hc hu' f
    · intro c hc
      exact adp_pass_force_sum B S hL hlim hdum hF hNall hc0 h c hh hc hu' f acc cache

theorem C4_action_reaction_witness :
    (exB.FWEIGHT = false ∧ Layout exG ∧ 3 * exG.natoms ≤ exG.limit_p ∧ 0 < exG.nconf ∧
      exG.conf_uf (0 - exG.firstconf) = true ∧ NeighIn exG 0) ∧
    (∀ k, k < 3 * exG.natoms →
      (adp_force_dipole exB exG 0 true 0 0 (exNeigh 1 1) ⟨⟨fun _ => 0⟩, 0, 0, acc_zero,
          cache_zero⟩).forces.get k
        = 0 + slot_part (exG.cnfstart 0 + 0)
              (adp_dipole_tmp_force exG 0 0 0 (exNeigh 1 1) acc_zero cache_zero) k
            - slot_part 1 (adp_dipole_tmp_force exG 0 0 0 (exNeigh 1 1) acc_zero cache_zero) k) ∧
    (∃ r, calc_forces_pair exB exG exS 1 ⟨fun _ => 7⟩ = some r
      ∧ ∀ c, c < 3 → force_sum exG r.forces 0 c = 0) ∧
    (∃ r, calc_forces_adp exB exG exS 1 ⟨fun _ => 7⟩ acc_zero cache_zero = some r
      ∧ ∀ c, c < 3 → force_sum exG r.forces 0 c = 0) :=
  have w := C4_action_reaction exB exG exS 0 rfl exG_layout (by decide) (by decide) rfl
    (exG_neighIn 0 (by decide))
  ⟨⟨rfl, exG_layout, by decide, by decide, rfl, exG_neighIn 0 (by decide)⟩,
    fun k hk => (w.1 true 0 0 (exNeigh 1 1) ⟨⟨fun _ => 0⟩, 0, 0, acc_zero, cache_zero⟩ k
      hk).2.2.2.1 (by simp [exNeigh, exG]),
    (w.2.2.2 exG_neighIn rfl rfl (by decide) 0 ⟨fun _ => 7⟩ acc_zero cache_zero).1,
    (w.2.2.2 exG_neighIn rfl rfl (by decide) 0 ⟨fun _ => 7⟩ acc_zero cache_zero).2⟩

/-! ## C5: self-interaction halving in `calc_forces_pair` -/

/-- C5: for an in-range neighbor flagged as self-interaction (`nr` is the
owning atom) the pair value and gradient are halved before any accumulation:
the energy slot grows by half the spline value, whereas the same entry naming
another atom `m` makes it grow by the spline value, and each of the six stress
slots grows by exactly half of what that non-self entry adds. -/
theorem C5_pair_self_half (B : Build) (G : Globals) (S : Splines) (h i m : Nat)
    (uf us : Bool) (f : Buf) (n : neigh_t) (hL : Layout G) (hh : h < G.nconf)
    (hi : i < G.inconf h) (hm : m < G.natoms) (hr : n.r < G.pot_end (n.col 0))
    (hself : n.nr = i + G.cnfstart h) (hne : m ≠ i + G.cnfstart h) :
    (pair_neigh B G S h uf us i f n).get (G.energy_p + h) - f.get (G.energy_p + h)
      = (1 / 2) * (pair_phi S uf n).1 ∧
    (pair_neigh B G S h uf us i f { n with nr := m }).get (G.energy_p + h)
        - f.get (G.energy_p + h) = (pair_phi S uf n).1 ∧
    ∀ j, j < 6 →
      (pair_neigh B G S h uf us i f n).get (G.stress_p + 6 * h + j)
          - f.get (G.stress_p + 6 * h + j)
        = (1 / 2) * ((pair_neigh B G S h uf us i f { n with nr := m }).get
            (G.stress_p + 6 * h + j) - f.get (G.stress_p + 6 * h + j)) := by
  have hf := hL.force_lt hh
  have hs := hL.stress_ge
  have hE := hL.energy_ge
  have hp : pair_phi S uf { n with nr := m } = pair_phi S uf n := rfl
  have hm' : ¬ (m = i + G.cnfstart h) := hne
  have half : ∀ (j : Nat) (g : ℚ), j < 6 →
      (stress_update ⟨fun _ => 0⟩ (G.stress_p + 6 * h) n.dist
        ⟨n.dist_r.x * (g * (1 / 2)), n.dist_r.y * (g * (1 / 2)),
          n.dist_r.z * (g * (1 / 2))⟩).get (G.stress_p + 6 * h + j)
      = (1 / 2) * (stress_update ⟨fun _ => 0⟩ (G.stress_p + 6 * h) n.dist
        ⟨n.dist_r.x * g, n.dist_r.y * g, n.dist_r.z * g⟩).get (G.stress_p + 6 * h + j) := by
    intro j g hj
    simp only [stress_update, subf_get]
    interval_cases j <;> simp (disch := omega) only [if_pos, if_neg, if_true, Nat.add_zero] <;>
      ring
  simp only [pair_neigh_get, add_sub_cancel_left, pair_delta_eq, pair_halved, hp]
  simp only [hr, if_true, if_pos hself, if_neg hm']
  refine ⟨?_, ?_, ?_⟩
  · rw [slot3_ne _ _ (by omega), slot3_ne _ _ (by omega),
      stress_update_frame _ _ _ _ _ (by omega)]
    simp only [sub_zero, ite_self, add_zero]
    ring
  · rw [slot3_ne _ _ (by omega), slot3_ne _ _ (by omega),
      stress_update_frame _ _ _ _ _ (by omega)]
    simp only [sub_zero, ite_self, add_zero]
  · intro j hj
    have x0 : ¬ (G.stress_p + 6 * h + j = G.energy_p + h) := by omega
    simp only [if_neg x0, zero_add]
    rw [slot3_ne _ _ (by omega), slot3_ne _ _ (by omega), slot3_ne _ _ (by omega),
      slot3_ne _ _ (by omega), half j _ hj]
    split_ifs <;> ring

/-- Witness for C5 on the sample data set: the self entry of atom 0 against
the same entry naming atom 1. -/
theorem C5_pair_self_half_witness :
    (Layout exG ∧ 0 < exG.nconf ∧ 0 < exG.inconf 0 ∧ 1 < exG.natoms ∧
      (exNeigh 0 1).r < exG.pot_end ((exNeigh 0 1).col 0) ∧
      (exNeigh 0 1).nr = 0 + exG.cnfstart 0 ∧ 1 ≠ 0 + exG.cnfstart 0) ∧
    ((pair_neigh exB exG exS 0 true true 0 ⟨fun _ => 0⟩ (exNeigh 0 1)).get (exG.energy_p + 0)
        - (0 : ℚ) = (1 / 2) * (pair_phi exS true (exNeigh 0 1)).1) :=
  ⟨⟨exG_layout, by decide, by decide, by decide, by norm_num [exNeigh, exG], rfl, by decide⟩,
    (C5_pair_self_half exB exG exS 0 0 1 true true ⟨fun _ => 0⟩ (exNeigh 0 1) exG_layout
      (by decide) (by decide) (by decide) (by norm_num [exNeigh, exG]) rfl (by decide)).1⟩

/-! ## C6: boundary exclusivity in `calc_forces_pair` -/

theorem foldl_eraseIdx_id {α β : Type} (step : β → α → β) (n : α)
    (hs : ∀ b, step b n = b) (l : List α) (j : Nat) (hj : l[j]? = some n) (b : β) :
    (l.eraseIdx j).foldl step b = l.foldl step b := by
  induction l generalizing j b with
  | nil => simp at hj
  | cons x l ih =>
    cases j with
    | zero =>
      simp only [List.getElem?_cons_zero, Option.some.injEq] at hj
      subst hj
      simp only [List.eraseIdx_cons_zero, List.foldl_cons, hs]
    | succ j =>
      simp only [List.getElem?_cons_succ] at hj
      simp only [List.eraseIdx_cons_succ, List.foldl_cons]
      exact ih j hj _

theorem pair_neigh_out (B : Build) (G : Globals) (S : Splines) (h : Nat) (uf us : Bool)
    (i : Nat) (f : Buf) (n : neigh_t) (hr : G.pot_end (n.col 0) ≤ n.r) :
    pair_neigh B G S h uf us i f n = f := by
  unfold pair_neigh
  simp only [if_neg (not_lt.2 hr)]

theorem pair_atom_erase (B : Build) (G : Globals) (S : Splines) (a j : Nat) (n : neigh_t)
    (hn : (G.conf_atoms a).neigh[j]? = some n) (hr : G.pot_end (n.col 0) ≤ n.r)
    (h : Nat) (uf us : Bool) (i : Nat) (st : St) :
    pair_atom B (erase_neigh G a j) S h uf us i st = pair_atom B G S h uf us i st := by
  have hstep : ∀ g : Buf, pair_neigh B G S h uf us i g n = g :=
    fun g => pair_neigh_out B G S h uf us i g n hr
  by_cases hb : i + G.cnfstart h - G.firstatom = a
  · have e : (erase_neigh G a j).conf_atoms (i + (erase_neigh G a j).cnfstart h
        - (erase_neigh G a j).firstatom)
        = { G.conf_atoms a with neigh := (G.conf_atoms a).neigh.eraseIdx j } := by
      show (if i + G.cnfstart h - G.firstatom = a then _ else _) = _
      rw [if_pos hb]
      subst hb
      rfl
    unfold pair_atom
    simp only []
    rw [e, hb]
    show (if uf = true then _ else _) = _
    have e2 : ((G.conf_atoms a).neigh.eraseIdx j).foldl
        (pair_neigh B (erase_neigh G a j) S h uf us i) st.forces
        = (G.conf_atoms a).neigh.foldl (pair_neigh B G S h uf us i) st.forces :=
      foldl_eraseIdx_id (pair_neigh B G S h uf us i) n hstep _ j hn _
    simp only [e2]
    rfl
  · have e : (erase_neigh G a j).conf_atoms (i + (erase_neigh G a j).cnfstart h
        - (erase_neigh G a j).firstatom) = G.conf_atoms (i + G.cnfstart h - G.firstatom) := by
      show (if i + G.cnfstart h - G.firstatom = a then _ else _) = _
      rw [if_neg hb]
      rfl
    unfold pair_atom
    simp only []
    rw [e]
    rfl

theorem pair_pass_erase (B : Build) (G : Globals) (S : Splines) (a j : Nat) (n : neigh_t)
    (hn : (G.conf_atoms a).neigh[j]? = some n) (hr : G.pot_end (n.col 0) ≤ n.r) (f : Buf) :
    pair_pass B (erase_neigh G a j) S f = pair_pass B G S f := by
  have hc : ∀ h st, pair_conf B { erase_neigh G a j with myconf := G.nconf } S h st
      = pair_conf B { G with myconf := G.nconf } S h st := by
    intro h st
    unfold pair_conf
    simp only []
    have e3 : ∀ uf us t, forLoop (pair_atom B { erase_neigh G a j with myconf := G.nconf } S h
        uf us) (G.inconf h) t
        = forLoop (pair_atom B { G with myconf := G.nconf } S h uf us) (G.inconf h) t := by
      intro uf us t
      exact forLoop_congr _ _ _ t
        (fun i _ t => pair_atom_erase B { G with myconf := G.nconf } S a j n hn hr h uf us i t)
    show pair_conf_stress B _ h _ _ (pair_conf_energy _ h
      (forLoop (pair_atom B { erase_neigh G a j with myconf := G.nconf } S h _ _) (G.inconf h) _))
      = _
    rw [e3]
    rfl
  show forLoop (fun k => pair_conf B { erase_neigh G a j with myconf := G.nconf } S
      (G.firstconf + k)) G.nconf ⟨f, 0⟩ = _
  rw [forLoop_congr _ _ G.nconf _ (fun k _ t => hc (G.firstconf + k) t)]
  rfl

/-- C6: boundary exclusivity.  A neighbor with `r >= end[col[0]]`, in
particular with `r` equal to `end[col[0]]`, contributes nothing: the body of
the neighbor loop leaves the buffer as it is, and `calc_forces_pair` returns
the same value and the same residual buffer as for the data set from which
that entry has been removed. -/
theorem C6_pair_boundary (B : Build) (G : Globals) (S : Splines) (a j : Nat) (n : neigh_t)
    (fuel : Nat) (f : Buf) (hn : (G.conf_atoms a).neigh[j]? = some n)
    (hr : G.pot_end (n.col 0) ≤ n.r) :
    (∀ h uf us i g, pair_neigh B G S h uf us i g n = g) ∧
    calc_forces_pair B (erase_neigh G a j) S fuel f = calc_forces_pair B G S fuel f := by
  refine ⟨fun h uf us i g => pair_neigh_out B G S h uf us i g n hr, ?_⟩
  induction fuel generalizing f with
  | zero => rfl
  | succ fuel ih =>
    unfold calc_forces_pair
    simp only []
    rw [pair_pass_erase B G S a j n hn hr f]
    by_cases h0 : G.myid = 0
    · have h0' : (erase_neigh G a j).myid = 0 := h0
      rw [if_pos h0, if_pos h0']
      rfl
    · have h0' : ¬ (erase_neigh G a j).myid = 0 := h0
      rw [if_neg h0, if_neg h0']
      exact ih _

/-- Witness for C6: atom 1 of the sample data set has a neighbor at the
distance `end[col[0]]` exactly. -/
theorem C6_pair_boundary_witness :
    ((exG.conf_atoms 1).neigh[0]? = some (exNeigh 1 2) ∧
      exG.pot_end ((exNeigh 1 2).col 0) ≤ (exNeigh 1 2).r) ∧
    ((∀ h uf us i g, pair_neigh exB exG exS h uf us i g (exNeigh 1 2) = g) ∧
      calc_forces_pair exB (erase_neigh exG 1 0) exS 1 ⟨fun _ => 0⟩
        = calc_forces_pair exB exG exS 1 ⟨fun _ => 0⟩) :=
  ⟨⟨rfl, by norm_num [exG, exNeigh]⟩,
    C6_pair_boundary exB exG exS 1 0 (exNeigh 1 2) 1 ⟨fun _ => 0⟩ rfl
      (by norm_num [exG, exNeigh])⟩

/-! ## C7 and C8: the exit test of the root process -/

/-- C7: NaN containment.  The exit test of `calc_forces_pair` and of
`calc_forces_adp` returns the finite sentinel `10e10` whenever the reduced sum
is NaN and the reduced sum itself otherwise, and the returned value is never
NaN; on the root process each of the two functions returns, and its value is
that of the exit test at the reduced sum of the pass. -/
theorem C7_nan_containment (sum : Dbl) :
    (sum.isnan = true →
      pair_return sum = Dbl.fin (10 * 10 ^ 10) ∧ adp_return sum = Dbl.fin (10 * 10 ^ 10)) ∧
    (sum.isnan = false → pair_return sum = sum ∧ adp_return sum = sum) ∧
    (pair_return sum).isnan = false ∧ (adp_return sum).isnan = false ∧
    (∀ (B : Build) (G : Globals) (S : Splines) (fuel : Nat) (f : Buf) (acc : AccTab)
      (cache : CacheTab), G.myid = 0 →
        (∃ r, calc_forces_pair B G S (fuel + 1) f = some r
          ∧ r.ret = pair_return (Dbl.fin (pair_pass B G S f).tmpsum) ∧ r.ret.isnan = false)
        ∧ (∃ r, calc_forces_adp B G S (fuel + 1) f acc cache = some r
          ∧ r.ret = adp_return (Dbl.fin (adp_pass B G S f acc cache).tmpsum)
          ∧ r.ret.isnan = false)) := by
  have e : (10 * 10 ^ 10 : ℚ) = 100000000000 := by norm_num
  rw [e]
  refine ⟨?_, ?_, ?_, ?_, ?_⟩
  · cases sum <;> simp [pair_return, adp_return, Dbl.isnan]
  · cases sum <;> simp [pair_return, adp_return, Dbl.isnan]
  · cases sum <;> simp [pair_return, Dbl.isnan]
  · cases sum <;> simp [adp_return, Dbl.isnan]
  · intro B G S fuel f acc cache h0
    exact ⟨⟨_, calc_forces_pair_root B G S fuel f h0, rfl, rfl⟩,
      ⟨_, calc_forces_adp_root B G S fuel f acc cache h0, rfl, rfl⟩⟩

/-- Witness for C7: a NaN sum comes back as the sentinel, a finite one as
itself, and the two functions return on the sample data set. -/
theorem C7_nan_containment_witness :
    Dbl.nan.isnan = true ∧ (Dbl.fin 2).isnan = false ∧
    (pair_return Dbl.nan = Dbl.fin (10 * 10 ^ 10) ∧
      adp_return Dbl.nan = Dbl.fin (10 * 10 ^ 10)) ∧
    (pair_return (Dbl.fin 2) = Dbl.fin 2 ∧ adp_return (Dbl.fin 2) = Dbl.fin 2) ∧
    (∃ r, calc_forces_adp exB exG exS 1 ⟨fun _ => 0⟩ acc_zero cache_zero = some r
      ∧ r.ret.isnan = false) :=
  ⟨rfl, rfl, (C7_nan_containment Dbl.nan).1 rfl, (C7_nan_containment (Dbl.fin 2)).2.1 rfl,
    ((C7_nan_containment Dbl.nan).2.2.2.2 exB exG exS 0 ⟨fun _ => 0⟩ acc_zero cache_zero
      rfl).2.imp (fun _ hr => ⟨hr.1, hr.2.2⟩)⟩

/-- C8, as stated, fails: an infinite reduced sum is returned as it is, so the
returned value is not finite. -/
theorem C8_inf_counterexample :
    Dbl.posInf.isinf = true ∧
    pair_return Dbl.posInf = Dbl.posInf ∧ (pair_return Dbl.posInf).isfinite = false ∧
    adp_return Dbl.negInf = Dbl.negInf ∧ (adp_return Dbl.negInf).isfinite = false :=
  ⟨rfl, rfl, rfl, rfl, rfl⟩

/-- C8, amended: the exit test replaces NaN only.  An infinite reduced sum is
returned unchanged by `calc_forces_pair` and `calc_forces_adp`; the returned
value is finite exactly when the reduced sum is finite or NaN. -/
theorem C8_inf_returned (sum : Dbl) :
    (sum.isinf = true → pair_return sum = sum ∧ adp_return sum = sum) ∧
    (pair_return sum).isfinite = (sum.isfinite || sum.isnan) ∧
    (adp_return sum).isfinite = (sum.isfinite || sum.isnan) := by
  cases sum <;> simp [pair_return, adp_return, Dbl.isnan, Dbl.isinf, Dbl.isfinite]

/-- Witness for the amended C8 at both infinities. -/
theorem C8_inf_returned_witness :
    Dbl.posInf.isinf = true ∧ Dbl.negInf.isinf = true ∧
    (pair_return Dbl.posInf = Dbl.posInf ∧ adp_return Dbl.posInf = Dbl.posInf) ∧
    (pair_return Dbl.negInf = Dbl.negInf ∧ adp_return Dbl.negInf = Dbl.negInf) :=
  ⟨rfl, rfl, (C8_inf_returned Dbl.posInf).1 rfl, (C8_inf_returned Dbl.negInf).1 rfl⟩

/-! ## C9: idempotence of `calc_forces_pair` -/

/-- C9: on the root process two calls of `calc_forces_pair` that differ only
in the prior contents of the residual buffer return the same value and leave
the same values in the force, energy and stress slots of every evaluated
configuration; in particular a second call on the buffer and the call counter
left by the first one reproduces its output. -/
theorem C9_pair_idempotence (B : Build) (G : Globals) (S : Splines) (fuel : Nat)
    (f f' : Buf) (h0 : G.myid = 0) :
    ∃ r r' r2, calc_forces_pair B G S (fuel + 1) f = some r ∧
      calc_forces_pair B G S (fuel + 1) f' = some r' ∧
      calc_forces_pair B { G with myconf := G.nconf, fcalls := r.fcalls } S (fuel + 1) r.forces
        = some r2 ∧
      r.ret = r'.ret ∧ r2.ret = r.ret ∧
      ∀ h k, G.firstconf ≤ h → h < G.firstconf + G.nconf → conf_slot B G h k →
        r.forces.get k = r'.forces.get k ∧ r2.forces.get k = r.forces.get k := by
  have key : ∀ g g' : Buf, (pair_pass B G S g).tmpsum = (pair_pass B G S g').tmpsum ∧
      ∀ h k, G.firstconf ≤ h → h < G.firstconf + G.nconf → conf_slot B G h k →
        (pair_pass B G S g).forces.get k = (pair_pass B G S g').forces.get k := by
    have e : ∀ g, pair_pass B G S g
        = forLoop (fun j => pair_conf B { G with myconf := G.nconf } S (G.firstconf + j))
            G.nconf ⟨g, 0⟩ := fun _ => rfl
    intro g g'
    constructor
    · rw [e g, e g', pair_loop_tmpsum, pair_loop_tmpsum]
    · intro h k h1 h2 hk
      have ha := pair_loop_agree B { G with myconf := G.nconf } S G.firstconf G.nconf
        (X := fun _ => False) (s := ⟨g, 0⟩) (t := ⟨g', 0⟩) (fun _ hk => hk.elim)
      exact ha k (Or.inr ⟨h - G.firstconf, by omega,
        by rw [show G.firstconf + (h - G.firstconf) = h by omega]; exact hk⟩)
  refine ⟨_, _, _, calc_forces_pair_root B G S fuel f h0,
    calc_forces_pair_root B G S fuel f' h0,
    calc_forces_pair_root B _ S fuel _ h0, ?_, ?_, ?_⟩
  · dsimp only
    rw [(key f f').1]
  · dsimp only
    rw [pair_pass_fcalls, (key (pair_pass B G S f).forces f).1]
  · intro h k h1 h2 hk
    refine ⟨(key f f').2 h k h1 h2 hk, ?_⟩
    dsimp only
    rw [pair_pass_fcalls]
    exact (key (pair_pass B G S f).forces f).2 h k h1 h2 hk

/-- Witness for C9 on the sample data set, from two different buffers. -/
theorem C9_pair_idempotence_witness :
    exG.myid = 0 ∧
    ∃ r r' r2, calc_forces_pair exB exG exS 1 ⟨fun _ => 7⟩ = some r ∧
      calc_forces_pair exB exG exS 1 ⟨fun _ => 0⟩ = some r' ∧
      calc_forces_pair exB { exG with myconf := exG.nconf, fcalls := r.fcalls } exS 1 r.forces
        = some r2 ∧
      r.ret = r'.ret ∧ r2.ret = r.ret ∧
      ∀ h k, exG.firstconf ≤ h → h < exG.firstconf + exG.nconf → conf_slot exB exG h k →
        r.forces.get k = r'.forces.get k ∧ r2.forces.get k = r.forces.get k :=
  ⟨rfl, C9_pair_idempotence exB exG exS 0 ⟨fun _ => 7⟩ ⟨fun _ => 0⟩ rfl⟩
/-! ## C10: reduction over two partitions -/

/-- C10, as stated, fails in the double arithmetic of the program.  The data
set of three configurations whose contributions to the sum are the doubles
0.1, 0.2 and 0.3 (one atom without neighbors each, energy residual -1,
weights 0.1, 0.2, 0.3) meets the premises; split after its first
configuration, the local sums are 0.1 and 0.2 + 0.3 = 0.5, which `MPI_Reduce`
adds to the double 0.6 = 5404319552844595 / 2^53, while the single partition
computes (0.1 + 0.2) + 0.3 = 5404319552844596 / 2^53. -/
theorem C10_pair_reduction_counterexample :
    (Layout exG_w ∧ (∀ h, h < exG_w.nconf → NeighIn exG_w h) ∧ exG_w.firstconf = 0 ∧
      exG_w.firstatom = 0 ∧ exG_w.myconf = exG_w.nconf ∧ 1 ≤ exG_w.nconf) ∧
    (exG_w.conf_weight 0 = 3602879701896397 / 2 ^ 55 ∧
      exG_w.conf_weight 1 = 3602879701896397 / 2 ^ 54 ∧
      exG_w.conf_weight 2 = 5404319552844595 / 2 ^ 54) ∧
    (pair_conf_loop_fl round_double exB (partition exG_w 0 1) exS ⟨⟨fun _ => 0⟩, 0⟩).tmpsum
      = 3602879701896397 / 2 ^ 55 ∧
    (pair_conf_loop_fl round_double exB (partition exG_w 1 (exG_w.nconf - 1)) exS
        ⟨⟨fun _ => 0⟩, 0⟩).tmpsum = 1 / 2 ∧
    reduce_sum_fl round_double
        (pair_conf_loop_fl round_double exB (partition exG_w 0 1) exS ⟨⟨fun _ => 0⟩, 0⟩).tmpsum
        (pair_conf_loop_fl round_double exB (partition exG_w 1 (exG_w.nconf - 1)) exS
          ⟨⟨fun _ => 0⟩, 0⟩).tmpsum
      = 5404319552844595 / 2 ^ 53 ∧
    (pair_conf_loop_fl round_double exB exG_w exS ⟨⟨fun _ => 0⟩, 0⟩).tmpsum
      = 5404319552844596 / 2 ^ 53 ∧
    reduce_sum_fl round_double
        (pair_conf_loop_fl round_double exB (partition exG_w 0 1) exS ⟨⟨fun _ => 0⟩, 0⟩).tmpsum
        (pair_conf_loop_fl round_double exB (partition exG_w 1 (exG_w.nconf - 1)) exS
          ⟨⟨fun _ => 0⟩, 0⟩).tmpsum
      ≠ (pair_conf_loop_fl round_double exB exG_w exS ⟨⟨fun _ => 0⟩, 0⟩).tmpsum :=
  ⟨⟨exG_w_layout, exG_w_neighIn, rfl, rfl, rfl, by decide⟩,
    ⟨by decide!, by decide!, by decide!⟩, by decide!, by decide!, by decide!, by decide!,
    by decide!⟩

/-- C10, amended: for a data set of `nconf` configurations whose neighbors
stay inside their own configuration and every split point `k`, the local sums
of the configuration loop over the partitions `[0, k)` and `[k, nconf)` add up
to the local sum over the single partition `[0, nconf)` when the additions are
exact; and, in exact arithmetic and for every rounding `fl` of the arithmetic
operations alike, every force, energy and stress slot of a configuration of
either partition holds the value the single-partition run leaves at the same
offset. -/
theorem C10_pair_reduction (fl : ℚ → ℚ) (B : Build) (G : Globals) (S : Splines) (k : Nat)
    (fA fB f : Buf) (hL : Layout G) (hN : ∀ h, h < G.nconf → NeighIn G h)
    (h0 : G.firstconf = 0) (ha : G.firstatom = 0) (hm : G.myconf = G.nconf)
    (hk : k ≤ G.nconf) :
    (pair_conf_loop B (partition G 0 k) S ⟨fA, 0⟩).tmpsum
        + (pair_conf_loop B (partition G k (G.nconf - k)) S ⟨fB, 0⟩).tmpsum
      = (pair_conf_loop B G S ⟨f, 0⟩).tmpsum ∧
    (∀ h x, h < k → conf_slot B G h x →
      (pair_conf_loop B (partition G 0 k) S ⟨fA, 0⟩).forces.get x
        = (pair_conf_loop B G S ⟨f, 0⟩).forces.get x) ∧
    (∀ h x, k ≤ h → h < G.nconf → conf_slot B G h x →
      (pair_conf_loop B (partition G k (G.nconf - k)) S ⟨fB, 0⟩).forces.get x
        = (pair_conf_loop B G S ⟨f, 0⟩).forces.get x) ∧
    (∀ h x, h < k → conf_slot B G h x →
      (pair_conf_loop_fl fl B (partition G 0 k) S ⟨fA, 0⟩).forces.get x
        = (pair_conf_loop_fl fl B G S ⟨f, 0⟩).forces.get x) ∧
    (∀ h x, k ≤ h → h < G.nconf → conf_slot B G h x →
      (pair_conf_loop_fl fl B (partition G k (G.nconf - k)) S ⟨fB, 0⟩).forces.get x
        = (pair_conf_loop_fl fl B G S ⟨f, 0⟩).forces.get x) := by
  have eF : ∀ st, pair_conf_loop B G S st
      = forLoop (fun j => pair_conf B G S (0 + j)) G.nconf st := by
    intro st
    unfold pair_conf_loop
    rw [h0, hm]
  have eR : ∀ st, pair_conf_loop_fl fl B G S st
      = forLoop (fun j => pair_conf_fl fl B G S (0 + j)) G.nconf st := by
    intro st
    unfold pair_conf_loop_fl
    rw [h0, hm]
  rw [pair_loop_view B G S hL h0 ha 0 k (by omega),
    pair_loop_view B G S hL h0 ha k (G.nconf - k) (by omega), eF,
    pair_loop_fl_view fl B G S hL h0 ha 0 k (by omega),
    pair_loop_fl_view fl B G S hL h0 ha k (G.nconf - k) (by omega), eR]
  refine ⟨?_, ?_, ?_, ?_, ?_⟩
  · rw [pair_loop_tmpsum, pair_loop_tmpsum, pair_loop_tmpsum]
    have hs := Finset.sum_range_add (fun j => pair_conf_term B G S j) k (G.nconf - k)
    rw [show k + (G.nconf - k) = G.nconf by omega] at hs
    simp only [Nat.zero_add, zero_add]
    rw [hs]
  · intro h x hh hx
    have hx' : conf_slot B G (0 + h) x := by rwa [Nat.zero_add]
    rw [pair_loop_value B G S hL 0 k (by omega) hN _ h hh x hx',
      pair_loop_value B G S hL 0 G.nconf (by omega) hN _ h (by omega) x hx']
  · intro h x h1 h2 hx
    have hx' : conf_slot B G (0 + h) x := by rwa [Nat.zero_add]
    have hx2 : conf_slot B G (k + (h - k)) x := by
      rwa [show k + (h - k) = h by omega]
    rw [pair_loop_value B G S hL k (G.nconf - k) (by omega) hN _ (h - k) (by omega) x hx2,
      pair_loop_value B G S hL 0 G.nconf (by omega) hN _ h h2 x hx',
      show k + (h - k) = 0 + h by omega]
  · intro h x hh hx
    have hx' : conf_slot B G (0 + h) x := by rwa [Nat.zero_add]
    rw [pair_loop_fl_value fl B G S hL 0 k (by omega) hN _ h hh x hx',
      pair_loop_fl_value fl B G S hL 0 G.nconf (by omega) hN _ h (by omega) x hx']
  · intro h x h1 h2 hx
    have hx' : conf_slot B G (0 + h) x := by rwa [Nat.zero_add]
    have hx2 : conf_slot B G (k + (h - k)) x := by
      rwa [show k + (h - k) = h by omega]
    rw [pair_loop_fl_value fl B G S hL k (G.nconf - k) (by omega) hN _ (h - k) (by omega) x hx2,
      pair_loop_fl_value fl B G S hL 0 G.nconf (by omega) hN _ h h2 x hx',
      show k + (h - k) = 0 + h by omega]

/-- Witness for the amended C10: the sample data set split after its first
configuration, with the rounding to the nearest double. -/
theorem C10_pair_reduction_witness :
    (Layout exG ∧ (∀ h, h < exG.nconf → NeighIn exG h) ∧ exG.firstconf = 0 ∧
      exG.firstatom = 0 ∧ exG.myconf = exG.nconf ∧ 1 ≤ exG.nconf) ∧
    ((pair_conf_loop exB (partition exG 0 1) exS ⟨⟨fun _ => 7⟩, 0⟩).tmpsum
        + (pair_conf_loop exB (partition exG 1 (exG.nconf - 1)) exS ⟨⟨fun _ => 5⟩, 0⟩).tmpsum
      = (pair_conf_loop exB exG exS ⟨⟨fun _ => 0⟩, 0⟩).tmpsum ∧
    (∀ h x, h < 1 → conf_slot exB exG h x →
      (pair_conf_loop exB (partition exG 0 1) exS ⟨⟨fun _ => 7⟩, 0⟩).forces.get x
        = (pair_conf_loop exB exG exS ⟨⟨fun _ => 0⟩, 0⟩).forces.get x) ∧
    (∀ h x, 1 ≤ h → h < exG.nconf → conf_slot exB exG h x →
      (pair_conf_loop exB (partition exG 1 (exG.nconf - 1)) exS ⟨⟨fun _ => 5⟩, 0⟩).forces.get x
        = (pair_conf_loop exB exG exS ⟨⟨fun _ => 0⟩, 0⟩).forces.get x) ∧
    (∀ h x, h < 1 → conf_slot exB exG h x →
      (pair_conf_loop_fl round_double exB (partition exG 0 1) exS
          ⟨⟨fun _ => 7⟩, 0⟩).forces.get x
        = (pair_conf_loop_fl round_double exB exG exS ⟨⟨fun _ => 0⟩, 0⟩).forces.get x) ∧
    (∀ h x, 1 ≤ h → h < exG.nconf → conf_slot exB exG h x →
      (pair_conf_loop_fl round_double exB (partition exG 1 (exG.nconf - 1)) exS
          ⟨⟨fun _ => 5⟩, 0⟩).forces.get x
        = (pair_conf_loop_fl round_double exB exG exS ⟨⟨fun _ => 0⟩, 0⟩).forces.get x)) :=
  ⟨⟨exG_layout, exG_neighIn, rfl, rfl, rfl, by decide⟩,
    C10_pair_reduction round_double exB exG exS 1 ⟨fun _ => 7⟩ ⟨fun _ => 5⟩ ⟨fun _ => 0⟩
      exG_layout exG_neighIn rfl rfl rfl (by decide)⟩

/-! ## C11: the stress residuals of `calc_forces_pair` -/

/-- C11: in a `STRESS` build, for every configuration `h` with both the
use-forces and the use-stress flag set, stress slot `j` on return is
`(- sum of dist_a * t_b over the neighbors of the atoms of h) / volume` minus
the reference stress, with `(a, b) = stress_pair j` in the order (x,x), (y,y),
(z,z), (x,y), (y,z), (z,x) and `t = dist_r * phi_grad` (`pair_tmp_force`:
halved for a self neighbor, 0 out of range); for a configuration with either
flag clear the six slots are 0 on return; and the returned sum is the sum
obtained with stress weight 0 plus `conf_weight * sweight * slot^2` for each
of the six slots of every configuration with both flags set, and nothing for
the others. -/
theorem C11_pair_stress (B : Build) (G : Globals) (S : Splines) (fuel : Nat) (f : Buf)
    (hS : B.STRESS = true) (hL : Layout G) (hN : ∀ h, h < G.nconf → NeighIn G h)
    (h0 : G.myid = 0) (hc : G.firstconf = 0) (ha : G.firstatom = 0) :
    ∃ r, calc_forces_pair B G S (fuel + 1) f = some r ∧
      (∀ h j, h < G.nconf → j < 6 → G.conf_uf h = true → G.conf_us h = true →
        r.forces.get (G.stress_p + 6 * h + j)
          = (-(∑ i in Finset.range (G.inconf h),
              ((G.conf_atoms (G.cnfstart h + i)).neigh.map
                (fun n => n.dist.comp (stress_pair j).1
                  * pair_tmp_force G S (G.cnfstart h + i) n (stress_pair j).2)).sum))
            / G.conf_vol h - G.force_0 (G.stress_p + 6 * h + j)) ∧
      (∀ h j, h < G.nconf → j < 6 → (G.conf_uf h && G.conf_us h) = false →
        r.forces.get (G.stress_p + 6 * h + j) = 0) ∧
      r.ret = Dbl.fin (∑ h in Finset.range G.nconf,
        (pair_conf_term B { G with sweight := 0 } S h
          + if (G.conf_uf h && G.conf_us h) = true then
              G.conf_weight h * G.sweight
                * ∑ j in Finset.range 6, dsquare (r.forces.get (G.stress_p + 6 * h + j))
            else 0)) := by
  refine ⟨_, calc_forces_pair_root B G S fuel f h0, ?_, ?_, ?_⟩
  · intro h j hh hj hu hv
    dsimp only
    rw [pair_pass_value B G S f hL hN hc h _ hh (Or.inr (Or.inr ⟨hS, by omega, by omega⟩)),
      pair_conf_val_stress B G S h j hS hL hh hj (hN h hh)
        (by rw [hc, Nat.sub_zero]; exact hu) (by rw [hc, Nat.sub_zero]; exact hv), hc, ha]
    simp only [Nat.sub_zero, Nat.add_comm]
  · intro h j hh hj hu
    dsimp only
    rw [pair_pass_value B G S f hL hN hc h _ hh (Or.inr (Or.inr ⟨hS, by omega, by omega⟩))]
    exact pair_conf_val_nostress B G S h j hS hL hh hj (hN h hh)
      (by rw [hc, Nat.sub_zero]; exact hu)
  · dsimp only
    rw [pair_return_fin, pair_pass_tmpsum B G S f hc]
    congr 1
    apply Finset.sum_congr rfl
    intro h hh
    have hh' := Finset.mem_range.1 hh
    rw [pair_conf_term_stress B G S h, hc, Nat.sub_zero, hS, Bool.true_and]
    congr 1
    by_cases hu : (G.conf_uf h && G.conf_us h) = true
    · rw [if_pos hu, if_pos hu]
      congr 1
      apply Finset.sum_congr rfl
      intro j hj
      have hj' := Finset.mem_range.1 hj
      rw [pair_pass_value B G S f hL hN hc h _ hh'
        (Or.inr (Or.inr ⟨hS, by omega, by omega⟩))]
    · rw [if_neg hu, if_neg hu]

/-- Witness for C11 on the sample data set. -/
theorem C11_pair_stress_witness :
    (exB.STRESS = true ∧ Layout exG ∧ (∀ h, h < exG.nconf → NeighIn exG h) ∧
      exG.myid = 0 ∧ exG.firstconf = 0 ∧ exG.firstatom = 0) ∧
    ∃ r, calc_forces_pair exB exG exS 1 ⟨fun _ => 7⟩ = some r ∧
      r.forces.get (exG.stress_p + 6 * 0 + 3)
          = (-(∑ i in Finset.range (exG.inconf 0),
              ((exG.conf_atoms (exG.cnfstart 0 + i)).neigh.map
                (fun n => n.dist.comp (stress_pair 3).1
                  * pair_tmp_force exG exS (exG.cnfstart 0 + i) n (stress_pair 3).2)).sum))
            / exG.conf_vol 0 - exG.force_0 (exG.stress_p + 6 * 0 + 3) :=
  ⟨⟨rfl, exG_layout, exG_neighIn, rfl, rfl, rfl⟩,
    (C11_pair_stress exB exG exS 0 ⟨fun _ => 7⟩ rfl exG_layout exG_neighIn rfl rfl rfl).imp
      (fun _ hr => ⟨hr.1, hr.2.1 0 3 (by decide) (by decide) rfl rfl⟩)⟩

/-! ## C12 and C13: the embedding energy outside the table -/

/-- C12: in a build without `RESCALE`, for an atom whose accumulated density
`rho` is below `begin[col_F]`, the embedding step adds
`F(begin) + (rho - begin) * F'(begin)` to the energy slot of the
configuration, with `(F, F')` the value and gradient that `g_splint_comb`
gives at `begin[col_F]`, and stores `F'(begin)` in `gradF`; the density and
all other slots of the buffer stay as they are. -/
theorem C12_embed_below (B : Build) (G : Globals) (S : Splines) (h i : Nat) (st : AdpSt)
    (hR : B.RESCALE = false)
    (hr : (st.acc.get (i + G.cnfstart h - G.firstatom)).rho
      < G.pot_begin (G.paircol + G.ntypes
          + (G.conf_atoms (i + G.cnfstart h - G.firstatom)).type)) :
    (adp_embed B G S h i st).forces.get (G.energy_p + h)
        = st.forces.get (G.energy_p + h)
          + ((S.g_splint_comb (G.paircol + G.ntypes
                + (G.conf_atoms (i + G.cnfstart h - G.firstatom)).type)
              (G.pot_begin (G.paircol + G.ntypes
                + (G.conf_atoms (i + G.cnfstart h - G.firstatom)).type))).1
            + ((st.acc.get (i + G.cnfstart h - G.firstatom)).rho
                - G.pot_begin (G.paircol + G.ntypes
                    + (G.conf_atoms (i + G.cnfstart h - G.firstatom)).type))
              * (S.g_splint_comb (G.paircol + G.ntypes
                  + (G.conf_atoms (i + G.cnfstart h - G.firstatom)).type)
                (G.pot_begin (G.paircol + G.ntypes
                  + (G.conf_atoms (i + G.cnfstart h - G.firstatom)).type))).2)
      ∧ ((adp_embed B G S h i st).acc.get (i + G.cnfstart h - G.firstatom)).gradF
        = (S.g_splint_comb (G.paircol + G.ntypes
              + (G.conf_atoms (i + G.cnfstart h - G.firstatom)).type)
            (G.pot_begin (G.paircol + G.ntypes
              + (G.conf_atoms (i + G.cnfstart h - G.firstatom)).type))).2
      ∧ ((adp_embed B G S h i st).acc.get (i + G.cnfstart h - G.firstatom)).rho
        = (st.acc.get (i + G.cnfstart h - G.firstatom)).rho
      ∧ ∀ k, k ≠ G.energy_p + h → (adp_embed B G S h i st).forces.get k = st.forces.get k := by
  unfold adp_embed
  simp only [hR, Bool.false_eq_true, if_false, if_pos hr]
  refine ⟨?_, ?_, ?_, ?_⟩
  · rw [addf_get, if_pos rfl]
  · rw [AccTab.acc_modify_get_same]
  · rw [AccTab.acc_modify_get_same]
  · intro k hk
    rw [addf_get, if_neg hk, add_zero]

/-- Witness for C12: density -1 below `begin = 0`, with `F(x) = x` and
`F'(x) = x`. -/
theorem C12_embed_below_witness :
    (exB.RESCALE = false ∧ ((ex_st (-1)).acc.get (0 + exG.cnfstart 0 - exG.firstatom)).rho
      < exG.pot_begin (exG.paircol + exG.ntypes
          + (exG.conf_atoms (0 + exG.cnfstart 0 - exG.firstatom)).type)) ∧
    ((adp_embed exB exG exS_lin 0 0 (ex_st (-1))).acc.get
        (0 + exG.cnfstart 0 - exG.firstatom)).gradF
      = (exS_lin.g_splint_comb (exG.paircol + exG.ntypes
            + (exG.conf_atoms (0 + exG.cnfstart 0 - exG.firstatom)).type)
          (exG.pot_begin (exG.paircol + exG.ntypes
            + (exG.conf_atoms (0 + exG.cnfstart 0 - exG.firstatom)).type))).2 :=
  ⟨⟨rfl, by simp [ex_st, acc_rho, exG]⟩,
    (C12_embed_below exB exG exS_lin 0 0 (ex_st (-1)) rfl (by simp [ex_st, acc_rho, exG])).2.1⟩

/-- C13, as stated, fails: with `F(x) = x`, `F'(x) = x`, `end = 2`, `step = 1`
and the density 3 the claim gives the energy `F(end) + (rho - end) * F'(end)
= 4` and the gradient `F'(end) = 2`, while the embedding step adds 3 to the
energy slot and stores the gradient 3/2. -/
theorem C13_embed_above_counterexample :
    exB.RESCALE = false
      ∧ exG.pot_end (exG.paircol + exG.ntypes
          + (exG.conf_atoms (0 + exG.cnfstart 0 - exG.firstatom)).type)
        < ((ex_st 3).acc.get (0 + exG.cnfstart 0 - exG.firstatom)).rho
      ∧ (exS_lin.g_splint_comb (exG.paircol + exG.ntypes
            + (exG.conf_atoms (0 + exG.cnfstart 0 - exG.firstatom)).type)
          (exG.pot_end (exG.paircol + exG.ntypes
            + (exG.conf_atoms (0 + exG.cnfstart 0 - exG.firstatom)).type))).1
        + (((ex_st 3).acc.get (0 + exG.cnfstart 0 - exG.firstatom)).rho
            - exG.pot_end (exG.paircol + exG.ntypes
                + (exG.conf_atoms (0 + exG.cnfstart 0 - exG.firstatom)).type))
          * (exS_lin.g_splint_comb (exG.paircol + exG.ntypes
              + (exG.conf_atoms (0 + exG.cnfstart 0 - exG.firstatom)).type)
            (exG.pot_end (exG.paircol + exG.ntypes
              + (exG.conf_atoms (0 + exG.cnfstart 0 - exG.firstatom)).type))).2 = 4
      ∧ (adp_embed exB exG exS_lin 0 0 (ex_st 3)).forces.get (exG.energy_p + 0)
        = (ex_st 3).forces.get (exG.energy_p + 0) + 3
      ∧ (exS_lin.g_splint_comb (exG.paircol + exG.ntypes
            + (exG.conf_atoms (0 + exG.cnfstart 0 - exG.firstatom)).type)
          (exG.pot_end (exG.paircol + exG.ntypes
            + (exG.conf_atoms (0 + exG.cnfstart 0 - exG.firstatom)).type))).2 = 2
      ∧ ((adp_embed exB exG exS_lin 0 0 (ex_st 3)).acc.get
          (0 + exG.cnfstart 0 - exG.firstatom)).gradF = 3 / 2 := by
  refine ⟨rfl, ?_, ?_, ?_, ?_, ?_⟩
  · simp [ex_st, acc_rho, exG]
    norm_num
  · simp [ex_st, acc_rho, exG, exS_lin]
    norm_num
  · simp [adp_embed, exB, ex_st, acc_rho, exG, exS_lin, addf, setf, AccTab.modify]
    norm_num
  · simp [exG, exS_lin]
  · simp [adp_embed, exB, ex_st, acc_rho, exG, exS_lin, addf, setf, AccTab.modify]
    norm_num

/-- C13, amended: in a build without `RESCALE`, for an atom whose
accumulated density `rho` is above `end[col_F]` (and not below
`begin[col_F]`), the embedding step adds `F(x0) + (rho - end) * F'(x0)` to the
energy slot, with `(F, F')` the value and gradient that `g_splint_comb` gives
at `x0 = end[col_F] - 0.5 * step[col_F]`, half a step inside the table, and
stores `F'(x0)` in `gradF`. -/
theorem C13_embed_above (B : Build) (G : Globals) (S : Splines) (h i : Nat) (st : AdpSt)
    (hR : B.RESCALE = false)
    (hb : ¬ (st.acc.get (i + G.cnfstart h - G.firstatom)).rho
      < G.pot_begin (G.paircol + G.ntypes
          + (G.conf_atoms (i + G.cnfstart h - G.firstatom)).type))
    (hr : G.pot_end (G.paircol + G.ntypes
          + (G.conf_atoms (i + G.cnfstart h - G.firstatom)).type)
      < (st.acc.get (i + G.cnfstart h - G.firstatom)).rho) :
    (adp_embed B G S h i st).forces.get (G.energy_p + h)
        = st.forces.get (G.energy_p + h)
          + ((S.g_splint_comb (G.paircol + G.ntypes
                + (G.conf_atoms (i + G.cnfstart h - G.firstatom)).type)
              (G.pot_end (G.paircol + G.ntypes
                  + (G.conf_atoms (i + G.cnfstart h - G.firstatom)).type)
                - (1 / 2) * G.pot_step (G.paircol + G.ntypes
                  + (G.conf_atoms (i + G.cnfstart h - G.firstatom)).type))).1
            + ((st.acc.get (i + G.cnfstart h - G.firstatom)).rho
                - G.pot_end (G.paircol + G.ntypes
                    + (G.conf_atoms (i + G.cnfstart h - G.firstatom)).type))
              * (S.g_splint_comb (G.paircol + G.ntypes
                  + (G.conf_atoms (i + G.cnfstart h - G.firstatom)).type)
                (G.pot_end (G.paircol + G.ntypes
                    + (G.conf_atoms (i + G.cnfstart h - G.firstatom)).type)
                  - (1 / 2) * G.pot_step (G.paircol + G.ntypes
                    + (G.conf_atoms (i + G.cnfstart h - G.firstatom)).type))).2)
      ∧ ((adp_embed B G S h i st).acc.get (i + G.cnfstart h - G.firstatom)).gradF
        = (S.g_splint_comb (G.paircol + G.ntypes
              + (G.conf_atoms (i + G.cnfstart h - G.firstatom)).type)
            (G.pot_end (G.paircol + G.ntypes
                + (G.conf_atoms (i + G.cnfstart h - G.firstatom)).type)
              - (1 / 2) * G.pot_step (G.paircol + G.ntypes
                + (G.conf_atoms (i + G.cnfstart h - G.firstatom)).type))).2
      ∧ ((adp_embed B G S h i st).acc.get (i + G.cnfstart h - G.firstatom)).rho
        = (st.acc.get (i + G.cnfstart h - G.firstatom)).rho
      ∧ ∀ k, k ≠ G.energy_p + h → (adp_embed B G S h i st).forces.get k = st.forces.get k := by
  unfold adp_embed
  simp only [hR, Bool.false_eq_true, if_false, if_neg hb, if_pos hr]
  refine ⟨?_, ?_, ?_, ?_⟩
  · rw [addf_get, if_pos rfl]
  · rw [AccTab.acc_modify_get_same]
  · rw [AccTab.acc_modify_get_same]
  · intro k hk
    rw [addf_get, if_neg hk, add_zero]

/-- Witness for the amended C13: density 3 above `end = 2`. -/
theorem C13_embed_above_witness :
    (exB.RESCALE = false
      ∧ ¬ ((ex_st 3).acc.get (0 + exG.cnfstart 0 - exG.firstatom)).rho
        < exG.pot_begin (exG.paircol + exG.ntypes
            + (exG.conf_atoms (0 + exG.cnfstart 0 - exG.firstatom)).type)
      ∧ exG.pot_end (exG.paircol + exG.ntypes
          + (exG.conf_atoms (0 + exG.cnfstart 0 - exG.firstatom)).type)
        < ((ex_st 3).acc.get (0 + exG.cnfstart 0 - exG.firstatom)).rho) ∧
    ((adp_embed exB exG exS_lin 0 0 (ex_st 3)).acc.get
        (0 + exG.cnfstart 0 - exG.firstatom)).gradF
      = (exS_lin.g_splint_comb (exG.paircol + exG.ntypes
            + (exG.conf_atoms (0 + exG.cnfstart 0 - exG.firstatom)).type)
          (exG.pot_end (exG.paircol + exG.ntypes
              + (exG.conf_atoms (0 + exG.cnfstart 0 - exG.firstatom)).type)
            - (1 / 2) * exG.pot_step (exG.paircol + exG.ntypes
              + (exG.conf_atoms (0 + exG.cnfstart 0 - exG.firstatom)).type))).2 :=
  ⟨⟨rfl, by simp [ex_st, acc_rho, exG], by simp [ex_st, acc_rho, exG]; norm_num⟩,
    (C13_embed_above exB exG exS_lin 0 0 (ex_st 3) rfl (by simp [ex_st, acc_rho, exG])
      (by simp [ex_st, acc_rho, exG]; norm_num)).2.1⟩

/-! ## C14: the density after the embedding step of a `RESCALE` build -/

/-- C14 at a failing input: in a `RESCALE` build, with `begin = 0`, `end = 2`,
`F(x) = x` and `F'(x) = x`, an atom that enters the embedding step with the
density -1 gets the penalty 10 in the limit slot, but its density is still -1
afterwards, and the embedding function has been evaluated at -1 (energy -1,
`gradF = -1`); an atom that enters with the density 3 leaves with the density
`end = 2`. -/
theorem C14_rescale_lower_unclamped :
    exBR.RESCALE = true
      ∧ exG.pot_begin (exG.paircol + exG.ntypes
          + (exG.conf_atoms (0 + exG.cnfstart 0 - exG.firstatom)).type) = 0
      ∧ exG.pot_end (exG.paircol + exG.ntypes
          + (exG.conf_atoms (0 + exG.cnfstart 0 - exG.firstatom)).type) = 2
      ∧ ((ex_st (-1)).acc.get (0 + exG.cnfstart 0 - exG.firstatom)).rho = -1
      ∧ ((adp_embed exBR exG exS_lin 0 0 (ex_st (-1))).acc.get
          (0 + exG.cnfstart 0 - exG.firstatom)).rho = -1
      ∧ ((adp_embed exBR exG exS_lin 0 0 (ex_st (-1))).acc.get
          (0 + exG.cnfstart 0 - exG.firstatom)).gradF = -1
      ∧ (adp_embed exBR exG exS_lin 0 0 (ex_st (-1))).forces.get (exG.energy_p + 0) = -1
      ∧ (adp_embed exBR exG exS_lin 0 0 (ex_st (-1))).forces.get (exG.limit_p + 0) = 10
      ∧ ((adp_embed exBR exG exS_lin 0 0 (ex_st 3)).acc.get
          (0 + exG.cnfstart 0 - exG.firstatom)).rho = 2 := by
  refine ⟨rfl, ?_, ?_, ?_, ?_, ?_, ?_, ?_, ?_⟩
  · simp [exG]
  · simp [exG]
  · simp [ex_st, acc_rho]
  · norm_num [adp_embed, exBR, exB, ex_st, acc_rho, exG, exS_lin, addf, setf, AccTab.modify]
  · norm_num [adp_embed, exBR, exB, ex_st, acc_rho, exG, exS_lin, addf, setf, AccTab.modify]
  · norm_num [adp_embed, exBR, exB, ex_st, acc_rho, exG, exS_lin, addf, setf, AccTab.modify]
  · norm_num [adp_embed, exBR, exB, ex_st, acc_rho, exG, exS_lin, addf, setf, AccTab.modify,
      dsquare]
  · norm_num [adp_embed, exBR, exB, ex_st, acc_rho, exG, exS_lin, addf, setf, AccTab.modify]

/-! ## C15: the ADP self-energy -/

/-- C15: for every atom the step after the embedding adds
`0.5 * (mu.x^2 + mu.y^2 + mu.z^2 + (lambda.xx - trace)^2 + (lambda.yy - trace)^2
+ (lambda.zz - trace)^2 + 2 * (lambda.xy^2 + lambda.yz^2 + lambda.zx^2))` with
`trace = (lambda.xx + lambda.yy + lambda.zz) / 3` to the energy slot of the
configuration and sets `nu` of the atom to `lambda.xx + lambda.yy + lambda.zz`;
the density is added to `rho_sum_loc`, and `mu`, `lambda` and the other slots
of the buffer stay as they are.  In the second loop over atoms this step
follows the embedding step of the same atom. -/
theorem C15_adp_self_energy (B : Build) (G : Globals) (S : Splines) (h i : Nat) (uf us : Bool)
    (st : AdpSt) :
    (adp_self_energy G h i st).forces.get (G.energy_p + h)
        = st.forces.get (G.energy_p + h)
          + (1 / 2) * ((st.acc.get (i + G.cnfstart h - G.firstatom)).mu.x ^ 2
            + (st.acc.get (i + G.cnfstart h - G.firstatom)).mu.y ^ 2
            + (st.acc.get (i + G.cnfstart h - G.firstatom)).mu.z ^ 2
            + ((st.acc.get (i + G.cnfstart h - G.firstatom)).lambda.xx
                - ((st.acc.get (i + G.cnfstart h - G.firstatom)).lambda.xx
                  + (st.acc.get (i + G.cnfstart h - G.firstatom)).lambda.yy
                  + (st.acc.get (i + G.cnfstart h - G.firstatom)).lambda.zz) / 3) ^ 2
            + ((st.acc.get (i + G.cnfstart h - G.firstatom)).lambda.yy
                - ((st.acc.get (i + G.cnfstart h - G.firstatom)).lambda.xx
                  + (st.acc.get (i + G.cnfstart h - G.firstatom)).lambda.yy
                  + (st.acc.get (i + G.cnfstart h - G.firstatom)).lambda.zz) / 3) ^ 2
            + ((st.acc.get (i + G.cnfstart h - G.firstatom)).lambda.zz
                - ((st.acc.get (i + G.cnfstart h - G.firstatom)).lambda.xx
                  + (st.acc.get (i + G.cnfstart h - G.firstatom)).lambda.yy
                  + (st.acc.get (i + G.cnfstart h - G.firstatom)).lambda.zz) / 3) ^ 2
            + 2 * ((st.acc.get (i + G.cnfstart h - G.firstatom)).lambda.xy ^ 2
              + (st.acc.get (i + G.cnfstart h - G.firstatom)).lambda.yz ^ 2
              + (st.acc.get (i + G.cnfstart h - G.firstatom)).lambda.zx ^ 2))
      ∧ ((adp_self_energy G h i st).acc.get (i + G.cnfstart h - G.firstatom)).nu
        = (st.acc.get (i + G.cnfstart h - G.firstatom)).lambda.xx
          + (st.acc.get (i + G.cnfstart h - G.firstatom)).lambda.yy
          + (st.acc.get (i + G.cnfstart h - G.firstatom)).lambda.zz
      ∧ ((adp_self_energy G h i st).acc.get (i + G.cnfstart h - G.firstatom)).mu
        = (st.acc.get (i + G.cnfstart h - G.firstatom)).mu
      ∧ ((adp_self_energy G h i st).acc.get (i + G.cnfstart h - G.firstatom)).lambda
        = (st.acc.get (i + G.cnfstart h - G.firstatom)).lambda
      ∧ (adp_self_energy G h i st).rho_sum_loc
        = st.rho_sum_loc + (st.acc.get (i + G.cnfstart h - G.firstatom)).rho
      ∧ (∀ k, k ≠ G.energy_p + h →
          (adp_self_energy G h i st).forces.get k = st.forces.get k)
      ∧ adp_atom2 B G S h uf us i st
        = adp_self_energy G h i (adp_embed B G S h i
            ((G.conf_atoms (i + G.cnfstart h - G.firstatom)).neigh.enum.foldl
              (adp_neigh B G S h uf us i) st)) := by
  refine ⟨?_, ?_, ?_, ?_, rfl, ?_, rfl⟩
  · unfold adp_self_energy
    simp only [addf_get, if_true, dsquare]
    ring
  · unfold adp_self_energy
    simp only [AccTab.acc_modify_get_same]
  · unfold adp_self_energy
    simp only [AccTab.acc_modify_get_same]
  · unfold adp_self_energy
    simp only [AccTab.acc_modify_get_same]
  · intro k hk
    unfold adp_self_energy
    simp only [addf_get, if_neg hk, add_zero]

/-- Witness for C15 on the sample data set: `nu` of atom 0 after the step. -/
theorem C15_adp_self_energy_witness :
    ((adp_self_energy exG 0 0 (ex_st 1)).acc.get (0 + exG.cnfstart 0 - exG.firstatom)).nu
        = ((ex_st 1).acc.get (0 + exG.cnfstart 0 - exG.firstatom)).lambda.xx
          + ((ex_st 1).acc.get (0 + exG.cnfstart 0 - exG.firstatom)).lambda.yy
          + ((ex_st 1).acc.get (0 + exG.cnfstart 0 - exG.firstatom)).lambda.zz
      ∧ (adp_self_energy exG 0 0 (ex_st 1)).forces.get 0 = (ex_st 1).forces.get 0 :=
  ⟨(C15_adp_self_energy exB exG exS 0 0 true true (ex_st 1)).2.1,
    (C15_adp_self_energy exB exG exS 0 0 true true (ex_st 1)).2.2.2.2.2.1 0 (by decide)⟩

/-! ## C16: the embedding force -/

/-- C16: in the third loop, for atom `i` (of type `ti`) and a neighbor with
`r < end[col[1]]` or `r < end[paircol + ti]`, the vector applied to the force
and stress slots is `dist_r` times the scalar
`rho_grad * gradF[i] + rho_grad_j * gradF[j]`, times 1/2 for a self neighbor,
with `rho_grad` and `rho_grad_j` as the claim words them (`eam_rho_grad`,
`eam_rho_grad_j`); for a neighbor with neither condition true the embedding
pass changes nothing. -/
theorem C16_embedding_force (B : Build) (G : Globals) (S : Splines) (h : Nat) (us : Bool)
    (i : Nat) (n : neigh_t) (st : AdpSt) :
    ((n.r < G.pot_end (n.col 1) ∨ n.r < G.pot_end (G.paircol
          + (G.conf_atoms (i + G.cnfstart h - G.firstatom)).type)) →
        (adp_force_eam B G S h us i n st).forces
            = adp_apply_force B G h us i n (adp_eam_tmp_force G S h i n st.acc) st.forces
          ∧ ∀ c, c < 3 →
            (adp_eam_tmp_force G S h i n st.acc).comp c
              = n.dist_r.comp c *
                ((if n.nr = i + G.cnfstart h then 1 / 2 else 1) *
                  (eam_rho_grad G S n
                      * (st.acc.get (i + G.cnfstart h - G.firstatom)).gradF
                    + eam_rho_grad_j G S
                        (G.conf_atoms (i + G.cnfstart h - G.firstatom)).type n
                      * (st.acc.get (n.nr - G.firstatom)).gradF)))
      ∧ (¬ (n.r < G.pot_end (n.col 1) ∨ n.r < G.pot_end (G.paircol
          + (G.conf_atoms (i + G.cnfstart h - G.firstatom)).type)) →
        adp_force_eam B G S h us i n st = st) := by
  have e : G.paircol + G.ntypes + (G.conf_atoms (i + G.cnfstart h - G.firstatom)).type
      - G.ntypes = G.paircol + (G.conf_atoms (i + G.cnfstart h - G.firstatom)).type := by
    omega
  refine ⟨?_, ?_⟩
  · intro hr
    refine ⟨?_, ?_⟩
    · unfold adp_force_eam
      simp only [e, if_pos hr]
    · intro c hc
      unfold adp_eam_tmp_force eam_rho_grad_j eam_rho_grad vector.comp
      simp only [e, decide_eq_true_eq]
      by_cases hs : n.nr = i + G.cnfstart h
      · simp only [if_pos hs]
        interval_cases c <;> simp (disch := omega) only [if_pos, if_neg, if_true] <;> ring
      · simp only [if_neg hs]
        interval_cases c <;> simp (disch := omega) only [if_pos, if_neg, if_true] <;> ring
  · intro hr
    unfold adp_force_eam
    simp only [e, if_neg hr]

/-- Witness for C16 on the sample data set: the neighbor 1 of atom 0, in
range. -/
theorem C16_embedding_force_witness :
    (exNeigh 1 1).r < exG.pot_end ((exNeigh 1 1).col 1) ∧
    (adp_force_eam exB exG exS 0 true 0 (exNeigh 1 1) (ex_st 1)).forces
      = adp_apply_force exB exG 0 true 0 (exNeigh 1 1)
          (adp_eam_tmp_force exG exS 0 0 (exNeigh 1 1) (ex_st 1).acc) (ex_st 1).forces :=
  ⟨by norm_num [exNeigh, exG],
    ((C16_embedding_force exB exG exS 0 true 0 (exNeigh 1 1) (ex_st 1)).1
      (Or.inl (by norm_num [exNeigh, exG]))).1⟩
/-! ## C17: the quadrupole force of a self neighbor -/

/-- C17, as stated, fails: for atom 0 of the sample data set, with all lambda
components 1 and `nu = 3` for every atom, the entry naming atom 0 itself and
the same entry naming atom 1 have the same inputs, and the second loop caches
`w_val`, `w_grad` for both from the same splines (value 3, gradient 2).  The
vector `tmp_force` of the entry naming atom 1 is (200, 72, 72), that of the
self entry is (46, 18, 18), not (100, 36, 36). -/
theorem C17_quadrupole_self_counterexample :
    (exNeigh 0 1).nr = 0 + exG.cnfstart 0
      ∧ (exNeigh 1 1).nr ≠ 0 + exG.cnfstart 0
      ∧ exNeigh 1 1 = { exNeigh 0 1 with nr := 1 }
      ∧ (exNeigh 0 1).r < exG.pot_end ((exNeigh 0 1).col 3)
      ∧ acc_one.get ((exNeigh 1 1).nr - exG.firstatom)
        = acc_one.get ((exNeigh 0 1).nr - exG.firstatom)
      ∧ (∀ c, c < 3 →
        (adp_quadrupole_tmp_force exG 0 0 0 (exNeigh 1 1) acc_one
          (adp_quadrupole exG exS 0 true 0 0 (exNeigh 1 1)
            ⟨⟨fun _ => 0⟩, 0, 0, acc_one, cache_zero⟩).cache).comp c
          = if c = 0 then 200 else 72)
      ∧ (∀ c, c < 3 →
        (adp_quadrupole_tmp_force exG 0 0 0 (exNeigh 0 1) acc_one
          (adp_quadrupole exG exS 0 true 0 0 (exNeigh 0 1)
            ⟨⟨fun _ => 0⟩, 0, 0, acc_one, cache_zero⟩).cache).comp c
          = if c = 0 then 46 else 18)
      ∧ (∀ c, c < 3 →
        (adp_quadrupole_tmp_force exG 0 0 0 (exNeigh 0 1) acc_one
          (adp_quadrupole exG exS 0 true 0 0 (exNeigh 0 1)
            ⟨⟨fun _ => 0⟩, 0, 0, acc_one, cache_zero⟩).cache).comp c
          ≠ (1 / 2) * (adp_quadrupole_tmp_force exG 0 0 0 (exNeigh 1 1) acc_one
            (adp_quadrupole exG exS 0 true 0 0 (exNeigh 1 1)
              ⟨⟨fun _ => 0⟩, 0, 0, acc_one, cache_zero⟩).cache).comp c) := by
  have e1 : ∀ c, c < 3 →
      (adp_quadrupole_tmp_force exG 0 0 0 (exNeigh 1 1) acc_one
        (adp_quadrupole exG exS 0 true 0 0 (exNeigh 1 1)
          ⟨⟨fun _ => 0⟩, 0, 0, acc_one, cache_zero⟩).cache).comp c
        = if c = 0 then 200 else 72 := by
    intro c hc
    interval_cases c <;>
      norm_num [adp_quadrupole_tmp_force, adp_quadrupole, SPROD, vector.comp, exG, exS, exNeigh,
        acc_one, CacheTab.modify]
  have e2 : ∀ c, c < 3 →
      (adp_quadrupole_tmp_force exG 0 0 0 (exNeigh 0 1) acc_one
        (adp_quadrupole exG exS 0 true 0 0 (exNeigh 0 1)
          ⟨⟨fun _ => 0⟩, 0, 0, acc_one, cache_zero⟩).cache).comp c
        = if c = 0 then 46 else 18 := by
    intro c hc
    interval_cases c <;>
      norm_num [adp_quadrupole_tmp_force, adp_quadrupole, SPROD, vector.comp, exG, exS, exNeigh,
        acc_one, CacheTab.modify]
  refine ⟨by simp [exNeigh, exG], by simp [exNeigh, exG], rfl,
    by norm_num [exNeigh, exG], rfl, e1, e2, ?_⟩
  intro c hc
  rw [e1 c hc, e2 c hc]
  interval_cases c <;> norm_num

/-- C17, amended: a self entry is scaled twice.  The second loop stores
`w_val` and `w_grad` of a self entry as half of the quadrupole spline value
`W` and gradient `W'`, and the force pass halves the lambda sum `w_force`,
and with it `tmp_vect`, once more; the trace term `nu` is not halved.  For
identical inputs (the same entry naming another atom `m` that holds the same
lambda tensor and `nu`, the same splines, the same distance vectors) the vector
`tmp_force` of the in-range self entry is one quarter of the vector of the
other entry minus `0.25 * nu * r * (r * W' + 2 * W) * dist_r` with
`nu = (nu_i + nu_j) / 3`; it is exactly one quarter when `nu_i = 0`.  In
range this is the vector applied to the force and stress slots. -/
theorem C17_quadrupole_self (B : Build) (G : Globals) (S : Splines) (h i j : Nat)
    (us : Bool) (n : neigh_t) (m : Nat) (st : AdpSt) (acc : AccTab)
    (hs : n.nr = i + G.cnfstart h) (hm : m ≠ i + G.cnfstart h)
    (hr : n.r < G.pot_end (n.col 3))
    (hl : (acc.get (m - G.firstatom)).lambda
      = (acc.get (i + G.cnfstart h - G.firstatom)).lambda)
    (hnu : (acc.get (m - G.firstatom)).nu
      = (acc.get (i + G.cnfstart h - G.firstatom)).nu) :
    (((adp_quadrupole G S h true i j n st).cache.get
          (i + G.cnfstart h - G.firstatom) j).w_val
        = (S.splint_comb_dir (n.slot 3) (n.shift 3) (n.step 3)).1 * (1 / 2)
      ∧ ((adp_quadrupole G S h true i j n st).cache.get
          (i + G.cnfstart h - G.firstatom) j).w_grad
        = (S.splint_comb_dir (n.slot 3) (n.shift 3) (n.step 3)).2 * (1 / 2)
      ∧ ((adp_quadrupole G S h true i j { n with nr := m } st).cache.get
          (i + G.cnfstart h - G.firstatom) j).w_val
        = (S.splint_comb_dir (n.slot 3) (n.shift 3) (n.step 3)).1
      ∧ ((adp_quadrupole G S h true i j { n with nr := m } st).cache.get
          (i + G.cnfstart h - G.firstatom) j).w_grad
        = (S.splint_comb_dir (n.slot 3) (n.shift 3) (n.step 3)).2)
      ∧ (∀ c, c < 3 →
        (adp_quadrupole_tmp_force G h i j n acc
            (adp_quadrupole G S h true i j n st).cache).comp c
          = (1 / 4) * (adp_quadrupole_tmp_force G h i j { n with nr := m } acc
                (adp_quadrupole G S h true i j { n with nr := m } st).cache).comp c
            - (1 / 4) * (((acc.get (i + G.cnfstart h - G.firstatom)).nu
                  + (acc.get (i + G.cnfstart h - G.firstatom)).nu) / 3) * n.r
              * (n.r * (S.splint_comb_dir (n.slot 3) (n.shift 3) (n.step 3)).2
                + 2 * (S.splint_comb_dir (n.slot 3) (n.shift 3) (n.step 3)).1)
              * n.dist_r.comp c)
      ∧ ((acc.get (i + G.cnfstart h - G.firstatom)).nu = 0 → ∀ c, c < 3 →
        (adp_quadrupole_tmp_force G h i j n acc
            (adp_quadrupole G S h true i j n st).cache).comp c
          = (1 / 4) * (adp_quadrupole_tmp_force G h i j { n with nr := m } acc
                (adp_quadrupole G S h true i j { n with nr := m } st).cache).comp c)
      ∧ (∀ st3 : AdpSt,
        (adp_force_quadrupole B G h us i j n st3).forces
          = adp_apply_force B G h us i n
              (adp_quadrupole_tmp_force G h i j n st3.acc st3.cache) st3.forces) := by
  have hi : n.nr - G.firstatom = i + G.cnfstart h - G.firstatom := by rw [hs]
  have hrm : ({ n with nr := m } : neigh_t).r
      < G.pot_end (({ n with nr := m } : neigh_t).col 3) := hr
  have cs : ((adp_quadrupole G S h true i j n st).cache.get
          (i + G.cnfstart h - G.firstatom) j).w_val
        = (S.splint_comb_dir (n.slot 3) (n.shift 3) (n.step 3)).1 * (1 / 2)
      ∧ ((adp_quadrupole G S h true i j n st).cache.get
          (i + G.cnfstart h - G.firstatom) j).w_grad
        = (S.splint_comb_dir (n.slot 3) (n.shift 3) (n.step 3)).2 * (1 / 2) := by
    unfold adp_quadrupole
    simp only [if_pos hr, decide_eq_true hs, if_true, CacheTab.cache_modify_get, and_self]
  have co : ((adp_quadrupole G S h true i j { n with nr := m } st).cache.get
          (i + G.cnfstart h - G.firstatom) j).w_val
        = (S.splint_comb_dir (n.slot 3) (n.shift 3) (n.step 3)).1
      ∧ ((adp_quadrupole G S h true i j { n with nr := m } st).cache.get
          (i + G.cnfstart h - G.firstatom) j).w_grad
        = (S.splint_comb_dir (n.slot 3) (n.shift 3) (n.step 3)).2 := by
    unfold adp_quadrupole
    simp only [if_pos hrm, decide_eq_false hm, if_true, Bool.false_eq_true, if_false,
      CacheTab.cache_modify_get, and_self]
  have key : ∀ c, c < 3 →
      (adp_quadrupole_tmp_force G h i j n acc
          (adp_quadrupole G S h true i j n st).cache).comp c
        = (1 / 4) * (adp_quadrupole_tmp_force G h i j { n with nr := m } acc
              (adp_quadrupole G S h true i j { n with nr := m } st).cache).comp c
          - (1 / 4) * (((acc.get (i + G.cnfstart h - G.firstatom)).nu
                + (acc.get (i + G.cnfstart h - G.firstatom)).nu) / 3) * n.r
            * (n.r * (S.splint_comb_dir (n.slot 3) (n.shift 3) (n.step 3)).2
              + 2 * (S.splint_comb_dir (n.slot 3) (n.shift 3) (n.step 3)).1)
            * n.dist_r.comp c := by
    intro c hc
    unfold adp_quadrupole_tmp_force SPROD vector.comp
    simp only [decide_eq_true hs, decide_eq_false hm, if_true, Bool.false_eq_true, if_false,
      hi, hl, hnu, cs.1, cs.2, co.1, co.2]
    interval_cases c <;> simp (disch := omega) only [if_pos, if_neg, if_true] <;> ring
  refine ⟨⟨cs.1, cs.2, co.1, co.2⟩, key, ?_, ?_⟩
  · intro h0 c hc
    rw [key c hc, h0]
    ring
  · intro st3
    unfold adp_force_quadrupole
    rw [if_pos hr]

/-- Witness for the amended C17 on the sample data set. -/
theorem C17_quadrupole_self_witness :
    ((exNeigh 0 1).nr = 0 + exG.cnfstart 0 ∧ 1 ≠ 0 + exG.cnfstart 0
      ∧ (exNeigh 0 1).r < exG.pot_end ((exNeigh 0 1).col 3)) ∧
    (adp_quadrupole_tmp_force exG 0 0 0 (exNeigh 0 1) acc_one
        (adp_quadrupole exG exS 0 true 0 0 (exNeigh 0 1)
          ⟨⟨fun _ => 0⟩, 0, 0, acc_one, cache_zero⟩).cache).comp 0
      = (1 / 4) * (adp_quadrupole_tmp_force exG 0 0 0 { exNeigh 0 1 with nr := 1 } acc_one
            (adp_quadrupole exG exS 0 true 0 0 { exNeigh 0 1 with nr := 1 }
              ⟨⟨fun _ => 0⟩, 0, 0, acc_one, cache_zero⟩).cache).comp 0
        - (1 / 4) * (((acc_one.get (0 + exG.cnfstart 0 - exG.firstatom)).nu
              + (acc_one.get (0 + exG.cnfstart 0 - exG.firstatom)).nu) / 3) * (exNeigh 0 1).r
          * ((exNeigh 0 1).r * (exS.splint_comb_dir ((exNeigh 0 1).slot 3)
                ((exNeigh 0 1).shift 3) ((exNeigh 0 1).step 3)).2
            + 2 * (exS.splint_comb_dir ((exNeigh 0 1).slot 3) ((exNeigh 0 1).shift 3)
                ((exNeigh 0 1).step 3)).1)
          * (exNeigh 0 1).dist_r.comp 0 :=
  ⟨⟨by simp [exNeigh, exG], by simp [exG], by norm_num [exNeigh, exG]⟩,
    ((C17_quadrupole_self exB exG exS 0 0 0 true (exNeigh 0 1) 1
      ⟨⟨fun _ => 0⟩, 0, 0, acc_one, cache_zero⟩ acc_one (by simp [exNeigh, exG])
      (by simp [exG]) (by norm_num [exNeigh, exG]) rfl rfl).2.1) 0 (by decide)⟩

/-! ## C18: the density accumulation -/

/-- C18: the density part of the neighbor loop for an entry `n` of the
neighbor list of atom `i` of configuration `h`, seen from the atom with index
`b`.  When the two types are equal and `r < end[col[1]]`, the density value
`v` at the cached slot is added to the density of the owning atom and, unless
`n` is a self entry, to that of the neighbor atom, so a self entry adds it
once; when the types differ, the owning atom receives `v` if
`r < end[col[1]]` and the neighbor atom receives the value of column
`paircol + type_i` at `r` if `r < end[paircol + type_i]`, each test on its
own.  Nothing else is changed. -/
theorem C18_density (G : Globals) (S : Splines) (h i : Nat) (n : neigh_t) (st : AdpSt)
    (b : Nat) :
    ((G.conf_atoms (i + G.cnfstart h - G.firstatom)).type = n.type →
        ((adp_density G S h i n st).acc.get b).rho
          = (st.acc.get b).rho
            + (if n.r < G.pot_end (n.col 1) then
                (if b = i + G.cnfstart h - G.firstatom then
                    S.splint_dir (n.slot 1) (n.shift 1) (n.step 1) else 0)
                + (if b = n.nr - G.firstatom ∧ n.nr ≠ i + G.cnfstart h then
                    S.splint_dir (n.slot 1) (n.shift 1) (n.step 1) else 0)
              else 0))
      ∧ ((G.conf_atoms (i + G.cnfstart h - G.firstatom)).type ≠ n.type →
        ((adp_density G S h i n st).acc.get b).rho
          = (st.acc.get b).rho
            + (if b = i + G.cnfstart h - G.firstatom ∧ n.r < G.pot_end (n.col 1) then
                S.splint_dir (n.slot 1) (n.shift 1) (n.step 1) else 0)
            + (if b = n.nr - G.firstatom ∧ n.r < G.pot_end (G.paircol
                  + (G.conf_atoms (i + G.cnfstart h - G.firstatom)).type) then
                S.g_splint (G.paircol
                  + (G.conf_atoms (i + G.cnfstart h - G.firstatom)).type) n.r else 0))
      ∧ ((adp_density G S h i n st).acc.get b).gradF = (st.acc.get b).gradF
      ∧ ((adp_density G S h i n st).acc.get b).mu = (st.acc.get b).mu
      ∧ ((adp_density G S h i n st).acc.get b).lambda = (st.acc.get b).lambda
      ∧ ((adp_density G S h i n st).acc.get b).nu = (st.acc.get b).nu
      ∧ (adp_density G S h i n st).forces = st.forces
      ∧ (adp_density G S h i n st).cache = st.cache := by
  obtain ⟨q, hq⟩ := adp_density_acc G S h i n st b
  refine ⟨?_, ?_, by rw [hq], by rw [hq], by rw [hq], by rw [hq],
    adp_density_forces G S h i n st, adp_density_cache G S h i n st⟩
  · intro ht
    unfold adp_density
    simp only [if_pos ht]
    by_cases hr : n.r < G.pot_end (n.col 1)
    · simp only [if_pos hr]
      by_cases hs : n.nr = i + G.cnfstart h
      · have x0 : ¬ (b = n.nr - G.firstatom ∧ n.nr ≠ i + G.cnfstart h) := fun x => x.2 hs
        simp only [decide_eq_true hs, Bool.not_true, Bool.false_eq_true, if_false,
          AccTab.acc_modify_rho_get, if_neg x0, add_zero]
      · simp only [decide_eq_false hs, Bool.not_false, if_true, AccTab.acc_modify_rho_get]
        simp only [ne_eq, hs, not_false_eq_true, and_true]
        ring
    · simp only [if_neg hr, add_zero]
  · intro ht
    unfold adp_density
    simp only [if_neg ht]
    by_cases hr : n.r < G.pot_end (n.col 1) <;>
      by_cases hr2 : n.r < G.pot_end (G.paircol
        + (G.conf_atoms (i + G.cnfstart h - G.firstatom)).type) <;>
      simp only [hr, hr2, if_true, if_false, AccTab.acc_modify_rho_get, and_true, and_false,
        add_zero]

/-- Witness for C18 on the sample data set: the entry of atom 0 that names
atom 1, seen from atom 1. -/
theorem C18_density_witness :
    (exG.conf_atoms (0 + exG.cnfstart 0 - exG.firstatom)).type = (exNeigh 1 1).type ∧
    ((adp_density exG exS 0 0 (exNeigh 1 1) (ex_st 0)).acc.get 1).rho
      = ((ex_st 0).acc.get 1).rho
        + (if (exNeigh 1 1).r < exG.pot_end ((exNeigh 1 1).col 1) then
            (if 1 = 0 + exG.cnfstart 0 - exG.firstatom then
                exS.splint_dir ((exNeigh 1 1).slot 1) ((exNeigh 1 1).shift 1)
                  ((exNeigh 1 1).step 1) else 0)
            + (if 1 = (exNeigh 1 1).nr - exG.firstatom
                  ∧ (exNeigh 1 1).nr ≠ 0 + exG.cnfstart 0 then
                exS.splint_dir ((exNeigh 1 1).slot 1) ((exNeigh 1 1).shift 1)
                  ((exNeigh 1 1).step 1) else 0)
          else 0) :=
  ⟨rfl, (C18_density exG exS 0 0 (exNeigh 1 1) (ex_st 0) 1).1 rfl⟩

/-! ## C19: the scratch fields are not persistent -/

/-- C19: for a data set whose neighbors are atoms of their own
configuration, two calls of `calc_forces_adp` on the root process that differ
only in what the per-atom accumulators (`rho`, `mu`, `lambda`, `gradF`, `nu`)
and the per-neighbor caches (`u_val`, `u_grad`, `w_val`, `w_grad`) hold on
entry both return, with the same value, the same residual buffer and the same
call counter. -/
theorem C19_scratch_not_persistent (B : Build) (G : Globals) (S : Splines) (fuel : Nat)
    (f : Buf) (acc acc' : AccTab) (cache cache' : CacheTab)
    (hN : ∀ h, h < G.nconf → NeighIn G h) (h0 : G.myid = 0) (hc : G.firstconf = 0)
    (ha : G.firstatom = 0) :
    ∃ r r', calc_forces_adp B G S (fuel + 1) f acc cache = some r
      ∧ calc_forces_adp B G S (fuel + 1) f acc' cache' = some r'
      ∧ r.ret = r'.ret ∧ r.forces = r'.forces ∧ r.fcalls = r'.fcalls := by
  have hp := adp_pass_scratch B G S f acc acc' cache cache' hN hc ha
  refine ⟨_, _, calc_forces_adp_root B G S fuel f acc cache h0,
    calc_forces_adp_root B G S fuel f acc' cache' h0, ?_, hp.1, rfl⟩
  dsimp only
  rw [hp.2]

/-- Witness for C19 on the sample data set: scratch fields that are all zero
against scratch fields that are not. -/
theorem C19_scratch_not_persistent_witness :
    ((∀ h, h < exG.nconf → NeighIn exG h) ∧ exG.myid = 0 ∧ exG.firstconf = 0
      ∧ exG.firstatom = 0) ∧
    ∃ r r', calc_forces_adp exB exG exS 1 ⟨fun _ => 7⟩ acc_zero cache_zero = some r
      ∧ calc_forces_adp exB exG exS 1 ⟨fun _ => 7⟩ acc_one cache_one = some r'
      ∧ r.ret = r'.ret ∧ r.forces = r'.forces ∧ r.fcalls = r'.fcalls :=
  ⟨⟨exG_neighIn, rfl, rfl, rfl⟩,
    C19_scratch_not_persistent exB exG exS 0 ⟨fun _ => 7⟩ acc_zero acc_one cache_zero
      cache_one exG_neighIn rfl rfl rfl⟩

/-! ## C20: the shutdown signal in the MPI build -/

/-- C20: in the MPI build, in the pass in which the broadcast delivers the
flag value 1 of the root, every process (whatever its `myid`) leaves the loop
at once: `calc_forces_pair` returns -1.0, the residual buffer is the one the
pass started with and `fcalls` is not incremented.  A process other than the
root that has gone through earlier passes `pre` with other flag values leaves
the function in this pass, with -1.0 and its `fcalls` unchanged. -/
theorem C20_shutdown (B : Build) (G : Globals) (rd : Round) (rest : List Round) (f : Buf)
    (hf : rd.flag = 1) :
    calc_forces_pair_mpi B G (rd :: rest) f = some ⟨Dbl.fin (-1), f, G.fcalls⟩
      ∧ ∀ pre : List Round, (∀ r, r ∈ pre → r.flag ≠ 1) → G.myid ≠ 0 →
        ∃ f', calc_forces_pair_mpi B G (pre ++ rd :: rest) f
          = some ⟨Dbl.fin (-1), f', G.fcalls⟩ := by
  have first : ∀ (G : Globals) (f : Buf),
      calc_forces_pair_mpi B G (rd :: rest) f = some ⟨Dbl.fin (-1), f, G.fcalls⟩ := by
    intro G f
    unfold calc_forces_pair_mpi
    rw [if_pos hf]
  refine ⟨first G f, ?_⟩
  intro pre
  induction pre generalizing G f with
  | nil =>
    intro _ _
    exact ⟨f, first G f⟩
  | cons r pre ih =>
    intro hpre hid
    have hr : r.flag ≠ 1 := hpre r (List.mem_cons_self _ _)
    have hpre' : ∀ q, q ∈ pre → q.flag ≠ 1 := fun q hq => hpre q (List.mem_cons_of_mem _ hq)
    rw [List.cons_append]
    unfold calc_forces_pair_mpi
    rw [if_neg hr]
    by_cases h2 : r.flag = 2
    · simp only [if_pos h2, if_neg hid]
      exact ih _ _ hpre' hid
    · simp only [if_neg h2, if_neg hid]
      exact ih G _ hpre' hid

/-- Witness for C20: the root and a process with `myid = 1` in a pass with
flag 1, and the latter after one pass with flag 0. -/
theorem C20_shutdown_witness :
    (exRound 1).flag = 1 ∧
    calc_forces_pair_mpi exB exG [exRound 1] ⟨fun _ => 7⟩
      = some ⟨Dbl.fin (-1), ⟨fun _ => 7⟩, exG.fcalls⟩ ∧
    ∃ f', calc_forces_pair_mpi exB { exG with myid := 1 } ([exRound 0] ++ [exRound 1])
      ⟨fun _ => 7⟩ = some ⟨Dbl.fin (-1), f', exG.fcalls⟩ :=
  ⟨rfl, (C20_shutdown exB exG (exRound 1) [] ⟨fun _ => 7⟩ rfl).1,
    (C20_shutdown exB { exG with myid := 1 } (exRound 1) [] ⟨fun _ => 7⟩ rfl).2 [exRound 0]
      (by simp [exRound]) (by simp)⟩

/-! ## C21: one pass over the whole data set without MPI -/

/-- C21: in the build without MPI, on the process with `myid = 0` and
`firstconf = 0`, a call of `calc_forces_pair` with any `flag` and any positive
fuel returns after one pass through the body of `while (1)`: `myconf` is
`nconf`, the loop body runs for exactly the configurations `0, …, nconf - 1`
in order, the result is the one obtained by folding `pair_conf` over these
configurations from `tmpsum = 0`, and `fcalls` is one more than before. -/
theorem C21_single_partition (B : Build) (G : Globals) (S : Splines) (flag : Int)
    (fuel : Nat) (forces : Buf) (hid : G.myid = 0) (hfc : G.firstconf = 0) :
    ∃ st : St,
      st = (List.range G.nconf).foldl (fun t h => pair_conf B G S h t) ⟨forces, 0⟩ ∧
      calc_forces_pair_log B G S flag (fuel + 1) 0 [] forces
        = some ⟨⟨pair_return (Dbl.fin st.tmpsum), st.forces, G.fcalls + 1⟩, 1, G.nconf,
            List.range G.nconf⟩ ∧
      calc_forces_pair B G S (fuel + 1) forces
        = some ⟨pair_return (Dbl.fin st.tmpsum), st.forces, G.fcalls + 1⟩ := by
  refine ⟨pair_pass B G S forces, ?_, ?_, calc_forces_pair_root B G S fuel forces hid⟩
  · rw [pair_pass_eq, forLoop_eq_foldl]
    simp only [hfc, Nat.zero_add]
  · rw [calc_forces_pair_log_root B G S flag fuel 0 [] forces hid]
    simp only [hfc, Nat.zero_add, List.nil_append, List.map_id_fun', List.map_id_fun, id]

theorem C21_single_partition_witness :
    ∃ st : St,
      st = (List.range exG.nconf).foldl (fun t h => pair_conf exB exG exS h t) ⟨⟨fun _ => 0⟩, 0⟩ ∧
      calc_forces_pair_log exB exG exS 2 (0 + 1) 0 [] ⟨fun _ => 0⟩
        = some ⟨⟨pair_return (Dbl.fin st.tmpsum), st.forces, exG.fcalls + 1⟩, 1, exG.nconf,
            List.range exG.nconf⟩ ∧
      calc_forces_pair exB exG exS (0 + 1) ⟨fun _ => 0⟩
        = some ⟨pair_return (Dbl.fin st.tmpsum), st.forces, exG.fcalls + 1⟩ :=
  C21_single_partition exB exG exS 2 0 ⟨fun _ => 0⟩ rfl rfl

/-! ## C22: the collectives of the root and of the other processes -/

/-- C22 (as the code behaves): in every build (`STRESS` and `RESCALE` on or
off) and for every flag other than 1, the sequence of collective operations
the root issues in one pass of `calc_forces_adp` differs from the sequence a
process with `myid > 0` issues: the two agree up to the gather of the
stresses, and then exactly one of them issues the gather of the limit
region — the root in a `RESCALE` build, the other processes in a build
without `RESCALE`. -/
theorem C22_collectives_mismatch (B : Build) (w : Nat) (flag : Int) (hw : 0 < w)
    (hflag : flag ≠ 1) :
    adp_collectives B 0 flag ≠ adp_collectives B w flag ∧
    (B.RESCALE = true →
      adp_collectives B 0 flag = adp_collectives B w flag ++ [Coll.gather_limits]) ∧
    (B.RESCALE = false →
      adp_collectives B w flag = adp_collectives B 0 flag ++ [Coll.gather_limits]) := by
  have hw0 : w ≠ 0 := Nat.pos_iff_ne_zero.mp hw
  rcases B with ⟨s, f, c, r, n, e, d⟩
  cases s <;> cases r <;> by_cases h2 : flag = 2 <;>
    simp [adp_collectives, adp_gathers, hw0, hflag, h2]

theorem C22_collectives_mismatch_witness :
    adp_collectives exB 0 0 ≠ adp_collectives exB 1 0 ∧
    (exB.RESCALE = true →
      adp_collectives exB 0 0 = adp_collectives exB 1 0 ++ [Coll.gather_limits]) ∧
    (exB.RESCALE = false →
      adp_collectives exB 1 0 = adp_collectives exB 0 0 ++ [Coll.gather_limits]) :=
  C22_collectives_mismatch exB 1 0 (by decide) (by decide)

/-! ## C23: the packed column layout -/

/-- C23: for `N ≥ 1` columns, the info block of `read_pot_table4` (run on a
file that holds the `N` point counts `n_i`) and `read_pot_table0` (with `n_i`
the number of parameters of potential `i`) leave the packed layout:
`first[0] = 2`, `first[i] = last[i-1] + 3`, `last[i] = first[i] + n_i - 1`,
`first[i] = 2 (i + 1) + n_0 + … + n_{i-1}`, `first[i] ≤ last[i]` when
`n_i ≥ 1`, and for counts that are not negative the ranges follow one another
with two reserved slots before each.  The table length is `last[N-1] + 1`
for `read_pot_table4`, which keeps the layout to its return, and
`last[N-1] + 1` plus the trailing slots of the global parameters and chemical
potentials for `read_pot_table0`. -/
theorem C23_packed_layout (F : PotFile) (N paircol : Nat) (hg : Bool) (invar_pot : Nat → Int)
    (gradient : Nat → Nat) (pt0 : pot_table_d) (P : LoadParams) (s0 : Load0) (hN : 1 ≤ N)
    (hF : N ≤ F.ints.length) (hA : s0.apt.number = N) :
    (∃ s, read_pot_table4_header F N pt0 = Except.ok s ∧
      PackedLayout (file_nvals F) N s.pt.first s.pt.last ∧
      s.pt.len = s.pt.last (N - 1) + 1 ∧
      ∀ pt, read_pot_table4 F N paircol hg invar_pot gradient pt0 = Except.ok pt →
        pt.first = s.pt.first ∧ pt.last = s.pt.last ∧ pt.len = s.pt.len) ∧
    (PackedLayout (apot_nvals s0.apt) N (read_pot_table0 P s0).pt.first
        (read_pot_table0 P s0).pt.last ∧
      (read_pot_table0 P s0).pt.len
        = (read_pot_table0 P s0).pt.last (N - 1) + 1 + trailing_slots P s0) := by
  constructor
  · obtain ⟨s, hs, _, _, _, hfl, hlen⟩ := read_pot_table4_header_ok F pt0 N hF
    refine ⟨s, hs, packedLayout_of _ N _ _ hN hfl, ?_, ?_⟩
    · rw [hlen hN, (hfl (N - 1) (Nat.sub_lt hN Nat.one_pos)).2]
      ring
    · intro pt hpt
      exact read_pot_table4_frame F N paircol hg invar_pot gradient pt0 pt s hs hpt
  · obtain ⟨_, _, _, _, _, _, _, _, _, hfl, hlen⟩ := read_pot_table0_pre_spec P s0
    obtain ⟨_, _, _, _, _, f6, f7, f8, _⟩ := read_pot_table0_frame P s0
    rw [hA] at hfl hlen
    rw [f6, f7, f8]
    refine ⟨packedLayout_of _ N _ _ hN hfl, ?_⟩
    rw [hlen hN, (hfl (N - 1) (Nat.sub_lt hN Nat.one_pos)).2]
    ring

/-- Witness for C23 on the sample file (columns of 2, 3 and 2 points) and the
sample analytic potentials (2, 1 and 1 parameters). -/
theorem C23_packed_layout_witness :
    (1 ≤ 3 ∧ 3 ≤ exFile.ints.length ∧ exLoad0.apt.number = 3) ∧
    (∃ s, read_pot_table4_header exFile 3 exPt4 = Except.ok s ∧
      PackedLayout (file_nvals exFile) 3 s.pt.first s.pt.last ∧
      s.pt.len = s.pt.last (3 - 1) + 1 ∧
      ∀ pt, read_pot_table4 exFile 3 3 false (fun _ => 0) (fun _ => 0) exPt4 = Except.ok pt →
        pt.first = s.pt.first ∧ pt.last = s.pt.last ∧ pt.len = s.pt.len) ∧
    (PackedLayout (apot_nvals exLoad0.apt) 3 (read_pot_table0 exP exLoad0).pt.first
        (read_pot_table0 exP exLoad0).pt.last ∧
      (read_pot_table0 exP exLoad0).pt.len
        = (read_pot_table0 exP exLoad0).pt.last (3 - 1) + 1 + trailing_slots exP exLoad0) :=
  ⟨⟨by decide, by decide, rfl⟩,
    C23_packed_layout exFile 3 3 false (fun _ => 0) (fun _ => 0) exPt4 exP exLoad0 (by decide)
      (by decide) rfl⟩
/-! ## C24: abscissas that are not increasing are a fatal error -/

/-- C26: let `r` be the state after the main loop of `read_pot_table0`, run
from a table whose `idxlen` was 0 on potentials whose counters
`invar_par[i][n_par[i]]` hold the numbers of invariant parameters, and let
`K = r.k`.  Then `idx[0..K)` is strictly increasing; every entry `m < K`
names a parameter `(idxpot[m], idxparam[m])` of a potential that is not
invariant and whose own flag is 0, with `idx[m] = first[idxpot[m]] +
idxparam[m]` and `table[idx[m]] = values[idxpot[m]][idxparam[m]]`; every such
parameter is named by exactly one entry; every parameter, invariant or not,
is stored in the table at `first[i] + j`; and `idxlen = K`. -/
theorem C26_index_map (P : LoadParams) (s : Load0) (hx : s.pt.idxlen = 0)
    (hc : InvarCounted s.apt) :
    ∃ r, r = read_pot_table0_main P (read_pot_table0_pre P s) ∧
      (∀ m m', m < m' → m' < r.k → r.pt.idx m < r.pt.idx m') ∧
      (∀ m, m < r.k →
        r.apt.idxpot m < s.apt.number ∧
        r.apt.idxparam m < s.apt.n_par (r.apt.idxpot m) ∧
        P.invar_pot (r.apt.idxpot m) = 0 ∧
        s.apt.invar_par (r.apt.idxpot m) (r.apt.idxparam m) = 0 ∧
        (r.pt.idx m : Int) = r.pt.first (r.apt.idxpot m) + r.apt.idxparam m ∧
        r.pt.table.get (r.pt.idx m) = s.apt.values (r.apt.idxpot m) (r.apt.idxparam m)) ∧
      (∀ i j, i < s.apt.number → j < s.apt.n_par i → P.invar_pot i = 0 →
        s.apt.invar_par i j = 0 →
        ∃ m, m < r.k ∧ r.apt.idxpot m = i ∧ r.apt.idxparam m = j ∧
          ∀ m', m' < r.k → r.apt.idxpot m' = i → r.apt.idxparam m' = j → m' = m) ∧
      (∀ i j, i < s.apt.number → j < s.apt.n_par i →
        r.pt.table.get (r.pt.first i + j).toNat = s.apt.values i j) ∧
      r.apt.values = s.apt.values ∧ r.apt.invar_par = s.apt.invar_par ∧
      r.pt.idxlen = r.k := by
  obtain ⟨f, h⟩ := read_pot_table0_main_spec P s
  obtain ⟨p1, p2, p3, p4, _, p6, _, _, p9, pfl, _⟩ := read_pot_table0_pre_spec P s
  have hfirst : ∀ i, i < s.apt.number →
      (read_pot_table0_main P (read_pot_table0_pre P s)).pt.first i
        = ((apot_pos s.apt i + 2 : Nat) : Int) := by
    intro i hi
    rw [f.2.2.2.2.2.1, (pfl i hi).1, packed_first_apot]
  have hlt : ∀ m, m < (read_pot_table0_main P (read_pot_table0_pre P s)).k →
      (read_pot_table0_main P (read_pot_table0_pre P s)).apt.idxpot m < s.apt.number := by
    intro m hm
    rcases (h.entries m hm).1 with hb | ⟨_, hb⟩
    · exact hb
    · exact absurd hb (Nat.not_lt_zero _)
  refine ⟨_, rfl, h.sorted, ?_, ?_, ?_, f.2.2.1.trans p3, f.2.2.2.1.trans p4, ?_⟩
  · intro m hm
    obtain ⟨e1, e2, e3, e4⟩ := h.entries m hm
    refine ⟨hlt m hm, e2, e3.1, e3.2, ?_, ?_⟩
    · rw [hfirst _ (hlt m hm), e4]
      push_cast
      ring
    · rw [e4]
      exact h.table _ _ e1 e2
  · intro i j hi hj ho1 ho2
    obtain ⟨m, hm, e1, e2⟩ := h.complete i j (Or.inl hi) hj ⟨ho1, ho2⟩
    refine ⟨m, hm, e1, e2, ?_⟩
    intro m' hm' e1' e2'
    have a := (h.entries m hm).2.2.2
    have a' := (h.entries m' hm').2.2.2
    rw [e1, e2] at a
    rw [e1', e2'] at a'
    rcases Nat.lt_trichotomy m' m with hlt' | heq | hgt
    · have := h.sorted m' m hlt' hm
      omega
    · exact heq
    · have := h.sorted m m' hgt hm'
      omega
  · intro i j hi hj
    rw [hfirst i hi]
    have e : (((apot_pos s.apt i + 2 : Nat) : Int) + (j : Int)).toNat = apot_pos s.apt i + 2 + j := by
      omega
    rw [e]
    exact h.table i j (Or.inl hi) hj
  · have hc' : InvarCounted (read_pot_table0_pre P s).apt := by
      intro i hi
      rw [p1] at hi
      rw [p2, p4]
      exact hc i hi
    have := read_pot_table0_main_count P (read_pot_table0_pre P s) hc'
      (read_pot_table0_pre P s).apt.number (Nat.le_refl _)
    rw [p9, hx, p6] at this
    unfold read_pot_table0_main
    omega

/-- Witness for C26 on the sample analytic potentials. -/
theorem C26_index_map_witness :
    (exLoad0.pt.idxlen = 0 ∧ InvarCounted exLoad0.apt) ∧
    ∃ r, r = read_pot_table0_main exP (read_pot_table0_pre exP exLoad0) ∧
      (∀ m m', m < m' → m' < r.k → r.pt.idx m < r.pt.idx m') ∧
      (∀ m, m < r.k →
        r.apt.idxpot m < exLoad0.apt.number ∧
        r.apt.idxparam m < exLoad0.apt.n_par (r.apt.idxpot m) ∧
        exP.invar_pot (r.apt.idxpot m) = 0 ∧
        exLoad0.apt.invar_par (r.apt.idxpot m) (r.apt.idxparam m) = 0 ∧
        (r.pt.idx m : Int) = r.pt.first (r.apt.idxpot m) + r.apt.idxparam m ∧
        r.pt.table.get (r.pt.idx m)
          = exLoad0.apt.values (r.apt.idxpot m) (r.apt.idxparam m)) ∧
      (∀ i j, i < exLoad0.apt.number → j < exLoad0.apt.n_par i → exP.invar_pot i = 0 →
        exLoad0.apt.invar_par i j = 0 →
        ∃ m, m < r.k ∧ r.apt.idxpot m = i ∧ r.apt.idxparam m = j ∧
          ∀ m', m' < r.k → r.apt.idxpot m' = i → r.apt.idxparam m' = j → m' = m) ∧
      (∀ i j, i < exLoad0.apt.number → j < exLoad0.apt.n_par i →
        r.pt.table.get (r.pt.first i + j).toNat = exLoad0.apt.values i j) ∧
      r.apt.values = exLoad0.apt.values ∧ r.apt.invar_par = exLoad0.apt.invar_par ∧
      r.pt.idxlen = r.k :=
  ⟨⟨rfl, by unfold InvarCounted; decide⟩,
    C26_index_map exP exLoad0 rfl (by unfold InvarCounted; decide)⟩

/-! ## C27: the index entries of the chemical potentials -/

/-- C27 (as the code behaves): for the sample potentials, whose two chemical
potentials are stored behind the last column at the offsets `cp_start = 10`
and `cp_start + 1 = 11` and of which the first is invariant and the second is
not, the index entry that `read_pot_table0` writes for the second chemical
potential is 10, not 11: it names the slot of the invariant first one, whose
value is a different one. -/
theorem C27_cp_index_shifted :
    ∃ m, m < (read_pot_table0 exP exLoad0).k ∧
      (read_pot_table0 exP exLoad0).apt.idxpot m = exApt.number ∧
      (read_pot_table0 exP exLoad0).apt.idxparam m = 1 ∧
      exApt.invar_par exApt.number 0 = 1 ∧ exApt.invar_par exApt.number 1 = 0 ∧
      (read_pot_table0 exP exLoad0).pt.last (exApt.number - 1) + 1 = 10 ∧
      (read_pot_table0 exP exLoad0).cp_start = 10 ∧
      (read_pot_table0 exP exLoad0).pt.table.get 10 = exApt.values exApt.number 0 ∧
      (read_pot_table0 exP exLoad0).pt.table.get (10 + 1) = exApt.values exApt.number 1 ∧
      (read_pot_table0 exP exLoad0).pt.idx m = 10 ∧
      exApt.values exApt.number 0 ≠ exApt.values exApt.number 1 :=
  ⟨3, by decide, by decide, by decide, by decide, by decide, by decide, by decide, rfl, rfl,
    by decide, by norm_num [exApt]⟩

/-! ## C28: without half neighbor lists the sum is not the sum of squares -/

/-- C28: on the data set `exG_back` (forces used, non-overlapping regions,
every neighbor in its configuration), the neighbor list of atom 1 names
atom 0 with the pair gradient 2.  When the force term of atom 0 is added to
the sum, its first force slot holds -1 and `dsquare (-1)` is what enters the
sum; the neighbor loop of atom 1 then changes the slot, which holds -3 on
return.  The returned sum is 25/4, the weighted sum of squares of the
residual vector on return is 57/4. -/
theorem C28_half_list_necessary :
    (exG_back.conf_uf 0 = true ∧ Layout exG_back ∧ NeighIn exG_back 0 ∧ ¬ HalfList exG_back 0) ∧
    (∃ n, n ∈ (exG_back.conf_atoms 1).neigh ∧ n.nr = 0 ∧ n.nr < exG_back.cnfstart 0 + 1 ∧
      n.r < exG_back.pot_end (n.col 0) ∧ (pair_phi exS true n).2 = 2) ∧
    (pair_atom exB0 exG_back exS 0 true true 0
        ⟨pair_conf_reset exB0 exG_back 0 true ⟨fun _ => 0⟩, 0⟩).forces.get 0 = -1 ∧
    (pair_atom exB0 exG_back exS 0 true true 0
        ⟨pair_conf_reset exB0 exG_back 0 true ⟨fun _ => 0⟩, 0⟩).tmpsum
      = exG_back.conf_weight 0 * (dsquare (-1) + dsquare (-1) + dsquare (-1)) ∧
    ∃ r, calc_forces_pair exB0 exG_back exS 1 ⟨fun _ => 0⟩ = some r ∧
      r.forces.get 0 = -3 ∧
      r.ret = Dbl.fin (25 / 4) ∧
      (∑ h in Finset.range exG_back.nconf, pair_sq_sum exB0 exG_back r.forces h) = 57 / 4 ∧
      r.ret
        ≠ Dbl.fin (∑ h in Finset.range exG_back.nconf, pair_sq_sum exB0 exG_back r.forces h) := by
  have hf : ∀ k, k < 7 → (pair_pass exB0 exG_back exS ⟨fun _ => 0⟩).forces.get k
      = if k = 0 then -3 else if k = 3 then 1 else if k = 6 then 1 / 2 else -1 := by
    intro k hk
    interval_cases k <;>
      simp [pair_pass, pair_conf_loop, forLoop, pair_conf, exG_back, exG, pair_conf_reset, exB0,
        exB, pair_reset, setf, pair_atom, pair_neigh, exNeigh, pair_phi, exS, addf, subf,
        pair_conf_energy, pair_conf_stress, divf, dsquare] <;> norm_num
  have ht : (pair_pass exB0 exG_back exS ⟨fun _ => 0⟩).tmpsum = 25 / 4 := by
    simp [pair_pass, pair_conf_loop, forLoop, pair_conf, exG_back, exG, pair_conf_reset, exB0,
      exB, pair_reset, setf, pair_atom, pair_neigh, exNeigh, pair_phi, exS, addf, subf,
      pair_conf_energy, pair_conf_stress, divf, dsquare]
    norm_num
  have key : ∀ F : Buf, F.get 0 = -3 → F.get 1 = -1 → F.get 2 = -1 → F.get 3 = 1 →
      F.get 4 = -1 → F.get 5 = -1 → F.get 6 = 1 / 2 →
      (∑ h in Finset.range exG_back.nconf, pair_sq_sum exB0 exG_back F h) = 57 / 4 := by
    intro F h0 h1 h2 h3 h4 h5 h6
    simp [pair_sq_sum, exG_back, exG, exB0, exB, Finset.sum_range_succ, h0, h1, h2, h3, h4,
      h5, h6, dsquare]
    norm_num
  have hs : (∑ h in Finset.range exG_back.nconf,
      pair_sq_sum exB0 exG_back (pair_pass exB0 exG_back exS ⟨fun _ => 0⟩).forces h) = 57 / 4 :=
    key _ (hf 0 (by decide)) (hf 1 (by decide)) (hf 2 (by decide)) (hf 3 (by decide))
      (hf 4 (by decide)) (hf 5 (by decide)) (hf 6 (by decide))
  refine ⟨⟨rfl, ⟨by decide, by decide, by decide, by decide⟩, by unfold NeighIn; decide,
    by unfold HalfList; decide⟩, ?_, ?_, ?_, ?_⟩
  · refine ⟨exNeigh 0 1, ?_, rfl, by decide, ?_, ?_⟩
    · simp [exG_back]
    · norm_num [exG_back, exG, exNeigh]
    · simp [pair_phi, exS]
  · simp [pair_atom, exG_back, exG, pair_conf_reset, exB0, exB, pair_reset, setf, forLoop]
  · simp [pair_atom, exG_back, exG, pair_conf_reset, exB0, exB, pair_reset, setf, forLoop,
      dsquare]
  · refine ⟨_, calc_forces_pair_root exB0 exG_back exS 0 _ rfl, ?_, ?_, ?_, ?_⟩
    · exact hf 0 (by decide)
    · dsimp only
      rw [ht]
      rfl
    · exact hs
    · dsimp only
      rw [ht, hs]
      intro h
      have h' : pair_return (Dbl.fin (25 / 4)) = Dbl.fin (25 / 4) := rfl
      rw [h'] at h
      injection h with h
      norm_num at h

/-! ## C29: the accumulators are complete at the embedding step -/

/-- C29: in a build without `RESCALE`, for a configuration `h` with half
neighbor lists (every neighbor index lies in the configuration and is not
smaller than the global index of the owning atom; the atoms of the process
start at `firstatom ≤ cnfstart[h]`), the embedding step and the ADP energy of
atom `i` are computed from the state `adp_before_embed`, and the `rho`, `mu`
and `lambda` that the atom holds in that state are the ones it holds after
every later atom of the second loop and when the evaluation of the
configuration ends. -/
theorem C29_accumulators_complete (B : Build) (G : Globals) (S : Splines) (h i : Nat)
    (st : AdpSt) (hR : B.RESCALE = false) (hH : HalfList G h)
    (hfa : G.firstatom ≤ G.cnfstart h) (hi : i < G.inconf h) :
    forLoop (adp_atom2 B G S h (G.conf_uf (h - G.firstconf)) (G.conf_us (h - G.firstconf)))
        (i + 1) (adp_after_reset B G h st)
      = adp_self_energy G h i (adp_embed B G S h i (adp_before_embed B G S h i st)) ∧
    (∀ n, i < n → n ≤ G.inconf h →
      acc_sums ((forLoop (adp_atom2 B G S h (G.conf_uf (h - G.firstconf))
          (G.conf_us (h - G.firstconf))) n (adp_after_reset B G h st)).acc.get
            (i + G.cnfstart h - G.firstatom))
        = acc_sums ((adp_before_embed B G S h i st).acc.get
            (i + G.cnfstart h - G.firstatom))) ∧
    ((adp_conf B G S h st).acc.get (i + G.cnfstart h - G.firstatom)).rho
      = ((adp_before_embed B G S h i st).acc.get (i + G.cnfstart h - G.firstatom)).rho ∧
    ((adp_conf B G S h st).acc.get (i + G.cnfstart h - G.firstatom)).mu
      = ((adp_before_embed B G S h i st).acc.get (i + G.cnfstart h - G.firstatom)).mu ∧
    ((adp_conf B G S h st).acc.get (i + G.cnfstart h - G.firstatom)).lambda
      = ((adp_before_embed B G S h i st).acc.get (i + G.cnfstart h - G.firstatom)).lambda := by
  have key := adp_later_sums B G S h i st hR hH hfa (G.inconf h) hi (Nat.le_refl _)
  rw [← adp_conf_acc] at key
  unfold acc_sums at key
  have k1 := (Prod.mk.inj key).1
  have k2 := (Prod.mk.inj (Prod.mk.inj key).2).1
  have k3 := (Prod.mk.inj (Prod.mk.inj key).2).2
  exact ⟨adp_atom2_before_embed B G S h i st,
    fun n hin hn => adp_later_sums B G S h i st hR hH hfa n hin hn, k1, k2, k3⟩

/-- Witness for C29: atom 0 of configuration 0 of the sample data set. -/
theorem C29_accumulators_complete_witness :
    (exB.RESCALE = false ∧ HalfList exG 0 ∧ exG.firstatom ≤ exG.cnfstart 0 ∧ 0 < exG.inconf 0) ∧
    (forLoop (adp_atom2 exB exG exS 0 (exG.conf_uf (0 - exG.firstconf))
          (exG.conf_us (0 - exG.firstconf))) (0 + 1) (adp_after_reset exB exG 0 (ex_st 0))
      = adp_self_energy exG 0 0 (adp_embed exB exG exS 0 0
          (adp_before_embed exB exG exS 0 0 (ex_st 0))) ∧
    (∀ n, 0 < n → n ≤ exG.inconf 0 →
      acc_sums ((forLoop (adp_atom2 exB exG exS 0 (exG.conf_uf (0 - exG.firstconf))
          (exG.conf_us (0 - exG.firstconf))) n (adp_after_reset exB exG 0 (ex_st 0))).acc.get
            (0 + exG.cnfstart 0 - exG.firstatom))
        = acc_sums ((adp_before_embed exB exG exS 0 0 (ex_st 0)).acc.get
            (0 + exG.cnfstart 0 - exG.firstatom))) ∧
    ((adp_conf exB exG exS 0 (ex_st 0)).acc.get (0 + exG.cnfstart 0 - exG.firstatom)).rho
      = ((adp_before_embed exB exG exS 0 0 (ex_st 0)).acc.get
          (0 + exG.cnfstart 0 - exG.firstatom)).rho ∧
    ((adp_conf exB exG exS 0 (ex_st 0)).acc.get (0 + exG.cnfstart 0 - exG.firstatom)).mu
      = ((adp_before_embed exB exG exS 0 0 (ex_st 0)).acc.get
          (0 + exG.cnfstart 0 - exG.firstatom)).mu ∧
    ((adp_conf exB exG exS 0 (ex_st 0)).acc.get (0 + exG.cnfstart 0 - exG.firstatom)).lambda
      = ((adp_before_embed exB exG exS 0 0 (ex_st 0)).acc.get
          (0 + exG.cnfstart 0 - exG.firstatom)).lambda) :=
  ⟨⟨rfl, exG_halfList 0 (by decide), by decide, by decide⟩,
    C29_accumulators_complete exB exG exS 0 0 (ex_st 0) rfl (exG_halfList 0 (by decide))
      (by decide) (by decide)⟩

/-! ## C30: the indices written by `init_calc_table0` -/

/-- C30: for `size` analytic potentials with
`2 * size ≤ 2 * ncols + ntypes + compnodes`, `init_calc_table0` completes
without a write outside the `len = size * APOT_STEPS + 2 * ncols + ntypes +
compnodes` elements of `table`, `xcoord` and `idx`.  For every column
`i < size`: `first[i] = 2 + i * (APOT_STEPS + 2)` and `last[i] = first[i] +
APOT_STEPS - 1`; the slots written for the column, from `first[i] - 2` to
`last[i]`, and the index slots `i * APOT_STEPS + j`, lie in `[0, len)`; the
two boundary slots `first[i] - 2` and `first[i] - 1` hold `10e30` and 0; and
sample `j` stands at `first[i] + j`, with its abscissa `begin[i] + j *
step[i]` in `xcoord` and `first[i] + j` as entry `i * APOT_STEPS + j` of
`idx`. -/
theorem C30_index_safety (Fn : ApotFuns) (A : apot_table_t) (opt : pot_table_t)
    (ntypes compnodes STEPS : Nat) (calc_pot : pot_table_t)
    (h : 2 * A.number ≤ 2 * opt.ncols + ntypes + compnodes) :
    ∃ c, init_calc_table0 Fn A opt ntypes compnodes STEPS calc_pot = some c ∧
      c.len = A.number * STEPS + 2 * opt.ncols + ntypes + compnodes ∧
      ∀ i, i < A.number →
        c.first i = 2 + (i : Int) * (STEPS + 2) ∧
        c.last i = c.first i + STEPS - 1 ∧
        0 ≤ c.first i - 2 ∧ c.last i < c.len ∧
        c.table.get (c.first i - 2).toNat = 10 * 10 ^ 30 ∧
        c.table.get (c.first i - 1).toNat = 0 ∧
        ∀ j, j < STEPS →
          ((i * STEPS + j : Nat) : Int) < c.len ∧
          c.xcoord.get (c.first i + j).toNat = opt.begin_ i + j * c.step i ∧
          c.table.get (c.first i + j).toNat
            = apot_sample Fn A (opt.begin_ i) (c.step i) i j ∧
          c.idx (i * STEPS + j) = (c.first i + j).toNat := by
  obtain ⟨c, hc, hlen, hb, _, hd⟩ :=
    init_calc_table0_spec Fn A opt ntypes compnodes STEPS calc_pot h
  refine ⟨c, hc, hlen, ?_⟩
  intro i hi
  obtain ⟨d1, d2, _, d4, d5, d6⟩ := hd i hi
  have hmul : i * STEPS + STEPS ≤ A.number * STEPS := by
    have := Nat.mul_le_mul_right STEPS (Nat.succ_le_of_lt hi)
    rw [Nat.succ_mul] at this
    exact this
  have hmul' : (i : Int) * STEPS + STEPS ≤ (A.number : Int) * STEPS := by
    have := Int.ofNat_le.2 hmul
    push_cast at this
    exact this
  have h' : (2 * A.number : Int) ≤ 2 * opt.ncols + ntypes + compnodes := by
    have := Int.ofNat_le.2 h
    push_cast at this
    exact this
  have hi' : (i : Int) + 1 ≤ A.number := by
    have := Int.ofNat_le.2 (Nat.succ_le_of_lt hi)
    push_cast at this
    exact this
  have hf : c.first i = ((i * STEPS + (i + 1) * 2 : Nat) : Int) := by
    rw [d1]; push_cast; ring
  have e2 : (c.first i - 2).toNat = i * STEPS + i * 2 := by rw [hf]; omega
  have e1 : (c.first i - 1).toNat = i * STEPS + i * 2 + 1 := by rw [hf]; omega
  have hnn : (0 : Int) ≤ (i : Int) * STEPS := by positivity
  refine ⟨d1, d2, ?_, ?_, ?_, ?_, ?_⟩
  · rw [d1]; nlinarith
  · rw [d2, d1, hlen]; nlinarith
  · rw [e2]; exact d4
  · rw [e1]; exact d5
  · intro j hj
    obtain ⟨s1, s2, s3⟩ := d6 j hj
    have ej : (c.first i + j).toNat = i * STEPS + (i + 1) * 2 + j := by rw [hf]; omega
    have hj' : (j : Int) < STEPS := Int.ofNat_lt.2 hj
    rw [ej, ← hb]
    refine ⟨?_, s1, s2, s3⟩
    rw [hlen]
    push_cast
    nlinarith

/-- Witness for C30 on the three sample potentials with `APOT_STEPS = 4`. -/
theorem C30_index_safety_witness :
    2 * exApt.number ≤ 2 * exOpt.ncols + 2 + 0 ∧
    ∃ c, init_calc_table0 exFn exApt exOpt 2 0 4 exPt = some c ∧
      c.len = exApt.number * (4 : Nat) + 2 * exOpt.ncols + (2 : Nat) + (0 : Nat) ∧
      ∀ i, i < exApt.number →
        c.first i = 2 + (i : Int) * ((4 : Nat) + 2) ∧
        c.last i = c.first i + (4 : Nat) - 1 ∧
        0 ≤ c.first i - 2 ∧ c.last i < c.len ∧
        c.table.get (c.first i - 2).toNat = 10 * 10 ^ 30 ∧
        c.table.get (c.first i - 1).toNat = 0 ∧
        ∀ j, j < 4 →
          ((i * 4 + j : Nat) : Int) < c.len ∧
          c.xcoord.get (c.first i + j).toNat = exOpt.begin_ i + j * c.step i ∧
          c.table.get (c.first i + j).toNat
            = apot_sample exFn exApt (exOpt.begin_ i) (c.step i) i j ∧
          c.idx (i * 4 + j) = (c.first i + j).toNat :=
  ⟨by decide, C30_index_safety exFn exApt exOpt 2 0 4 exPt (by decide)⟩

end Potfit
